import Mathlib

/-!
# Externs of the symbolic test generator

A shallow embedding of `backends/p4tools/testgen/core/small_step/extern_stepper.cpp` and
of `backends/p4tools/testgen/targets/bmv2/expr_stepper.cpp`: the packet externs
(`packet_in.extract`, `packet_in.advance`, `packet_in.lookahead`, `packet_out.emit`,
`verify`), the internal externs (`copy_in`, `copy_out`, `prepend_to_prog_header`,
`append_to_prog_header`) and the BMv2 externs (`clone`, `resubmit_preserving_field_list`,
`recirculate_preserving_field_list`, `check_recirculate`, `register.read`,
`register.write`, `hash`, `random`, `verify_checksum`, `update_checksum`, `assert`,
`assume`, the counters and meters) are functions from an execution state to the list of
branches the stepper appends to its result, or to the error that aborts the step.

Further parts embed the BMv2 table stepper (`targets/bmv2/table_stepper.cpp`), the linear
enumeration strategy (`core/exploration_strategy/linear_enumeration.cpp`), the midend
passes `CastBooleanTableKeys` and `DoConvertErrors` (`common/compiler`), and the step of a
unary operation that `test/small-step/unary.cpp` examines.

Machine `int`s are mathematical integers (`Int`); bit widths of types are `Nat`.
-/

set_option autoImplicit false

namespace P4Testgen

/-! ## IR: types -/

/-- IR types the externs inspect. `bits` is `IR::Type_Bits`, `boolean` is
`IR::Type_Boolean`, `varbits` is `IR::Extracted_Varbits` (declared maximum `size` and the
`assignedSize` set by an extract), `structLike` is `IR::Type_StructLike` with its fields in
declaration order (`isHeader` tells `IR::Type_Header` from a plain struct). -/
inductive Ty where
  | bits (width : Nat) (isSigned : Bool)
  | boolean
  | varbits (size : Nat) (assignedSize : Nat)
  | structLike (isHeader : Bool) (fields : List (String × Ty))

mutual
/-- Decision procedure for equality of types. -/
def Ty.decEq : (a b : Ty) → Decidable (a = b)
  | .bits w s, .bits w2 s2 =>
    if h : w = w2 ∧ s = s2 then isTrue (by rw [h.1, h.2])
    else isFalse (by intro e; cases e; exact h ⟨rfl, rfl⟩)
  | .boolean, .boolean => isTrue rfl
  | .varbits w s, .varbits w2 s2 =>
    if h : w = w2 ∧ s = s2 then isTrue (by rw [h.1, h.2])
    else isFalse (by intro e; cases e; exact h ⟨rfl, rfl⟩)
  | .structLike h fs, .structLike h2 fs2 =>
    match Bool.decEq h h2, Ty.decEqFields fs fs2 with
    | isTrue e1, isTrue e2 => isTrue (by rw [e1, e2])
    | isFalse n, _ => isFalse (by intro e; cases e; exact n rfl)
    | _, isFalse n => isFalse (by intro e; cases e; exact n rfl)
  | .bits .., .boolean | .bits .., .varbits .. | .bits .., .structLike ..
  | .boolean, .bits .. | .boolean, .varbits .. | .boolean, .structLike ..
  | .varbits .., .bits .. | .varbits .., .boolean | .varbits .., .structLike ..
  | .structLike .., .bits .. | .structLike .., .boolean
  | .structLike .., .varbits .. =>
    isFalse (by intro e; cases e)
/-- Decision procedure for equality of field lists. -/
def Ty.decEqFields : (a b : List (String × Ty)) → Decidable (a = b)
  | [], [] => isTrue rfl
  | [], _ :: _ => isFalse (by intro e; cases e)
  | _ :: _, [] => isFalse (by intro e; cases e)
  | (n, t) :: r, (n2, t2) :: r2 =>
    match String.decEq n n2, Ty.decEq t t2, Ty.decEqFields r r2 with
    | isTrue e1, isTrue e2, isTrue e3 => isTrue (by rw [e1, e2, e3])
    | isFalse n, _, _ => isFalse (by intro e; cases e; exact n rfl)
    | _, isFalse n, _ => isFalse (by intro e; cases e; exact n rfl)
    | _, _, isFalse n => isFalse (by intro e; cases e; exact n rfl)
end

instance : DecidableEq Ty := Ty.decEq

mutual
/-- The `width_bits()` of a type: the width of a bit type, 1 for a boolean, the assigned
size of an extracted varbit, the sum over the fields of a struct-like type. -/
def Ty.width_bits : Ty → Nat
  | .bits w _ => w
  | .boolean => 1
  | .varbits _ a => a
  | .structLike _ fs => Ty.fields_width_bits fs
/-- Sum of `width_bits()` over a field list. -/
def Ty.fields_width_bits : List (String × Ty) → Nat
  | [] => 0
  | (_, t) :: rest => t.width_bits + Ty.fields_width_bits rest
end

/-- The test `is<IR::Type_StructLike>()`. -/
def Ty.isStructLike : Ty → Bool
  | .structLike _ _ => true
  | _ => false

/-- The test `is<IR::Type_Header>()`. -/
def Ty.isHeader : Ty → Bool
  | .structLike h _ => h
  | _ => false

/-- The test `is<IR::Type_Base>()`: bit, boolean and varbit types are base types,
struct-like types are not. -/
def Ty.isBase : Ty → Bool
  | .structLike _ _ => false
  | _ => true

/-- The test `is<IR::Extracted_Varbits>()`. -/
def Ty.isVarbits : Ty → Bool
  | .varbits _ _ => true
  | _ => false

/-- Membership in the domain of `IR::Concat`: an unsigned `Type_Bits` (an
`Extracted_Varbits` is a `Type_Bits` too). -/
def Ty.isUnsignedBits : Ty → Bool
  | .bits _ s => !s
  | .varbits _ _ => true
  | _ => false

/-- The type `IRUtils::getBitType(w)`: unsigned bits of width `w`. -/
def getBitType (w : Nat) : Ty := .bits w false

/-! ## IR: expressions -/

/-- A state reference: an `IR::PathExpression` or a chain of `IR::Member` accesses below
one. Each node carries its IR type. -/
inductive StateVar where
  | path (type : Ty) (name : String)
  | member (type : Ty) (parent : StateVar) (name : String)
  deriving DecidableEq

/-- The IR type of a reference. -/
def StateVar.type : StateVar → Ty
  | .path t _ => t
  | .member t _ _ => t

/-- The serialized path of a reference; two references are the same state variable iff
their serialized paths are equal. -/
def StateVar.key : StateVar → List String
  | .path _ n => [n]
  | .member _ p n => p.key ++ [n]

/-- The unary operators `IR::Neg` and `IR::Cmpl`; `IR::LNot` is a node of its own. -/
inductive UnOp where
  | neg | cmpl
  deriving DecidableEq

/-- Binary operators built by the externs. -/
inductive BinOp where
  | add | sub | mod | geq | leq | lss | equ | neq | land | concat
  deriving DecidableEq

mutual
/-- IR expressions. `symbolicVar` is a named free variable (the input packet size, a
zombie constant); `packetSlice off w` stands for the `w` bits of the visible packet that
start `off` bits in, which is what slicing or peeking the packet buffer yields;
`concolicVariable` is the node `ConcolicVariable(type, concolicMethodName, arguments,
srcId, concolicId)`. -/
inductive Expr where
  | constant (type : Ty) (value : Int)
  | boolLiteral (value : Bool)
  | ref (v : StateVar)
  | symbolicVar (type : Ty) (name : String)
  | packetSlice (offset : Int) (width : Nat)
  | taint (type : Ty)
  | cast (destType : Ty) (expr : Expr)
  | lnot (expr : Expr)
  | unary (op : UnOp) (type : Ty) (expr : Expr)
  | binary (op : BinOp) (type : Ty) (left right : Expr)
  | mux (type : Ty) (cond thenExpr elseExpr : Expr)
  | concolicVariable (type : Ty) (concolicMethodName : String) (arguments : Args)
      (srcId : Nat) (concolicId : Nat)
  deriving DecidableEq
/-- An argument vector `IR::Vector<IR::Argument>`. -/
inductive Args where
  | nil
  | cons (expression : Expr) (rest : Args)
  deriving DecidableEq
end

/-- The IR type of an expression. -/
def Expr.type : Expr → Ty
  | .constant t _ => t
  | .boolLiteral _ => .boolean
  | .ref v => v.type
  | .symbolicVar t _ => t
  | .packetSlice _ w => getBitType w
  | .taint t => t
  | .cast t _ => t
  | .lnot _ => .boolean
  | .unary _ t _ => t
  | .binary _ t _ _ => t
  | .mux t _ _ _ => t
  | .concolicVariable t _ _ _ _ => t

/-- The node `new IR::Geq(IR::Type::Boolean::get(), l, r)`. -/
abbrev Expr.geq (l r : Expr) : Expr := .binary .geq .boolean l r
/-- The node `new IR::Leq(l, r)`. -/
abbrev Expr.leq (l r : Expr) : Expr := .binary .leq .boolean l r
/-- The node `new IR::Equ(l, r)`. -/
abbrev Expr.equ (l r : Expr) : Expr := .binary .equ .boolean l r
/-- The node `new IR::Lss(l, r)`. -/
abbrev Expr.lss (l r : Expr) : Expr := .binary .lss .boolean l r
/-- The node `new IR::Neq(l, r)`. -/
abbrev Expr.neq (l r : Expr) : Expr := .binary .neq .boolean l r
/-- The node `new IR::LAnd(l, r)`. -/
abbrev Expr.land (l r : Expr) : Expr := .binary .land .boolean l r
/-- The node `new IR::Add(l, r)`, typed like its left operand. -/
abbrev Expr.add (l r : Expr) : Expr := .binary .add l.type l r
/-- The node `new IR::Mod(l, r)`, typed like its left operand. -/
abbrev Expr.mod (l r : Expr) : Expr := .binary .mod l.type l r

/-- The constant `IRUtils::getConstant(type, v)`. -/
abbrev getConstant (type : Ty) (v : Int) : Expr := .constant type v

/-- Name of the validity member of a header. -/
def validName : String := "*valid"

/-- The reference `IRUtils::getHeaderValidity(hdr)`: the boolean member `hdr.*valid`. -/
def getHeaderValidity (hdr : StateVar) : StateVar := .member .boolean hdr validName

/-- Modelled from the spec: `SymbolicEnv::isSymbolicValue` is not among the listed sources.
A value is symbolic-normal when it contains no un-stepped sub-expression, here: no state
reference that still has to be resolved. -/
def isSymbolicValue : Expr → Bool
  | .ref _ => false
  | .cast _ e => isSymbolicValue e
  | .lnot e => isSymbolicValue e
  | .unary _ _ e => isSymbolicValue e
  | .binary _ _ l r => isSymbolicValue l && isSymbolicValue r
  | _ => true

mutual
/-- Modelled from the spec: the structural walk for a `TaintExpression` node, which is not
among the listed sources. An expression contains taint when it is `Taint(T)` or one of its
operands contains taint: the operand of a cast or of a unary operator, an operand of a
binary operator, the condition or a branch of a `Mux`, an argument of a concolic
variable. -/
def Expr.containsTaint : Expr → Bool
  | .constant _ _ => false
  | .boolLiteral _ => false
  | .ref _ => false
  | .symbolicVar _ _ => false
  | .packetSlice _ _ => false
  | .taint _ => true
  | .cast _ e => e.containsTaint
  | .lnot e => e.containsTaint
  | .unary _ _ e => e.containsTaint
  | .binary _ _ l r => l.containsTaint || r.containsTaint
  | .mux _ c t e => c.containsTaint || t.containsTaint || e.containsTaint
  | .concolicVariable _ _ arguments _ _ => arguments.containsTaint
/-- The walk over an argument vector: some argument contains taint. -/
def Args.containsTaint : Args → Bool
  | .nil => false
  | .cons e rest => e.containsTaint || rest.containsTaint
end

/-! ## Execution state -/

/-- Trace events. `condition` is the `Generic` event whose text is a label followed by
the printed condition and, for extracts, the size; `extractLabelled` is the event
`Extract(fieldRef, value, label)`. -/
inductive TraceEvent where
  | generic (label : String)
  | condition (label : String) (cond : Expr) (size : Option Int)
  | extract (fieldRef : StateVar) (value : Expr)
  | extractLabelled (fieldRef : StateVar) (value : Expr) (label : String)
  | emit (fieldRef : StateVar) (value : Expr)
  | expression (value : Expr) (label : String)
  deriving DecidableEq

/-- The kinds of `Continuation::Exception`. -/
inductive ExceptionKind where
  | exit | noMatch | reject | drop | packetTooShort | abort
  deriving DecidableEq

/-- Commands of the continuation: a pending IR node, `Return(expr)`, an exception, and
the statements the BMv2 externs push: an `AssignmentStatement`, a `MethodCallStatement` of
an internal method without arguments, and an `ExitStatement`. -/
inductive Cmd where
  | node (label : String)
  | ret (value : Option Expr)
  | exception (kind : ExceptionKind)
  | assignmentStatement (left : Expr) (right : Expr)
  | methodCallStatement (method : String)
  | exitStatement
  deriving DecidableEq

/-- Values of the property map. -/
inductive PropertyValue where
  | bool (b : Bool)
  | uint (n : Nat)
  | expr (e : Expr)
  | str (s : String)
  deriving DecidableEq

/-- Modelled from the spec: the test objects of the BMv2 target (test_spec.h) are not among
the listed sources. `Bmv2_CloneInfo(sessionId, clonePort, isClone)` records a clone
session; `Bmv2RegisterValue` records the initial value of a register and the
`(index, value)` conditions written to it, oldest first. -/
inductive TestObject where
  | cloneInfo (sessionId : Expr) (clonePort : Expr) (isClone : Bool)
  | registerValue (initialValue : Expr) (registerConditions : List (Expr × Expr))
  deriving DecidableEq

/-- Modelled from the spec: a frame of the continuation stack below the current body,
`StackFrame(normalContinuation, ...)`: the parameter of the continuation, if it takes one
(the hole its body awaits a value for), and its body. -/
structure StackFrame where
  parameterOpt : Option StateVar
  body : List Cmd
  deriving DecidableEq

/-- Modelled from the spec: `ExecutionState` (lib/execution_state.h) is not among the
listed sources. It aggregates the symbolic environment (a map from serialized reference
paths to values, most recent binding first), the packet buffer and the emit buffer (as the
lists of the expressions they concatenate), the cursor (the number of bits already
consumed), the path constraints, the trace, the property map, the label of the current
parser error variable and the continuation stack (top first), and further the test-object
store, keyed by category and name (most recent entry first), the input packet computed
so far (as the list of the expressions it concatenates), and the zombie constants allocated
so far (most recent first). The field `body` is the current body of the continuation, the
field `stack` the frames pushed below it (top first). -/
structure ExecutionState where
  env : List (List String × Expr)
  packetBuffer : List Expr
  emitBuffer : List Expr
  inputPacketCursor : Int
  pathConstraint : List Expr
  trace : List TraceEvent
  properties : List (String × PropertyValue)
  currentParserErrorLabel : StateVar
  body : List Cmd
  testObjects : List ((String × String) × TestObject) := []
  inputPacket : List Expr := []
  allocatedZombies : List Expr := []
  stack : List StackFrame := []
  deriving DecidableEq

/-- The ways a step can abort; `badGet` is the exception of reading a property as a type
it does not hold, `p4cUnimplemented` the one of the macro `P4C_UNIMPLEMENTED`,
`outOfRange` the exception `std::out_of_range` of `std::vector::at`. -/
inductive StepError where
  | testgenUnimplemented
  | bugCheck
  | unknownReference
  | badGet
  | p4cUnimplemented
  | outOfRange
  deriving DecidableEq

/-- A branch `(guard?, next-state)`; `none` is the unguarded branch. -/
structure Branch where
  constraint : Option Expr
  nextState : ExecutionState
  deriving DecidableEq

namespace ExecutionState

/-- The accessor `getInputPacketCursor()`. -/
def getInputPacketCursor (s : ExecutionState) : Int := s.inputPacketCursor

/-- Modelled from the spec: `getPacketBufferSize()`, the width in bits of the packet
buffer expression, i.e. of the concatenation of its parts. -/
def getPacketBufferSize (s : ExecutionState) : Int :=
  ((s.packetBuffer.map fun e => e.type.width_bits).sum : Nat)

/-- The accessor `getCurrentParserErrorLabel()`. -/
def getCurrentParserErrorLabel (s : ExecutionState) : StateVar := s.currentParserErrorLabel

/-- The accessor `getEmitBuffer()`. -/
def getEmitBuffer (s : ExecutionState) : List Expr := s.emitBuffer

/-- The header a reference is a field of: the parent of a member access whose parent has a
header type, the validity bit itself excepted. -/
def headerOf : StateVar → Option StateVar
  | .member _ parent name =>
    if parent.type.isHeader && name != validName then some parent else none
  | .path _ _ => none

/-- Modelled from the spec: `get(ref)` fails with `UnknownReference` if the reference is
absent; reading a field of a header whose validity bit is `false` yields taint of the
field's type. -/
def get (s : ExecutionState) (ref : StateVar) : Except StepError Expr :=
  match s.env.lookup ref.key with
  | none => .error .unknownReference
  | some v =>
    match headerOf ref with
    | none => .ok v
    | some hdr =>
      match s.env.lookup (getHeaderValidity hdr).key with
      | none => .error .unknownReference
      | some valid => .ok (if valid = .boolLiteral false then .taint v.type else v)

/-- Modelled from the spec: whether the state is in a region marked by the property
`inUndefinedState`. The initial state holds the property with the value `false`; a state
that does not hold it is read as outside such a region. -/
def inUndefinedState (s : ExecutionState) : Bool :=
  match s.properties.lookup "inUndefinedState" with
  | some (.bool b) => b
  | _ => false

/-- Modelled from the spec: the value an assignment stores. In a region marked by
`inUndefinedState` assignments are forced to taint: the value stored is `Taint` of the
type of the value. -/
def storedValue (s : ExecutionState) (value : Expr) : Expr :=
  if s.inUndefinedState then .taint value.type else value

/-- Modelled from the spec: `set(ref, value)` binds the reference to the value, or to
`Taint` of its type in a region marked by `inUndefinedState`. -/
def set (s : ExecutionState) (ref : StateVar) (value : Expr) : ExecutionState :=
  { s with env := (ref.key, s.storedValue value) :: s.env }

/-- Modelled from the spec: `hasTaint(expr)`, a structural walk; a state reference is
looked up in the environment first. -/
def hasTaint (s : ExecutionState) : Expr → Bool
  | .ref v =>
    match s.env.lookup v.key with
    | some val => val.containsTaint
    | none => false
  | e => e.containsTaint

/-- Appends an event to the trace (`add(event)`). -/
def add (s : ExecutionState) (ev : TraceEvent) : ExecutionState :=
  { s with trace := s.trace ++ [ev] }

/-- Modelled from the spec: `popBody` removes the top command of the continuation. -/
def popBody (s : ExecutionState) : ExecutionState :=
  { s with body := s.body.drop 1 }

/-- Modelled from the spec: `replaceTopBody(cmd)` replaces the top command. -/
def replaceTopBody (s : ExecutionState) (cmd : Cmd) : ExecutionState :=
  { s with body := cmd :: s.body.drop 1 }

/-- Modelled from the spec: `slicePacketBuffer(n)` hands out the `n` bits at the cursor
and advances the cursor by `n`. Whether the packet is long enough is not known to the
state; it is the guard under which the caller emits the sliced state. -/
def slicePacketBuffer (s : ExecutionState) (amount : Int) : Expr × ExecutionState :=
  (.packetSlice s.inputPacketCursor amount.toNat,
   { s with inputPacketCursor := s.inputPacketCursor + amount })

/-- Modelled from the spec: `peekPacketBuffer(n)` hands out the `n` bits at the cursor
without advancing the cursor. -/
def peekPacketBuffer (s : ExecutionState) (amount : Int) : Expr × ExecutionState :=
  (.packetSlice s.inputPacketCursor amount.toNat, s)

/-- Modelled from the spec: `appendToEmitBuffer(expr)`. -/
def appendToEmitBuffer (s : ExecutionState) (e : Expr) : ExecutionState :=
  { s with emitBuffer := s.emitBuffer ++ [e] }

mutual
/-- Modelled from the spec: `getFlatFields(ref, struct-type)` flattens nested structs to
the list of leaf field references, preserving declaration order. -/
def getFlatFields : Ty → StateVar → List StateVar
  | .structLike _ fs, parent => getFlatFieldsOf fs parent
  | _, _ => []
/-- Flattening of a field list below `parent`. -/
def getFlatFieldsOf : List (String × Ty) → StateVar → List StateVar
  | [], _ => []
  | (n, t) :: rest, parent =>
    (if t.isStructLike then getFlatFields t (.member t parent n) else [.member t parent n])
      ++ getFlatFieldsOf rest parent
end

end ExecutionState

/-! ## The expression stepper: helpers of the packet externs -/

/-- What the externs read from the stepper and from the static configuration of the
execution state: `programInfo.getParserErrorType()`,
`ExecutionState::getMaxPacketLength_bits()`, `ExecutionState::getPacketSizeVarType()`,
the solver call `evaluateExpression(expr, cond)` on the stepper's state (the value of the
constant it returns, `none` for `nullptr`), and `stepToSubexpr`, which schedules the
evaluation of an argument that is not yet a symbolic value. -/
structure ExprStepper where
  parserErrorType : Ty
  maxPacketLength_bits : Int
  packetSizeVarType : Ty
  evaluateExpression : ExecutionState → Expr → Expr → Option Int
  stepToSubexpr : Expr → ExecutionState → List Branch

/-- The record `PacketCursorAdvanceInfo`; a `nullptr` condition is `none`. -/
structure PacketCursorAdvanceInfo where
  advanceSize : Int
  advanceCond : Option Expr
  advanceFailSize : Int
  advanceFailCond : Option Expr
  deriving DecidableEq

namespace ExprStepper

/-- Name of the variable `ExecutionState::getInputPacketSizeVar()`. -/
def packetSizeVarName : String := "*packetLen_bits"

/-- The variable `ExecutionState::getInputPacketSizeVar()`. -/
def getInputPacketSizeVar (st : ExprStepper) : Expr :=
  .symbolicVar st.packetSizeVarType packetSizeVarName

/-- Modelled from the spec: `setHeaderValidity(hdr, validity, state)` of the core stepper
is not among the listed sources; an extract makes the validity bit of the header `true`. -/
def setHeaderValidity (hdr : StateVar) (validity : Bool) (nextState : ExecutionState) :
    ExecutionState :=
  nextState.set (getHeaderValidity hdr) (.boolLiteral validity)

/-- The cast `setFields` wraps around the sliced packet variable. -/
def castExtracted (fieldType declaredType : Ty) (pktVar : Expr) : Expr :=
  match fieldType with
  | .varbits _ _ => .cast fieldType pktVar
  | .bits _ isSigned => if isSigned then .cast fieldType pktVar else pktVar
  | _ => if declaredType == .boolean then .cast .boolean pktVar else pktVar

/-- The varbit step of `setFields`: a field whose current type is an extracted varbit gets
a clone of its type with `assignedSize = varBitFieldSize`, and the reference is retyped;
`BUG_CHECK(varBitFieldSize >= 0)`. -/
def assignVarbitSize (fieldRef : StateVar) (fieldType : Ty) (varBitFieldSize : Int) :
    Except StepError (StateVar × Ty) :=
  match fieldType with
  | .varbits size _ =>
    if varBitFieldSize < 0 then .error .bugCheck
    else
      let newVarbit := Ty.varbits size varBitFieldSize.toNat
      match fieldRef with
      | .path _ n => .ok (.path newVarbit n, newVarbit)
      | .member _ p n => .ok (.member newVarbit p n, newVarbit)
  | t => .ok (fieldRef, t)

/-- The function `ExprStepper::setFields`: slices the packet field by field. -/
def setFields (nextState : ExecutionState) :
    List StateVar → Int → Except StepError ExecutionState
  | [], _ => .ok nextState
  | fieldRef :: rest, varBitFieldSize =>
    match nextState.get fieldRef with
    | .error e => .error e
    | .ok value =>
      match assignVarbitSize fieldRef value.type varBitFieldSize with
      | .error e => .error e
      | .ok (fieldRef, fieldType) =>
        let fieldWidth := fieldType.width_bits
        if fieldWidth == 0 then setFields nextState rest varBitFieldSize
        else
          let sliced := nextState.slicePacketBuffer fieldWidth
          let pktVar := castExtracted fieldType fieldRef.type sliced.1
          setFields ((sliced.2.add (.extract fieldRef pktVar)).set fieldRef pktVar) rest
            varBitFieldSize

/-- The function `ExprStepper::calculateSuccessfulParserAdvance`. -/
def calculateSuccessfulParserAdvance (st : ExprStepper) (state : ExecutionState)
    (advanceSize : Int) : PacketCursorAdvanceInfo :=
  let minSize := max 0 (state.getInputPacketCursor + advanceSize - state.getPacketBufferSize)
  let cond := Expr.geq st.getInputPacketSizeVar (getConstant st.packetSizeVarType minSize)
  { advanceSize := advanceSize, advanceCond := some cond,
    advanceFailSize := advanceSize, advanceFailCond := some (.lnot cond) }

/-- The function `ExprStepper::calculateAdvanceExpression`. -/
def calculateAdvanceExpression (st : ExprStepper) (state : ExecutionState)
    (advanceExpr restrictions : Expr) : PacketCursorAdvanceInfo :=
  let cursorConst := getConstant st.packetSizeVarType state.getInputPacketCursor
  let bufferSizeConst := getConstant st.packetSizeVarType state.getPacketBufferSize
  let minSize := Expr.binary .sub st.packetSizeVarType
    (.binary .add st.packetSizeVarType cursorConst advanceExpr) bufferSizeConst
  let cond := Expr.geq st.getInputPacketSizeVar minSize
  let advanceCond := Expr.land cond restrictions
  let advanceConst := st.evaluateExpression state advanceExpr advanceCond
  let notAdvanceCond := Expr.land (.lnot cond) restrictions
  let notAdvanceConst := st.evaluateExpression state advanceExpr notAdvanceCond
  let accept : Int × Option Expr :=
    match advanceConst with
    | none => (0, none)
    | some v => (v, some (Expr.land advanceCond (Expr.equ (.constant advanceExpr.type v)
        advanceExpr)))
  let reject : Int × Option Expr :=
    match notAdvanceConst with
    | none => (0, none)
    | some v => (v, some (Expr.land notAdvanceCond (Expr.equ (.constant advanceExpr.type v)
        advanceExpr)))
  { advanceSize := accept.1, advanceCond := accept.2,
    advanceFailSize := reject.1, advanceFailCond := reject.2 }

end ExprStepper

/-! ## The core extern methods -/

namespace packet_in

open ExprStepper

/-- The extern `packet_in.lookahead<T>()`. -/
def lookahead (st : ExprStepper) (lookaheadType : Ty) (state : ExecutionState) :
    Except StepError (List Branch) :=
  if !lookaheadType.isBase then .error .testgenUnimplemented
  else
    let lookaheadSize : Int := lookaheadType.width_bits
    let condInfo := st.calculateSuccessfulParserAdvance state lookaheadType.width_bits
    let accept : List Branch :=
      match condInfo.advanceCond with
      | some cond =>
        let peeked := state.peekPacketBuffer lookaheadSize
        let nextState := peeked.2.add (.expression peeked.1 "Lookahead result")
        let nextState := nextState.add (.condition "Lookahead Condition: " cond none)
        [⟨some cond, nextState.replaceTopBody (.ret (some peeked.1))⟩]
      | none => []
    let reject : List Branch :=
      match condInfo.advanceFailCond with
      | some cond =>
        let rejectState := state.add (.generic "Lookahead: Packet too short")
        [⟨some cond, rejectState.replaceTopBody (.exception .packetTooShort)⟩]
      | none => []
    .ok (accept ++ reject)

/-- The condition information `packet_in.advance` computes for its argument: from the
constant, or through the solver for a run-time expression (a tainted one is
unimplemented). -/
def advanceCondInfo (st : ExprStepper) (advanceExpr : Expr) (state : ExecutionState) :
    Except StepError PacketCursorAdvanceInfo :=
  match advanceExpr with
  | .constant _ advanceValue => .ok (st.calculateSuccessfulParserAdvance state advanceValue)
  | _ =>
    if state.hasTaint advanceExpr then .error .testgenUnimplemented
    else
      let sizeRestriction :=
        Expr.leq advanceExpr (getConstant advanceExpr.type st.maxPacketLength_bits)
      let bytesRestriction :=
        Expr.equ (Expr.mod advanceExpr (getConstant advanceExpr.type 8))
          (getConstant advanceExpr.type 0)
      let restrictions := Expr.land sizeRestriction bytesRestriction
      .ok (st.calculateAdvanceExpression state advanceExpr restrictions)

/-- The extern `packet_in.advance(sizeInBits)`. -/
def advance (st : ExprStepper) (advanceExpr : Expr) (state : ExecutionState) :
    Except StepError (List Branch) :=
  if !isSymbolicValue advanceExpr then .ok (st.stepToSubexpr advanceExpr state)
  else
    match advanceCondInfo st advanceExpr state with
    | .error e => .error e
    | .ok condInfo =>
      let accept : List Branch :=
        match condInfo.advanceCond with
        | some cond =>
          if condInfo.advanceSize == 0 then
            [⟨none, (state.add (.generic "Advance: 0 bits.")).popBody⟩]
          else
            let nextState := (state.slicePacketBuffer condInfo.advanceSize).2
            let nextState := nextState.add (.condition "Advance Condition: " cond none)
            [⟨some cond, nextState.popBody⟩]
        | none => []
      let reject : List Branch :=
        match condInfo.advanceFailCond with
        | some cond =>
          let rejectState := state.add (.generic "Advance: Packet too short")
          [⟨some cond, rejectState.replaceTopBody (.exception .packetTooShort)⟩]
        | none => []
      .ok (accept ++ reject)

/-- The extern `packet_in.extract(hdr)`; `extractedType` is the resolved type argument. -/
def extract (st : ExprStepper) (extractedType : Ty) (extractOutput : StateVar)
    (state : ExecutionState) : Except StepError (List Branch) :=
  if !extractedType.isStructLike then .error .bugCheck
  else
    let extractSize : Int := extractedType.width_bits
    let condInfo := st.calculateSuccessfulParserAdvance state extractSize
    let accept : Except StepError (List Branch) :=
      match condInfo.advanceCond with
      | some cond =>
        let nextState :=
          if extractedType.isHeader then setHeaderValidity extractOutput true state
          else state
        let flatFields := ExecutionState.getFlatFields extractedType extractOutput
        let nextState := nextState.add (.generic "Extract: Succeeded")
        match setFields nextState flatFields 0 with
        | .error e => .error e
        | .ok nextState =>
          let nextState :=
            nextState.add (.condition "Extract Condition: " cond (some condInfo.advanceSize))
          .ok [⟨some cond, nextState.popBody⟩]
      | none => .ok []
    let reject : List Branch :=
      match condInfo.advanceFailCond with
      | some cond =>
        let rejectState := state.add (.generic "Extract: Packet too short")
        let rejectState := rejectState.add
          (.condition "Extract Failure Condition: " cond (some condInfo.advanceFailSize))
        [⟨some cond, rejectState.replaceTopBody (.exception .packetTooShort)⟩]
      | none => []
    match accept with
    | .error e => .error e
    | .ok acc => .ok (acc ++ reject)

/-- The search of `packet_in.extract(hdr, sizeInBits)` for the first field of varbit type
among the fields of the extracted type; returns its declared maximum `size`. -/
def findVarbit : List (String × Ty) → Option Nat
  | [] => none
  | (_, .varbits size _) :: _ => some size
  | _ :: rest => findVarbit rest

/-- The sizes `packet_in.extract(hdr, sizeInBits)` computes: the size assigned to the
varbit field and the condition information, from the constant, or through the solver for
a run-time expression (a tainted one is unimplemented). -/
def extractCondInfo (st : ExprStepper) (varbitSize : Nat) (extractSize : Int)
    (varbitExtractExpr : Expr) (state : ExecutionState) :
    Except StepError (Int × PacketCursorAdvanceInfo) :=
  match varbitExtractExpr with
  | .constant _ varBitFieldSize =>
    .ok (varBitFieldSize, st.calculateSuccessfulParserAdvance state
      (varBitFieldSize + extractSize))
  | _ =>
    if state.hasTaint varbitExtractExpr then .error .testgenUnimplemented
    else
      let maxVarbit := min st.maxPacketLength_bits varbitSize
      let sizeRestriction :=
        Expr.leq varbitExtractExpr (getConstant varbitExtractExpr.type maxVarbit)
      let bytesRestriction :=
        Expr.equ (Expr.mod varbitExtractExpr (getConstant varbitExtractExpr.type 8))
          (getConstant varbitExtractExpr.type 0)
      let restrictions := Expr.land sizeRestriction bytesRestriction
      let advanceExpr :=
        Expr.add varbitExtractExpr (getConstant varbitExtractExpr.type extractSize)
      let condInfo := st.calculateAdvanceExpression state advanceExpr restrictions
      .ok (max 0 (condInfo.advanceSize - extractSize), condInfo)

/-- The extern `packet_in.extract(hdr, sizeInBits)`. -/
def extract_sizeInBits (st : ExprStepper) (extractedType : Ty) (extractOutput : StateVar)
    (varbitExtractExpr : Expr) (state : ExecutionState) : Except StepError (List Branch) :=
  if !isSymbolicValue varbitExtractExpr then .ok (st.stepToSubexpr varbitExtractExpr state)
  else
    match extractedType with
    | .structLike isHeader fields =>
      let extractSize : Int := extractedType.width_bits
      match findVarbit fields with
      | none => .error .bugCheck
      | some varbitSize =>
        match extractCondInfo st varbitSize extractSize varbitExtractExpr state with
        | .error e => .error e
        | .ok (varBitFieldSize, condInfo) =>
          let reject : List Branch :=
            match condInfo.advanceFailCond with
            | some cond =>
              let rejectState := state.add (.generic "Extract: Packet too short")
              [⟨some cond, rejectState.replaceTopBody (.exception .packetTooShort)⟩]
            | none => []
          match condInfo.advanceCond with
          | some cond =>
            if (varbitSize : Int) < varBitFieldSize then
              let nextState := state.set state.getCurrentParserErrorLabel
                (getConstant st.parserErrorType 4)
              .ok [⟨some cond, nextState.replaceTopBody (.exception .reject)⟩]
            else
              let nextState :=
                if isHeader then setHeaderValidity extractOutput true state else state
              let flatFields := ExecutionState.getFlatFields extractedType extractOutput
              match setFields nextState flatFields varBitFieldSize with
              | .error e => .error e
              | .ok nextState =>
                let validVar := getHeaderValidity extractOutput
                let nextState := nextState.add (.extract validVar (.ref validVar))
                let nextState := nextState.add
                  (.condition "Extract Condition: " cond (some condInfo.advanceSize))
                .ok (⟨some cond, nextState.popBody⟩ :: reject)
          | none => .ok reject
    | _ => .error .bugCheck

end packet_in

namespace packet_out

/-- The cast `packet_out.emit` wraps around a field value: a boolean is cast to `bit<1>`,
a signed bit type to the unsigned type of the same width. -/
def castEmitted (fieldType : Ty) (fieldExpr : Expr) : Expr :=
  match fieldType with
  | .boolean => .cast (getBitType 1) fieldExpr
  | .bits w true => .cast (.bits w false) fieldExpr
  | _ => fieldExpr

/-- The type whose width `packet_out.emit` uses for a field value: the type of the value,
an extracted varbit counting as bits of its assigned size. -/
def emittedType (fieldExpr : Expr) : Ty :=
  match fieldExpr.type with
  | .varbits _ assignedSize => getBitType assignedSize
  | t => t

/-- The loop of `packet_out.emit` over the fields of the emitted type: appends every field
of non-zero width to the emit buffer. -/
def emitFields (emitOutput : StateVar) :
    List (String × Ty) → ExecutionState → Except StepError ExecutionState
  | [], nextState => .ok nextState
  | (name, declaredType) :: rest, nextState =>
    if declaredType.isStructLike then .error .bugCheck
    else
      let fieldRef := StateVar.member declaredType emitOutput name
      match nextState.get fieldRef with
      | .error e => .error e
      | .ok fieldExpr =>
        let fieldType := emittedType fieldExpr
        if fieldType.width_bits == 0 then emitFields emitOutput rest nextState
        else
          let nextState := nextState.add (.emit fieldRef fieldExpr)
          emitFields emitOutput rest
            (nextState.appendToEmitBuffer (castEmitted fieldType fieldExpr))

/-- The extern `packet_out.emit(hdr)`. -/
def emit (emitOutput : Expr) (state : ExecutionState) : Except StepError (List Branch) :=
  match emitOutput.type with
  | .structLike _ fields =>
    match emitOutput with
    | .ref (.member t parent name) =>
      let hdr := StateVar.member t parent name
      let validVar := getHeaderValidity hdr
      if state.hasTaint (.ref validVar) then .error .testgenUnimplemented
      else
        match emitFields hdr fields state with
        | .error e => .error e
        | .ok nextState =>
          let nextState := (nextState.add (.emit validVar (.ref validVar))).popBody
          match state.get validVar with
          | .error e => .error e
          | .ok validValue =>
            let invalidState :=
              (state.add (.expression (.ref validVar) "Invalid emit: ")).popBody
            .ok [⟨some validValue, nextState⟩, ⟨some (.lnot (.ref validVar)), invalidState⟩]
    | _ => .error .testgenUnimplemented
  | _ => .error .bugCheck

end packet_out

/-- Value of an arithmetic expression over the mathematical integers, under a valuation of
the symbolic variables by name; a concolic variable is a free variable named by its method,
source id and concolic id. -/
def Expr.evalInt (σ : String → Int) : Expr → Option Int
  | .constant _ v => some v
  | .symbolicVar _ n => some (σ n)
  | .binary .add _ l r =>
    match l.evalInt σ, r.evalInt σ with
    | some a, some b => some (a + b)
    | _, _ => none
  | .binary .sub _ l r =>
    match l.evalInt σ, r.evalInt σ with
    | some a, some b => some (a - b)
    | _, _ => none
  | .binary .mod _ l r =>
    match l.evalInt σ, r.evalInt σ with
    | some a, some b => some (a % b)
    | _, _ => none
  | .concolicVariable _ n _ srcId concolicId =>
    some (σ (n ++ "_" ++ toString srcId ++ "_" ++ toString concolicId))
  | _ => none

/-- Truth value of a guard under a valuation of the symbolic variables; a symbolic variable
used as a guard is true when its value is not 0. -/
def Expr.evalBool (σ : String → Int) : Expr → Option Bool
  | .boolLiteral b => some b
  | .symbolicVar _ n => some (decide (σ n ≠ 0))
  | .lnot e => (e.evalBool σ).map not
  | .binary .geq _ l r =>
    match l.evalInt σ, r.evalInt σ with
    | some a, some b => some (decide (b ≤ a))
    | _, _ => none
  | .binary .leq _ l r =>
    match l.evalInt σ, r.evalInt σ with
    | some a, some b => some (decide (a ≤ b))
    | _, _ => none
  | .binary .lss _ l r =>
    match l.evalInt σ, r.evalInt σ with
    | some a, some b => some (decide (a < b))
    | _, _ => none
  | .binary .equ _ l r =>
    match l.evalInt σ, r.evalInt σ with
    | some a, some b => some (decide (a = b))
    | _, _ => none
  | .binary .neq _ l r =>
    match l.evalInt σ, r.evalInt σ with
    | some a, some b => some (decide (a ≠ b))
    | _, _ => none
  | .binary .land _ l r =>
    match l.evalBool σ, r.evalBool σ with
    | some a, some b => some (a && b)
    | _, _ => none
  | _ => none

/-- The conjuncts of a guard: the leaves of its tree of `LAnd` nodes. -/
def Expr.conjuncts : Expr → List Expr
  | .binary .land _ l r => l.conjuncts ++ r.conjuncts
  | e => [e]

/-- Whether `get(ref)` succeeds in the state. -/
def ExecutionState.readable (s : ExecutionState) (ref : StateVar) : Bool :=
  match s.get ref with
  | .ok _ => true
  | .error _ => false

/-! ## Example inputs -/

namespace Example

/-- Fields of a header: an unsigned, a signed, a boolean and a zero-width field. -/
def ethFields : List (String × Ty) :=
  [("a", .bits 8 false), ("b", .bits 4 true), ("c", .boolean), ("d", .bits 0 false)]

/-- A header type with the fields `ethFields`. -/
def ethLike : Ty := .structLike true ethFields

/-- The struct `hdrs` that holds the header. -/
def hdrs : StateVar := .path (.structLike false [("h", ethLike)]) "hdrs"

/-- The reference `hdrs.h` of type `ethLike`. -/
def hdr : StateVar := .member ethLike hdrs "h"

/-- A stepper configuration whose solver picks the size 0 when asked for a value under an
accept condition and the size 8 under a reject condition (one led by a negated length
check). -/
def stepper : ExprStepper :=
  { parserErrorType := .bits 32 false, maxPacketLength_bits := 12000,
    packetSizeVarType := .bits 32 false,
    evaluateExpression := fun _ _ cond =>
      match cond with
      | .binary .land _ (.lnot _) _ => some 8
      | _ => some 0,
    stepToSubexpr := fun _ _ => [] }

/-- A state at the start of the packet in which `hdrs.h` is declared, invalid and
uninitialized, with two pending commands. -/
def state : ExecutionState :=
  { env := [(["hdrs", "h", "a"], .taint (.bits 8 false)),
            (["hdrs", "h", "b"], .taint (.bits 4 true)),
            (["hdrs", "h", "c"], .taint .boolean),
            (["hdrs", "h", "d"], .taint (.bits 0 false)),
            (["hdrs", "h", "*valid"], .boolLiteral false)],
    packetBuffer := [], emitBuffer := [], inputPacketCursor := 0, pathConstraint := [],
    trace := [], properties := [],
    currentParserErrorLabel := .path (.bits 32 false) "*parser_error",
    body := [.node "call", .node "next"] }

/-- A header type with a fixed part and a varbit field of at most 8 bits. -/
def optLike : Ty := .structLike true [("len", .bits 8 false), ("opt", .varbits 8 0)]

/-- The reference `hdrs.o` of type `optLike`. -/
def optHdr : StateVar :=
  .member optLike (.path (.structLike false [("o", optLike)]) "hdrs") "o"

/-- A state at the start of the packet in which `hdrs.o` is declared and invalid. -/
def optState : ExecutionState :=
  { env := [(["hdrs", "o", "len"], .taint (.bits 8 false)),
            (["hdrs", "o", "opt"], .taint (.varbits 8 0)),
            (["hdrs", "o", "*valid"], .boolLiteral false)],
    packetBuffer := [], emitBuffer := [], inputPacketCursor := 0, pathConstraint := [],
    trace := [], properties := [],
    currentParserErrorLabel := .path (.bits 32 false) "*parser_error",
    body := [.node "call", .node "next"] }

end Example

/-! ## Cursor accounting of extract and advance -/

/-- The width `setFields` slices for a field of the given declared type: the supplied size
for a varbit field, the declared width otherwise (zero-width fields slice nothing). -/
def slicedWidth (varBitFieldSize : Int) (declared : Ty) : Nat :=
  match declared with
  | .varbits _ _ => varBitFieldSize.toNat
  | t => t.width_bits

mutual
/-- Number of varbit leaves of a type. -/
def Ty.countVarbits : Ty → Nat
  | .varbits _ _ => 1
  | .structLike _ fs => Ty.countVarbitsOf fs
  | _ => 0
/-- Number of varbit leaves of a field list. -/
def Ty.countVarbitsOf : List (String × Ty) → Nat
  | [] => 0
  | (_, t) :: rest => t.countVarbits + Ty.countVarbitsOf rest
end

mutual
/-- Whether every varbit leaf of a declared type has no size assigned yet
(`assignedSize = 0`, as in a type declaration). -/
def Ty.varbitsUnassigned : Ty → Bool
  | .varbits _ a => a == 0
  | .structLike _ fs => Ty.varbitsUnassignedOf fs
  | _ => true
/-- The same test on a field list. -/
def Ty.varbitsUnassignedOf : List (String × Ty) → Bool
  | [] => true
  | (_, t) :: rest => t.varbitsUnassigned && Ty.varbitsUnassignedOf rest
end

/-- Agreement of the type of a stored value with the declared type of its field: equal,
up to the size assigned to a varbit. -/
def Ty.agrees : Ty → Ty → Bool
  | .varbits s _, .varbits s2 _ => s == s2
  | .varbits _ _, _ => false
  | _, .varbits _ _ => false
  | a, b => a == b

/-- Whether the state stores, for the reference, a readable value of the declared type. -/
def ExecutionState.typedAt (s : ExecutionState) (ref : StateVar) : Bool :=
  match s.get ref with
  | .ok v => v.type.agrees ref.type
  | .error _ => false

/-- The calls that move the cursor by a constant amount: `extract(hdr)`,
`extract(hdr, varSize)` with a constant `varSize`, and `advance(n)` with a constant `n`
(the constants with their IR type). -/
inductive CursorCall where
  | extract (extractedType : Ty) (hdr : StateVar)
  | extractVarbit (extractedType : Ty) (hdr : StateVar) (sizeType : Ty) (varSize : Int)
  | advance (sizeType : Ty) (n : Int)

/-- The step of a cursor call. -/
def CursorCall.step (st : ExprStepper) (state : ExecutionState) :
    CursorCall → Except StepError (List Branch)
  | .extract t hdr => packet_in.extract st t hdr state
  | .extractVarbit t hdr sizeType v =>
    packet_in.extract_sizeInBits st t hdr (.constant sizeType v) state
  | .advance sizeType n => packet_in.advance st (.constant sizeType n) state

/-- The total number of bits a cursor call requests. -/
def CursorCall.requested : CursorCall → Int
  | .extract t _ => t.width_bits
  | .extractVarbit t _ _ v => v + t.width_bits
  | .advance _ n => n

/-- The widths sliced one by one: per flattened field for the extracts, the whole amount
for an advance. -/
def CursorCall.slices : CursorCall → List Nat
  | .extract t hdr => (ExecutionState.getFlatFields t hdr).map fun r => slicedWidth 0 r.type
  | .extractVarbit t hdr _ v =>
    (ExecutionState.getFlatFields t hdr).map fun r => slicedWidth v r.type
  | .advance _ n => [n.toNat]

/-- The fields of an extracted type are declared in the state: the flattened fields have
distinct paths, none of them the path of the validity bit, and each stores a readable
value of its declared type, in which no varbit has a size assigned. -/
def fieldsDeclared (state : ExecutionState) (t : Ty) (hdr : StateVar) : Bool :=
  t.isStructLike && t.varbitsUnassigned &&
    decide (((ExecutionState.getFlatFields t hdr).map StateVar.key).Nodup) &&
    decide ((getHeaderValidity hdr).key ∉ (ExecutionState.getFlatFields t hdr).map StateVar.key) &&
    (ExecutionState.getFlatFields t hdr).all fun r => state.typedAt r

/-- The declared maximum of the varbit field that `extract(hdr, varSize)` finds. -/
def declaredVarbitSize : Ty → Option Nat
  | .structLike _ fs => packet_in.findVarbit fs
  | _ => none

/-- Admissible cursor calls: the extracted fields are declared; for a varbit extract the
type has exactly one varbit field and the constant size lies between 0 and its declared
maximum; an advance has a non-negative size. -/
def CursorCall.admissible (state : ExecutionState) : CursorCall → Bool
  | .extract t hdr => fieldsDeclared state t hdr
  | .extractVarbit t hdr _ v =>
    fieldsDeclared state t hdr && t.countVarbits == 1 && decide (0 ≤ v) &&
      (match declaredVarbitSize t with
       | some size => decide (v ≤ (size : Int))
       | none => false)
  | .advance _ n => decide (0 ≤ n)

/-- Oversize cursor calls: `extract(hdr, varSize)` with a constant `varSize` above the
declared maximum of the varbit field of the header. -/
def CursorCall.oversize : CursorCall → Bool
  | .extractVarbit t _ _ v =>
    match declaredVarbitSize t with
    | some size => decide ((size : Int) < v)
    | none => false
  | _ => false

/-- The length condition that `calculateSuccessfulParserAdvance` builds for an advance by
`advanceSize` bits (its `advanceCond`; `advanceFailCond` is the `LNot` of it). -/
def ExprStepper.lengthCond (st : ExprStepper) (state : ExecutionState) (advanceSize : Int) :
    Expr :=
  Expr.geq st.getInputPacketSizeVar (getConstant st.packetSizeVarType
    (max 0 (state.getInputPacketCursor + advanceSize - state.getPacketBufferSize)))

/-! ## Bit-level meaning of packet expressions -/

/-- The bits `[off, off + w)` of a packet, first bit first. -/
def packetBits (pkt : Int → Bool) (off : Int) (w : Nat) : List Bool :=
  (List.range w).map fun (i : Nat) => pkt (off + (i : Int))

/-- Modelled from the spec: the value of a cast on bit strings (most significant bit
first). A cast preserves the width where legal, narrowing keeps the low-order bits, and
widening sign-extends a signed source and zero-extends any other; a boolean is one bit. -/
def castBits (dest src : Ty) (bits : List Bool) : List Bool :=
  if dest.width_bits ≤ bits.length then bits.drop (bits.length - dest.width_bits)
  else
    List.replicate (dest.width_bits - bits.length)
      (match src with
       | .bits _ true => bits.headD false
       | _ => false) ++ bits

/-- The bit string an expression over the packet denotes, for a packet given bit by bit;
`none` for expressions that are not made of packet slices, boolean literals, casts and
concatenations. -/
def Expr.evalBits (pkt : Int → Bool) : Expr → Option (List Bool)
  | .packetSlice off w => some (packetBits pkt off w)
  | .boolLiteral b => some [b]
  | .cast t e => (e.evalBits pkt).map (castBits t e.type)
  | .binary .concat _ l r =>
    match l.evalBits pkt, r.evalBits pkt with
    | some a, some b => some (a ++ b)
    | _, _ => none
  | _ => none

/-- The bit string a buffer denotes: the concatenation of its parts. -/
def evalBuffer (pkt : Int → Bool) : List Expr → Option (List Bool)
  | [] => some []
  | e :: rest =>
    match e.evalBits pkt, evalBuffer pkt rest with
    | some a, some b => some (a ++ b)
    | _, _ => none

/-- Whether a field type is `bit<>`, `int<>` or `bool`. -/
def Ty.isBitsOrBool : Ty → Bool
  | .bits _ _ => true
  | .boolean => true
  | _ => false

/-- What an emit appends for fields of the given types that an extract has just filled
from the packet at offset `off`: per field of non-zero width, the emit cast around the
extract cast around the slice. -/
def roundTripExprs (off : Int) : List Ty → List Expr
  | [] => []
  | t :: rest =>
    if t.width_bits = 0 then roundTripExprs off rest
    else
      packet_out.castEmitted t (ExprStepper.castExtracted t t (.packetSlice off t.width_bits))
        :: roundTripExprs (off + t.width_bits) rest

/-- The emit buffer of the round trip in the words of the specification: per field of
non-zero width, in declaration order, the slice of the packet at the offset of the field;
a signed field is cast to its signed type on extract and back to the unsigned type of the
same width on emit, a boolean field is cast to `bool` on extract and back to `bit<1>` on
emit, and an unsigned field is not cast at all. -/
def roundTripSpec (off : Int) : List Ty → List Expr
  | [] => []
  | t :: rest =>
    if t.width_bits = 0 then roundTripSpec off rest
    else
      (match t with
       | .bits w true => .cast (.bits w false) (.cast (.bits w true) (.packetSlice off w))
       | .boolean => .cast (.bits 1 false) (.cast .boolean (.packetSlice off 1))
       | _ => .packetSlice off t.width_bits)
        :: roundTripSpec (off + t.width_bits) rest

/-- The references `hdr.f` of the direct fields of a header, in declaration order. -/
def fieldRefs (hdr : StateVar) (fields : List (String × Ty)) : List StateVar :=
  fields.map fun f => StateVar.member f.2 hdr f.1

/-- The environment holds, for the fields from offset `off` on, what an extract at that
offset stores: the extract cast around the slice for a field of non-zero width, and some
value of the declared type for a zero-width field. -/
def envExtracted (env : List (List String × Expr)) (hdr : StateVar) :
    Int → List (String × Ty) → Prop
  | _, [] => True
  | off, (n, t) :: rest =>
    (if t.width_bits = 0 then ∃ v0, env.lookup (hdr.key ++ [n]) = some v0 ∧ v0.type = t
     else env.lookup (hdr.key ++ [n]) =
       some (ExprStepper.castExtracted t t (.packetSlice off t.width_bits))) ∧
    envExtracted env hdr (off + t.width_bits) rest

/-- An 8-bit symbolic value `x`. -/
def Example.xVar : Expr := .symbolicVar (.bits 8 false) "x"

/-- The restrictions `packet_in.advance` puts on a run-time size: at most the maximum
packet length, and a multiple of 8. -/
def packet_in.advanceRestrictions (st : ExprStepper) (advanceExpr : Expr) : Expr :=
  Expr.land (Expr.leq advanceExpr (getConstant advanceExpr.type st.maxPacketLength_bits))
    (Expr.equ (Expr.mod advanceExpr (getConstant advanceExpr.type 8))
      (getConstant advanceExpr.type 0))

/-- The length condition `calculateAdvanceExpression` builds for a run-time size:
`input_size >= cursor + advanceExpr - buffer_size`. -/
def ExprStepper.lengthCondExpr (st : ExprStepper) (state : ExecutionState)
    (advanceExpr : Expr) : Expr :=
  Expr.geq st.getInputPacketSizeVar
    (.binary .sub st.packetSizeVarType
      (.binary .add st.packetSizeVarType
        (getConstant st.packetSizeVarType state.getInputPacketCursor) advanceExpr)
      (getConstant st.packetSizeVarType state.getPacketBufferSize))

/-- A boolean symbolic value `b`. -/
def Example.bVar : Expr := .symbolicVar .boolean "b"

/-! ## What `emit` appends -/

/-- The expressions the emit loop appends, read off the loop: per field, in declaration
order, nothing when the width of the value is zero, else the value under the emit cast. -/
def packet_out.appended (state : ExecutionState) (hdr : StateVar)
    (fields : List (String × Ty)) : List Expr :=
  fields.filterMap fun f =>
    match state.get (.member f.2 hdr f.1) with
    | .ok v =>
      if (packet_out.emittedType v).width_bits = 0 then none
      else some (packet_out.castEmitted (packet_out.emittedType v) v)
    | .error _ => none

/-- What the specification says an emit contributes for a field value: nothing for a
value of width zero; a boolean cast to `bit<1>`; a signed value cast to the unsigned type
of equal width; an unsigned value as it is; a varbit as a bit-vector of its assigned
size. -/
def emittedFieldSpec (v : Expr) : Option Expr :=
  match v.type with
  | .boolean => some (.cast (.bits 1 false) v)
  | .bits w true => if w = 0 then none else some (.cast (.bits w false) v)
  | .bits w false => if w = 0 then none else some v
  | .varbits _ assignedSize => if assignedSize = 0 then none else some v
  | .structLike _ _ => none

/-- The fields of an emitted header are ready: none of them is struct-like and each
stores a readable value of its declared type. -/
def emitReady (state : ExecutionState) (hdr : StateVar) (fields : List (String × Ty)) :
    Bool :=
  fields.all fun f => !f.2.isStructLike && state.typedAt (.member f.2 hdr f.1)

/-- The expressions the specification lets `emit(hdr)` append: per field, in declaration
order, what `emittedFieldSpec` gives for the value read from the state. -/
def emittedSpec (state : ExecutionState) (hdr : StateVar) (fields : List (String × Ty)) :
    List Expr :=
  fields.filterMap fun f =>
    match state.get (.member f.2 hdr f.1) with
    | .ok v => emittedFieldSpec v
    | .error _ => none

/-- A state in which `hdrs.h` is valid and holds the first 13 bits of the packet. -/
def Example.filledState : ExecutionState :=
  { Example.state with
    env := [(["hdrs", "h", "a"], .packetSlice 0 8),
            (["hdrs", "h", "b"], .cast (.bits 4 true) (.packetSlice 8 4)),
            (["hdrs", "h", "c"], .cast .boolean (.packetSlice 12 1)),
            (["hdrs", "h", "d"], .taint (.bits 0 false)),
            (["hdrs", "h", "*valid"], .boolLiteral true)],
    inputPacketCursor := 13 }

/-- The restrictions `packet_in.extract(hdr, sizeInBits)` puts on a run-time size, in the
words of the specification: the size is at most the smaller of the maximum packet length
and the declared maximum of the varbit field, and it is a multiple of 8. -/
def packet_in.varbitRestrictions (st : ExprStepper) (declared : Nat) (varSize : Expr) : Expr :=
  Expr.land
    (Expr.leq varSize (getConstant varSize.type (min st.maxPacketLength_bits declared)))
    (Expr.equ (Expr.mod varSize (getConstant varSize.type 8)) (getConstant varSize.type 0))

/-! # The BMv2 target

A shallow embedding of the externs of
`backends/p4tools/testgen/targets/bmv2/expr_stepper.cpp` that keep per-state bookkeeping:
recirculation, resubmission and cloning, registers, hashes, checksums and `random`. -/

/-- The test `is<IR::Type_Bits>()` (an `Extracted_Varbits` is a `Type_Bits` too). -/
def Ty.isBits : Ty → Bool
  | .bits _ _ => true
  | .varbits _ _ => true
  | _ => false

/-- The conversion `asUint64()` of the value of a constant. -/
def asUint64 (v : Int) : Nat := (v % 2 ^ 64).toNat

/-- The text `toString()` of a reference: the dotted path. -/
def StateVar.toString (v : StateVar) : String := String.intercalate "." v.key

/-- The argument vector of a list of expressions. -/
def Args.ofList : List Expr → Args
  | [] => .nil
  | e :: rest => .cons e (Args.ofList rest)

namespace ExecutionState

/-- Modelled from the spec: `hasProperty(name)` on the string-keyed property map of
`ExecutionState`, which is not among the listed sources. -/
def hasProperty (s : ExecutionState) (name : String) : Bool :=
  (s.properties.lookup name).isSome

/-- Modelled from the spec: `getProperty<uint64_t>(name)`; the property has to be present
and to hold an unsigned integer. -/
def getProperty_uint64 (s : ExecutionState) (name : String) : Except StepError Nat :=
  match s.properties.lookup name with
  | some (.uint n) => .ok n
  | some _ => .error .badGet
  | none => .error .bugCheck

/-- Modelled from the spec: `getProperty<bool>(name)`. -/
def getProperty_bool (s : ExecutionState) (name : String) : Except StepError Bool :=
  match s.properties.lookup name with
  | some (.bool b) => .ok b
  | some _ => .error .badGet
  | none => .error .bugCheck

/-- Modelled from the spec: `getProperty<const IR::Expression*>(name)`. -/
def getProperty_expr (s : ExecutionState) (name : String) : Except StepError Expr :=
  match s.properties.lookup name with
  | some (.expr e) => .ok e
  | some _ => .error .badGet
  | none => .error .bugCheck

/-- Modelled from the spec: `setProperty(name, value)` binds the property to the value. -/
def setProperty (s : ExecutionState) (name : String) (value : PropertyValue) :
    ExecutionState :=
  { s with properties := (name, value) :: s.properties }

/-- Modelled from the spec: `getTestObject(category, name, false)` looks the object up in
the category-keyed store; `none` is `nullptr`. -/
def getTestObject (s : ExecutionState) (category name : String) : Option TestObject :=
  s.testObjects.lookup (category, name)

/-- Modelled from the spec: `addTestObject(category, name, object)` stores the object under
the category and name, replacing an earlier one. -/
def addTestObject (s : ExecutionState) (category name : String) (object : TestObject) :
    ExecutionState :=
  { s with testObjects := ((category, name), object) :: s.testObjects }

/-- Modelled from the spec: `resetPacketBuffer()` empties the packet buffer. -/
def resetPacketBuffer (s : ExecutionState) : ExecutionState :=
  { s with packetBuffer := [] }

/-- Modelled from the spec: `getInputPacket()`, the input packet computed so far. -/
def getInputPacket (s : ExecutionState) : List Expr := s.inputPacket

/-- Modelled from the spec: `appendToPacketBuffer(expr)`. -/
def appendToPacketBuffer (s : ExecutionState) (es : List Expr) : ExecutionState :=
  { s with packetBuffer := s.packetBuffer ++ es }

/-- Modelled from the spec: `replaceTopBody(new-commands)` replaces the top command by the
given commands, the first of them on top. -/
def replaceTopBodyCmds (s : ExecutionState) (cmds : List Cmd) : ExecutionState :=
  { s with body := cmds ++ s.body.drop 1 }

end ExecutionState

/-- Modelled from the spec: `Bmv2RegisterValue::getCurrentValue(index)` (test_spec.cpp is
not among the listed sources) is the `Mux`-style lookup by index: starting from the initial
value, each recorded condition `(i, v)`, oldest first, wraps the lookup so far into
`Mux(i == index, v, lookup so far)`. -/
def TestObject.getCurrentValue (initialValue : Expr) (registerConditions : List (Expr × Expr))
    (index : Expr) : Expr :=
  registerConditions.foldl
    (fun baseExpr c => .mux baseExpr.type (Expr.equ c.1 index) c.2 baseExpr) initialValue

/-- Modelled from the spec: `Bmv2RegisterValue::addRegisterCondition(cond)` appends the
`(index, value)` condition. -/
def TestObject.addRegisterCondition (registerConditions : List (Expr × Expr))
    (cond : Expr × Expr) : List (Expr × Expr) :=
  registerConditions ++ [cond]

/-- A field `IR::StructField` of a struct-like type: its name, its resolved type, and the
expressions of its `@field_list` annotation (`none` when the field has no such
annotation). -/
structure StructField where
  name : String
  type : Ty
  field_list : Option (List Expr)
  deriving DecidableEq

/-- A parameter of a programmable block, seen as the reference `PathExpression(type, name)`
the externs build for it; `fields` are the fields of its type as declared, annotations
included, when that type is struct-like (`none` otherwise). -/
structure ParamRef where
  ref : StateVar
  fields : Option (List StructField)
  deriving DecidableEq

/-- What the BMv2 externs read from outside `bmv2/expr_stepper.cpp`: the core stepper; the
program information (`targetUninitialized`, the value `createTargetUninitialized` gives a
type when taint is not forced; the apply parameters of the `Ingress` block and the commands
`produceCopyInOutCall` appends for one of them; the block parameter
`getBlockParam("Parser", 2)`; `getPipelineSequence()` and the test for a control of the
egress); the target (`getPortNumWidth_bits()`); `IRUtils::getRandConstantForWidth`;
the node id `clone_id` of an expression; `ExecutionState::convertPathExpr`; the text
`dbprint` writes for an expression; and the constants of `BMv2Constants`. -/
structure BMv2_V1ModelExprStepper where
  core : ExprStepper
  targetUninitialized : Ty → Expr
  ingressParams : List ParamRef
  produceCopyInOutCall : ParamRef → Nat → List Cmd
  parserUserMetadata : ParamRef
  pipelineSequence : List Cmd
  isEgressControl : Cmd → Bool
  portNumWidth_bits : Nat
  getRandConstantForWidth : Nat → Expr
  clone_id : Expr → Nat
  convertPathExpr : StateVar → StateVar
  dbprint : Expr → String
  CLONE_TYPE_I2E : Nat
  CLONE_TYPE_E2E : Nat
  PKT_INSTANCE_TYPE_INGRESS_CLONE : Nat
  PKT_INSTANCE_TYPE_EGRESS_CLONE : Nat
  PKT_INSTANCE_TYPE_RECIRC : Nat
  PKT_INSTANCE_TYPE_RESUBMIT : Nat

namespace BMv2_V1ModelExprStepper

/-- Modelled from the spec: `programInfo.createTargetUninitialized(type, forceTaint)` is
not among the listed sources. With forced taint it is `Taint` of the type ("otherwise
assign taint", "the checksum will also be tainted"); without, it is the value the target
gives uninitialized data of that type. -/
def createTargetUninitialized (st : BMv2_V1ModelExprStepper) (type : Ty) (forceTaint : Bool) :
    Expr :=
  if forceTaint then .taint type else st.targetUninitialized type

/-- Modelled from the spec: `ExprStepper::setTargetUninitialized(nextState, ref,
forceTaint)` of the core stepper is not among the listed sources. It binds a reference of
base type, or each leaf field below a reference of struct-like type, to the
target-uninitialized value of its type. -/
def setTargetUninitialized (st : BMv2_V1ModelExprStepper) (nextState : ExecutionState)
    (ref : StateVar) (forceTaint : Bool) : ExecutionState :=
  if ref.type.isStructLike then
    (ExecutionState.getFlatFields ref.type ref).foldl
      (fun s f => s.set f (st.createTargetUninitialized f.type forceTaint)) nextState
  else nextState.set ref (st.createTargetUninitialized ref.type forceTaint)

/-- The function `BMv2_V1ModelExprStepper::isPartOfFieldList`. -/
def isPartOfFieldList (field : StructField) (recirculateIndex : Nat) : Except StepError Bool :=
  match field.field_list with
  | some annoExprs =>
    if annoExprs.length != 1 then .error .bugCheck
    else
      match annoExprs with
      | .constant _ annoVal :: _ => .ok (asUint64 annoVal == recirculateIndex)
      | _ => .error .bugCheck
  | none => .ok false

/-- The loop of `resetPreservingFieldList` over the fields of the struct. -/
def resetFields (st : BMv2_V1ModelExprStepper) (ref : StateVar) (recirculateIndex : Nat) :
    List StructField → ExecutionState → Except StepError ExecutionState
  | [], nextState => .ok nextState
  | field :: rest, nextState =>
    match isPartOfFieldList field recirculateIndex with
    | .error e => .error e
    | .ok true => resetFields st ref recirculateIndex rest nextState
    | .ok false =>
      let fieldLabel := StateVar.member field.type ref field.name
      resetFields st ref recirculateIndex rest
        (st.setTargetUninitialized nextState fieldLabel false)

/-- The function `BMv2_V1ModelExprStepper::resetPreservingFieldList`;
`checkedTo<IR::Type_StructLike>()` fails on a reference whose type is not struct-like. -/
def resetPreservingFieldList (st : BMv2_V1ModelExprStepper) (nextState : ExecutionState)
    (ref : ParamRef) (recirculateIndex : Nat) : Except StepError ExecutionState :=
  match ref.fields with
  | none => .error .bugCheck
  | some fields => resetFields st ref.ref recirculateIndex fields nextState

/-- The reference `*standard_metadata.<name>` the externs build; the path node is built
from the name alone, its type is not read. -/
def standardMetadata (type : Ty) (name : String) : StateVar :=
  .member type (.path (.structLike false []) "*standard_metadata") name

/-- The head of the recirculation externs: the recirculation count of the state, 0 when
the property is not set. -/
def recirculateCount (state : ExecutionState) : Except StepError Nat :=
  if state.hasProperty "recirculate_count" then state.getProperty_uint64 "recirculate_count"
  else .ok 0

/-- The successor of a recirculation extern that is past its limit: the call is replaced
by the internal method call `drop_and_exit`. -/
def dropAndExit (state : ExecutionState) : List Branch :=
  [⟨none, state.replaceTopBody (.methodCallStatement "drop_and_exit")⟩]

end BMv2_V1ModelExprStepper

namespace BMv2_V1ModelExprStepper

/-- The extern `resubmit_preserving_field_list(data)`. -/
def resubmit_preserving_field_list (st : BMv2_V1ModelExprStepper) (data : Expr)
    (state : ExecutionState) : Except StepError (List Branch) :=
  match recirculateCount state with
  | .error e => .error e
  | .ok recirculateCount =>
    if recirculateCount > 1 then .ok (dropAndExit state)
    else
      let nextState := state.setProperty "recirculate_count"
        (.uint ((recirculateCount + 1) % 2 ^ 64))
      let nextState := nextState.setProperty "recirculate_active" (.bool true)
      match data with
      | .constant _ index =>
        let nextState := nextState.setProperty "recirculate_index" (.uint (asUint64 index))
        let nextState := nextState.setProperty "recirculate_reset_pkt" (.bool true)
        let nextState := nextState.setProperty "recirculate_instance_type"
          (.uint st.PKT_INSTANCE_TYPE_RESUBMIT)
        .ok [⟨none, nextState.popBody⟩]
      | _ => .error .bugCheck

/-- The extern `recirculate_preserving_field_list(index)`. -/
def recirculate_preserving_field_list (st : BMv2_V1ModelExprStepper) (index : Expr)
    (state : ExecutionState) : Except StepError (List Branch) :=
  match recirculateCount state with
  | .error e => .error e
  | .ok recirculateCount =>
    if recirculateCount > 1 then .ok (dropAndExit state)
    else
      let nextState := state.setProperty "recirculate_count"
        (.uint ((recirculateCount + 1) % 2 ^ 64))
      let nextState := nextState.setProperty "recirculate_active" (.bool true)
      match index with
      | .constant _ index =>
        let nextState := nextState.setProperty "recirculate_index" (.uint (asUint64 index))
        let nextState := nextState.setProperty "recirculate_instance_type"
          (.uint st.PKT_INSTANCE_TYPE_RECIRC)
        .ok [⟨none, nextState.popBody⟩]
      | _ => .error .bugCheck

/-- The loop of `clone_preserving_field_list` over the apply parameters of the ingress:
the second parameter (the user metadata) is reset in the state, fields of the field list
excepted; for every other parameter the copy-in commands are collected. -/
def cloneCopyIn (st : BMv2_V1ModelExprStepper) (recirculateIndex : Nat) :
    List ParamRef → Nat → ExecutionState → List Cmd →
      Except StepError (ExecutionState × List Cmd)
  | [], _, nextState, cmds => .ok (nextState, cmds)
  | param :: rest, paramIdx, nextState, cmds =>
    if paramIdx == 1 then
      match st.resetPreservingFieldList nextState param recirculateIndex with
      | .error e => .error e
      | .ok nextState => cloneCopyIn st recirculateIndex rest (paramIdx + 1) nextState cmds
    else
      cloneCopyIn st recirculateIndex rest (paramIdx + 1) nextState
        (cmds ++ st.produceCopyInOutCall param paramIdx)

/-- The extern `clone_preserving_field_list(type, session, data)`. -/
def clone_preserving_field_list (st : BMv2_V1ModelExprStepper) (type session data : Expr)
    (state : ExecutionState) : Except StepError (List Branch) :=
  match recirculateCount state with
  | .error e => .error e
  | .ok recirculateCount =>
    if recirculateCount > 1 then .ok (dropAndExit state)
    else
      match [type, session, data].find? (fun arg => !isSymbolicValue arg) with
      | some argExpr => .ok (st.core.stepToSubexpr argExpr state)
      | none =>
        if [type, session, data].any state.hasTaint then .ok [⟨none, state.popBody⟩]
        else
          match type, data with
          | .constant _ cloneType, .constant _ recirculateIndex =>
            let cloneType := asUint64 cloneType
            let sessionIdExpr := session
            let recirculateIndex := asUint64 recirculateIndex
            if cloneType == st.CLONE_TYPE_I2E then
              let clonePortVar := st.getRandConstantForWidth st.portNumWidth_bits
              let name := toString (st.clone_id sessionIdExpr)
              let defaultState := state.addTestObject "clone_infos" name
                (.cloneInfo sessionIdExpr clonePortVar false)
              let defaultState := defaultState.popBody
              match cloneCopyIn st recirculateIndex st.ingressParams 0 state [] with
              | .error e => .error e
              | .ok (nextState, cmds) =>
                let cmds := cmds ++ [.exitStatement]
                let nextState := nextState.addTestObject "clone_infos" name
                  (.cloneInfo sessionIdExpr clonePortVar true)
                let nextState := nextState.resetPacketBuffer
                let bitType := getBitType 32
                let instanceTypeVar := standardMetadata bitType "instance_type"
                let nextState := nextState.set instanceTypeVar
                  (getConstant bitType st.PKT_INSTANCE_TYPE_INGRESS_CLONE)
                let nextState := nextState.replaceTopBodyCmds cmds
                .ok [⟨none, defaultState⟩, ⟨none, nextState⟩]
            else if cloneType == st.CLONE_TYPE_E2E then
              let nextState := state.setProperty "recirculate_count"
                (.uint ((recirculateCount + 1) % 2 ^ 64))
              let nextState := nextState.setProperty "recirculate_active" (.bool true)
              let nextState := nextState.setProperty "clone_active" (.bool true)
              let nextState := nextState.setProperty "recirculate_index"
                (.uint recirculateIndex)
              let nextState := nextState.setProperty "clone_session_id" (.expr sessionIdExpr)
              let nextState := nextState.setProperty "recirculate_instance_type"
                (.uint st.PKT_INSTANCE_TYPE_EGRESS_CLONE)
              .ok [⟨none, nextState.popBody⟩]
            else .error .testgenUnimplemented
          | _, _ => .error .bugCheck

end BMv2_V1ModelExprStepper

namespace BMv2_V1ModelExprStepper

/-- The extern `clone(type, session)`. -/
def clone (st : BMv2_V1ModelExprStepper) (type session : Expr) (state : ExecutionState) :
    Except StepError (List Branch) :=
  match recirculateCount state with
  | .error e => .error e
  | .ok recirculateCount =>
    if recirculateCount > 1 then .ok (dropAndExit state)
    else
      match [type, session].find? (fun arg => !isSymbolicValue arg) with
      | some argExpr => .ok (st.core.stepToSubexpr argExpr state)
      | none =>
        if [type, session].any state.hasTaint then .ok [⟨none, state.popBody⟩]
        else
          match type with
          | .constant _ cloneType =>
            let cloneType := asUint64 cloneType
            let sessionIdExpr := session
            let sessionId : Nat := 0
            if cloneType == st.CLONE_TYPE_I2E then
              let clonePortVar := st.getRandConstantForWidth st.portNumWidth_bits
              let name := toString (st.clone_id sessionIdExpr)
              let defaultState := state.addTestObject "clone_infos" name
                (.cloneInfo sessionIdExpr clonePortVar false)
              let defaultState := defaultState.popBody
              let cmds := (st.ingressParams.enum.map
                fun p => st.produceCopyInOutCall p.2 p.1).flatten
              let cmds := cmds ++ [.exitStatement]
              let nextState := state.addTestObject "clone_infos" name
                (.cloneInfo sessionIdExpr clonePortVar true)
              let nextState := nextState.resetPacketBuffer
              let bitType := getBitType 32
              let instanceTypeVar := standardMetadata bitType "instance_type"
              let nextState := nextState.set instanceTypeVar
                (getConstant bitType st.PKT_INSTANCE_TYPE_INGRESS_CLONE)
              let nextState := nextState.replaceTopBodyCmds cmds
              .ok [⟨none, defaultState⟩, ⟨none, nextState⟩]
            else if cloneType == st.CLONE_TYPE_E2E then
              let nextState := state.setProperty "recirculate_count"
                (.uint ((recirculateCount + 1) % 2 ^ 64))
              let nextState := nextState.setProperty "recirculate_active" (.bool true)
              let nextState := nextState.setProperty "clone_active" (.bool true)
              let nextState := nextState.setProperty "clone_session_id" (.uint sessionId)
              let nextState := nextState.setProperty "recirculate_instance_type"
                (.uint st.PKT_INSTANCE_TYPE_EGRESS_CLONE)
              .ok [⟨none, nextState.popBody⟩]
            else .error .testgenUnimplemented
          | _ => .error .bugCheck

/-- The index `egressDelim` that `check_recirculate` computes: the position of the first
control of the egress in the pipeline sequence, its length if there is none. -/
def egressDelim (st : BMv2_V1ModelExprStepper) : Nat :=
  st.pipelineSequence.findIdx st.isEgressControl

/-- The internal extern `check_recirculate()`. -/
def check_recirculate (st : BMv2_V1ModelExprStepper) (state : ExecutionState) :
    Except StepError (List Branch) :=
  let recState := state
  let recirculateActive : Except StepError Bool :=
    if state.hasProperty "recirculate_active" then state.getProperty_bool "recirculate_active"
    else .ok false
  match recirculateActive with
  | .error e => .error e
  | .ok false => .ok [⟨none, recState.popBody⟩]
  | .ok true =>
    let recirculateReset := state.hasProperty "recirculate_reset_pkt"
    let recState :=
      if recirculateReset then
        recState.resetPacketBuffer.appendToPacketBuffer recState.resetPacketBuffer.getInputPacket
      else recState
    let pktSizeType := st.core.packetSizeVarType
    let packetSizeVar := standardMetadata pktSizeType "packet_length"
    let packetSizeConst := getConstant pktSizeType (recState.getPacketBufferSize / 8)
    let recState := recState.set packetSizeVar packetSizeConst
    let reset : Except StepError ExecutionState :=
      if recState.hasProperty "recirculate_index" then
        match recState.getProperty_uint64 "recirculate_index" with
        | .error e => .error e
        | .ok recirculateIndex =>
          st.resetPreservingFieldList recState st.parserUserMetadata recirculateIndex
      else .ok recState
    match reset with
    | .error e => .error e
    | .ok recState =>
      match state.getProperty_uint64 "recirculate_instance_type" with
      | .error e => .error e
      | .ok instanceType =>
        let bitType := getBitType 32
        let instanceTypeVar := standardMetadata bitType "instance_type"
        let recState := recState.set instanceTypeVar (getConstant bitType instanceType)
        let recState := recState.setProperty "recirculate_active" (.bool false)
        let cloneActive : Except StepError Bool :=
          if state.hasProperty "clone_active" then state.getProperty_bool "clone_active"
          else .ok false
        match cloneActive with
        | .error e => .error e
        | .ok false => .ok [⟨none, recState.replaceTopBodyCmds st.pipelineSequence⟩]
        | .ok true =>
          let clonePortVar := st.getRandConstantForWidth st.portNumWidth_bits
          match state.getProperty_expr "clone_session_id" with
          | .error e => .error e
          | .ok sessionIdExpr =>
            let name := toString (st.clone_id sessionIdExpr)
            let defaultState := state.setProperty "clone_active" (.bool false)
            let defaultState := defaultState.addTestObject "clone_infos" name
              (.cloneInfo sessionIdExpr clonePortVar false)
            let defaultState := defaultState.popBody
            let blocks := st.pipelineSequence.drop (st.egressDelim - 2)
            let recState := recState.replaceTopBodyCmds blocks
            let recState := recState.addTestObject "clone_infos" name
              (.cloneInfo sessionIdExpr clonePortVar true)
            let recState := recState.setProperty "clone_active" (.bool false)
            let recState := recState.resetPacketBuffer
            .ok [⟨none, defaultState⟩, ⟨none, recState⟩]

end BMv2_V1ModelExprStepper

namespace BMv2_V1ModelExprStepper

/-- The member an output argument denotes: `convertPathExpr` of a path expression, the
member itself, `none` (`nullptr`) for any other expression. -/
def outputRef (st : BMv2_V1ModelExprStepper) : Expr → Option StateVar
  | .ref (.path t n) => some (st.convertPathExpr (.path t n))
  | .ref (.member t p n) => some (.member t p n)
  | _ => none

/-- The extern `hash(result, algo, base, data, max)`; `externName` is the name built from
the receiver and the declaration, `callId` the node id of the call. The declarations
handed to the concolic variable are not represented. -/
def hash (st : BMv2_V1ModelExprStepper) (externName : String) (callId : Nat)
    (result algo base data max : Expr) (state : ExecutionState) :
    Except StepError (List Branch) :=
  match [algo, base, data, max].find? (fun arg => !isSymbolicValue arg) with
  | some argExpr => .ok (st.core.stepToSubexpr argExpr state)
  | none =>
    let argsAreTainted := [algo, base, data, max].any state.hasTaint
    let hashOutput := result
    if hashOutput.type.isBits then
      match st.outputRef hashOutput with
      | none => .error .testgenUnimplemented
      | some fieldRef =>
        let nextState :=
          if argsAreTainted then
            state.set fieldRef (st.createTargetUninitialized fieldRef.type false)
          else
            state.set fieldRef (.concolicVariable fieldRef.type externName
              (Args.ofList [result, algo, base, data, max]) callId 0)
        .ok [⟨none, nextState.popBody⟩]
    else .error .testgenUnimplemented

/-- The name under which the register object of a receiver is stored:
`convertPathExpr(receiverPath)->toString()`; the receiver has to be a path expression. -/
def externInstance (st : BMv2_V1ModelExprStepper) : StateVar → Except StepError String
  | .path t n => .ok (st.convertPathExpr (.path t n)).toString
  | .member _ _ _ => .error .bugCheck

/-- The extern `register.read(result, index)`. -/
def register_read (st : BMv2_V1ModelExprStepper) (receiver : StateVar) (result index : Expr)
    (state : ExecutionState) : Except StepError (List Branch) :=
  if !isSymbolicValue index then .ok (st.core.stepToSubexpr index state)
  else
    let readOutput := result
    match st.externInstance receiver with
    | .error e => .error e
    | .ok externInstance =>
      let registerValue : Except StepError (ExecutionState × Expr × List (Expr × Expr)) :=
        match state.getTestObject "registervalues" externInstance with
        | some (.registerValue initialValue conds) => .ok (state, initialValue, conds)
        | some _ => .error .bugCheck
        | none =>
          let inputValue := st.createTargetUninitialized readOutput.type false
          .ok (state.addTestObject "registervalues" externInstance
            (.registerValue inputValue []), inputValue, [])
      match registerValue with
      | .error e => .error e
      | .ok (nextState, initialValue, conds) =>
        let baseExpr := TestObject.getCurrentValue initialValue conds index
        if readOutput.type.isBits then
          let replacements := [Cmd.assignmentStatement readOutput baseExpr]
          let nextState := nextState.add (.generic
            ("RegisterRead: Index " ++ st.dbprint index ++ " into field " ++
              st.dbprint readOutput))
          .ok [⟨none, nextState.replaceTopBodyCmds replacements⟩]
        else .error .testgenUnimplemented

/-- The extern `register.write(index, value)`. A value of type `Type_InfInt`, which the
extern accepts as well, is not represented among the types. -/
def register_write (st : BMv2_V1ModelExprStepper) (receiver : StateVar) (index value : Expr)
    (state : ExecutionState) : Except StepError (List Branch) :=
  let inputValue := value
  if !inputValue.type.isBits then .error .testgenUnimplemented
  else
    match [index, value].find? (fun arg => !isSymbolicValue arg) with
    | some argExpr => .ok (st.core.stepToSubexpr argExpr state)
    | none =>
      match st.externInstance receiver with
      | .error e => .error e
      | .ok externInstance =>
        let nextState := state.add (.generic
          ("RegisterWrite: Value " ++ st.dbprint inputValue ++ " into index " ++
            st.dbprint index))
        let registerValue : Except StepError TestObject :=
          match nextState.getTestObject "registervalues" externInstance with
          | some (.registerValue initialValue conds) =>
            .ok (.registerValue initialValue
              (TestObject.addRegisterCondition conds (index, inputValue)))
          | some _ => .error .bugCheck
          | none =>
            let writeValue := st.createTargetUninitialized inputValue.type false
            .ok (.registerValue writeValue
              (TestObject.addRegisterCondition [] (index, inputValue)))
        match registerValue with
        | .error e => .error e
        | .ok registerValue =>
          let nextState := nextState.addTestObject "registervalues" externInstance
            registerValue
          .ok [⟨none, nextState.popBody⟩]

end BMv2_V1ModelExprStepper

namespace BMv2_V1ModelExprStepper

/-- The extern `verify_checksum(condition, data, checksum, algo)`; `callId` is the node id
of the call. -/
def verify_checksum (st : BMv2_V1ModelExprStepper) (callId : Nat)
    (condition data checksum algo : Expr) (state : ExecutionState) :
    Except StepError (List Branch) :=
  match [condition, data, checksum, algo].find? (fun arg => !isSymbolicValue arg) with
  | some argExpr => .ok (st.core.stepToSubexpr argExpr state)
  | none =>
    let argsAreTainted := [condition, data, checksum, algo].any state.hasTaint
    let verifyCond := condition
    let checksumValue := checksum
    let checksumValueType := checksumValue.type
    let oneBitType := getBitType 1
    let checksumErr := standardMetadata oneBitType "checksum_error"
    if argsAreTainted then
      let taintedState := state.set checksumErr
        (st.createTargetUninitialized checksumErr.type true)
      .ok [⟨none, taintedState.popBody⟩]
    else
      let checksumArgs := Args.ofList [checksumValue, algo, data]
      let concolicVar :=
        Expr.concolicVariable checksumValueType "*method_checksum" checksumArgs callId 0
      let assign := Cmd.assignmentStatement (.ref checksumErr) (getConstant oneBitType 1)
      .ok [⟨some (Expr.land (Expr.equ concolicVar checksumValue) verifyCond), state.popBody⟩,
           ⟨some (Expr.land verifyCond (Expr.neq concolicVar checksumValue)),
            state.replaceTopBodyCmds [assign]⟩,
           ⟨some (.lnot verifyCond), state.popBody⟩]

/-- The extern `update_checksum(condition, data, checksum, algo)`. -/
def update_checksum (st : BMv2_V1ModelExprStepper) (callId : Nat)
    (condition data checksum algo : Expr) (state : ExecutionState) :
    Except StepError (List Branch) :=
  match [condition, data].find? (fun arg => !isSymbolicValue arg) with
  | some argExpr => .ok (st.core.stepToSubexpr argExpr state)
  | none =>
    let argsAreTainted := [condition, data].any state.hasTaint
    match checksum with
    | .ref checksumVar =>
      let updateCond := condition
      let checksumVarType := checksumVar.type
      if argsAreTainted then
        let taintedState := state.set checksumVar
          (st.createTargetUninitialized checksumVarType true)
        .ok [⟨none, taintedState.popBody⟩]
      else
        let checksumArgs := Args.ofList [checksum, algo, data]
        let concolicVar :=
          Expr.concolicVariable checksumVarType "*method_checksum" checksumArgs callId 0
        .ok [⟨some updateCond, (state.set checksumVar concolicVar).popBody⟩,
             ⟨some (.lnot updateCond), state.popBody⟩]
    | _ => .error .testgenUnimplemented

end BMv2_V1ModelExprStepper

/-- Value of a register lookup: a `Mux` takes the value of the branch its condition
selects; any other expression is an arithmetic expression. -/
def Expr.evalMux (σ : String → Int) : Expr → Option Int
  | .mux _ c t e =>
    match c.evalBool σ with
    | some true => t.evalMux σ
    | some false => e.evalMux σ
    | none => none
  | e => e.evalInt σ

namespace Example

/-- The user metadata of the documented example: `x` with `@field_list(1)`, `y` with
`@field_list(1, 2)`, `z` without annotation, all `bit<32>`. -/
def documentedFields : List StructField :=
  [⟨"x", .bits 32 false, some [.constant (.bits 32 false) 1]⟩,
   ⟨"y", .bits 32 false, some [.constant (.bits 32 false) 1, .constant (.bits 32 false) 2]⟩,
   ⟨"z", .bits 32 false, none⟩]

/-- User metadata in which every annotation lists a single index: `x` with
`@field_list(1)`, `z` without annotation. -/
def metaFields : List StructField :=
  [⟨"x", .bits 32 false, some [.constant (.bits 32 false) 1]⟩, ⟨"z", .bits 32 false, none⟩]

/-- The struct type declared by a list of fields. -/
def structOf (fields : List StructField) : Ty :=
  .structLike false (fields.map fun f => (f.name, f.type))

/-- The parameter `meta` with the given fields. -/
def metaParam (fields : List StructField) : ParamRef :=
  { ref := .path (structOf fields) "meta", fields := some fields }

/-- A BMv2 configuration: uninitialized data is 0 (the externs speak of resetting "the user
metadata of the v1model program to 0"), the ingress has the parameters `hdr`, `meta` and
`standard_metadata`, the pipeline runs parser, ingress, egress and deparser, and the
constants have the values of v1model. -/
def bmv2 : BMv2_V1ModelExprStepper :=
  { core := stepper,
    targetUninitialized := fun t => .constant t 0,
    ingressParams := [{ ref := hdrs, fields := none }, metaParam metaFields,
      { ref := .path (.structLike false []) "standard_metadata", fields := none }],
    produceCopyInOutCall := fun p _ => [.methodCallStatement ("copy_in " ++ p.ref.toString)],
    parserUserMetadata := metaParam metaFields,
    pipelineSequence := [.node "parser", .node "ingress", .node "egress", .node "deparser"],
    isEgressControl := fun c => c == .node "egress",
    portNumWidth_bits := 9,
    getRandConstantForWidth := fun w => .constant (getBitType w) 5,
    clone_id := fun e => match e with
      | .constant _ v => v.toNat
      | _ => 0,
    convertPathExpr := fun v => v,
    dbprint := fun e => match e with
      | .constant _ _ => "const"
      | _ => "expr",
    CLONE_TYPE_I2E := 0, CLONE_TYPE_E2E := 1,
    PKT_INSTANCE_TYPE_INGRESS_CLONE := 1, PKT_INSTANCE_TYPE_EGRESS_CLONE := 2,
    PKT_INSTANCE_TYPE_RECIRC := 4, PKT_INSTANCE_TYPE_RESUBMIT := 6 }

/-- A state of the first pass through the pipeline: the user metadata holds values, the
packet buffer holds the packet as built so far, no recirculation has been requested. -/
def bmv2State : ExecutionState :=
  { env := [(["meta", "x"], .constant (.bits 32 false) 10),
            (["meta", "y"], .constant (.bits 32 false) 20),
            (["meta", "z"], .constant (.bits 32 false) 30)],
    packetBuffer := [.symbolicVar (.bits 16 false) "deparsed"], emitBuffer := [],
    inputPacketCursor := 0, pathConstraint := [], trace := [], properties := [],
    currentParserErrorLabel := .path (.bits 32 false) "*parser_error",
    body := [.node "call", .node "next"],
    inputPacket := [.symbolicVar (.bits 32 false) "input"] }

end Example

/-- Two steps in a row on a path without a branch: the second step runs on the single
successor of the first. -/
def stepThen (first : Except StepError (List Branch))
    (second : ExecutionState → Except StepError (List Branch)) :
    Except StepError (List Branch) :=
  match first with
  | .ok [b] => second b.nextState
  | .ok _ => .error .bugCheck
  | .error e => .error e

/-- The register object the register externs work on for a name: the one stored in the
state, or else a fresh one whose initial value is the target-uninitialized value of the
given type and which has no conditions. -/
def BMv2_V1ModelExprStepper.registerContents (st : BMv2_V1ModelExprStepper)
    (state : ExecutionState) (name : String) (type : Ty) : Expr × List (Expr × Expr) :=
  match state.getTestObject "registervalues" name with
  | some (.registerValue initialValue conds) => (initialValue, conds)
  | _ => (st.createTargetUninitialized type false, [])

namespace BMv2_V1ModelExprStepper

/-- The implementation `AssertAssumeExecute` shared by the externs `assert(check)` and
`assume(check)`; `methodName` is the name of the method called. -/
def AssertAssumeExecute (st : BMv2_V1ModelExprStepper) (methodName : String) (cond : Expr)
    (state : ExecutionState) : Except StepError (List Branch) :=
  if !isSymbolicValue cond then .ok (st.core.stepToSubexpr cond state)
  else if state.hasTaint cond then .error .testgenUnimplemented
  else
    let upCasename := methodName.toUpper
    let condStream := upCasename ++ " Condition: " ++ st.dbprint cond
    let nextState := state.popBody
    let nextState := nextState.add (.generic (upCasename ++ ": true condition "))
    let nextState := nextState.add (.generic condStream)
    let falseState := state.add (.generic (upCasename ++ ": false condition"))
    let falseState := falseState.add (.generic condStream)
    let falseState := falseState.replaceTopBody (.exception .abort)
    .ok [⟨some cond, nextState⟩, ⟨some (.lnot cond), falseState⟩]

/-- The extern `counter.count(index)`: it only warns that it is not fully implemented. -/
def counter_count (state : ExecutionState) : Except StepError (List Branch) :=
  .ok [⟨none, state.popBody⟩]

/-- The extern `direct_counter.count()`: it only warns that it is not fully
implemented. -/
def direct_counter_count (state : ExecutionState) : Except StepError (List Branch) :=
  .ok [⟨none, state.popBody⟩]

/-- The extern `meter.execute_meter(index, result)`: it only warns that it is not fully
implemented. -/
def meter_execute_meter (state : ExecutionState) : Except StepError (List Branch) :=
  .ok [⟨none, state.popBody⟩]

/-- The extern `direct_meter.read(result)`: it only warns that it is not fully
implemented. -/
def direct_meter_read (state : ExecutionState) : Except StepError (List Branch) :=
  .ok [⟨none, state.popBody⟩]

/-- The extern `digest(receiver, data)`: it only warns that it is not fully implemented. -/
def digest (state : ExecutionState) : Except StepError (List Branch) :=
  .ok [⟨none, state.popBody⟩]

end BMv2_V1ModelExprStepper

/-! # The BMv2 table stepper

A shallow embedding of `backends/p4tools/testgen/targets/bmv2/table_stepper.cpp`. The
members of the stepper are a record that the functions pass along; what the functions read
from the core table stepper and from the execution state is a record of parameters. -/

/-- The options `TestgenOptions::get()` the table stepper and the exploration strategy
read. -/
structure TestgenOptions where
  testBackend : String
  permissive : Bool
  deriving DecidableEq

/-- Modelled from the spec: the match kinds `BMv2Constants::MATCH_KIND_OPT`,
`MATCH_KIND_SELECTOR` and `MATCH_KIND_RANGE` (constants.h is not among the listed
sources) are the names `optional`, `selector` and `range`. -/
def BMv2Constants.MATCH_KIND_OPT : String := "optional"
/-- Modelled from the spec: the match kind `selector`. -/
def BMv2Constants.MATCH_KIND_SELECTOR : String := "selector"
/-- Modelled from the spec: the match kind `range`. -/
def BMv2Constants.MATCH_KIND_RANGE : String := "range"

/-- Modelled from the spec: `ExecutionState::createZombieConst(type, name)` hands out the
zombie constant of that type and name and records it among the allocated zombies. -/
def ExecutionState.createZombieConst (s : ExecutionState) (type : Ty) (name : String) :
    Expr × ExecutionState :=
  (.symbolicVar type name,
   if Expr.symbolicVar type name ∈ s.allocatedZombies then s
   else { s with allocatedZombies := .symbolicVar type name :: s.allocatedZombies })

/-- A table key `IR::KeyElement`: its expression and the name of its match kind. -/
structure KeyElement where
  expression : Expr
  matchType : String
  deriving DecidableEq

/-- The record `KeyProperties` of the core table stepper: the key, its control-plane name,
its match kind and whether its expression is tainted. -/
structure KeyProperties where
  key : KeyElement
  name : String
  matchType : String
  isTainted : Bool
  deriving DecidableEq

/-- The matches `FieldMatch` a table rule is made of. -/
inductive FieldMatch where
  | exact (key : KeyElement) (value : Expr)
  | ternary (key : KeyElement) (value mask : Expr)
  | lpm (key : KeyElement) (value : Expr) (prefixLength : Expr)
  | range (key : KeyElement) (low high : Expr)
  deriving DecidableEq

/-- The operation `std::map::emplace`: the entry is added unless the key is taken. -/
def emplace (fieldMatches : List (String × FieldMatch)) (name : String) (fieldMatch : FieldMatch) :
    List (String × FieldMatch) :=
  match fieldMatches.lookup name with
  | some _ => fieldMatches
  | none => fieldMatches ++ [(name, fieldMatch)]

/-- The record `TableProperties` of the core table stepper, as far as the BMv2 table
stepper reads it. -/
structure TableProperties where
  tableName : String
  tableIsTainted : Bool
  tableIsImmutable : Bool
  resolvedKeys : List KeyProperties
  deriving DecidableEq

/-- The implementations `TableImplementation` of a table. -/
inductive TableImplementation where
  | standard | selector | profile | skip | constant
  deriving DecidableEq

/-- The test object `Bmv2_V1ModelActionProfile`: the declaration it belongs to and its
action map. -/
structure Bmv2_V1ModelActionProfile where
  profileDecl : String
  actionMap : List (String × List Expr)
  deriving DecidableEq

/-- The record `BMv2_V1ModelProperties` of the BMv2 table stepper. -/
structure BMv2_V1ModelProperties where
  actionProfile : Option Bmv2_V1ModelActionProfile
  actionSelectorKeys : List Expr
  addProfileToState : Bool
  implementaton : TableImplementation
  deriving DecidableEq

/-- An extern declaration as the table stepper reads it: the name of the extern type, its
control-plane name, and the name of the declaration that stands for the implementation
(the extern type itself for a constructor call, the instance for a path). -/
structure ExternDecl where
  name : String
  controlPlaneName : String
  declName : String
  deriving DecidableEq

/-- The value of the table property `implementation`. For a constructor call and for a
path the extern is `none` when one of the `checkedTo` conversions on the way to the extern
type fails. -/
inductive ImplValue where
  | constructorCall (implExtern : Option ExternDecl)
  | pathExpression (implExtern : Option ExternDecl)
  | otherExpression
  | notAnExpression
  deriving DecidableEq

/-- The members of `BMv2_V1ModelTableStepper`: the properties of the table, the BMv2
properties, the table property `implementation` (`none` for `nullptr`) and the branches
appended to the result of the step. -/
structure BMv2_V1ModelTableStepper where
  properties : TableProperties
  bmv2_V1ModelProperties : BMv2_V1ModelProperties
  implementation : Option ImplValue
  result : List Branch
  deriving DecidableEq

/-- What the BMv2 table stepper reads from outside `table_stepper.cpp`: the core function
`TableStepper::computeTargetMatchType`; the object the state holds for
`getTestObject("action_profile", name, false)` (`none` for `nullptr`, `some none` for an
object of another class); and the branches that `evalTableConstEntries` (together with the
miss condition it returns), `evalTableControlEntries` and `addDefaultAction` of the core
stepper append to the result. The branches of `evalTableActionProfile` are taken as given
too: they are built with helpers of the core stepper (`computeHit`, `setTableAction`, the
table variables) that are not among the listed sources. The helper
`IRUtils::getMaxBvVal(type)`, the upper end of the range a tainted key is matched on, is
not among the listed sources either and is taken as given. -/
structure TableStepper where
  computeTargetMatchType : ExecutionState → KeyProperties → List (String × FieldMatch) →
    Expr → Except StepError (ExecutionState × List (String × FieldMatch) × Expr)
  getMaxBvVal : Ty → Int
  storedActionProfile : String → Option (Option Bmv2_V1ModelActionProfile)
  evalTableActionProfile : BMv2_V1ModelTableStepper → List Expr → List Branch
  evalTableConstEntries : BMv2_V1ModelTableStepper → Expr × List Branch
  evalTableControlEntries : BMv2_V1ModelTableStepper → List Expr → List Branch
  addDefaultAction : BMv2_V1ModelTableStepper → Option Expr → List Branch

/-- What `computeTargetMatchType` leaves behind: the members of the stepper, the state,
the matches, and the hit condition it returns. -/
structure MatchTypeResult where
  self : BMv2_V1ModelTableStepper
  nextState : ExecutionState
  fieldMatches : List (String × FieldMatch)
  hitCondition : Expr
  deriving DecidableEq

namespace BMv2_V1ModelTableStepper

/-- The function `BMv2_V1ModelTableStepper::computeTargetMatchType`. -/
def computeTargetMatchType (core : TableStepper) (options : TestgenOptions)
    (self : BMv2_V1ModelTableStepper) (nextState : ExecutionState)
    (keyProperties : KeyProperties) (fieldMatches : List (String × FieldMatch))
    (hitCondition : Expr) : Except StepError MatchTypeResult :=
  let keyExpr := keyProperties.key.expression
  if keyProperties.matchType == BMv2Constants.MATCH_KIND_OPT then
    .ok ⟨self, nextState, fieldMatches, hitCondition⟩
  else if keyProperties.matchType == BMv2Constants.MATCH_KIND_SELECTOR then
    .ok ⟨{ self with bmv2_V1ModelProperties :=
            { self.bmv2_V1ModelProperties with
              actionSelectorKeys := self.bmv2_V1ModelProperties.actionSelectorKeys ++ [keyExpr] } },
         nextState, fieldMatches, hitCondition⟩
  else if keyProperties.matchType == BMv2Constants.MATCH_KIND_RANGE
      && options.testBackend != "STF" then
    let minName := self.properties.tableName ++ "_range_min_" ++ keyProperties.name
    let maxName := self.properties.tableName ++ "_range_max_" ++ keyProperties.name
    if keyProperties.isTainted then
      let minKey := getConstant keyExpr.type 0
      let maxKey := getConstant keyExpr.type (core.getMaxBvVal keyExpr.type)
      let keyExpr := minKey
      .ok ⟨self, nextState,
        emplace fieldMatches keyProperties.name (.range keyProperties.key minKey maxKey),
        Expr.land hitCondition (Expr.land (Expr.land (Expr.lss minKey maxKey)
          (Expr.leq minKey keyExpr)) (Expr.leq keyExpr maxKey))⟩
    else
      let minZombie := nextState.createZombieConst keyExpr.type minName
      let minKey := minZombie.1
      let maxZombie := minZombie.2.createZombieConst keyExpr.type maxName
      let maxKey := maxZombie.1
      .ok ⟨self, maxZombie.2,
        emplace fieldMatches keyProperties.name (.range keyProperties.key minKey maxKey),
        Expr.land hitCondition (Expr.land (Expr.land (Expr.lss minKey maxKey)
          (Expr.leq minKey keyExpr)) (Expr.leq keyExpr maxKey))⟩
  else
    match core.computeTargetMatchType nextState keyProperties fieldMatches hitCondition with
    | .error e => .error e
    | .ok (nextState, fieldMatches, hitCondition) =>
      .ok ⟨self, nextState, fieldMatches, hitCondition⟩

/-- The body shared by `checkForActionProfile` and `checkForActionSelector`: the extern of
the table property `implementation`, or the answer `false` when there is no such
property. -/
def implementationExtern (self : BMv2_V1ModelTableStepper) :
    Except StepError (Option ExternDecl) :=
  match self.implementation with
  | none => .ok none
  | some .notAnExpression => .error .bugCheck
  | some (.constructorCall none) => .error .bugCheck
  | some (.constructorCall (some implExtern)) => .ok (some implExtern)
  | some (.pathExpression none) => .error .bugCheck
  | some (.pathExpression (some implExtern)) => .ok (some implExtern)
  | some .otherExpression => .error .testgenUnimplemented

/-- The tail shared by `checkForActionProfile` and `checkForActionSelector`, for an extern
of the name looked for: the action profile stored in the state is taken over, or a new one
is set up to be added to the state. -/
def takeActionProfile (core : TableStepper) (self : BMv2_V1ModelTableStepper)
    (implExtern : ExternDecl) : Except StepError (Bool × BMv2_V1ModelTableStepper) :=
  match core.storedActionProfile implExtern.controlPlaneName with
  | none =>
    .ok (true, { self with bmv2_V1ModelProperties :=
      { self.bmv2_V1ModelProperties with
        addProfileToState := true,
        actionProfile := some ⟨implExtern.declName, []⟩ } })
  | some none => .error .bugCheck
  | some (some testObject) =>
    .ok (true, { self with bmv2_V1ModelProperties :=
      { self.bmv2_V1ModelProperties with
        actionProfile := some testObject,
        addProfileToState := false } })

/-- The function `BMv2_V1ModelTableStepper::checkForActionProfile`. -/
def checkForActionProfile (core : TableStepper) (self : BMv2_V1ModelTableStepper) :
    Except StepError (Bool × BMv2_V1ModelTableStepper) :=
  match self.implementationExtern with
  | .error e => .error e
  | .ok none => .ok (false, self)
  | .ok (some implExtern) =>
    if implExtern.name != "action_profile" then .ok (false, self)
    else takeActionProfile core self implExtern

/-- The function `BMv2_V1ModelTableStepper::checkForActionSelector`. -/
def checkForActionSelector (core : TableStepper) (self : BMv2_V1ModelTableStepper) :
    Except StepError (Bool × BMv2_V1ModelTableStepper) :=
  match self.implementationExtern with
  | .error e => .error e
  | .ok none => .ok (false, self)
  | .ok (some selectorExtern) =>
    if selectorExtern.name != "action_selector" then .ok (false, self)
    else takeActionProfile core self selectorExtern

end BMv2_V1ModelTableStepper

namespace BMv2_V1ModelTableStepper

/-- The loop of `checkTargetProperties` over the resolved keys: the flag `tableIsTainted`
it leaves behind, and whether it returned from the function. -/
def checkKeys (tableIsImmutable : Bool) : List KeyProperties → Bool → Bool × Bool
  | [], tableIsTainted => (tableIsTainted, false)
  | keyProperties :: rest, tableIsTainted =>
    let keyElement := keyProperties.key
    let keyIsTainted :=
      keyProperties.isTainted && (tableIsImmutable || keyElement.matchType == "exact")
    let tableIsTainted := tableIsTainted || keyIsTainted
    if tableIsTainted then (tableIsTainted, true)
    else checkKeys tableIsImmutable rest tableIsTainted

/-- The part of `checkTargetProperties` after the loop: the checks for an action profile
and for an action selector. -/
def checkImplementation (core : TableStepper) (self : BMv2_V1ModelTableStepper) :
    Except StepError BMv2_V1ModelTableStepper :=
  match checkForActionProfile core self with
  | .error e => .error e
  | .ok (true, self) =>
    .ok { self with bmv2_V1ModelProperties :=
      { self.bmv2_V1ModelProperties with implementaton := .profile } }
  | .ok (false, self) =>
    match checkForActionSelector core self with
    | .error e => .error e
    | .ok (true, self) =>
      .ok { self with bmv2_V1ModelProperties :=
        { self.bmv2_V1ModelProperties with implementaton := .profile } }
    | .ok (false, self) => .ok self

/-- The function `BMv2_V1ModelTableStepper::checkTargetProperties`. -/
def checkTargetProperties (core : TableStepper) (self : BMv2_V1ModelTableStepper) :
    Except StepError BMv2_V1ModelTableStepper :=
  let checked := checkKeys self.properties.tableIsImmutable self.properties.resolvedKeys
    self.properties.tableIsTainted
  let self := { self with properties := { self.properties with tableIsTainted := checked.1 } }
  if checked.2 then .ok self
  else checkImplementation core self

/-- The function `BMv2_V1ModelTableStepper::evalTargetTable`; `tableActionList` holds the
expressions of the action list. -/
def evalTargetTable (core : TableStepper) (options : TestgenOptions)
    (self : BMv2_V1ModelTableStepper) (tableActionList : List Expr) :
    Except StepError BMv2_V1ModelTableStepper :=
  let tableMissCondition : Option Expr := none
  let self :=
    if self.properties.tableIsImmutable then
      { self with bmv2_V1ModelProperties :=
        { self.bmv2_V1ModelProperties with implementaton := .constant } }
    else self
  let entries : Except StepError (Option Expr × List Branch) :=
    match self.bmv2_V1ModelProperties.implementaton with
    | .selector => .error .testgenUnimplemented
    | .profile =>
      if options.testBackend == "PTF-P4" then
        .ok (tableMissCondition, core.evalTableActionProfile self tableActionList)
      else .ok (tableMissCondition, [])
    | .skip => .ok (tableMissCondition, [])
    | .constant =>
      let constEntries := core.evalTableConstEntries self
      .ok (some constEntries.1, constEntries.2)
    | .standard => .ok (tableMissCondition, core.evalTableControlEntries self tableActionList)
  match entries with
  | .error e => .error e
  | .ok (tableMissCondition, branches) =>
    .ok { self with
      result := self.result ++ branches ++ core.addDefaultAction self tableMissCondition }

end BMv2_V1ModelTableStepper

namespace Example

/-- The key `hdr.k` of a table, an 8-bit field. -/
def keyExpr : Expr := .symbolicVar (.bits 8 false) "k"

/-- A key with the given match kind and taint. -/
def keyOf (matchType : String) (isTainted : Bool) : KeyProperties :=
  { key := { expression := keyExpr, matchType := matchType }, name := "hdr.k",
    matchType := matchType, isTainted := isTainted }

/-- The members of the stepper of a table `t` with the given keys and no property
`implementation`. -/
def tableOf (tableIsImmutable : Bool) (resolvedKeys : List KeyProperties) : BMv2_V1ModelTableStepper :=
  { properties :=
      { tableName := "t", tableIsTainted := false,
        tableIsImmutable := tableIsImmutable, resolvedKeys := resolvedKeys },
    bmv2_V1ModelProperties :=
      { actionProfile := none, actionSelectorKeys := [],
        addProfileToState := false, implementaton := .standard },
    implementation := none, result := [] }

/-- The hit condition of the one entry the control plane synthesizes in the example: the
key equals a zombie constant. -/
def hitCond : Expr := Expr.equ keyExpr (.symbolicVar (.bits 8 false) "t_key_hdr.k")

/-- A core table stepper for the example: one synthesized entry whose hit runs the action,
a constant entry list with one entry, and a default action that is guarded by the miss
condition it is given. The keys of the example are unsigned, and the largest value of
their type is `2^w - 1` for the width `w`. -/
def tableCore : TableStepper :=
  { computeTargetMatchType := fun nextState _ fieldMatches hitCondition =>
      .ok (nextState, fieldMatches, hitCondition),
    getMaxBvVal := fun type => 2 ^ type.width_bits - 1,
    storedActionProfile := fun _ => none,
    evalTableActionProfile := fun _ _ => [],
    evalTableConstEntries := fun _ =>
      (.lnot hitCond, [⟨some hitCond, bmv2State.replaceTopBody (.node "action")⟩]),
    evalTableControlEntries := fun _ _ =>
      [⟨some hitCond, bmv2State.replaceTopBody (.node "action")⟩],
    addDefaultAction := fun _ tableMissCondition =>
      [⟨tableMissCondition, bmv2State.replaceTopBody (.node "default_action")⟩] }

/-- Options of a run with the PTF backend. -/
def options : TestgenOptions := { testBackend := "PTF-P4", permissive := true }

end Example

/-! # The linear enumeration strategy

A shallow embedding of
`backends/p4tools/testgen/core/exploration_strategy/linear_enumeration.cpp`. -/

/-- Modelled from the spec: `ExecutionState::isTerminal()`; a state is terminal when its
continuation is empty or its top is a resolved value. -/
def ExecutionState.isTerminal (s : ExecutionState) : Bool :=
  match s.body with
  | [] => true
  | .ret (some v) :: _ => isSymbolicValue v
  | _ => false

/-- What the strategy reads from its base class `ExplorationStrategy`: the solver call
`solver.checkSat` on a path constraint (`none` is a timeout) and `step`, the small-step
evaluator, which may raise. -/
structure ExplorationStrategy where
  checkSat : List Expr → Option Bool
  step : ExecutionState → Except StepError (List Branch)

/-- The members of `LinearEnumeration`: `maxBound`, as the unsigned value the size of the
pool is compared with, and the pool `exploredBranches`. For the sake of the statements the
record also logs the path constraints handed to the solver and the states handed to
`step`, oldest first. -/
structure LinearEnumeration where
  maxBound : Nat
  exploredBranches : List Branch
  solverQueries : List (List Expr)
  stepped : List ExecutionState
  deriving DecidableEq

namespace LinearEnumeration

/-- One call of `LinearEnumeration::mapBranch`, up to its recursive calls: the members
after the call and the successors on which the call invokes `mapBranch` in turn, in the
order of the loop. An unguarded branch carries the literal `true` as its constraint. -/
def mapBranch (base : ExplorationStrategy) (self : LinearEnumeration) (branch : Branch) :
    Except StepError (LinearEnumeration × List Branch) :=
  if self.exploredBranches.length ≥ self.maxBound then .ok (self, [])
  else if branch.constraint = some (.boolLiteral false) then .ok (self, [])
  else
    let solverResult := base.checkSat branch.nextState.pathConstraint
    let self :=
      { self with solverQueries := self.solverQueries ++ [branch.nextState.pathConstraint] }
    if solverResult = none ∨ solverResult = some false then .ok (self, [])
    else
      let state := branch.nextState
      if state.isTerminal then
        .ok ({ self with exploredBranches := self.exploredBranches ++ [branch] }, [])
      else
        match base.step state with
        | .error e => .error e
        | .ok successors => .ok ({ self with stepped := self.stepped ++ [state] }, successors)

end LinearEnumeration

/-- The exploration that fills the pool: the members of the strategy, the calls of
`mapBranch` that are still to be made (the branches the running loops have not reached
yet, next call first), and the exception that ended the exploration, if any. -/
structure Exploration where
  strategy : LinearEnumeration
  pending : List Branch
  thrown : Option StepError
  deriving DecidableEq

namespace Exploration

/-- The next call of `mapBranch`: the call is made on the first pending branch, and the
recursive calls it asks for come before the branches that were pending. An exception
raised by `step` ends the exploration. -/
def next (base : ExplorationStrategy) (e : Exploration) : Exploration :=
  match e.thrown, e.pending with
  | some _, _ => e
  | none, [] => e
  | none, branch :: rest =>
    match e.strategy.mapBranch base branch with
    | .error err => { e with thrown := some err }
    | .ok (strategy, successors) =>
      { strategy := strategy, pending := successors ++ rest, thrown := none }

/-- The exploration after `n` further calls of `mapBranch`. -/
def run (base : ExplorationStrategy) : Nat → Exploration → Exploration
  | 0, e => e
  | n + 1, e => run base n (next base e)

end Exploration

/-- The constructor `LinearEnumeration::LinearEnumeration`: the pool is empty, the initial
state is stepped, and `mapBranch` is to be called on each initial successor. -/
def LinearEnumeration.create (base : ExplorationStrategy) (linearEnumeration : Nat)
    (executionState : ExecutionState) : Exploration :=
  match base.step executionState with
  | .error err =>
    { strategy := ⟨linearEnumeration, [], [], []⟩, pending := [], thrown := some err }
  | .ok initialSuccessors =>
    { strategy := ⟨linearEnumeration, [], [], [executionState]⟩,
      pending := initialSuccessors, thrown := none }

namespace Example

/-- A state with the given continuation and path constraint. -/
def pathState (body : List Cmd) (pathConstraint : List Expr) : ExecutionState :=
  { bmv2State with body := body, pathConstraint := pathConstraint }

/-- A small program to explore. The initial state has five successors: a terminal one
under `b`, a terminal one whose guard is the literal `false`, a terminal one whose path
constraint is unsatisfiable, one that is not terminal and on which the solver times out,
and an unguarded one that is not terminal, whose step yields a terminal successor. The
solver finds `x == 1` unsatisfiable, times out on `x == 2`, and finds every other path
constraint satisfiable. -/
def program : ExplorationStrategy :=
  { checkSat := fun pathConstraint =>
      if Expr.equ xVar (.constant (.bits 8 false) 1) ∈ pathConstraint then some false
      else if Expr.equ xVar (.constant (.bits 8 false) 2) ∈ pathConstraint then none
      else some true,
    step := fun state =>
      match state.body with
      | [.node "start"] =>
        .ok [⟨some bVar, pathState [] [bVar]⟩,
             ⟨some (.boolLiteral false), pathState [] [.boolLiteral false]⟩,
             ⟨some (Expr.equ xVar (.constant (.bits 8 false) 1)),
               pathState [] [Expr.equ xVar (.constant (.bits 8 false) 1)]⟩,
             ⟨some (Expr.equ xVar (.constant (.bits 8 false) 2)),
               pathState [.node "unreached"] [Expr.equ xVar (.constant (.bits 8 false) 2)]⟩,
             ⟨none, pathState [.node "middle"] []⟩]
      | [.node "middle"] => .ok [⟨some (.lnot bVar), pathState [] [.lnot bVar]⟩]
      | _ => .ok [] }

end Example

/-! # Copy-in and copy-out

The internal externs `copy_in` and `copy_out` of
`backends/p4tools/testgen/core/small_step/extern_stepper.cpp`. -/

namespace ExecutionState

/-- Modelled from the spec: `exists(ref)`, whether the environment binds the reference. -/
def «exists» (s : ExecutionState) (ref : StateVar) : Bool :=
  (s.env.lookup ref.key).isSome

mutual
/-- Modelled from the spec: the validity-bit references `getFlatFields(ref, struct-type,
&validVector)` collects besides the leaf fields: the validity bit of every header met
while flattening, a nested one before the header it is nested in. -/
def getFlatValids : Ty → StateVar → List StateVar
  | .structLike isHeader fs, parent =>
    getFlatValidsOf fs parent ++ (if isHeader then [getHeaderValidity parent] else [])
  | _, _ => []
/-- The validity bits met below `parent` in a field list. -/
def getFlatValidsOf : List (String × Ty) → StateVar → List StateVar
  | [], _ => []
  | (n, t) :: rest, parent =>
    (if t.isStructLike then getFlatValids t (.member t parent n) else [])
      ++ getFlatValidsOf rest parent
end

end ExecutionState

namespace ExprStepper

/-- A loop `for (idx = 0; idx < refs.size(); ++idx)` over two parallel vectors of
references, with a body that may raise. -/
def forEachPair (body : StateVar → StateVar → ExecutionState → Except StepError ExecutionState) :
    List (StateVar × StateVar) → ExecutionState → Except StepError ExecutionState
  | [], nextState => .ok nextState
  | (ref, param) :: rest, nextState =>
    match body ref param nextState with
    | .error e => .error e
    | .ok nextState => forEachPair body rest nextState

/-- The function `ExprStepper::generateCopyIn`; `createTargetUninitialized` is the function
of that name of the program information. -/
def generateCopyIn (createTargetUninitialized : Ty → Bool → Expr) (nextState : ExecutionState)
    (targetPath srcPath : StateVar) (dir : String) (forceTaint : Bool) :
    Except StepError ExecutionState :=
  if dir == "out" then
    .ok (nextState.set targetPath (createTargetUninitialized targetPath.type forceTaint))
  else
    match nextState.get srcPath with
    | .error e => .error e
    | .ok value => .ok (nextState.set targetPath value)

/-- The body of the loop of `copy_in` over the validity bits. -/
def copyInValid (dir : String) (fieldGlobalValid fieldParamValid : StateVar)
    (nextState : ExecutionState) : Except StepError ExecutionState :=
  let nextState :=
    if !nextState.exists fieldGlobalValid then
      nextState.set fieldGlobalValid (.boolLiteral false)
    else nextState
  if dir == "out" then .ok (nextState.set fieldParamValid (.boolLiteral false))
  else
    match nextState.get fieldGlobalValid with
    | .error e => .error e
    | .ok value => .ok (nextState.set fieldParamValid value)

/-- The assignments of `copy_in`, made on the copy of the state in which the property
`inUndefinedState` is off. -/
def copyInAssignments (createTargetUninitialized : Ty → Bool → Expr)
    (globalRef argRef : StateVar) (dir : String) (forceTaint : Bool)
    (nextState : ExecutionState) : Except StepError ExecutionState :=
  let assignType := globalRef.type
  if assignType.isStructLike then
    let flatRefValids := ExecutionState.getFlatValids assignType globalRef
    let flatParamValids := ExecutionState.getFlatValids assignType argRef
    let flatRefFields := ExecutionState.getFlatFields assignType globalRef
    let flatParamFields := ExecutionState.getFlatFields assignType argRef
    match forEachPair (copyInValid dir) (flatRefValids.zip flatParamValids) nextState with
    | .error e => .error e
    | .ok nextState =>
      forEachPair
        (fun fieldGlobalRef fieldargRef nextState =>
          generateCopyIn createTargetUninitialized nextState fieldargRef fieldGlobalRef dir
            forceTaint)
        (flatRefFields.zip flatParamFields) nextState
  else if assignType.isBase then
    generateCopyIn createTargetUninitialized nextState argRef globalRef dir forceTaint
  else .error .p4cUnimplemented

/-- The internal extern `copy_in(srcRef, targetParam, direction, forceUninitialized)`; the
direction is the value of its string literal, `forceUninitialized` that of its boolean
literal. -/
def copy_in (createTargetUninitialized : Ty → Bool → Expr) (srcRef targetParam : Expr)
    (direction : String) (forceUninitialized : Bool) (state : ExecutionState) :
    Except StepError (List Branch) :=
  match srcRef, targetParam with
  | .ref globalRef, .ref argRef =>
    match state.getProperty_bool "inUndefinedState" with
    | .error e => .error e
    | .ok currentTaint =>
      let nextState := state.setProperty "inUndefinedState" (.bool false)
      match copyInAssignments createTargetUninitialized globalRef argRef direction
          forceUninitialized nextState with
      | .error e => .error e
      | .ok nextState =>
        let nextState := nextState.setProperty "inUndefinedState" (.bool currentTaint)
        .ok [⟨none, nextState.popBody⟩]
  | _, _ => .error .testgenUnimplemented

/-- The body of the loops of `copy_out`: the global reference takes the value of the
parameter when the direction is `inout` or `out`. -/
def copyOutAssign (dir : String) (fieldGlobalRef fieldargRef : StateVar)
    (nextState : ExecutionState) : Except StepError ExecutionState :=
  if dir == "inout" || dir == "out" then
    match nextState.get fieldargRef with
    | .error e => .error e
    | .ok value => .ok (nextState.set fieldGlobalRef value)
  else .ok nextState

/-- The assignments of `copy_out`, made on the copy of the state in which the property
`inUndefinedState` is off. -/
def copyOutAssignments (globalRef argRef : StateVar) (dir : String)
    (nextState : ExecutionState) : Except StepError ExecutionState :=
  let assignType := globalRef.type
  if assignType.isStructLike then
    let flatRefValids := ExecutionState.getFlatValids assignType globalRef
    let flatParamValids := ExecutionState.getFlatValids assignType argRef
    let flatRefFields := ExecutionState.getFlatFields assignType globalRef
    let flatParamFields := ExecutionState.getFlatFields assignType argRef
    match forEachPair (copyOutAssign dir) (flatRefValids.zip flatParamValids) nextState with
    | .error e => .error e
    | .ok nextState =>
      forEachPair (copyOutAssign dir) (flatRefFields.zip flatParamFields) nextState
  else if assignType.isBase then copyOutAssign dir globalRef argRef nextState
  else .error .p4cUnimplemented

/-- The internal extern `copy_out(targetParam, srcRef, direction)`: its first argument is
the global reference, its second the parameter. -/
def copy_out (targetParam srcRef : Expr) (direction : String) (state : ExecutionState) :
    Except StepError (List Branch) :=
  match targetParam, srcRef with
  | .ref globalRef, .ref argRef =>
    match state.getProperty_bool "inUndefinedState" with
    | .error e => .error e
    | .ok currentTaint =>
      let nextState := state.setProperty "inUndefinedState" (.bool false)
      match copyOutAssignments globalRef argRef direction nextState with
      | .error e => .error e
      | .ok nextState =>
        let nextState := nextState.setProperty "inUndefinedState" (.bool currentTaint)
        .ok [⟨none, nextState.popBody⟩]
  | _, _ => .error .testgenUnimplemented

/-- The pairs (field of the global reference, field of the parameter) the copy loops
over: the flattened fields of both references, paired by index, or the two references
themselves for a base type. -/
def copyFieldPairs (globalRef argRef : StateVar) : List (StateVar × StateVar) :=
  if globalRef.type.isStructLike then
    (ExecutionState.getFlatFields globalRef.type globalRef).zip
      (ExecutionState.getFlatFields globalRef.type argRef)
  else [(globalRef, argRef)]

/-- The pairs (validity bit of the global reference, validity bit of the parameter) the
copy loops over. -/
def copyValidPairs (globalRef argRef : StateVar) : List (StateVar × StateVar) :=
  if globalRef.type.isStructLike then
    (ExecutionState.getFlatValids globalRef.type globalRef).zip
      (ExecutionState.getFlatValids globalRef.type argRef)
  else []

end ExprStepper

namespace ExecutionState

/-- The environment keys `get(src)` looks at: the one of the reference and, for a field
of a header, the one of the validity bit of the header. -/
def readKeys (src : StateVar) : List (List String) :=
  src.key ::
    (match headerOf src with
     | some hdr => [(getHeaderValidity hdr).key]
     | none => [])

/-- Frame of a sequence of assignments to the keys `K`: only the environment changes, and
a key outside `K` keeps its binding, or had none and is now bound to `false` (a validity
bit that was initialised). -/
def FrameExcept (K : List (List String)) (s s1 : ExecutionState) : Prop :=
  s1 = { s with env := s1.env } ∧
  ∀ k, k ∉ K →
    s1.env.lookup k = s.env.lookup k ∨
      (s.env.lookup k = none ∧ s1.env.lookup k = some (.boolLiteral false))

end ExecutionState

namespace Example

/-- The type of a header with two fields. -/
def copyHeaderType : Ty := .structLike true [("a", .bits 8 false), ("b", .bits 16 false)]

/-- The type of a struct with a header and a field of base type. -/
def copyType : Ty := .structLike false [("h", copyHeaderType), ("m", .bits 8 false)]

/-- The global reference of the copy. -/
def copyGlobal : StateVar := .path copyType "*hdr"

/-- The parameter of the copy. -/
def copyParam : StateVar := .path copyType "hdr"

/-- The value a target gives uninitialized data: zero, or taint when that is forced. -/
def copyUninitialized (type : Ty) (forceTaint : Bool) : Expr :=
  if forceTaint then .taint type else .constant type 0

/-- A state in which the fields of the global reference and of the parameter are bound,
both headers are valid, and the property `inUndefinedState` is on. -/
def copyState : ExecutionState :=
  { bmv2State with
    env := [(["*hdr", "h", "a"], .constant (.bits 8 false) 1),
            (["*hdr", "h", "b"], .constant (.bits 16 false) 2),
            (["*hdr", "h", "*valid"], .boolLiteral true),
            (["*hdr", "m"], .constant (.bits 8 false) 3),
            (["hdr", "h", "a"], .constant (.bits 8 false) 4),
            (["hdr", "h", "b"], .constant (.bits 16 false) 5),
            (["hdr", "h", "*valid"], .boolLiteral true),
            (["hdr", "m"], .constant (.bits 8 false) 6)],
    properties := [("inUndefinedState", .bool true)] }

end Example

/-! # The internal externs `prepend_to_prog_header` and `append_to_prog_header`

Further externs of `backends/p4tools/testgen/core/small_step/extern_stepper.cpp`. -/

/-- Modelled from the spec: `prependToPacketBuffer(expr)` puts the expression in front of
the packet buffer. -/
def ExecutionState.prependToPacketBuffer (s : ExecutionState) (e : Expr) : ExecutionState :=
  { s with packetBuffer := e :: s.packetBuffer }

namespace ExprStepper

/-- The loop of `prepend_to_prog_header` over the fields it is handed: the value of each
field is put in front of the packet buffer. -/
def prependFields : List StateVar → ExecutionState → Except StepError ExecutionState
  | [], nextState => .ok nextState
  | fieldRef :: rest, nextState =>
    match nextState.get fieldRef with
    | .error e => .error e
    | .ok value => prependFields rest (nextState.prependToPacketBuffer value)

/-- The loop of `append_to_prog_header` over the flattened fields: the value of each field
is put behind the packet buffer. -/
def appendFields : List StateVar → ExecutionState → Except StepError ExecutionState
  | [], nextState => .ok nextState
  | fieldRef :: rest, nextState =>
    match nextState.get fieldRef with
    | .error e => .error e
    | .ok value => appendFields rest (nextState.appendToPacketBuffer [value])

/-- The fields of a struct-like argument of `prepend_to_prog_header` or
`append_to_prog_header`, in the order of `getFlatFields`. The fields of an argument that
is not a reference (a taint expression or a constant) are bound nowhere in the
environment; the model hands out references below the unbound name `*unbound` for them,
so that reading one of them fails as it does in the source. -/
def progHeaderFields (var : Expr) : List StateVar :=
  match var with
  | .ref v => ExecutionState.getFlatFields v.type v
  | e => ExecutionState.getFlatFields e.type (.path e.type "*unbound")

/-- The internal extern `prepend_to_prog_header(hdr)`. -/
def prepend_to_prog_header (prependVar : Expr) (state : ExecutionState) :
    Except StepError (List Branch) :=
  let supported :=
    match prependVar with
    | .ref _ => true
    | .taint _ => true
    | .constant _ _ => true
    | _ => false
  if !supported then .error .testgenUnimplemented
  else
    let nextState := state
    let prepended : Except StepError ExecutionState :=
      if prependVar.type.isStructLike then
        let flatFields := progHeaderFields prependVar
        prependFields flatFields.reverse nextState
      else if prependVar.type.isBits then
        let nextState :=
          match prependVar with
          | .ref (.member t parent name) =>
            nextState.add
              (.extractLabelled (.member t parent name) (.ref (.member t parent name)) "prepend")
          | _ => nextState
        .ok (nextState.prependToPacketBuffer prependVar)
      else .error .testgenUnimplemented
    match prepended with
    | .error e => .error e
    | .ok nextState => .ok [⟨none, nextState.popBody⟩]

/-- The internal extern `append_to_prog_header(hdr)`. -/
def append_to_prog_header (appendVar : Expr) (state : ExecutionState) :
    Except StepError (List Branch) :=
  let supported :=
    match appendVar with
    | .ref _ => true
    | .taint _ => true
    | .constant _ _ => true
    | _ => false
  if !supported then .error .testgenUnimplemented
  else
    let nextState := state
    let appended : Except StepError ExecutionState :=
      if appendVar.type.isStructLike then
        let flatFields := progHeaderFields appendVar
        appendFields flatFields nextState
      else if appendVar.type.isBits then
        let nextState :=
          match appendVar with
          | .ref (.member t parent name) =>
            nextState.add
              (.extractLabelled (.member t parent name) (.ref (.member t parent name)) "append")
          | _ => nextState
        .ok (nextState.appendToPacketBuffer [appendVar])
      else .error .testgenUnimplemented
    match appended with
    | .error e => .error e
    | .ok nextState => .ok [⟨none, nextState.popBody⟩]

/-- The values `value(f1), ..., value(fn)` of a list of fields in a state, in the order of
the list. -/
def readFields (s : ExecutionState) : List StateVar → Except StepError (List Expr)
  | [] => .ok []
  | fieldRef :: rest =>
    match s.get fieldRef with
    | .error e => .error e
    | .ok value =>
      match readFields s rest with
      | .error e => .error e
      | .ok values => .ok (value :: values)

end ExprStepper

/-! # The meaning of a guard in the state it was emitted from -/

/-- Modelled from the spec: the constructor of a branch (small_step.cpp, not among the
listed sources) evaluates the guard it is handed in the symbolic environment of the state
the step was taken from: `SymbolicEnv::subst` replaces every state reference in the guard
by the value the environment binds it to. A value is not visited again. -/
def SymbolicEnv.subst (env : List (List String × Expr)) : Expr → Expr
  | .ref v =>
    match env.lookup v.key with
    | some value => value
    | none => .ref v
  | .cast t e => .cast t (SymbolicEnv.subst env e)
  | .lnot e => .lnot (SymbolicEnv.subst env e)
  | .unary op t e => .unary op t (SymbolicEnv.subst env e)
  | .binary op t l r => .binary op t (SymbolicEnv.subst env l) (SymbolicEnv.subst env r)
  | e => e

/-- The guard of a branch as its constructor evaluates it in the state the step was taken
from; an unguarded branch has none. -/
def Branch.evaluatedConstraint (prevState : ExecutionState) (b : Branch) : Option Expr :=
  b.constraint.map (SymbolicEnv.subst prevState.env)
/-- A state in which `hdrs.h` holds the first 13 bits of the packet and its validity is the
symbolic boolean `b`. -/
def Example.symbolicValidState : ExecutionState :=
  { Example.filledState with
    env := (["hdrs", "h", "*valid"], Example.bVar) :: Example.filledState.env }

namespace Example

/-- A state at the end of the deparser after `clone_preserving_field_list` with the clone
type egress-to-egress, the session 7 and the field list 0. -/
def cloneActiveState : ExecutionState :=
  { bmv2State with
    properties := [("recirculate_instance_type", .uint 2),
      ("clone_session_id", .expr (.constant (.bits 32 false) 7)),
      ("recirculate_index", .uint 0), ("clone_active", .bool true),
      ("recirculate_active", .bool true), ("recirculate_count", .uint 1)] }

/-- A state at the end of the deparser after a recirculation was requested. -/
def recirculateActiveState : ExecutionState :=
  { bmv2State with
    properties := [("recirculate_instance_type", .uint 4),
      ("recirculate_active", .bool true), ("recirculate_count", .uint 1)] }

end Example

/-! # The run phase of the linear enumeration

The function `LinearEnumeration::run` of
`backends/p4tools/testgen/core/exploration_strategy/linear_enumeration.cpp`. -/

/-- What `run` reads from the base class `ExplorationStrategy`: `selectBranch`, which
picks an index into the pool, and `handleTerminalState(callback, state)`, which produces
a test from a terminal state and answers whether enough tests were produced; it may
raise. The handler is handed the states it was invoked on before, oldest first, which
stand for its own state (the tests produced so far). -/
structure TerminalStateHandling where
  selectBranch : List Branch → Nat
  handleTerminalState : List ExecutionState → ExecutionState → Except StepError Bool

/-- The progress of `run`: the pool `exploredBranches`, the states on which
`handleTerminalState` was invoked (oldest first), the number of warnings printed, and how
the function ended: `returned` once it has returned, `raised` with the exception that left
it. -/
structure RunProgress where
  exploredBranches : List Branch
  handled : List ExecutionState
  warnings : Nat
  returned : Bool
  raised : Option StepError
  deriving DecidableEq

namespace LinearEnumeration

/-- One iteration of the loop of `LinearEnumeration::run`: the progress after it, and
whether the loop goes on. `exploredBranches.at(idx)` raises `std::out_of_range` for an
index outside the pool; the `catch` clause catches `TestgenUnimplemented` only. -/
def runIteration (base : TerminalStateHandling) (permissive : Bool) (r : RunProgress) :
    RunProgress × Bool :=
  if r.exploredBranches.isEmpty then ({ r with returned := true }, false)
  else
    let idx := base.selectBranch r.exploredBranches
    match r.exploredBranches.get? idx with
    | none => ({ r with raised := some .outOfRange }, false)
    | some branch =>
      let r := { r with exploredBranches := r.exploredBranches.eraseIdx idx }
      let branchState := branch.nextState
      let handlerResult := base.handleTerminalState r.handled branchState
      let r := { r with handled := r.handled ++ [branchState] }
      match handlerResult with
      | .ok terminate =>
        if terminate then ({ r with returned := true }, false) else (r, true)
      | .error .testgenUnimplemented =>
        if !permissive then ({ r with raised := some .testgenUnimplemented }, false)
        else ({ r with warnings := r.warnings + 1 }, true)
      | .error e => ({ r with raised := some e }, false)

/-- The loop `while (true)` of `LinearEnumeration::run`, cut off after `fuel` iterations;
`none` means the loop was still running then. -/
def runLoop (base : TerminalStateHandling) (permissive : Bool) :
    Nat → RunProgress → Option RunProgress
  | 0, _ => none
  | fuel + 1, r =>
    match runIteration base permissive r with
    | (r, true) => runLoop base permissive fuel r
    | (r, false) => some r

/-- The progress `run` starts from on a pool. -/
def runStart (exploredBranches : List Branch) : RunProgress :=
  { exploredBranches := exploredBranches, handled := [], warnings := 0, returned := false,
    raised := none }

end LinearEnumeration

namespace Example

/-- A pool of three terminal branches. -/
def pool : List Branch :=
  [⟨some bVar, pathState [] [bVar]⟩, ⟨some (.lnot bVar), pathState [] [.lnot bVar]⟩,
   ⟨none, pathState [] []⟩]

/-- A strategy that selects the last branch of the pool, with a handler that raises
`TestgenUnimplemented` on the state whose path constraint is `b` and otherwise reports
that enough tests were produced once it was invoked three times before. -/
def handling : TerminalStateHandling :=
  { selectBranch := fun exploredBranches => exploredBranches.length - 1,
    handleTerminalState := fun handled state =>
      if state.pathConstraint = [bVar] then .error .testgenUnimplemented
      else .ok (decide (3 ≤ handled.length)) }

end Example

/-- A program with an unsupported feature on one path. The initial state has two
successors: one under `b` that is not terminal and whose step raises
`TestgenUnimplemented`, and a terminal one under `!b`. The solver finds every path
constraint satisfiable. -/
def Example.unimplementedProgram : ExplorationStrategy :=
  { checkSat := fun _ => some true,
    step := fun state =>
      match state.body with
      | [.node "start"] =>
        .ok [⟨some Example.bVar, Example.pathState [.node "unsupported"] [Example.bVar]⟩,
             ⟨some (.lnot Example.bVar), Example.pathState [] [.lnot Example.bVar]⟩]
      | [.node "unsupported"] => .error .testgenUnimplemented
      | _ => .ok [] }

/-! # Midend passes of the tools

Shallow embeddings of `backends/p4tools/common/compiler/boolean_keys.cpp` and of
`backends/p4tools/common/compiler/convert_errors.cpp`. The passes work on the IR of the
compiler, in which every node carries its source position. -/

/-- A source position `Util::SourceInfo`: a file and a line; `none` is the position of a
node that was built without one. -/
abbrev SourceInfo := Option (String × Nat)

/-- The IR types the two passes meet: `Type_Boolean`, `Type_Bits`, `Type_Error` with its
name and the names of its members in the order of their declaration, `Type_Name`, and any
other type. -/
inductive IRType where
  | boolean
  | bits (srcInfo : SourceInfo) (size : Nat) (isSigned : Bool)
  | error (srcInfo : SourceInfo) (name : String) (members : List String)
  | typeName (path : String)
  | other (name : String)
  deriving DecidableEq

/-- The IR expressions the two passes meet. -/
inductive IRExpr where
  | boolLiteral (srcInfo : SourceInfo) (value : Bool)
  | constant (srcInfo : SourceInfo) (type : IRType) (value : Int)
  | pathExpression (srcInfo : SourceInfo) (type : IRType) (path : String)
  | typeNameExpression (srcInfo : SourceInfo) (typeName : IRType)
  | member (srcInfo : SourceInfo) (type : IRType) (expr : IRExpr) (member : String)
  | cast (srcInfo : SourceInfo) (destType : IRType) (expr : IRExpr)
  deriving DecidableEq

/-- The field `type` of an expression; a cast has its destination type. -/
def IRExpr.type : IRExpr → IRType
  | .boolLiteral _ _ => .boolean
  | .constant _ t _ => t
  | .pathExpression _ t _ => t
  | .typeNameExpression _ t => t
  | .member _ t _ _ => t
  | .cast _ t _ => t

/-- The field `srcInfo` of an expression. -/
def IRExpr.srcInfo : IRExpr → SourceInfo
  | .boolLiteral s _ => s
  | .constant s _ _ => s
  | .pathExpression s _ _ => s
  | .typeNameExpression s _ => s
  | .member s _ _ _ => s
  | .cast s _ _ => s

/-- The test `is<IR::Type_Boolean>()`. -/
def IRType.isBoolean : IRType → Bool
  | .boolean => true
  | _ => false

/-- The type `IRUtils::getBitType(w)` as an IR type: unsigned bits of width `w`, built
without a source position. -/
def IRUtils.getBitType (w : Nat) : IRType := .bits none w false

/-- The constant `IRUtils::getConstant(type, v)` as an IR expression, built without a
source position. -/
def IRUtils.getConstant (type : IRType) (v : Int) : IRExpr := .constant none type v

/-- A table key `IR::KeyElement` of the compiler IR. -/
structure IRKeyElement where
  srcInfo : SourceInfo
  expression : IRExpr
  matchType : String
  deriving DecidableEq

/-- A table entry `IR::Entry`: the components of its key tuple and its action. -/
structure IREntry where
  srcInfo : SourceInfo
  keys : List IRExpr
  action : IRExpr
  deriving DecidableEq

/-- A table as far as the pass reads it: its keys and its entries. -/
structure IRTable where
  keys : List IRKeyElement
  entries : List IREntry
  deriving DecidableEq

namespace CastBooleanTableKeys

/-- The function `CastBooleanTableKeys::postorder(IR::KeyElement*)`. -/
def postorder_KeyElement (key : IRKeyElement) : IRKeyElement :=
  if key.expression.type.isBoolean then
    { key with
      expression := .cast key.expression.srcInfo (IRUtils.getBitType 1) key.expression }
  else key

/-- The body of the loop of `postorder(IR::Entry*)` for the index `idx`. -/
def castComponent (keyExprs : List IRExpr) (idx : Nat) : List IRExpr :=
  match keyExprs[idx]? with
  | some (.boolLiteral _ value) =>
    let v : Int := if value then 1 else 0
    keyExprs.set idx (IRUtils.getConstant (IRUtils.getBitType 1) v)
  | _ => keyExprs

/-- The function `CastBooleanTableKeys::postorder(IR::Entry*)`: the loop runs over the
indices of the key tuple. -/
def postorder_Entry (entry : IREntry) : IREntry :=
  let keyExprs := entry.keys
  let keyExprs := (List.range keyExprs.length).foldl castComponent keyExprs
  { entry with keys := keyExprs }

/-- Modelled from the spec: the traversal of `Transform` is not among the listed sources.
The pass calls `postorder` on every key element and on every entry of a table; the
expressions below them hold neither, so they are left as they are. -/
def apply (table : IRTable) : IRTable :=
  { keys := table.keys.map postorder_KeyElement,
    entries := table.entries.map postorder_Entry }

/-- What the pass is to do with a component of an entry, in the words of the
specification: a boolean literal becomes the `bit<1>` constant 1 or 0. -/
def castLiteral : IRExpr → IRExpr
  | .boolLiteral _ true => .constant none (.bits none 1 false) 1
  | .boolLiteral _ false => .constant none (.bits none 1 false) 0
  | e => e

end CastBooleanTableKeys

namespace Example

/-- A table with a boolean key, a key of eight bits, and an entry `(true, 5)`. -/
def boolTable : IRTable :=
  { keys := [{ srcInfo := some ("t.p4", 10),
               expression := .member (some ("t.p4", 10)) .boolean
                 (.pathExpression (some ("t.p4", 10)) (.other "headers") "hdr") "flag",
               matchType := "exact" },
             { srcInfo := some ("t.p4", 11),
               expression := .pathExpression (some ("t.p4", 11)) (.bits none 8 false) "x",
               matchType := "exact" }],
    entries := [{ srcInfo := some ("t.p4", 14),
                  keys := [.boolLiteral (some ("t.p4", 14)) true,
                           .constant (some ("t.p4", 14)) (.bits none 8 false) 5],
                  action := .pathExpression (some ("t.p4", 14)) (.other "action") "a" }] }

end Example

/-- The ways a pass can end abnormally: a failed `BUG_CHECK`, a shift by at least the width
of the shifted type, which C++ leaves undefined, and the dereference of a null pointer. -/
inductive PassError where
  | bugCheck
  | undefinedShift
  | nullDereference
  deriving DecidableEq

/-- Modelled from the spec: `P4::EnumRepresentation` (midend/convertEnums.h) is not among
the listed sources. It holds the representation type, `Type_Bits` of the given width,
unsigned, with the source position it was built with, and a map from member names to
`unsigned` values. -/
structure EnumRepresentation where
  repr : List (String × Nat)
  type : IRType
  deriving DecidableEq

namespace EnumRepresentation

/-- The constructor `EnumRepresentation(srcInfo, width)`. -/
def create (srcInfo : SourceInfo) (width : Nat) : EnumRepresentation :=
  { repr := [], type := .bits srcInfo width false }

/-- Modelled from the spec: `add(decl)` is `repr.emplace(decl, repr.size())`: a name that
is not in the map yet gets the number of names added before it, as an `unsigned`. -/
def add (r : EnumRepresentation) (decl : String) : EnumRepresentation :=
  match r.repr.lookup decl with
  | some _ => r
  | none => { r with repr := r.repr ++ [(decl, r.repr.length % 2 ^ 32)] }

/-- Modelled from the spec: `get(decl)` is `::get(repr, decl)`: the value of the name, 0
for a name that is not in the map. -/
def get (r : EnumRepresentation) (decl : String) : Nat :=
  (r.repr.lookup decl).getD 0

end EnumRepresentation

/-- The policy `ChooseErrorRepresentation` (convert_errors.h, not among the listed
sources): whether an error type is to be converted, and the width for a number of
members. -/
structure ChooseErrorRepresentation where
  convert : IRType → Bool
  errorSize : Nat → Nat

/-- The members of the pass `DoConvertErrors`: the policy, the map `repr` from the name
of an error type to its representation (a name without entry stands for the null pointer
`::get` returns), and the lookup `typeMap->getTypeType(node, true)` of the canonical
type. -/
structure DoConvertErrors where
  policy : ChooseErrorRepresentation
  getTypeType : IRType → IRType
  repr : List (String × EnumRepresentation)

namespace DoConvertErrors

/-- The function `DoConvertErrors::preorder(IR::Type_Error*)`: the node it returns and the
members of the pass afterwards. The shift `1ULL << width` is undefined for a width of 64
or more. -/
def preorder_Type_Error (self : DoConvertErrors) (type : IRType) :
    Except PassError (IRType × DoConvertErrors) :=
  match type with
  | .error srcInfo _ members =>
    let convert := self.policy.convert type
    if !convert then .ok (type, self)
    else
      let count := members.length
      let width := self.policy.errorSize count
      if 64 ≤ width then .error .undefinedShift
      else if !decide (count ≤ 2 ^ width) then .error .bugCheck
      else
        let r := EnumRepresentation.create srcInfo width
        match self.getTypeType type with
        | .error _ canonName _ =>
          let r := members.foldl EnumRepresentation.add r
          let repr :=
            match self.repr.lookup canonName with
            | some _ => self.repr
            | none => self.repr ++ [(canonName, r)]
          .ok (type, { self with repr := repr })
        | _ => .error .bugCheck
  | _ => .ok (type, self)

/-- The function `DoConvertErrors::postorder(IR::Type_Name*)`; `inTypeNameExpression` is
the outcome of `findContext<IR::TypeNameExpression>() != nullptr`. -/
def postorder_Type_Name (self : DoConvertErrors) (inTypeNameExpression : Bool)
    (type : IRType) : IRType :=
  match self.getTypeType type with
  | .error _ errorType _ =>
    if inTypeNameExpression then type
    else
      match self.repr.lookup errorType with
      | none => type
      | some r => r.type
  | _ => type

/-- The function `DoConvertErrors::postorder(IR::Member*)`. The representation `r` is
dereferenced without a test. -/
def postorder_Member (self : DoConvertErrors) (member : IRExpr) : Except PassError IRExpr :=
  match member with
  | .member srcInfo (.error _ typeName _) expr name =>
    let r := self.repr.lookup typeName
    match expr with
    | .typeNameExpression _ _ =>
      match r with
      | none => .error .nullDereference
      | some r => .ok (.constant srcInfo r.type (r.get name))
    | _ =>
      match r with
      | none => .error .nullDereference
      | some r => .ok (.member srcInfo r.type expr name)
  | e => .ok e

end DoConvertErrors

namespace Example

/-- The error type of a program with three members. -/
def errorType : IRType :=
  .error (some ("core.p4", 5)) "error" ["NoError", "PacketTooShort", "NoMatch"]

/-- A pass whose policy converts every error type to 32 bits, before it has met an error
type. -/
def convertErrors : DoConvertErrors :=
  { policy := { convert := fun _ => true, errorSize := fun _ => 32 },
    getTypeType := fun t => t, repr := [] }

/-- A pass whose policy declines to convert, before it has met an error type. -/
def keepErrors : DoConvertErrors :=
  { policy := { convert := fun _ => false, errorSize := fun _ => 32 },
    getTypeType := fun t => t, repr := [] }

/-- The expression `error.PacketTooShort`. -/
def errorConstant : IRExpr :=
  .member (some ("p.p4", 20)) errorType
    (.typeNameExpression (some ("p.p4", 20)) (.typeName "error")) "PacketTooShort"

/-- The expression `meta.err`, a variable of the error type. -/
def errorVariable : IRExpr :=
  .member (some ("p.p4", 21)) errorType
    (.pathExpression (some ("p.p4", 21)) (.other "metadata") "meta") "err"

end Example

/-! # Unary operations

The step of the operations `-`, `!` and `~` that the tests of
`backends/p4tools/testgen/test/small-step/unary.cpp` examine. -/

namespace ExecutionState

/-- Modelled from the spec: `replaceBody(body)` replaces the current body. -/
def replaceBody (s : ExecutionState) (body : List Cmd) : ExecutionState :=
  { s with body := body }

/-- Modelled from the spec: `pushContinuation(frame)` pushes a frame on the continuation
stack. -/
def pushContinuation (s : ExecutionState) (frame : StackFrame) : ExecutionState :=
  { s with stack := frame :: s.stack }

end ExecutionState

/-- Modelled from the spec: `AbstractStepper::stepToSubexpr(subexpr, result, state,
rebuildCmd)` (abstract_stepper.cpp) is not among the listed sources. The unfinished
sub-expression is replaced by a parameter hole: the one successor evaluates the
sub-expression (its body is `Return(subexpr)`) on top of a pushed continuation that takes
the value as its parameter and whose body is the body of the state with its top command
replaced by the rebuilt command. `genParameter` is `Continuation::genParameter`, which
makes the fresh path expression the hole is. -/
def AbstractStepper.stepToSubexpr (genParameter : Ty → String → ExecutionState → StateVar)
    (subexpr : Expr) (state : ExecutionState) (rebuildCmd : StateVar → Cmd) : List Branch :=
  let v := genParameter subexpr.type "v" state
  let kBody := rebuildCmd v :: state.body.drop 1
  let k : StackFrame := { parameterOpt := some v, body := kBody }
  let nextState := (state.replaceBody [.ret (some subexpr)]).pushContinuation k
  [⟨none, nextState⟩]

/-- Modelled from the spec: `ExprStepper::preorder(const IR::Operation_Unary*)`
(expr_stepper.cpp of the core) is not among the listed sources. An operand that is not
yet a symbolic value is stepped to, and the command rebuilt for the hole is the return of
a copy of the operation with the hole as its operand; an operation on a symbolic value is
handed to `stepSymbolicValue`. -/
def ExprStepper.preorder_Operation_Unary
    (genParameter : Ty → String → ExecutionState → StateVar)
    (stepSymbolicValue : Expr → ExecutionState → List Branch) (unary : Expr)
    (state : ExecutionState) : Except StepError (List Branch) :=
  match unary with
  | .unary op type expr =>
    if !isSymbolicValue expr then
      .ok (AbstractStepper.stepToSubexpr genParameter expr state
        (fun v => .ret (some (.unary op type (.ref v)))))
    else .ok (stepSymbolicValue unary state)
  | .lnot expr =>
    if !isSymbolicValue expr then
      .ok (AbstractStepper.stepToSubexpr genParameter expr state
        (fun v => .ret (some (.lnot (.ref v)))))
    else .ok (stepSymbolicValue unary state)
  | _ => .error .bugCheck

namespace Example

/-- The reference `hdr.h.f` of the tests, for a field `f` of the given type. -/
def testField (type : Ty) : StateVar :=
  .member type
    (.member (.structLike true [("f", type)])
      (.path (.structLike false [("h", .structLike true [("f", type)])]) "hdr") "h") "f"

/-- A generator of parameters that names the hole after the depth of the stack. -/
def genParameter (type : Ty) (name : String) (state : ExecutionState) : StateVar :=
  .path type (name ++ toString state.stack.length)

/-- The state of the tests: the body returns the operation, on top of a frame that
returns the value it is handed. -/
def testState (op : Expr) : ExecutionState :=
  { bmv2State with
    body := [.ret (some op)],
    stack := [{ parameterOpt := some (.path op.type "v"),
                body := [.ret (some (.ref (.path op.type "v")))] }] }

end Example

/-! # Theorems -/

namespace ExecutionState

theorem get_congr_env (s1 s2 : ExecutionState) (r : StateVar) (h : s1.env = s2.env) :
    s1.get r = s2.get r := by
  unfold get; rw [h]

@[simp] theorem env_add (s : ExecutionState) (ev : TraceEvent) : (s.add ev).env = s.env := rfl
@[simp] theorem env_slicePacketBuffer (s : ExecutionState) (n : Int) :
    (s.slicePacketBuffer n).2.env = s.env := rfl
@[simp] theorem env_set (s : ExecutionState) (f : StateVar) (v : Expr) :
    (s.set f v).env = (f.key, s.storedValue v) :: s.env := rfl

/-- Outside a region marked by `inUndefinedState` an assignment stores the value. -/
theorem storedValue_off (s : ExecutionState) (v : Expr) (h : s.inUndefinedState = false) :
    s.storedValue v = v := by
  simp only [storedValue, h, Bool.false_eq_true, if_false]

/-- An assignment stores a value of the type of the value assigned. -/
theorem storedValue_type (s : ExecutionState) (v : Expr) : (s.storedValue v).type = v.type := by
  unfold storedValue
  cases s.inUndefinedState <;> rfl

theorem lookup_cons_isSome {α β : Type} [BEq α] (k k2 : α) (v : β) (l : List (α × β))
    (h : (l.lookup k).isSome = true) : (((k2, v) :: l).lookup k).isSome = true := by
  simp only [List.lookup_cons]
  cases (k == k2) <;> simp [h]

/-- A read succeeds iff the reference is bound and, for a header field, so is the validity
bit of the header. -/
theorem get_ok_iff (s : ExecutionState) (r : StateVar) :
    (∃ v, s.get r = .ok v) ↔
      ((s.env.lookup r.key).isSome = true ∧
        ∀ hdr, headerOf r = some hdr →
          (s.env.lookup (getHeaderValidity hdr).key).isSome = true) := by
  cases hl : List.lookup r.key s.env with
  | none =>
    simp only [get, hl]
    constructor
    · rintro ⟨_, h⟩; cases h
    · rintro ⟨h, _⟩; cases h
  | some v =>
    cases hh : headerOf r with
    | none =>
      simp only [get, hl, hh]
      constructor
      · intro _
        exact ⟨rfl, fun hdr2 h2 => by cases h2⟩
      · intro _
        exact ⟨_, rfl⟩
    | some hdr =>
      cases hv : List.lookup (getHeaderValidity hdr).key s.env with
      | none =>
        simp only [get, hl, hh, hv]
        constructor
        · rintro ⟨_, h⟩; cases h
        · rintro ⟨_, h⟩
          have h2 := h hdr rfl
          rw [hv] at h2
          cases h2
      | some valid =>
        simp only [get, hl, hh, hv]
        constructor
        · rintro _
          refine ⟨rfl, fun hdr2 h2 => ?_⟩
          cases h2
          rw [hv]; rfl
        · intro _
          exact ⟨_, rfl⟩

/-- A successful read stays successful after any binding is added. -/
theorem get_ok_set (s : ExecutionState) (r f : StateVar) (pv : Expr)
    (h : ∃ v, s.get r = .ok v) : ∃ v, (s.set f pv).get r = .ok v := by
  rw [get_ok_iff] at h ⊢
  exact ⟨lookup_cons_isSome _ _ _ _ h.1, fun hdr hh => lookup_cons_isSome _ _ _ _ (h.2 hdr hh)⟩

theorem readable_iff (s : ExecutionState) (r : StateVar) :
    s.readable r = true ↔ ∃ v, s.get r = .ok v := by
  unfold readable
  cases s.get r with
  | ok v => simp
  | error e => simp

end ExecutionState

namespace ExprStepper

theorem assignVarbitSize_ok (fieldRef : StateVar) (t : Ty) (n : Int) (hn : 0 ≤ n) :
    ∃ r2 t2, assignVarbitSize fieldRef t n = .ok (r2, t2) ∧ r2.key = fieldRef.key := by
  unfold assignVarbitSize
  cases t with
  | varbits size a =>
    simp only [not_lt.mpr hn, if_false]
    cases fieldRef <;> exact ⟨_, _, rfl, rfl⟩
  | _ => exact ⟨_, _, rfl, rfl⟩

/-- With every field readable and a non-negative varbit size, `setFields` succeeds. -/
theorem setFields_ok (n : Int) (hn : 0 ≤ n) :
    ∀ (fs : List StateVar) (s : ExecutionState),
      (∀ r ∈ fs, ∃ v, s.get r = .ok v) → ∃ s2, setFields s fs n = .ok s2 := by
  intro fs
  induction fs with
  | nil => intro s _; exact ⟨s, rfl⟩
  | cons f rest ih =>
    intro s h
    obtain ⟨v, hv⟩ := h f (List.mem_cons_self _ _)
    obtain ⟨r2, t2, hr, hk⟩ := assignVarbitSize_ok f v.type n hn
    have hrest : ∀ r ∈ rest, ∃ v, s.get r = .ok v :=
      fun r hr => h r (List.mem_cons_of_mem _ hr)
    simp only [setFields, hv, hr]
    split
    · exact ih s hrest
    · apply ih
      intro r hr
      exact ExecutionState.get_ok_set _ r r2 _
        (by rw [ExecutionState.get_congr_env _ s r (by simp)]; exact hrest r hr)

end ExprStepper

/-! ## C1: the two successors of `packet_in.extract(hdr)` -/

open ExprStepper

/-- The guard of `calculateSuccessfulParserAdvance` holds exactly when the input packet is
long enough (the clamp at zero is invisible for a non-negative packet size). -/
theorem advanceCond_evalBool (st : ExprStepper) (state : ExecutionState) (size : Int)
    (σ : String → Int) (hσ : 0 ≤ σ packetSizeVarName) :
    (Expr.geq st.getInputPacketSizeVar (getConstant st.packetSizeVarType
        (max 0 (state.getInputPacketCursor + size - state.getPacketBufferSize)))).evalBool σ =
      some (decide (σ packetSizeVarName ≥
        state.getInputPacketCursor + size - state.getPacketBufferSize)) := by
  simp only [Expr.evalBool, Expr.evalInt, getInputPacketSizeVar, Option.some.injEq,
    decide_eq_decide]
  omega

/-- C1: `packet_in.extract(hdr)` on a struct-like type of width `size` yields exactly two
successors, accept first and reject second. The accept guard compares the input packet
size with `max(0, cursor + size - buffer_size)`, which for every (non-negative) packet size
holds iff `input_size >= cursor + size - buffer_size`; the reject guard is the logical
negation of the accept guard, and the reject state has its continuation top replaced by
`Exception(PacketTooShort)`. -/
theorem extract_accept_then_reject (st : ExprStepper) (state : ExecutionState)
    (extractedType : Ty) (hdr : StateVar)
    (hstruct : extractedType.isStructLike = true)
    (hread : ∀ r ∈ ExecutionState.getFlatFields extractedType hdr, state.readable r = true) :
    ∃ cond acceptState rejectState,
      packet_in.extract st extractedType hdr state =
        .ok [⟨some cond, acceptState⟩, ⟨some (.lnot cond), rejectState⟩] ∧
      cond = Expr.geq st.getInputPacketSizeVar (getConstant st.packetSizeVarType
        (max 0 (state.inputPacketCursor + extractedType.width_bits
          - state.getPacketBufferSize))) ∧
      (∀ σ : String → Int, 0 ≤ σ packetSizeVarName →
        cond.evalBool σ = some (decide (σ packetSizeVarName ≥
          state.inputPacketCursor + extractedType.width_bits - state.getPacketBufferSize)) ∧
        (Expr.lnot cond).evalBool σ = some (!decide (σ packetSizeVarName ≥
          state.inputPacketCursor + extractedType.width_bits - state.getPacketBufferSize))) ∧
      rejectState.body = .exception .packetTooShort :: state.body.drop 1 := by
  have hok : ∃ s2, setFields
      ((if extractedType.isHeader then setHeaderValidity hdr true state else state).add
        (.generic "Extract: Succeeded"))
      (ExecutionState.getFlatFields extractedType hdr) 0 = .ok s2 := by
    apply setFields_ok 0 (le_refl _)
    intro r hr
    have h := (ExecutionState.readable_iff state r).mp (hread r hr)
    split
    · rw [ExecutionState.get_congr_env _ (setHeaderValidity hdr true state) r (by simp)]
      exact ExecutionState.get_ok_set _ _ _ _ h
    · rw [ExecutionState.get_congr_env _ state r (by simp)]
      exact h
  obtain ⟨s2, hs2⟩ := hok
  refine ⟨?c, ?a, ?r, ?h1, ?h2, ?h3, ?h4⟩
  case h1 =>
    simp only [packet_in.extract, hstruct, calculateSuccessfulParserAdvance, hs2, Bool.not_true,
      Bool.false_eq_true, if_false, List.singleton_append]
    exact rfl
  case h2 => rfl
  case h4 => rfl
  case h3 =>
    intro σ hσ
    have h := advanceCond_evalBool st state extractedType.width_bits σ hσ
    refine ⟨h, ?_⟩
    simp only [Expr.evalBool] at h ⊢
    rw [h]; rfl

theorem extract_accept_then_reject_witness :
    Example.ethLike.isStructLike = true ∧
    (∀ r ∈ ExecutionState.getFlatFields Example.ethLike Example.hdr,
      Example.state.readable r = true) ∧
    ∃ cond acceptState rejectState,
      packet_in.extract Example.stepper Example.ethLike Example.hdr Example.state =
        .ok [⟨some cond, acceptState⟩, ⟨some (.lnot cond), rejectState⟩] ∧
      cond = Expr.geq Example.stepper.getInputPacketSizeVar
        (getConstant Example.stepper.packetSizeVarType
          (max 0 (Example.state.inputPacketCursor + Example.ethLike.width_bits
            - Example.state.getPacketBufferSize))) ∧
      (∀ σ : String → Int, 0 ≤ σ packetSizeVarName →
        cond.evalBool σ = some (decide (σ packetSizeVarName ≥
          Example.state.inputPacketCursor + Example.ethLike.width_bits
            - Example.state.getPacketBufferSize)) ∧
        (Expr.lnot cond).evalBool σ = some (!decide (σ packetSizeVarName ≥
          Example.state.inputPacketCursor + Example.ethLike.width_bits
            - Example.state.getPacketBufferSize))) ∧
      rejectState.body = .exception .packetTooShort :: Example.state.body.drop 1 :=
  ⟨by decide, by decide,
    extract_accept_then_reject Example.stepper Example.state Example.ethLike Example.hdr
      (by decide) (by decide)⟩

/-! ## C2: cursor accounting -/

theorem slicedWidth_leaf (v : Int) (t : Ty) (hs : t.isStructLike = false)
    (hu : t.varbitsUnassigned = true) :
    slicedWidth v t = t.width_bits + t.countVarbits * v.toNat := by
  cases t with
  | bits w s => simp [slicedWidth, Ty.width_bits, Ty.countVarbits]
  | boolean => simp [slicedWidth, Ty.width_bits, Ty.countVarbits]
  | varbits s a =>
    simp only [Ty.varbitsUnassigned, beq_iff_eq] at hu
    simp [slicedWidth, Ty.width_bits, Ty.countVarbits, hu]
  | structLike h fs => simp [Ty.isStructLike] at hs

mutual
/-- The widths sliced over the flattened fields of a type add up to the width of the type
plus the supplied size for each varbit leaf. -/
theorem flatFields_sum (v : Int) : (t : Ty) → (parent : StateVar) →
    t.varbitsUnassigned = true →
    ((ExecutionState.getFlatFields t parent).map fun r => slicedWidth v r.type).sum =
      (if t.isStructLike then t.width_bits + t.countVarbits * v.toNat else 0)
  | .structLike h fs, parent, hu => by
    simp only [ExecutionState.getFlatFields, Ty.isStructLike, if_true, Ty.width_bits,
      Ty.countVarbits]
    exact flatFieldsOf_sum v fs parent (by simpa [Ty.varbitsUnassigned] using hu)
  | .bits _ _, _, _ => by simp [ExecutionState.getFlatFields, Ty.isStructLike]
  | .boolean, _, _ => by simp [ExecutionState.getFlatFields, Ty.isStructLike]
  | .varbits _ _, _, _ => by simp [ExecutionState.getFlatFields, Ty.isStructLike]
/-- The same for a field list. -/
theorem flatFieldsOf_sum (v : Int) : (fs : List (String × Ty)) → (parent : StateVar) →
    Ty.varbitsUnassignedOf fs = true →
    ((ExecutionState.getFlatFieldsOf fs parent).map fun r => slicedWidth v r.type).sum =
      Ty.fields_width_bits fs + Ty.countVarbitsOf fs * v.toNat
  | [], _, _ => by simp [ExecutionState.getFlatFieldsOf, Ty.fields_width_bits, Ty.countVarbitsOf]
  | (n, t) :: rest, parent, hu => by
    simp only [Ty.varbitsUnassignedOf, Bool.and_eq_true] at hu
    have ih := flatFieldsOf_sum v rest parent hu.2
    simp only [ExecutionState.getFlatFieldsOf, List.map_append, List.sum_append, ih,
      Ty.fields_width_bits, Ty.countVarbitsOf]
    cases hs : t.isStructLike
    · simp only [Bool.false_eq_true, if_false, List.map_cons, List.map_nil, List.sum_cons,
        List.sum_nil, StateVar.type, slicedWidth_leaf v t hs hu.1]
      ring
    · have ht := flatFields_sum v t (.member t parent n) hu.1
      simp only [hs, if_true] at ht ⊢
      rw [ht]; ring
end


namespace ExecutionState

theorem lookup_cons_ne {β : Type} (k k2 : List String) (v : β) (l : List (List String × β))
    (h : k ≠ k2) : ((k2, v) :: l).lookup k = l.lookup k := by
  simp only [List.lookup_cons]
  have : (k == k2) = false := by simpa using h
  rw [this]

/-- A binding added under another path leaves the type of what a read returns unchanged. -/
theorem get_set_ne (s : ExecutionState) (r f : StateVar) (pv v : Expr)
    (hk : r.key ≠ f.key) (h : s.get r = .ok v) :
    ∃ v2, (s.set f pv).get r = .ok v2 ∧ v2.type = v.type := by
  unfold get at h ⊢
  rw [env_set, lookup_cons_ne _ _ _ _ hk]
  cases hl : List.lookup r.key s.env with
  | none => rw [hl] at h; cases h
  | some v0 =>
    rw [hl] at h
    cases hh : headerOf r with
    | none =>
      simp only [hh] at h ⊢
      exact ⟨_, rfl, by cases h; rfl⟩
    | some hdr =>
      simp only [hh] at h ⊢
      cases hv : List.lookup (getHeaderValidity hdr).key s.env with
      | none => simp only [hv] at h; cases h
      | some valid =>
        simp only [hv] at h
        have hv0 : v.type = v0.type := by
          cases h
          split <;> rfl
        cases hv2 : List.lookup (getHeaderValidity hdr).key
            ((f.key, s.storedValue pv) :: s.env) with
        | none =>
          simp only [List.lookup_cons] at hv2
          cases hb : ((getHeaderValidity hdr).key == f.key) <;> simp [hb, hv] at hv2
        | some valid2 =>
          refine ⟨_, rfl, ?_⟩
          rw [hv0]
          split <;> rfl

theorem typedAt_iff (s : ExecutionState) (r : StateVar) :
    s.typedAt r = true ↔ ∃ v, s.get r = .ok v ∧ v.type.agrees r.type = true := by
  unfold typedAt
  cases s.get r with
  | ok v => simp
  | error e => simp

end ExecutionState

namespace ExprStepper

theorem assignVarbitSize_width (fieldRef : StateVar) (t : Ty) (n : Int) (hn : 0 ≤ n)
    (ha : t.agrees fieldRef.type = true) :
    ∃ r2 t2, assignVarbitSize fieldRef t n = .ok (r2, t2) ∧ r2.key = fieldRef.key ∧
      t2.width_bits = slicedWidth n fieldRef.type := by
  unfold assignVarbitSize
  cases t with
  | varbits size a =>
    simp only [not_lt.mpr hn, if_false]
    cases hd : fieldRef.type with
    | varbits s2 a2 =>
      cases fieldRef <;> exact ⟨_, _, rfl, rfl, by simp [slicedWidth, Ty.width_bits]⟩
    | _ => rw [hd] at ha; simp [Ty.agrees] at ha
  | bits w sg =>
    refine ⟨_, _, rfl, rfl, ?_⟩
    cases hd : fieldRef.type <;> rw [hd] at ha <;> simp [Ty.agrees] at ha
    simp [slicedWidth, Ty.width_bits, ha]
  | boolean =>
    refine ⟨_, _, rfl, rfl, ?_⟩
    cases hd : fieldRef.type <;> rw [hd] at ha <;> simp [Ty.agrees] at ha
    simp [slicedWidth, Ty.width_bits]
  | structLike h fs =>
    refine ⟨_, _, rfl, rfl, ?_⟩
    cases hd : fieldRef.type <;> rw [hd] at ha <;> simp [Ty.agrees] at ha
    simp [slicedWidth, ha]

/-- The cursor after `setFields` is the cursor before plus the widths sliced for the
fields; the continuation and the buffers are untouched. -/
theorem setFields_cursor (n : Int) (hn : 0 ≤ n) :
    ∀ (fs : List StateVar) (s : ExecutionState),
      (fs.map StateVar.key).Nodup → (∀ r ∈ fs, s.typedAt r = true) →
      ∃ s2, setFields s fs n = .ok s2 ∧
        s2.inputPacketCursor =
          s.inputPacketCursor + ((fs.map fun r => slicedWidth n r.type).sum : Nat) ∧
        s2.body = s.body ∧ s2.emitBuffer = s.emitBuffer ∧
        s2.packetBuffer = s.packetBuffer := by
  intro fs
  induction fs with
  | nil => intro s _ _; exact ⟨s, rfl, by simp, rfl, rfl, rfl⟩
  | cons f rest ih =>
    intro s hnd h
    obtain ⟨v, hv, hag⟩ := (ExecutionState.typedAt_iff s f).mp (h f (List.mem_cons_self _ _))
    obtain ⟨r2, t2, hr, hk, hw⟩ := assignVarbitSize_width f v.type n hn hag
    have hrest : ∀ r ∈ rest, s.typedAt r = true :=
      fun r hr => h r (List.mem_cons_of_mem _ hr)
    simp only [List.map_cons, List.nodup_cons] at hnd
    simp only [setFields, hv, hr, hw]
    split
    · rename_i hz
      obtain ⟨s2, h1, h2, h3⟩ := ih s hnd.2 hrest
      refine ⟨s2, h1, ?_, h3⟩
      simp only [beq_iff_eq] at hz
      rw [h2]; simp [hz]
    · obtain ⟨s2, h1, h2, h3⟩ := ih
        ((((s.slicePacketBuffer (slicedWidth n f.type)).2.add
          (.extract r2 (castExtracted t2 r2.type
            (s.slicePacketBuffer (slicedWidth n f.type)).1))).set r2
              (castExtracted t2 r2.type (s.slicePacketBuffer (slicedWidth n f.type)).1)))
        hnd.2 (by
          intro r hr
          obtain ⟨vr, hvr, hagr⟩ := (ExecutionState.typedAt_iff s r).mp (hrest r hr)
          have hne : r.key ≠ r2.key := by
            rw [hk]; intro he
            exact hnd.1 (he ▸ List.mem_map_of_mem _ hr)
          rw [ExecutionState.typedAt_iff]
          have hvr2 : ((s.slicePacketBuffer (slicedWidth n f.type)).2.add
              (.extract r2 (castExtracted t2 r2.type
                (s.slicePacketBuffer (slicedWidth n f.type)).1))).get r = .ok vr := by
            rw [ExecutionState.get_congr_env _ s r (by simp)]; exact hvr
          obtain ⟨v2, hg, ht⟩ := ExecutionState.get_set_ne _ r r2
            (castExtracted t2 r2.type (s.slicePacketBuffer (slicedWidth n f.type)).1) vr hne hvr2
          exact ⟨v2, hg, by rw [ht]; exact hagr⟩)
      refine ⟨s2, h1, ?_, h3⟩
      rw [h2]
      simp only [ExecutionState.set, ExecutionState.add, ExecutionState.slicePacketBuffer,
        List.map_cons, List.sum_cons, Nat.cast_add]
      omega

end ExprStepper

theorem calculateSuccessfulParserAdvance_eq (st : ExprStepper) (state : ExecutionState)
    (n : Int) :
    st.calculateSuccessfulParserAdvance state n =
      { advanceSize := n, advanceCond := some (st.lengthCond state n),
        advanceFailSize := n, advanceFailCond := some (.lnot (st.lengthCond state n)) } := rfl

/-- The result of `extract(hdr)` once `setFields` has succeeded. -/
theorem extract_eq (st : ExprStepper) (state s2 : ExecutionState) (t : Ty) (hdr : StateVar)
    (hs : t.isStructLike = true)
    (h1 : setFields
      ((if t.isHeader then setHeaderValidity hdr true state else state).add
        (.generic "Extract: Succeeded"))
      (ExecutionState.getFlatFields t hdr) 0 = .ok s2) :
    packet_in.extract st t hdr state =
      .ok [⟨some (st.lengthCond state t.width_bits),
            (s2.add (.condition "Extract Condition: " (st.lengthCond state t.width_bits)
              (some t.width_bits))).popBody⟩,
           ⟨some (.lnot (st.lengthCond state t.width_bits)),
            ((state.add (.generic "Extract: Packet too short")).add
              (.condition "Extract Failure Condition: "
                (.lnot (st.lengthCond state t.width_bits))
                (some t.width_bits))).replaceTopBody (.exception .packetTooShort)⟩] := by
  simp only [packet_in.extract, hs, calculateSuccessfulParserAdvance_eq, h1, Bool.not_true,
    Bool.false_eq_true, if_false, List.singleton_append]

/-- The result of `extract(hdr, varSize)` for a constant size within the declared maximum,
once `setFields` has succeeded. -/
theorem extract_sizeInBits_eq (st : ExprStepper) (state s2 : ExecutionState)
    (isHeader : Bool) (fields : List (String × Ty)) (hdr : StateVar) (sizeType : Ty)
    (v : Int) (size : Nat)
    (hfind : packet_in.findVarbit fields = some size) (hle : v ≤ size)
    (h1 : setFields (if isHeader then setHeaderValidity hdr true state else state)
      (ExecutionState.getFlatFields (.structLike isHeader fields) hdr) v = .ok s2) :
    packet_in.extract_sizeInBits st (.structLike isHeader fields) hdr (.constant sizeType v)
        state =
      .ok [⟨some (st.lengthCond state (v + (Ty.structLike isHeader fields).width_bits)),
            ((s2.add (.extract (getHeaderValidity hdr) (.ref (getHeaderValidity hdr)))).add
              (.condition "Extract Condition: "
                (st.lengthCond state (v + (Ty.structLike isHeader fields).width_bits))
                (some (v + (Ty.structLike isHeader fields).width_bits)))).popBody⟩,
           ⟨some (.lnot (st.lengthCond state (v + (Ty.structLike isHeader fields).width_bits))),
            (state.add (.generic "Extract: Packet too short")).replaceTopBody
              (.exception .packetTooShort)⟩] := by
  simp only [packet_in.extract_sizeInBits, isSymbolicValue, hfind, packet_in.extractCondInfo,
    calculateSuccessfulParserAdvance_eq, h1, Bool.not_true, Bool.false_eq_true, if_false,
    not_lt.mpr hle]

/-- The result of `extract(hdr, varSize)` for a constant size above the declared maximum:
the successor guarded by the accept condition assigns the parser error and rejects. -/
theorem extract_sizeInBits_oversize_eq (st : ExprStepper) (state : ExecutionState)
    (isHeader : Bool) (fields : List (String × Ty)) (hdr : StateVar) (sizeType : Ty)
    (v : Int) (size : Nat)
    (hfind : packet_in.findVarbit fields = some size) (hlt : (size : Int) < v) :
    packet_in.extract_sizeInBits st (.structLike isHeader fields) hdr (.constant sizeType v)
        state =
      .ok [⟨some (st.lengthCond state (v + (Ty.structLike isHeader fields).width_bits)),
            (state.set state.getCurrentParserErrorLabel
              (getConstant st.parserErrorType 4)).replaceTopBody (.exception .reject)⟩] := by
  simp only [packet_in.extract_sizeInBits, isSymbolicValue, hfind, packet_in.extractCondInfo,
    calculateSuccessfulParserAdvance_eq, Bool.not_true, Bool.false_eq_true, if_false,
    hlt, if_true]

/-- The result of `advance(0)`: an unguarded no-op, then the reject successor. -/
theorem advance_zero_eq (st : ExprStepper) (state : ExecutionState) (sizeType : Ty) :
    packet_in.advance st (.constant sizeType 0) state =
      .ok [⟨none, (state.add (.generic "Advance: 0 bits.")).popBody⟩,
           ⟨some (.lnot (st.lengthCond state 0)),
            (state.add (.generic "Advance: Packet too short")).replaceTopBody
              (.exception .packetTooShort)⟩] := by
  simp only [packet_in.advance, isSymbolicValue, packet_in.advanceCondInfo,
    calculateSuccessfulParserAdvance_eq, Bool.not_true, Bool.false_eq_true, if_false,
    beq_self_eq_true, if_true, List.singleton_append]

/-- The result of `advance(n)` for a constant `n` other than 0. -/
theorem advance_nonzero_eq (st : ExprStepper) (state : ExecutionState) (sizeType : Ty)
    (n : Int) (hn : n ≠ 0) :
    packet_in.advance st (.constant sizeType n) state =
      .ok [⟨some (st.lengthCond state n),
             ((state.slicePacketBuffer n).2.add
               (.condition "Advance Condition: " (st.lengthCond state n) none)).popBody⟩,
           ⟨some (.lnot (st.lengthCond state n)),
            (state.add (.generic "Advance: Packet too short")).replaceTopBody
              (.exception .packetTooShort)⟩] := by
  simp only [packet_in.advance, isSymbolicValue, packet_in.advanceCondInfo,
    calculateSuccessfulParserAdvance_eq, Bool.not_true, Bool.false_eq_true, if_false,
    beq_iff_eq, hn, List.singleton_append]

theorem fieldsDeclared_iff (state : ExecutionState) (t : Ty) (hdr : StateVar) :
    fieldsDeclared state t hdr = true ↔
      (t.isStructLike = true ∧ t.varbitsUnassigned = true ∧
        ((ExecutionState.getFlatFields t hdr).map StateVar.key).Nodup ∧
        (getHeaderValidity hdr).key ∉ (ExecutionState.getFlatFields t hdr).map StateVar.key ∧
        ∀ r ∈ ExecutionState.getFlatFields t hdr, state.typedAt r = true) := by
  simp only [fieldsDeclared, Bool.and_eq_true, decide_eq_true_eq, List.all_eq_true, and_assoc]

/-- Declared fields stay declared when the validity bit of the header is set. -/
theorem typedAt_prepared (state : ExecutionState) (t : Ty) (hdr : StateVar) (b : Bool)
    (hnv : (getHeaderValidity hdr).key ∉ (ExecutionState.getFlatFields t hdr).map StateVar.key)
    (htyped : ∀ r ∈ ExecutionState.getFlatFields t hdr, state.typedAt r = true) :
    ∀ r ∈ ExecutionState.getFlatFields t hdr,
      (if b then setHeaderValidity hdr true state else state).typedAt r = true := by
  intro r hr
  cases b
  · exact htyped r hr
  · obtain ⟨v, hv, hag⟩ := (ExecutionState.typedAt_iff state r).mp (htyped r hr)
    have hne : r.key ≠ (getHeaderValidity hdr).key := by
      intro he
      exact hnv (he ▸ List.mem_map_of_mem _ hr)
    obtain ⟨v2, hg, ht⟩ := ExecutionState.get_set_ne state r (getHeaderValidity hdr)
      (.boolLiteral true) v hne hv
    rw [ExecutionState.typedAt_iff]
    exact ⟨v2, hg, by rw [ht]; exact hag⟩

theorem typedAt_add (s : ExecutionState) (ev : TraceEvent) (r : StateVar) :
    (s.add ev).typedAt r = s.typedAt r := by
  unfold ExecutionState.typedAt
  rw [ExecutionState.get_congr_env (s.add ev) s r (by simp)]

/-- The cursor of admissible cursor calls: the accept successor has moved the cursor by
the bits requested, the reject successor has not, and the widths sliced add up to the bits
requested. -/
theorem cursorCall_admissible (st : ExprStepper) (state : ExecutionState) (call : CursorCall)
    (hadm : call.admissible state = true) :
    ∃ guard acceptState rejectState,
      call.step st state = .ok [⟨guard, acceptState⟩,
        ⟨some (.lnot (st.lengthCond state call.requested)), rejectState⟩] ∧
      (guard = some (st.lengthCond state call.requested) ∨
        (guard = none ∧ call.requested = 0)) ∧
      acceptState.inputPacketCursor = state.inputPacketCursor + call.requested ∧
      rejectState.inputPacketCursor = state.inputPacketCursor ∧
      ((call.slices.sum : Nat) : Int) = call.requested := by
  cases call with
  | extract t hdr =>
    simp only [CursorCall.admissible, fieldsDeclared_iff] at hadm
    obtain ⟨hs, hu, hnd, hnv, htyped⟩ := hadm
    obtain ⟨s2, h1, h2, _⟩ := setFields_cursor 0 (le_refl _)
      (ExecutionState.getFlatFields t hdr)
      ((if t.isHeader then setHeaderValidity hdr true state else state).add
        (.generic "Extract: Succeeded")) hnd
      (fun r hr => by
        rw [typedAt_add]; exact typedAt_prepared state t hdr _ hnv htyped r hr)
    have hsum := flatFields_sum 0 t hdr hu
    simp only [hs, if_true, Int.toNat_zero, mul_zero, add_zero] at hsum
    refine ⟨_, _, _, extract_eq st state s2 t hdr hs h1, Or.inl rfl, ?_, rfl, ?_⟩
    · show s2.inputPacketCursor = _
      rw [h2, hsum]
      simp only [CursorCall.requested]
      split <;> rfl
    · simp only [CursorCall.slices, CursorCall.requested, hsum]
  | extractVarbit t hdr sizeType v =>
    simp only [CursorCall.admissible, Bool.and_eq_true, fieldsDeclared_iff, beq_iff_eq,
      decide_eq_true_eq] at hadm
    obtain ⟨⟨⟨⟨hs, hu, hnd, hnv, htyped⟩, hcount⟩, hv0⟩, hmax⟩ := hadm
    cases t with
    | structLike isHeader fields =>
      cases hfind : packet_in.findVarbit fields with
      | none => simp [declaredVarbitSize, hfind] at hmax
      | some size =>
        simp only [declaredVarbitSize, hfind, decide_eq_true_eq] at hmax
        obtain ⟨s2, h1, h2, _⟩ := setFields_cursor v hv0
          (ExecutionState.getFlatFields (.structLike isHeader fields) hdr)
          (if isHeader then setHeaderValidity hdr true state else state) hnd
          (typedAt_prepared state _ hdr _ hnv htyped)
        have hsum := flatFields_sum v (.structLike isHeader fields) hdr hu
        simp only [hs, if_true, hcount, one_mul] at hsum
        refine ⟨_, _, _,
          extract_sizeInBits_eq st state s2 isHeader fields hdr sizeType v size hfind hmax h1,
          Or.inl rfl, ?_, rfl, ?_⟩
        · show s2.inputPacketCursor = _
          rw [h2, hsum]
          simp only [CursorCall.requested]
          have : (if isHeader = true then setHeaderValidity hdr true state
              else state).inputPacketCursor = state.inputPacketCursor := by
            split <;> rfl
          rw [this]
          push_cast
          omega
        · simp only [CursorCall.slices, CursorCall.requested, hsum]
          push_cast
          omega
    | _ => simp [Ty.isStructLike] at hs
  | advance sizeType n =>
    simp only [CursorCall.admissible, decide_eq_true_eq] at hadm
    by_cases h0 : n = 0
    · subst h0
      exact ⟨_, _, _, advance_zero_eq st state sizeType, Or.inr ⟨rfl, rfl⟩,
        by simp [CursorCall.requested, ExecutionState.popBody, ExecutionState.add], rfl,
        by simp [CursorCall.slices, CursorCall.requested]⟩
    · refine ⟨_, _, _, advance_nonzero_eq st state sizeType n h0, Or.inl rfl, ?_, rfl, ?_⟩
      · simp [CursorCall.requested, ExecutionState.popBody, ExecutionState.add,
          ExecutionState.slicePacketBuffer]
      · simp only [CursorCall.slices, CursorCall.requested, List.sum_cons, List.sum_nil,
          add_zero]
        omega

/-- C2 (amended): for `extract(hdr)`, `extract(hdr, varSize)` with a constant `varSize`
between 0 and the declared maximum of the varbit field, and `advance(n)` with a constant
`n >= 0`, the step yields an accept successor followed by a reject successor guarded by
the negated length condition; with `n` the number of bits requested, the accept
successor has cursor `cursor + n`, the reject successor has the cursor of the input state,
and the widths sliced one by one (zero-width fields slicing nothing, the varbit field
taking the supplied size) add up to exactly `n`. For `extract(hdr, varSize)` with a
constant `varSize` above the declared maximum of the varbit field, in every state, the
successor guarded by the accept condition is a Reject, and every successor of the step has
the cursor of the input state. -/
theorem cursorCall_cursor (st : ExprStepper) (state : ExecutionState) (call : CursorCall) :
    (call.admissible state = true →
      ∃ guard acceptState rejectState,
        call.step st state = .ok [⟨guard, acceptState⟩,
          ⟨some (.lnot (st.lengthCond state call.requested)), rejectState⟩] ∧
        (guard = some (st.lengthCond state call.requested) ∨
          (guard = none ∧ call.requested = 0)) ∧
        acceptState.inputPacketCursor = state.inputPacketCursor + call.requested ∧
        rejectState.inputPacketCursor = state.inputPacketCursor ∧
        ((call.slices.sum : Nat) : Int) = call.requested) ∧
    (call.oversize = true →
      ∃ acceptState rest,
        call.step st state =
          .ok (⟨some (st.lengthCond state call.requested), acceptState⟩ :: rest) ∧
        acceptState.body.head? = some (.exception .reject) ∧
        ∀ b ∈ (⟨some (st.lengthCond state call.requested), acceptState⟩ :: rest :
            List Branch),
          b.nextState.inputPacketCursor = state.inputPacketCursor) := by
  refine ⟨cursorCall_admissible st state call, ?_⟩
  intro hover
  cases call with
  | extract t hdr => cases hover
  | advance sizeType n => cases hover
  | extractVarbit t hdr sizeType v =>
    cases t with
    | structLike isHeader fields =>
      cases hfind : packet_in.findVarbit fields with
      | none => simp [CursorCall.oversize, declaredVarbitSize, hfind] at hover
      | some size =>
        simp only [CursorCall.oversize, declaredVarbitSize, hfind, decide_eq_true_eq] at hover
        refine ⟨_, [],
          extract_sizeInBits_oversize_eq st state isHeader fields hdr sizeType v size hfind
            hover, rfl, ?_⟩
        intro b hb
        rw [List.mem_singleton] at hb
        subst hb
        rfl
    | _ => simp [CursorCall.oversize, declaredVarbitSize] at hover

/-- C2, witness: `extract(hdr, 8)` and `extract(hdr, 16)` on a header whose varbit field
holds at most 8 bits. -/
theorem cursorCall_cursor_witness :
    (CursorCall.extractVarbit Example.optLike Example.optHdr (.bits 32 false) 16).oversize
      = true ∧
    (∃ acceptState rest,
      (CursorCall.extractVarbit Example.optLike Example.optHdr (.bits 32 false) 16).step
          Example.stepper Example.optState =
        .ok (⟨some (Example.stepper.lengthCond Example.optState
          (CursorCall.extractVarbit Example.optLike Example.optHdr
            (.bits 32 false) 16).requested), acceptState⟩ :: rest) ∧
      acceptState.body.head? = some (.exception .reject) ∧
      ∀ b ∈ (⟨some (Example.stepper.lengthCond Example.optState
          (CursorCall.extractVarbit Example.optLike Example.optHdr
            (.bits 32 false) 16).requested), acceptState⟩ :: rest : List Branch),
        b.nextState.inputPacketCursor = Example.optState.inputPacketCursor) ∧
    (CursorCall.extractVarbit Example.optLike Example.optHdr (.bits 32 false) 8).admissible
      Example.optState = true ∧
    ∃ guard acceptState rejectState,
      (CursorCall.extractVarbit Example.optLike Example.optHdr (.bits 32 false) 8).step
          Example.stepper Example.optState =
        .ok [⟨guard, acceptState⟩,
          ⟨some (.lnot (Example.stepper.lengthCond Example.optState
            (CursorCall.extractVarbit Example.optLike Example.optHdr
              (.bits 32 false) 8).requested)), rejectState⟩] ∧
      (guard = some (Example.stepper.lengthCond Example.optState
          (CursorCall.extractVarbit Example.optLike Example.optHdr
            (.bits 32 false) 8).requested) ∨
        (guard = none ∧ (CursorCall.extractVarbit Example.optLike Example.optHdr
          (.bits 32 false) 8).requested = 0)) ∧
      acceptState.inputPacketCursor = Example.optState.inputPacketCursor +
        (CursorCall.extractVarbit Example.optLike Example.optHdr
          (.bits 32 false) 8).requested ∧
      rejectState.inputPacketCursor = Example.optState.inputPacketCursor ∧
      (((CursorCall.extractVarbit Example.optLike Example.optHdr
        (.bits 32 false) 8).slices.sum : Nat) : Int) =
        (CursorCall.extractVarbit Example.optLike Example.optHdr
          (.bits 32 false) 8).requested :=
  ⟨by decide, (cursorCall_cursor Example.stepper Example.optState _).2 (by decide),
    by decide, (cursorCall_cursor Example.stepper Example.optState _).1 (by decide)⟩

/-- Counterexample to C2 as stated: `extract(hdr, 16)` on a header whose varbit field
holds at most 8 bits requests 24 bits; the successor guarded by the accept condition of
the length check has the cursor of the input state, not `cursor + 24`. -/
theorem extractVarbit_oversize_cursor_unchanged :
    ∃ acceptState,
      (CursorCall.extractVarbit Example.optLike Example.optHdr (.bits 32 false) 16).step
          Example.stepper Example.optState =
        .ok [⟨some (Example.stepper.lengthCond Example.optState
          (CursorCall.extractVarbit Example.optLike Example.optHdr
            (.bits 32 false) 16).requested), acceptState⟩] ∧
      (CursorCall.extractVarbit Example.optLike Example.optHdr
        (.bits 32 false) 16).requested = 24 ∧
      acceptState.inputPacketCursor = Example.optState.inputPacketCursor ∧
      acceptState.inputPacketCursor ≠ Example.optState.inputPacketCursor +
        (CursorCall.extractVarbit Example.optLike Example.optHdr
          (.bits 32 false) 16).requested :=
  ⟨_, rfl, by decide, rfl, by decide⟩

/-! ## C3: extract followed by emit -/

theorem packetBits_length (pkt : Int → Bool) (off : Int) (w : Nat) :
    (packetBits pkt off w).length = w := by
  simp [packetBits]

theorem packetBits_add (pkt : Int → Bool) (off : Int) (a b : Nat) :
    packetBits pkt off (a + b) = packetBits pkt off a ++ packetBits pkt (off + a) b := by
  simp only [packetBits, List.range_add, List.map_append, List.map_map]
  congr 1
  apply List.map_congr_left
  intro i _
  simp [Function.comp, add_assoc]

theorem castBits_same_width (dest src : Ty) (bits : List Bool)
    (h : dest.width_bits = bits.length) : castBits dest src bits = bits := by
  simp [castBits, h]

/-- The emit cast undoes the extract cast: the round trip of a `bit<>`, `int<>` or `bool`
field denotes the sliced bits. -/
theorem roundTrip_field (pkt : Int → Bool) (off : Int) (t : Ty) (ht : t.isBitsOrBool = true) :
    (packet_out.castEmitted t (castExtracted t t (.packetSlice off t.width_bits))).evalBits pkt =
      some (packetBits pkt off t.width_bits) := by
  cases t with
  | bits w s =>
    cases s
    · simp [packet_out.castEmitted, castExtracted, Expr.evalBits, Ty.width_bits]
    · simp [packet_out.castEmitted, castExtracted, Expr.evalBits, Ty.width_bits,
        castBits_same_width, packetBits_length]
  | boolean =>
    simp [packet_out.castEmitted, castExtracted, Expr.evalBits, Ty.width_bits,
      castBits_same_width, packetBits_length, getBitType]
  | varbits _ _ => simp [Ty.isBitsOrBool] at ht
  | structLike _ _ => simp [Ty.isBitsOrBool] at ht

/-- The round trip of a list of fields denotes the bits of the packet from the offset on,
as many as the fields are wide. -/
theorem roundTripExprs_evalBuffer (pkt : Int → Bool) :
    ∀ (tys : List Ty) (off : Int), (∀ t ∈ tys, t.isBitsOrBool = true) →
      evalBuffer pkt (roundTripExprs off tys) =
        some (packetBits pkt off (tys.map Ty.width_bits).sum) := by
  intro tys
  induction tys with
  | nil => intro off _; simp [roundTripExprs, evalBuffer, packetBits]
  | cons t rest ih =>
    intro off h
    have hrest := ih
    simp only [roundTripExprs, List.map_cons, List.sum_cons]
    split
    · rename_i hz
      rw [ih off (fun t ht => h t (List.mem_cons_of_mem _ ht)), hz, zero_add]
    · simp only [evalBuffer, roundTrip_field pkt off t (h t (List.mem_cons_self _ _)),
        ih (off + t.width_bits) (fun t ht => h t (List.mem_cons_of_mem _ ht)), packetBits_add]


theorem getFlatFieldsOf_simple (hdr : StateVar) :
    ∀ fields : List (String × Ty), (∀ f ∈ fields, f.2.isBitsOrBool = true) →
      ExecutionState.getFlatFieldsOf fields hdr = fieldRefs hdr fields := by
  intro fields
  induction fields with
  | nil => intro _; rfl
  | cons f rest ih =>
    intro h
    obtain ⟨n, t⟩ := f
    have ht : t.isStructLike = false := by
      have := h (n, t) (List.mem_cons_self _ _)
      cases t <;> simp_all [Ty.isBitsOrBool, Ty.isStructLike]
    simp only [ExecutionState.getFlatFieldsOf, ht, Bool.false_eq_true, if_false, fieldRefs,
      List.map_cons, List.singleton_append]
    rw [ih (fun f hf => h f (List.mem_cons_of_mem _ hf))]
    rfl

theorem agrees_simple (a t : Ty) (ht : t.isBitsOrBool = true) (h : a.agrees t = true) :
    a = t := by
  cases t <;> cases a <;> simp_all [Ty.isBitsOrBool, Ty.agrees]

theorem assignVarbitSize_simple (r : StateVar) (t : Ty) (n : Int)
    (ht : t.isBitsOrBool = true) : assignVarbitSize r t n = .ok (r, t) := by
  cases t <;> simp_all [Ty.isBitsOrBool, assignVarbitSize]

/-- What a successful read returns has the type of the value bound to the reference. -/
theorem get_type (s : ExecutionState) (r : StateVar) (v : Expr) (h : s.get r = .ok v) :
    ∃ v0, s.env.lookup r.key = some v0 ∧ v.type = v0.type := by
  unfold ExecutionState.get at h
  cases hl : List.lookup r.key s.env with
  | none => rw [hl] at h; cases h
  | some v0 =>
    rw [hl] at h
    refine ⟨v0, rfl, ?_⟩
    cases hh : ExecutionState.headerOf r with
    | none => simp only [hh] at h; cases h; rfl
    | some hdr =>
      simp only [hh] at h
      cases hv : List.lookup (getHeaderValidity hdr).key s.env with
      | none => simp only [hv] at h; cases h
      | some valid =>
        simp only [hv] at h
        cases h
        split <;> rfl

/-- The function `setFields` leaves every binding outside the paths of its fields alone. -/
theorem setFields_frame (n : Int) :
    ∀ (refs : List StateVar) (s s2 : ExecutionState), setFields s refs n = .ok s2 →
      ∀ k, k ∉ refs.map StateVar.key → s2.env.lookup k = s.env.lookup k := by
  intro refs
  induction refs with
  | nil =>
    intro s s2 h k _
    simp only [setFields] at h
    cases h; rfl
  | cons f rest ih =>
    intro s s2 h k hk
    simp only [List.map_cons, List.mem_cons, not_or] at hk
    simp only [setFields] at h
    cases hg : s.get f with
    | error e => rw [hg] at h; cases h
    | ok v =>
      rw [hg] at h
      simp only [] at h
      cases ha : assignVarbitSize f v.type n with
      | error e => rw [ha] at h; cases h
      | ok p =>
        obtain ⟨r2, t2⟩ := p
        rw [ha] at h
        simp only [] at h
        have hkey : r2.key = f.key := by
          unfold assignVarbitSize at ha
          cases hvt : v.type with
          | varbits size a =>
            rw [hvt] at ha
            simp only [] at ha
            split at ha
            · cases ha
            · cases f <;> simp only [] at ha <;> cases ha <;> rfl
          | bits _ _ => rw [hvt] at ha; cases ha; rfl
          | boolean => rw [hvt] at ha; cases ha; rfl
          | structLike _ _ => rw [hvt] at ha; cases ha; rfl
        split at h
        · exact ih s s2 h k hk.2
        · rw [ih _ s2 h k hk.2]
          simp only [ExecutionState.env_set, ExecutionState.env_add,
            ExecutionState.env_slicePacketBuffer]
          exact ExecutionState.lookup_cons_ne _ _ _ _ (by rw [hkey]; exact hk.1)


theorem fieldRefs_key (hdr : StateVar) (fields : List (String × Ty)) :
    (fieldRefs hdr fields).map StateVar.key = fields.map fun f => hdr.key ++ [f.1] := by
  simp [fieldRefs, StateVar.key, Function.comp]

/-- After `setFields` on the fields of a header, the environment holds the extracted
slices, field after field from the cursor on. -/
theorem setFields_envExtracted (hdr : StateVar) :
    ∀ (fields : List (String × Ty)) (s s2 : ExecutionState),
      (∀ f ∈ fields, f.2.isBitsOrBool = true) →
      ((fieldRefs hdr fields).map StateVar.key).Nodup →
      (∀ r ∈ fieldRefs hdr fields, s.typedAt r = true) →
      s.inUndefinedState = false →
      setFields s (fieldRefs hdr fields) 0 = .ok s2 →
      envExtracted s2.env hdr s.inputPacketCursor fields := by
  intro fields
  induction fields with
  | nil => intro s s2 _ _ _ _ _; trivial
  | cons f rest ih =>
    intro s s2 hsimple hnd htyped hoff h
    obtain ⟨n, t⟩ := f
    have ht := hsimple (n, t) (List.mem_cons_self _ _)
    have hsrest : ∀ f ∈ rest, f.2.isBitsOrBool = true :=
      fun f hf => hsimple f (List.mem_cons_of_mem _ hf)
    simp only [fieldRefs, List.map_cons, List.nodup_cons] at hnd htyped h
    obtain ⟨v, hv, hag⟩ := (ExecutionState.typedAt_iff s _).mp
      (htyped (.member t hdr n) (List.mem_cons_self _ _))
    have hvt : v.type = t := agrees_simple _ _ ht hag
    have hrest : ∀ r ∈ fieldRefs hdr rest, s.typedAt r = true :=
      fun r hr => htyped r (List.mem_cons_of_mem _ hr)
    simp only [setFields, hv, hvt, assignVarbitSize_simple _ t 0 ht] at h
    have hkey : (StateVar.member t hdr n).key = hdr.key ++ [n] := rfl
    split at h
    · rename_i hz
      simp only [beq_iff_eq] at hz
      have hfr := setFields_frame 0 _ s s2 h _ hnd.1
      obtain ⟨v0, hl, hty⟩ := get_type s _ v hv
      refine ⟨?_, ?_⟩
      · simp only [hz, if_true]
        exact ⟨v0, by rw [← hkey, hfr, hl], by rw [← hty, hvt]⟩
      · rw [hz]
        simpa using ih s s2 hsrest hnd.2 hrest hoff h
    · rename_i hz
      simp only [beq_iff_eq] at hz
      have hfr := setFields_frame 0 _ _ s2 h _ hnd.1
      refine ⟨?_, ?_⟩
      · simp only [hz, if_false]
        rw [← hkey, hfr]
        have hst : ∀ (a : ExecutionState) (e : Expr), a.properties = s.properties →
            a.storedValue e = e := fun a e ha =>
          ExecutionState.storedValue_off a e (by
            simp only [ExecutionState.inUndefinedState, ha]
            exact hoff)
        simp [ExecutionState.slicePacketBuffer, StateVar.type, ExecutionState.add, hst]
      · have := ih _ s2 hsrest hnd.2 (by
          intro r hr
          obtain ⟨vr, hvr, hagr⟩ := (ExecutionState.typedAt_iff s r).mp (hrest r hr)
          have hne : r.key ≠ (StateVar.member t hdr n).key := by
            intro he
            exact hnd.1 (he ▸ List.mem_map_of_mem _ hr)
          rw [ExecutionState.typedAt_iff]
          obtain ⟨v2, hg, hty⟩ := ExecutionState.get_set_ne
            ((s.slicePacketBuffer t.width_bits).2.add
              (.extract (.member t hdr n) (castExtracted t (StateVar.member t hdr n).type
                (s.slicePacketBuffer t.width_bits).1)))
            r (.member t hdr n)
            (castExtracted t (StateVar.member t hdr n).type
              (s.slicePacketBuffer t.width_bits).1) vr hne
            (by rw [ExecutionState.get_congr_env _ s r (by simp)]; exact hvr)
          exact ⟨v2, hg, by rw [hty]; exact hagr⟩) (by exact hoff) h
        simpa [ExecutionState.set, ExecutionState.add, ExecutionState.slicePacketBuffer]
          using this

theorem castExtracted_type (t : Ty) (off : Int) (ht : t.isBitsOrBool = true) :
    (castExtracted t t (.packetSlice off t.width_bits)).type = t := by
  cases t with
  | bits w s => cases s <;> simp [castExtracted, Expr.type, getBitType, Ty.width_bits]
  | boolean => simp [castExtracted, Expr.type]
  | varbits _ _ => simp [Ty.isBitsOrBool] at ht
  | structLike _ _ => simp [Ty.isBitsOrBool] at ht

theorem emittedType_simple (e : Expr) (t : Ty) (ht : t.isBitsOrBool = true)
    (he : e.type = t) : packet_out.emittedType e = t := by
  unfold packet_out.emittedType
  rw [he]
  cases t <;> simp_all [Ty.isBitsOrBool]

/-- On an environment that holds the extracted slices of a valid header, the emit loop
appends the round trip of the fields to the emit buffer and changes nothing else. -/
theorem emitFields_envExtracted (hdr : StateVar) (hhdr : hdr.type.isHeader = true) :
    ∀ (fields : List (String × Ty)) (off : Int) (s : ExecutionState),
      (∀ f ∈ fields, f.2.isBitsOrBool = true ∧ f.1 ≠ validName) →
      s.env.lookup (getHeaderValidity hdr).key = some (.boolLiteral true) →
      envExtracted s.env hdr off fields →
      ∃ s2, packet_out.emitFields hdr fields s = .ok s2 ∧
        s2.emitBuffer = s.emitBuffer ++ roundTripExprs off (fields.map Prod.snd) ∧
        s2.env = s.env ∧ s2.body = s.body ∧ s2.inputPacketCursor = s.inputPacketCursor ∧
        s2.packetBuffer = s.packetBuffer := by
  intro fields
  induction fields with
  | nil =>
    intro off s _ _ _
    exact ⟨s, rfl, by simp [roundTripExprs], rfl, rfl, rfl, rfl⟩
  | cons f rest ih =>
    intro off s hsimple hvalid henv
    obtain ⟨n, t⟩ := f
    obtain ⟨ht, hn⟩ := hsimple (n, t) (List.mem_cons_self _ _)
    have hsrest : ∀ f ∈ rest, f.2.isBitsOrBool = true ∧ f.1 ≠ validName :=
      fun f hf => hsimple f (List.mem_cons_of_mem _ hf)
    have hns : t.isStructLike = false := by
      cases t <;> simp_all [Ty.isBitsOrBool, Ty.isStructLike]
    obtain ⟨hhead, htail⟩ := henv
    have hheader : ExecutionState.headerOf (.member t hdr n) = some hdr := by
      simp [ExecutionState.headerOf, hhdr, hn]
    have hget : ∀ x, s.env.lookup (hdr.key ++ [n]) = some x →
        s.get (.member t hdr n) = .ok x := by
      intro x hx
      have hvalid2 : s.env.lookup (hdr.key ++ [validName]) = some (.boolLiteral true) :=
        hvalid
      simp [ExecutionState.get, StateVar.key, getHeaderValidity, hx, hheader, hvalid2]
    by_cases hz : t.width_bits = 0
    · simp only [hz, if_true] at hhead
      obtain ⟨v0, hl, hty⟩ := hhead
      obtain ⟨s2, h1, h2, h3⟩ := ih off s hsrest hvalid (by simpa [hz] using htail)
      refine ⟨s2, ?_, ?_, h3⟩
      · simp only [packet_out.emitFields, hns, Bool.false_eq_true, if_false, hget v0 hl,
          emittedType_simple v0 t ht hty, hz, beq_self_eq_true, if_true]
        exact h1
      · rw [h2]; simp [roundTripExprs, hz]
    · simp only [hz, if_false] at hhead
      obtain ⟨s2, h1, h2, h3, h4, h5, h6⟩ := ih (off + t.width_bits)
        ((s.add (.emit (.member t hdr n)
          (castExtracted t t (.packetSlice off t.width_bits)))).appendToEmitBuffer
            (packet_out.castEmitted t (castExtracted t t (.packetSlice off t.width_bits))))
        hsrest hvalid htail
      refine ⟨s2, ?_, ?_, h3, h4, h5, h6⟩
      · simp only [packet_out.emitFields, hns, Bool.false_eq_true, if_false, hget _ hhead,
          emittedType_simple _ t ht (castExtracted_type t off ht), beq_iff_eq, hz]
        exact h1
      · rw [h2]
        simp [roundTripExprs, hz, ExecutionState.appendToEmitBuffer, ExecutionState.add]


/-- The result of `emit(hdr)` once the validity bit is known to be untainted and readable
and the emit loop has succeeded. -/
theorem emit_eq (state s3 : ExecutionState) (isHeader : Bool) (fields : List (String × Ty))
    (parent : StateVar) (name : String) (validValue : Expr)
    (htaint : state.hasTaint (.ref (getHeaderValidity
      (.member (.structLike isHeader fields) parent name))) = false)
    (hfields : packet_out.emitFields (.member (.structLike isHeader fields) parent name)
      fields state = .ok s3)
    (hvalid : state.get (getHeaderValidity
      (.member (.structLike isHeader fields) parent name)) = .ok validValue) :
    packet_out.emit (.ref (.member (.structLike isHeader fields) parent name)) state =
      .ok [⟨some validValue,
            (s3.add (.emit
              (getHeaderValidity (.member (.structLike isHeader fields) parent name))
              (.ref (getHeaderValidity
                (.member (.structLike isHeader fields) parent name))))).popBody⟩,
           ⟨some (.lnot (.ref (getHeaderValidity
              (.member (.structLike isHeader fields) parent name)))),
            (state.add (.expression (.ref (getHeaderValidity
              (.member (.structLike isHeader fields) parent name)))
                "Invalid emit: ")).popBody⟩] := by
  simp only [packet_out.emit, Expr.type, StateVar.type, htaint, Bool.false_eq_true, if_false,
    hfields, hvalid]

theorem fields_width_bits_eq_sum :
    ∀ fields : List (String × Ty),
      Ty.fields_width_bits fields = ((fields.map Prod.snd).map Ty.width_bits).sum := by
  intro fields
  induction fields with
  | nil => rfl
  | cons f rest ih =>
    obtain ⟨n, t⟩ := f
    simp [Ty.fields_width_bits, ih]

/-- The validity bit reads as the value bound to it. -/
theorem get_validity (s : ExecutionState) (hdr : StateVar) (v : Expr)
    (h : s.env.lookup (getHeaderValidity hdr).key = some v) :
    s.get (getHeaderValidity hdr) = .ok v := by
  unfold ExecutionState.get
  rw [h]
  simp [ExecutionState.headerOf, getHeaderValidity]

/-- What the code appends on the round trip is what the specification describes, for
fields of type `bit<>`, `int<>` or `bool`. -/
theorem roundTripExprs_eq_spec :
    ∀ (tys : List Ty) (off : Int), (∀ t ∈ tys, t.isBitsOrBool = true) →
      roundTripExprs off tys = roundTripSpec off tys := by
  intro tys
  induction tys with
  | nil => intro off _; rfl
  | cons t rest ih =>
    intro off h
    have hrest := fun o => ih o (fun u hu => h u (List.mem_cons_of_mem _ hu))
    have ht := h t (List.mem_cons_self _ _)
    simp only [roundTripExprs, roundTripSpec, hrest]
    split
    · rfl
    · cases t with
      | bits w sg => cases sg <;> rfl
      | boolean => rfl
      | _ => cases ht

/-- C3: for a header type whose fields are `bit<>`, `int<>` or `bool`, declared in a state
with an empty emit buffer and outside a region marked by `inUndefinedState` (inside one
the extract stores taint, not the packet), `extract(h)` yields an accept successor whose
guard holds for every input that offers the `W` bits of the header, and `emit(h)` on that
successor yields a valid successor, guarded by the validity `true` that the extract
stored. The emit buffer of that successor holds, per field of non-zero width in
declaration order, the slice of the packet at the offset of the field, wrapped for a
signed field in the cast to the signed type applied on extract and the cast to the
unsigned type of the same width applied on emit, and for a boolean field in the cast to
`bool` applied on extract and the cast to `bit<1>` applied on emit; it denotes, bit for
bit, the `W` bits of the packet that the extract sliced at the cursor. -/
theorem extract_emit_roundTrip (st : ExprStepper) (state : ExecutionState)
    (fields : List (String × Ty)) (parent : StateVar) (name : String)
    (hsimple : fields.all (fun f => f.2.isBitsOrBool) = true)
    (hdecl : fieldsDeclared state (.structLike true fields)
      (.member (.structLike true fields) parent name) = true)
    (hempty : state.emitBuffer = []) (hoff : state.inUndefinedState = false) :
    ∃ acceptState rejectBranch validState invalidBranch,
      packet_in.extract st (.structLike true fields)
          (.member (.structLike true fields) parent name) state =
        .ok [⟨some (st.lengthCond state (Ty.structLike true fields).width_bits),
          acceptState⟩, rejectBranch] ∧
      (∀ σ : String → Int, 0 ≤ σ packetSizeVarName →
        state.inputPacketCursor + (Ty.structLike true fields).width_bits
          - state.getPacketBufferSize ≤ σ packetSizeVarName →
        (st.lengthCond state (Ty.structLike true fields).width_bits).evalBool σ =
          some true) ∧
      packet_out.emit (.ref (.member (.structLike true fields) parent name)) acceptState =
        .ok [⟨some (.boolLiteral true), validState⟩, invalidBranch] ∧
      validState.emitBuffer = roundTripSpec state.inputPacketCursor (fields.map Prod.snd) ∧
      ∀ pkt : Int → Bool,
        evalBuffer pkt validState.emitBuffer =
          some (packetBits pkt state.inputPacketCursor
            (Ty.structLike true fields).width_bits) := by
  simp only [List.all_eq_true] at hsimple
  obtain ⟨hs, hu, hnd, hnv, htyped⟩ := (fieldsDeclared_iff _ _ _).mp hdecl
  have hflat : ExecutionState.getFlatFields (.structLike true fields)
      (.member (.structLike true fields) parent name) =
      fieldRefs (.member (.structLike true fields) parent name) fields := by
    simp only [ExecutionState.getFlatFields]
    exact getFlatFieldsOf_simple _ fields hsimple
  rw [hflat] at hnd hnv htyped
  have htyped0 : ∀ r ∈ fieldRefs (.member (.structLike true fields) parent name) fields,
      ((setHeaderValidity (.member (.structLike true fields) parent name) true state).add
        (.generic "Extract: Succeeded")).typedAt r = true := by
    intro r hr
    rw [typedAt_add]
    have := typedAt_prepared state (.structLike true fields)
      (.member (.structLike true fields) parent name) true (by rw [hflat]; exact hnv)
      (by rw [hflat]; exact htyped) r (by rw [hflat]; exact hr)
    simpa using this
  obtain ⟨s2, h1, _, _, hemitbuf, _⟩ := setFields_cursor 0 (le_refl _) _ _ hnd htyped0
  have henv := setFields_envExtracted _ fields _ s2 hsimple hnd htyped0 (by exact hoff) h1
  have hvalid : s2.env.lookup (getHeaderValidity
      (.member (.structLike true fields) parent name)).key = some (.boolLiteral true) := by
    rw [setFields_frame 0 _ _ s2 h1 _ hnv]
    simp [setHeaderValidity, ExecutionState.set, ExecutionState.add,
      ExecutionState.storedValue_off state _ hoff]
  have hnames : ∀ f ∈ fields, f.2.isBitsOrBool = true ∧ f.1 ≠ validName := by
    intro f hf
    refine ⟨hsimple f hf, fun he => hnv ?_⟩
    rw [fieldRefs_key]
    exact List.mem_map.mpr ⟨f, hf, by rw [he]; rfl⟩
  obtain ⟨s3, h3, hbuf3, henv3, _⟩ := emitFields_envExtracted
    (.member (.structLike true fields) parent name) rfl fields
    ((setHeaderValidity (.member (.structLike true fields) parent name) true state).add
      (.generic "Extract: Succeeded")).inputPacketCursor
    ((s2.add (.condition "Extract Condition: "
      (st.lengthCond state (Ty.structLike true fields).width_bits)
      (some (Ty.structLike true fields).width_bits))).popBody)
    hnames hvalid henv
  have hb : ((s2.add (.condition "Extract Condition: "
      (st.lengthCond state (Ty.structLike true fields).width_bits)
      (some (Ty.structLike true fields).width_bits))).popBody).emitBuffer = [] := by
    show s2.emitBuffer = []
    rw [hemitbuf]
    exact hempty
  have htys : ∀ t ∈ fields.map Prod.snd, t.isBitsOrBool = true := fun t ht => by
    obtain ⟨f, hf, rfl⟩ := List.mem_map.mp ht
    exact hsimple f hf
  refine ⟨_, _, _, _, extract_eq st state s2 _ _ hs (by rw [hflat]; exact h1), ?_,
    emit_eq _ s3 true fields parent name (.boolLiteral true) ?_ h3
      (get_validity _ _ _ hvalid), ?_, ?_⟩
  · intro σ h0 hle
    have := advanceCond_evalBool st state (Ty.structLike true fields).width_bits σ h0
    simp only [lengthCond]
    rw [this]
    simp only [ExecutionState.getInputPacketCursor, Option.some.injEq, decide_eq_true_eq]
    exact hle
  · simp only [ExecutionState.hasTaint]
    have hv2 : ((s2.add (.condition "Extract Condition: "
        (st.lengthCond state (Ty.structLike true fields).width_bits)
        (some (Ty.structLike true fields).width_bits))).popBody).env.lookup
        (getHeaderValidity (.member (.structLike true fields) parent name)).key =
        some (.boolLiteral true) := hvalid
    rw [hv2]
    rfl
  · show s3.emitBuffer = _
    rw [hbuf3, hb, List.nil_append, roundTripExprs_eq_spec _ _ htys]
    rfl
  · intro pkt
    show evalBuffer pkt s3.emitBuffer = _
    rw [hbuf3]
    rw [hb, List.nil_append, roundTripExprs_evalBuffer pkt _ _ htys]
    simp only [Ty.width_bits, fields_width_bits_eq_sum]
    rfl

/-- C3, witness: the round trip of the example header, with a signed and a boolean field,
in the example state. -/
theorem extract_emit_roundTrip_witness :
    Example.ethFields.all (fun f => f.2.isBitsOrBool) = true ∧
    fieldsDeclared Example.state (.structLike true Example.ethFields)
      (.member (.structLike true Example.ethFields) Example.hdrs "h") = true ∧
    Example.state.emitBuffer = [] ∧
    Example.state.inUndefinedState = false ∧
    ∃ acceptState rejectBranch validState invalidBranch,
      packet_in.extract Example.stepper (.structLike true Example.ethFields)
          (.member (.structLike true Example.ethFields) Example.hdrs "h") Example.state =
        .ok [⟨some (Example.stepper.lengthCond Example.state
          (Ty.structLike true Example.ethFields).width_bits), acceptState⟩, rejectBranch] ∧
      (∀ σ : String → Int, 0 ≤ σ packetSizeVarName →
        Example.state.inputPacketCursor + (Ty.structLike true Example.ethFields).width_bits
          - Example.state.getPacketBufferSize ≤ σ packetSizeVarName →
        (Example.stepper.lengthCond Example.state
          (Ty.structLike true Example.ethFields).width_bits).evalBool σ = some true) ∧
      packet_out.emit (.ref (.member (.structLike true Example.ethFields) Example.hdrs "h"))
          acceptState =
        .ok [⟨some (.boolLiteral true), validState⟩, invalidBranch] ∧
      validState.emitBuffer =
        roundTripSpec Example.state.inputPacketCursor (Example.ethFields.map Prod.snd) ∧
      ∀ pkt : Int → Bool,
        evalBuffer pkt validState.emitBuffer =
          some (packetBits pkt Example.state.inputPacketCursor
            (Ty.structLike true Example.ethFields).width_bits) :=
  ⟨by decide, by decide, rfl, rfl,
    extract_emit_roundTrip Example.stepper Example.state Example.ethFields Example.hdrs "h"
      (by decide) (by decide) rfl rfl⟩

/-- Inside a region marked by `inUndefinedState` there is no round trip: the extract binds
the validity bit and the fields to taint, and the emit on its accept successor is
unimplemented for the tainted validity, so it has no valid successor. -/
theorem extract_emit_undefined_region :
    (match packet_in.extract Example.stepper (.structLike true Example.ethFields)
        (.member (.structLike true Example.ethFields) Example.hdrs "h")
        (Example.state.setProperty "inUndefinedState" (.bool true)) with
     | .ok (acceptBranch :: _) =>
       some (acceptBranch.nextState.env.lookup
           (getHeaderValidity (.member (.structLike true Example.ethFields) Example.hdrs "h")).key,
         packet_out.emit (.ref (.member (.structLike true Example.ethFields) Example.hdrs "h"))
           acceptBranch.nextState)
     | _ => none) = some (some (.taint .boolean), .error .testgenUnimplemented) :=
  rfl

/-! ## C4: `packet_in.advance` with a constant size -/

/-- Whenever `extract(hdr)` yields successors, their guards are the length condition for
the width of the extracted type and its negation. -/
theorem extract_guards (st : ExprStepper) (state : ExecutionState) (t : Ty) (hdr : StateVar)
    (bs : List Branch) (h : packet_in.extract st t hdr state = .ok bs) :
    bs.map Branch.constraint =
      [some (st.lengthCond state t.width_bits),
       some (.lnot (st.lengthCond state t.width_bits))] := by
  unfold packet_in.extract at h
  split at h
  · cases h
  · simp only [calculateSuccessfulParserAdvance_eq] at h
    split at h
    · cases h
    · rename_i acc hacc
      split at hacc
      · cases hacc
      · cases hacc
        cases h
        rfl

/-- C4 (amended): `advance(n)` with a constant `n >= 0` yields an accept successor followed
by a reject successor. The reject successor is guarded by the negation of the length
condition `input_size >= cursor + n - buffer_size` (the condition an extract of a type of
width `n` uses) and has continuation top `Exception(PacketTooShort)`. For `n > 0` the
accept successor is guarded by the length condition; for `n = 0` it is unguarded (a
no-op). Neither successor assigns an environment entry, the accept successor pops the
call and has cursor `cursor + n`. -/
theorem advance_constant (st : ExprStepper) (state : ExecutionState) (sizeType : Ty)
    (n : Int) (hn : 0 ≤ n) :
    ∃ acceptState rejectState,
      packet_in.advance st (.constant sizeType n) state =
        .ok [⟨if n = 0 then none else some (st.lengthCond state n), acceptState⟩,
             ⟨some (.lnot (st.lengthCond state n)), rejectState⟩] ∧
      (∀ σ : String → Int, 0 ≤ σ packetSizeVarName →
        (st.lengthCond state n).evalBool σ = some (decide (σ packetSizeVarName ≥
          state.inputPacketCursor + n - state.getPacketBufferSize))) ∧
      (∀ (t : Ty) (hdr : StateVar) (bs : List Branch), (t.width_bits : Int) = n →
        packet_in.extract st t hdr state = .ok bs →
        bs.map Branch.constraint =
          [some (st.lengthCond state n), some (.lnot (st.lengthCond state n))]) ∧
      acceptState.env = state.env ∧ rejectState.env = state.env ∧
      acceptState.body = state.body.drop 1 ∧
      acceptState.inputPacketCursor = state.inputPacketCursor + n ∧
      rejectState.body = .exception .packetTooShort :: state.body.drop 1 ∧
      rejectState.inputPacketCursor = state.inputPacketCursor := by
  have hsem : ∀ σ : String → Int, 0 ≤ σ packetSizeVarName →
      (st.lengthCond state n).evalBool σ = some (decide (σ packetSizeVarName ≥
        state.inputPacketCursor + n - state.getPacketBufferSize)) :=
    fun σ hσ => advanceCond_evalBool st state n σ hσ
  have hext : ∀ (t : Ty) (hdr : StateVar) (bs : List Branch), (t.width_bits : Int) = n →
      packet_in.extract st t hdr state = .ok bs →
      bs.map Branch.constraint =
        [some (st.lengthCond state n), some (.lnot (st.lengthCond state n))] := by
    intro t hdr bs hw h
    rw [← hw]
    exact extract_guards st state t hdr bs h
  by_cases h0 : n = 0
  · subst h0
    exact ⟨_, _, advance_zero_eq st state sizeType, hsem, hext, rfl, rfl, rfl,
      by simp [ExecutionState.popBody, ExecutionState.add], rfl, rfl⟩
  · simp only [h0, if_false]
    exact ⟨_, _, advance_nonzero_eq st state sizeType n h0, hsem, hext, rfl, rfl, rfl, rfl,
      rfl, rfl⟩

theorem advance_constant_witness :
    (0 : Int) ≤ 16 ∧
    ∃ acceptState rejectState,
      packet_in.advance Example.stepper (.constant (.bits 32 false) 16) Example.state =
        .ok [⟨if (16 : Int) = 0 then none
              else some (Example.stepper.lengthCond Example.state 16), acceptState⟩,
             ⟨some (.lnot (Example.stepper.lengthCond Example.state 16)), rejectState⟩] ∧
      (∀ σ : String → Int, 0 ≤ σ packetSizeVarName →
        (Example.stepper.lengthCond Example.state 16).evalBool σ =
          some (decide (σ packetSizeVarName ≥
            Example.state.inputPacketCursor + 16 - Example.state.getPacketBufferSize))) ∧
      (∀ (t : Ty) (hdr : StateVar) (bs : List Branch), (t.width_bits : Int) = 16 →
        packet_in.extract Example.stepper t hdr Example.state = .ok bs →
        bs.map Branch.constraint =
          [some (Example.stepper.lengthCond Example.state 16),
           some (.lnot (Example.stepper.lengthCond Example.state 16))]) ∧
      acceptState.env = Example.state.env ∧ rejectState.env = Example.state.env ∧
      acceptState.body = Example.state.body.drop 1 ∧
      acceptState.inputPacketCursor = Example.state.inputPacketCursor + 16 ∧
      rejectState.body = .exception .packetTooShort :: Example.state.body.drop 1 ∧
      rejectState.inputPacketCursor = Example.state.inputPacketCursor :=
  ⟨by decide,
    advance_constant Example.stepper Example.state (.bits 32 false) 16 (by decide)⟩

/-- Counterexample to C4 as stated: the accept successor of `advance(0)` carries no guard
at all, while the reject successor is still guarded by the negated length condition. -/
theorem advance_zero_accept_unguarded :
    (packet_in.advance Example.stepper (.constant (.bits 32 false) 0) Example.state).map
        (fun bs => bs.map Branch.constraint) =
      .ok [none, some (.lnot (Example.stepper.lengthCond Example.state 0))] ∧
    (none : Option Expr) ≠ some (Example.stepper.lengthCond Example.state 0) :=
  ⟨rfl, by decide⟩

/-! ## C5: `packet_in.advance` with a run-time size -/

/-- For a run-time size for which the solver computes a value other than 0 on the accept
side, both successors of `advance(x)` carry the restrictions and the equation of `x` with
the computed value in their guards, and the accept successor advances the cursor by the
computed value. -/
theorem advance_symbolic_nonzero (st : ExprStepper) (state : ExecutionState) (x : Expr)
    (c c2 : Int)
    (hsym : isSymbolicValue x = true) (hconst : ∀ t v, x ≠ .constant t v)
    (htaint : state.hasTaint x = false)
    (hacc : st.evaluateExpression state x
      (Expr.land (st.lengthCondExpr state x) (packet_in.advanceRestrictions st x)) = some c)
    (hrej : st.evaluateExpression state x
      (Expr.land (.lnot (st.lengthCondExpr state x)) (packet_in.advanceRestrictions st x))
        = some c2)
    (hc : c ≠ 0) :
    ∃ acceptState rejectState,
      packet_in.advance st x state =
        .ok [⟨some (Expr.land (Expr.land (st.lengthCondExpr state x)
                (packet_in.advanceRestrictions st x)) (Expr.equ (.constant x.type c) x)),
              acceptState⟩,
             ⟨some (Expr.land (Expr.land (.lnot (st.lengthCondExpr state x))
                (packet_in.advanceRestrictions st x)) (Expr.equ (.constant x.type c2) x)),
              rejectState⟩] ∧
      acceptState.inputPacketCursor = state.inputPacketCursor + c ∧
      rejectState.body = .exception .packetTooShort :: state.body.drop 1 := by
  have hinfo : packet_in.advanceCondInfo st x state =
      .ok (st.calculateAdvanceExpression state x (packet_in.advanceRestrictions st x)) := by
    unfold packet_in.advanceCondInfo
    cases x with
    | constant t v => exact absurd rfl (hconst t v)
    | _ => simp only [htaint, Bool.false_eq_true, if_false]; rfl
  refine ⟨((state.slicePacketBuffer c).2.add (.condition "Advance Condition: "
      (Expr.land (Expr.land (st.lengthCondExpr state x) (packet_in.advanceRestrictions st x))
        (Expr.equ (.constant x.type c) x)) none)).popBody,
    (state.add (.generic "Advance: Packet too short")).replaceTopBody
      (.exception .packetTooShort), ?_, rfl, rfl⟩
  · simp only [packet_in.advance, hsym, Bool.not_true, Bool.false_eq_true, if_false, hinfo,
      calculateAdvanceExpression]
    have h1 : st.evaluateExpression state x
        (Expr.land (Expr.geq st.getInputPacketSizeVar
          (.binary .sub st.packetSizeVarType
            (.binary .add st.packetSizeVarType
              (getConstant st.packetSizeVarType state.getInputPacketCursor) x)
            (getConstant st.packetSizeVarType state.getPacketBufferSize)))
          (packet_in.advanceRestrictions st x)) = some c := hacc
    have h2 : st.evaluateExpression state x
        (Expr.land (.lnot (Expr.geq st.getInputPacketSizeVar
          (.binary .sub st.packetSizeVarType
            (.binary .add st.packetSizeVarType
              (getConstant st.packetSizeVarType state.getInputPacketCursor) x)
            (getConstant st.packetSizeVarType state.getPacketBufferSize))))
          (packet_in.advanceRestrictions st x)) = some c2 := hrej
    simp only [h1, h2, beq_iff_eq, hc, if_false, List.singleton_append]
    rfl

/-- C5, failing input: `advance(x)` for an 8-bit symbolic `x` when the solver computes the
value 0 on the accept side. The accept successor is emitted without any guard, so it
carries neither the restrictions `x mod 8 = 0` and `x <= max_packet` nor `x = 0`; the
reject successor keeps its full guard. -/
theorem advance_symbolic_zero_unguarded :
    isSymbolicValue Example.xVar = true ∧
    Example.state.hasTaint Example.xVar = false ∧
    Example.stepper.evaluateExpression Example.state Example.xVar
      (Expr.land (Example.stepper.lengthCondExpr Example.state Example.xVar)
        (packet_in.advanceRestrictions Example.stepper Example.xVar)) = some 0 ∧
    (packet_in.advance Example.stepper Example.xVar Example.state).map
        (fun bs => bs.map Branch.constraint) =
      .ok [none,
           some (Expr.land (Expr.land
             (.lnot (Example.stepper.lengthCondExpr Example.state Example.xVar))
             (packet_in.advanceRestrictions Example.stepper Example.xVar))
             (Expr.equ (.constant (.bits 8 false) 8) Example.xVar))] :=
  ⟨rfl, rfl, rfl, rfl⟩

/-! ## C6: a constant varbit size above the declared maximum -/

/-- C6, failing input: `extract(hdr, 16)` on a header whose varbit field holds at most 8
bits. The step yields a single successor: guarded by the accept condition of the length
check, with the parser error set to the constant 4, continuation top `Exception(Reject)`,
no header field assigned and the validity bit untouched. The reject successor of the
length check, with `Exception(PacketTooShort)`, is not emitted. -/
theorem extractVarbit_oversize_single_successor :
    packet_in.extract_sizeInBits Example.stepper Example.optLike Example.optHdr
        (.constant (.bits 32 false) 16) Example.optState =
      .ok [⟨some (Example.stepper.lengthCond Example.optState 24),
            { Example.optState with
              env := (Example.optState.currentParserErrorLabel.key,
                .constant Example.stepper.parserErrorType 4) :: Example.optState.env,
              body := .exception .reject :: Example.optState.body.drop 1 }⟩] ∧
    declaredVarbitSize Example.optLike = some 8 :=
  ⟨rfl, rfl⟩

/-! ## C7: `verify` -/

theorem appended_congr (s1 s2 : ExecutionState) (hdr : StateVar)
    (fields : List (String × Ty)) (h : s1.env = s2.env) :
    packet_out.appended s1 hdr fields = packet_out.appended s2 hdr fields := by
  unfold packet_out.appended
  congr 1
  funext f
  rw [ExecutionState.get_congr_env s1 s2 _ h]

/-- The emit loop succeeds when no field is struct-like and every field is readable; it
appends `appended` to the emit buffer and changes nothing but the trace. -/
theorem emitFields_appended (hdr : StateVar) :
    ∀ (fields : List (String × Ty)) (s : ExecutionState),
      (∀ f ∈ fields, f.2.isStructLike = false ∧ ∃ v, s.get (.member f.2 hdr f.1) = .ok v) →
      ∃ s2, packet_out.emitFields hdr fields s = .ok s2 ∧
        s2.emitBuffer = s.emitBuffer ++ packet_out.appended s hdr fields ∧
        s2.env = s.env ∧ s2.body = s.body ∧ s2.packetBuffer = s.packetBuffer ∧
        s2.inputPacketCursor = s.inputPacketCursor := by
  intro fields
  induction fields with
  | nil => intro s _; exact ⟨s, rfl, by simp [packet_out.appended], rfl, rfl, rfl, rfl⟩
  | cons f rest ih =>
    intro s h
    obtain ⟨n, t⟩ := f
    obtain ⟨hns, v, hv⟩ := h (n, t) (List.mem_cons_self _ _)
    have hrest : ∀ f ∈ rest, f.2.isStructLike = false ∧
        ∃ v, s.get (.member f.2 hdr f.1) = .ok v :=
      fun f hf => h f (List.mem_cons_of_mem _ hf)
    simp only at hns hv
    by_cases hz : (packet_out.emittedType v).width_bits = 0
    · obtain ⟨s2, h1, h2, h3⟩ := ih s hrest
      refine ⟨s2, ?_, ?_, h3⟩
      · simp only [packet_out.emitFields, hns, Bool.false_eq_true, if_false, hv, hz,
          beq_self_eq_true, if_true]
        exact h1
      · rw [h2]
        simp [packet_out.appended, hv, hz]
    · obtain ⟨s2, h1, h2, h3, h4, h5, h6⟩ := ih
        ((s.add (.emit (.member t hdr n) v)).appendToEmitBuffer
          (packet_out.castEmitted (packet_out.emittedType v) v))
        (fun f hf => by
          obtain ⟨hn2, v2, hv2⟩ := hrest f hf
          exact ⟨hn2, v2, (ExecutionState.get_congr_env _ s _ rfl).trans hv2⟩)
      refine ⟨s2, ?_, ?_, h3, h4, h5, h6⟩
      · simp only [packet_out.emitFields, hns, Bool.false_eq_true, if_false, hv, beq_iff_eq,
          hz]
        exact h1
      · have hc := appended_congr
          ((s.add (.emit (.member t hdr n) v)).appendToEmitBuffer
            (packet_out.castEmitted (packet_out.emittedType v) v)) s hdr rest rfl
        rw [h2, hc]
        simp [packet_out.appended, hv, hz, ExecutionState.appendToEmitBuffer,
          ExecutionState.add]

/-- For a value whose type is not struct-like, the emit loop contributes what the
specification says. -/
theorem appended_field_eq_spec (v : Expr) (h : v.type.isStructLike = false) :
    (if (packet_out.emittedType v).width_bits = 0 then none
      else some (packet_out.castEmitted (packet_out.emittedType v) v)) =
      emittedFieldSpec v := by
  unfold packet_out.emittedType emittedFieldSpec
  cases hv : v.type with
  | bits w s =>
    cases s <;> simp [packet_out.castEmitted, Ty.width_bits]
  | boolean => simp [packet_out.castEmitted, Ty.width_bits, getBitType]
  | varbits s a => simp [packet_out.castEmitted, Ty.width_bits, getBitType]
  | structLike hh fs => rw [hv] at h; simp [Ty.isStructLike] at h

/-- Every expression the specification lets an emit contribute lies in the concat domain:
its type is an unsigned bit type of the (non-zero) width of the field value. -/
theorem emittedFieldSpec_concatDomain (v e : Expr) (h : emittedFieldSpec v = some e) :
    e.type.isUnsignedBits = true ∧ e.type.width_bits = v.type.width_bits ∧
      v.type.width_bits ≠ 0 := by
  unfold emittedFieldSpec at h
  cases hv : v.type with
  | bits w s =>
    rw [hv] at h
    cases s
    · simp only [] at h
      split at h
      · cases h
      · cases h
        rename_i hw
        simp [hv, Ty.isUnsignedBits, Ty.width_bits, hw]
    · simp only [] at h
      split at h
      · cases h
      · cases h
        rename_i hw
        simp [Expr.type, Ty.isUnsignedBits, Ty.width_bits, hw]
  | boolean =>
    rw [hv] at h
    cases h
    simp [Expr.type, Ty.isUnsignedBits, Ty.width_bits]
  | varbits s a =>
    rw [hv] at h
    simp only [] at h
    split at h
    · cases h
    · cases h
      rename_i hw
      simp [hv, Ty.isUnsignedBits, Ty.width_bits, hw]
  | structLike hh fs => rw [hv] at h; cases h

theorem agrees_not_structLike (a t : Ty) (h : a.agrees t = true)
    (ht : t.isStructLike = false) : a.isStructLike = false := by
  cases t <;> cases a <;> simp_all [Ty.agrees, Ty.isStructLike]

theorem emitReady_iff (state : ExecutionState) (hdr : StateVar)
    (fields : List (String × Ty)) :
    emitReady state hdr fields = true ↔
      ∀ f ∈ fields, f.2.isStructLike = false ∧
        state.typedAt (.member f.2 hdr f.1) = true := by
  simp [emitReady, List.all_eq_true]

/-- Under `emitReady` the emit loop appends what the specification says. -/
theorem appended_eq_spec (state : ExecutionState) (hdr : StateVar) :
    ∀ fields : List (String × Ty),
      (∀ f ∈ fields, f.2.isStructLike = false ∧
        state.typedAt (.member f.2 hdr f.1) = true) →
      packet_out.appended state hdr fields = emittedSpec state hdr fields := by
  intro fields
  induction fields with
  | nil => intro _; rfl
  | cons f rest ih =>
    intro h
    obtain ⟨hns, hty⟩ := h f (List.mem_cons_self _ _)
    obtain ⟨v, hv, hag⟩ := (ExecutionState.typedAt_iff state _).mp hty
    have hvs : v.type.isStructLike = false := agrees_not_structLike _ _ hag hns
    have ih2 := ih (fun f hf => h f (List.mem_cons_of_mem _ hf))
    unfold packet_out.appended emittedSpec at ih2 ⊢
    simp only [List.filterMap_cons, hv, appended_field_eq_spec v hvs, ih2]

/-- C8: for `emit(hdr)` on a header whose validity bit is untainted and readable and whose
fields are declared (none struct-like, each storing a value of its declared type), the
valid successor, guarded by the value of the validity bit, has as emit buffer the input
emit buffer followed by the header's fields of non-zero width in declaration order, as
the specification describes them: a boolean cast to `bit<1>`, a signed value cast to the
unsigned type of equal width, an unsigned value and a varbit of its assigned size as they
are. Every appended expression has an unsigned bit type of the (non-zero) width of the
field value it comes from. -/
theorem emit_valid_appends (state : ExecutionState) (isHeader : Bool)
    (fields : List (String × Ty)) (parent : StateVar) (name : String)
    (htaint : state.hasTaint (.ref (getHeaderValidity
      (.member (.structLike isHeader fields) parent name))) = false)
    (hvalid : state.readable (getHeaderValidity
      (.member (.structLike isHeader fields) parent name)) = true)
    (hready : emitReady state (.member (.structLike isHeader fields) parent name) fields
      = true) :
    ∃ validValue validState invalidBranch,
      packet_out.emit (.ref (.member (.structLike isHeader fields) parent name)) state =
        .ok [⟨some validValue, validState⟩, invalidBranch] ∧
      state.get (getHeaderValidity (.member (.structLike isHeader fields) parent name)) =
        .ok validValue ∧
      validState.emitBuffer = state.emitBuffer ++
        emittedSpec state (.member (.structLike isHeader fields) parent name) fields ∧
      ∀ e ∈ emittedSpec state (.member (.structLike isHeader fields) parent name) fields,
        ∃ f ∈ fields, ∃ v,
          state.get (.member f.2 (.member (.structLike isHeader fields) parent name) f.1) =
            .ok v ∧
          emittedFieldSpec v = some e ∧ e.type.isUnsignedBits = true ∧
          e.type.width_bits = v.type.width_bits ∧ v.type.width_bits ≠ 0 := by
  obtain ⟨validValue, hvv⟩ := (ExecutionState.readable_iff _ _).mp hvalid
  have hr := (emitReady_iff _ _ _).mp hready
  obtain ⟨s3, h3, hbuf, _⟩ := emitFields_appended
    (.member (.structLike isHeader fields) parent name) fields state
    (fun f hf => by
      obtain ⟨hns, hty⟩ := hr f hf
      obtain ⟨v, hv, _⟩ := (ExecutionState.typedAt_iff state _).mp hty
      exact ⟨hns, v, hv⟩)
  refine ⟨validValue, _, _, emit_eq state s3 isHeader fields parent name validValue htaint h3
    hvv, hvv, ?_, ?_⟩
  · show s3.emitBuffer = _
    rw [hbuf, appended_eq_spec state _ fields hr]
  · intro e he
    unfold emittedSpec at he
    obtain ⟨f, hf, hfe⟩ := List.mem_filterMap.mp he
    obtain ⟨_, hty⟩ := hr f hf
    obtain ⟨v, hv, _⟩ := (ExecutionState.typedAt_iff state _).mp hty
    rw [hv] at hfe
    exact ⟨f, hf, v, hv, hfe, emittedFieldSpec_concatDomain v e hfe⟩

theorem emit_valid_appends_witness :
    Example.filledState.hasTaint (.ref (getHeaderValidity
      (.member (.structLike true Example.ethFields) Example.hdrs "h"))) = false ∧
    Example.filledState.readable (getHeaderValidity
      (.member (.structLike true Example.ethFields) Example.hdrs "h")) = true ∧
    emitReady Example.filledState (.member (.structLike true Example.ethFields)
      Example.hdrs "h") Example.ethFields = true ∧
    ∃ validValue validState invalidBranch,
      packet_out.emit (.ref (.member (.structLike true Example.ethFields) Example.hdrs "h"))
          Example.filledState =
        .ok [⟨some validValue, validState⟩, invalidBranch] ∧
      Example.filledState.get (getHeaderValidity
        (.member (.structLike true Example.ethFields) Example.hdrs "h")) = .ok validValue ∧
      validState.emitBuffer = Example.filledState.emitBuffer ++
        emittedSpec Example.filledState
          (.member (.structLike true Example.ethFields) Example.hdrs "h")
          Example.ethFields ∧
      ∀ e ∈ emittedSpec Example.filledState
          (.member (.structLike true Example.ethFields) Example.hdrs "h") Example.ethFields,
        ∃ f ∈ Example.ethFields, ∃ v,
          Example.filledState.get
            (.member f.2 (.member (.structLike true Example.ethFields) Example.hdrs "h") f.1)
            = .ok v ∧
          emittedFieldSpec v = some e ∧ e.type.isUnsignedBits = true ∧
          e.type.width_bits = v.type.width_bits ∧ v.type.width_bits ≠ 0 :=
  ⟨rfl, rfl, by decide,
    emit_valid_appends Example.filledState true Example.ethFields Example.hdrs "h" rfl rfl
      (by decide)⟩

/-- C9: for `emit(hdr)` on a header whose validity bit is untainted and readable and whose
fields are declared, the second successor is guarded by the header being invalid (the
negation of the validity reference) and has the emit buffer, the packet buffer, the
cursor and the environment of the input state: it only records a trace event and pops
the call. -/
theorem emit_invalid_frame (state : ExecutionState) (isHeader : Bool)
    (fields : List (String × Ty)) (parent : StateVar) (name : String)
    (htaint : state.hasTaint (.ref (getHeaderValidity
      (.member (.structLike isHeader fields) parent name))) = false)
    (hvalid : state.readable (getHeaderValidity
      (.member (.structLike isHeader fields) parent name)) = true)
    (hready : emitReady state (.member (.structLike isHeader fields) parent name) fields
      = true) :
    ∃ validBranch invalidState,
      packet_out.emit (.ref (.member (.structLike isHeader fields) parent name)) state =
        .ok [validBranch,
          ⟨some (.lnot (.ref (getHeaderValidity
            (.member (.structLike isHeader fields) parent name)))), invalidState⟩] ∧
      invalidState.emitBuffer = state.emitBuffer ∧
      invalidState.packetBuffer = state.packetBuffer ∧
      invalidState.inputPacketCursor = state.inputPacketCursor ∧
      invalidState.env = state.env ∧
      invalidState.body = state.body.drop 1 ∧
      invalidState.trace = state.trace ++ [.expression (.ref (getHeaderValidity
        (.member (.structLike isHeader fields) parent name))) "Invalid emit: "] := by
  obtain ⟨validValue, hvv⟩ := (ExecutionState.readable_iff _ _).mp hvalid
  have hr := (emitReady_iff _ _ _).mp hready
  obtain ⟨s3, h3, _⟩ := emitFields_appended
    (.member (.structLike isHeader fields) parent name) fields state
    (fun f hf => by
      obtain ⟨hns, hty⟩ := hr f hf
      obtain ⟨v, hv, _⟩ := (ExecutionState.typedAt_iff state _).mp hty
      exact ⟨hns, v, hv⟩)
  exact ⟨_, _, emit_eq state s3 isHeader fields parent name validValue htaint h3 hvv,
    rfl, rfl, rfl, rfl, rfl, rfl⟩

theorem emit_invalid_frame_witness :
    Example.state.hasTaint (.ref (getHeaderValidity
      (.member (.structLike true Example.ethFields) Example.hdrs "h"))) = false ∧
    Example.state.readable (getHeaderValidity
      (.member (.structLike true Example.ethFields) Example.hdrs "h")) = true ∧
    emitReady Example.state (.member (.structLike true Example.ethFields)
      Example.hdrs "h") Example.ethFields = true ∧
    ∃ validBranch invalidState,
      packet_out.emit (.ref (.member (.structLike true Example.ethFields) Example.hdrs "h"))
          Example.state =
        .ok [validBranch,
          ⟨some (.lnot (.ref (getHeaderValidity
            (.member (.structLike true Example.ethFields) Example.hdrs "h")))),
            invalidState⟩] ∧
      invalidState.emitBuffer = Example.state.emitBuffer ∧
      invalidState.packetBuffer = Example.state.packetBuffer ∧
      invalidState.inputPacketCursor = Example.state.inputPacketCursor ∧
      invalidState.env = Example.state.env ∧
      invalidState.body = Example.state.body.drop 1 ∧
      invalidState.trace = Example.state.trace ++ [.expression (.ref (getHeaderValidity
        (.member (.structLike true Example.ethFields) Example.hdrs "h"))) "Invalid emit: "] :=
  ⟨rfl, rfl, by decide,
    emit_invalid_frame Example.state true Example.ethFields Example.hdrs "h" rfl rfl
      (by decide)⟩

/-! ## C10: `packet_in.lookahead` -/

/-- C10: `lookahead<T>()` for a base type `T` of width `w` yields two successors whose
guards are the length condition for `w` bits and its negation, the guards of an extract of
a type of width `w`. The accept successor has the cursor, the packet buffer and the
environment of the input state, and its continuation top is replaced by `Return(v)`, `v`
being the `w` bits of the packet at the cursor; the reject successor has continuation top
`Exception(PacketTooShort)`. For a type that is not a base type the step raises
`TestgenUnimplemented` and yields no successor. -/
theorem lookahead_branches (st : ExprStepper) (state : ExecutionState) (lookaheadType : Ty) :
    (lookaheadType.isBase = true →
      ∃ acceptState rejectState,
        packet_in.lookahead st lookaheadType state =
          .ok [⟨some (st.lengthCond state lookaheadType.width_bits), acceptState⟩,
               ⟨some (.lnot (st.lengthCond state lookaheadType.width_bits)), rejectState⟩] ∧
        (∀ (t : Ty) (hdr : StateVar) (bs : List Branch),
          t.width_bits = lookaheadType.width_bits →
          packet_in.extract st t hdr state = .ok bs →
          bs.map Branch.constraint =
            [some (st.lengthCond state lookaheadType.width_bits),
             some (.lnot (st.lengthCond state lookaheadType.width_bits))]) ∧
        acceptState.inputPacketCursor = state.inputPacketCursor ∧
        acceptState.packetBuffer = state.packetBuffer ∧
        acceptState.env = state.env ∧
        acceptState.body =
          .ret (some (.packetSlice state.inputPacketCursor lookaheadType.width_bits))
            :: state.body.drop 1 ∧
        rejectState.body = .exception .packetTooShort :: state.body.drop 1) ∧
    (lookaheadType.isBase = false →
      packet_in.lookahead st lookaheadType state = .error .testgenUnimplemented) := by
  constructor
  · intro hb
    refine ⟨(((state.peekPacketBuffer lookaheadType.width_bits).2.add
        (.expression (state.peekPacketBuffer lookaheadType.width_bits).1
          "Lookahead result")).add
        (.condition "Lookahead Condition: "
          (st.lengthCond state lookaheadType.width_bits) none)).replaceTopBody
        (.ret (some (state.peekPacketBuffer lookaheadType.width_bits).1)),
      (state.add (.generic "Lookahead: Packet too short")).replaceTopBody
        (.exception .packetTooShort), ?_, ?_, rfl, rfl, rfl, ?_, rfl⟩
    · simp only [packet_in.lookahead, hb, Bool.not_true, Bool.false_eq_true, if_false,
        calculateSuccessfulParserAdvance_eq, List.singleton_append]
    · intro t hdr bs hw h
      rw [← hw]
      exact extract_guards st state t hdr bs h
    · simp [ExecutionState.replaceTopBody, ExecutionState.add,
        ExecutionState.peekPacketBuffer]
  · intro hb
    simp only [packet_in.lookahead, hb, Bool.not_false, if_true]

theorem lookahead_branches_witness :
    (Ty.bits 16 false).isBase = true ∧ Example.ethLike.isBase = false ∧
    (∃ acceptState rejectState,
        packet_in.lookahead Example.stepper (.bits 16 false) Example.filledState =
          .ok [⟨some (Example.stepper.lengthCond Example.filledState
                  (Ty.bits 16 false).width_bits), acceptState⟩,
               ⟨some (.lnot (Example.stepper.lengthCond Example.filledState
                  (Ty.bits 16 false).width_bits)), rejectState⟩] ∧
        (∀ (t : Ty) (hdr : StateVar) (bs : List Branch),
          t.width_bits = (Ty.bits 16 false).width_bits →
          packet_in.extract Example.stepper t hdr Example.filledState = .ok bs →
          bs.map Branch.constraint =
            [some (Example.stepper.lengthCond Example.filledState
              (Ty.bits 16 false).width_bits),
             some (.lnot (Example.stepper.lengthCond Example.filledState
              (Ty.bits 16 false).width_bits))]) ∧
        acceptState.inputPacketCursor = Example.filledState.inputPacketCursor ∧
        acceptState.packetBuffer = Example.filledState.packetBuffer ∧
        acceptState.env = Example.filledState.env ∧
        acceptState.body =
          .ret (some (.packetSlice Example.filledState.inputPacketCursor
            (Ty.bits 16 false).width_bits)) :: Example.filledState.body.drop 1 ∧
        rejectState.body = .exception .packetTooShort :: Example.filledState.body.drop 1) ∧
    packet_in.lookahead Example.stepper Example.ethLike Example.filledState =
      .error .testgenUnimplemented :=
  ⟨rfl, rfl,
    (lookahead_branches Example.stepper Example.filledState (.bits 16 false)).1 rfl,
    (lookahead_branches Example.stepper Example.filledState Example.ethLike).2 rfl⟩

/-! ## C11: `packet_in.extract(hdr, varSize)` with a run-time size -/

/-- For a size that is not a constant node, the sizes come from the solver, under the
restrictions on the varbit size. -/
theorem extractCondInfo_runtime (st : ExprStepper) (state : ExecutionState) (declared : Nat)
    (extractSize : Int) (x : Expr) (hconst : ∀ t v, x ≠ .constant t v) :
    packet_in.extractCondInfo st declared extractSize x state =
      if state.hasTaint x then .error .testgenUnimplemented
      else
        .ok (max 0 ((st.calculateAdvanceExpression state
              (Expr.add x (getConstant x.type extractSize))
              (packet_in.varbitRestrictions st declared x)).advanceSize - extractSize),
            st.calculateAdvanceExpression state
              (Expr.add x (getConstant x.type extractSize))
              (packet_in.varbitRestrictions st declared x)) := by
  cases x with
  | constant t v => exact absurd rfl (hconst t v)
  | _ => rfl

/-- Both guards of `calculateAdvanceExpression` are a length condition joined with the
restrictions and with the equation that pins the size. -/
theorem calculateAdvanceExpression_guards (st : ExprStepper) (state : ExecutionState)
    (advanceExpr restrictions : Expr) :
    (∀ g, (st.calculateAdvanceExpression state advanceExpr restrictions).advanceCond = some g →
      ∃ c e, g = Expr.land (Expr.land c restrictions) e) ∧
    (∀ g, (st.calculateAdvanceExpression state advanceExpr restrictions).advanceFailCond =
        some g → ∃ c e, g = Expr.land (Expr.land c restrictions) e) := by
  unfold calculateAdvanceExpression
  constructor
  · intro g hg
    simp only at hg
    split at hg
    · cases hg
    · cases hg; exact ⟨_, _, rfl⟩
  · intro g hg
    simp only at hg
    split at hg
    · cases hg
    · cases hg; exact ⟨_, _, rfl⟩

/-- A conjunction holds only if both sides hold. -/
theorem evalBool_land_true (σ : String → Int) (l r : Expr)
    (h : (Expr.land l r).evalBool σ = some true) :
    l.evalBool σ = some true ∧ r.evalBool σ = some true := by
  simp only [Expr.evalBool] at h
  cases hl : l.evalBool σ with
  | none => rw [hl] at h; cases h
  | some a =>
    cases hr : r.evalBool σ with
    | none => rw [hl, hr] at h; cases h
    | some b =>
      rw [hl, hr] at h
      simp only [Option.some.injEq, Bool.and_eq_true] at h
      rw [h.1, h.2]
      exact ⟨rfl, rfl⟩

/-- What the restrictions on the varbit size mean for the value of the size. -/
theorem varbitRestrictions_evalBool (st : ExprStepper) (declared : Nat) (x : Expr)
    (σ : String → Int)
    (h : (packet_in.varbitRestrictions st declared x).evalBool σ = some true) :
    ∃ v, x.evalInt σ = some v ∧ v % 8 = 0 ∧ v ≤ min st.maxPacketLength_bits declared := by
  obtain ⟨h1, h2⟩ := evalBool_land_true σ _ _ h
  simp only [Expr.evalBool, Expr.evalInt] at h1 h2
  cases hx : x.evalInt σ with
  | none => rw [hx] at h1; cases h1
  | some v =>
    rw [hx] at h1 h2
    simp only [Option.some.injEq, decide_eq_true_eq] at h1 h2
    exact ⟨v, rfl, h2, h1⟩

/-- A guard that joins a length condition, the restrictions and a size equation has both
restrictions among its conjuncts and implies them. -/
theorem restricted_guard (st : ExprStepper) (declared : Nat) (x c e : Expr) :
    Expr.leq x (getConstant x.type (min st.maxPacketLength_bits declared)) ∈
        (Expr.land (Expr.land c (packet_in.varbitRestrictions st declared x)) e).conjuncts ∧
      Expr.equ (Expr.mod x (getConstant x.type 8)) (getConstant x.type 0) ∈
        (Expr.land (Expr.land c (packet_in.varbitRestrictions st declared x)) e).conjuncts ∧
      ∀ σ, (Expr.land (Expr.land c (packet_in.varbitRestrictions st declared x)) e).evalBool σ
          = some true →
        ∃ v, x.evalInt σ = some v ∧ v % 8 = 0 ∧ v ≤ min st.maxPacketLength_bits declared := by
  refine ⟨?_, ?_, ?_⟩
  · simp [Expr.conjuncts, packet_in.varbitRestrictions]
  · simp [Expr.conjuncts, packet_in.varbitRestrictions]
  · intro σ h
    exact varbitRestrictions_evalBool st declared x σ
      (evalBool_land_true σ _ _ (evalBool_land_true σ _ _ h).1).2

/-- C11: for `extract(hdr, varSize)` with a symbolic-value `varSize` that is not a constant,
on a header type with a varbit field of declared maximum `declared` whose fields are
readable: if `varSize` is tainted the step raises `TestgenUnimplemented` (no successor);
otherwise the step returns, and every successor it returns carries a guard that has among
its conjuncts `varSize <= min(maximum packet length, declared)` and `varSize mod 8 = 0`,
so that the guard holds only for valuations in which `varSize` is a multiple of 8 and at
most that minimum. -/
theorem extractVarbit_runtime_restricted (st : ExprStepper) (state : ExecutionState)
    (isHeader : Bool) (fields : List (String × Ty)) (hdr : StateVar) (x : Expr)
    (declared : Nat)
    (hsym : isSymbolicValue x = true) (hconst : ∀ t v, x ≠ .constant t v)
    (hfind : packet_in.findVarbit fields = some declared)
    (hread : ∀ r ∈ ExecutionState.getFlatFields (.structLike isHeader fields) hdr,
      state.readable r = true) :
    (state.hasTaint x = true →
      packet_in.extract_sizeInBits st (.structLike isHeader fields) hdr x state =
        .error .testgenUnimplemented) ∧
    (state.hasTaint x = false →
      ∃ bs, packet_in.extract_sizeInBits st (.structLike isHeader fields) hdr x state = .ok bs ∧
        ∀ b ∈ bs, ∃ g, b.constraint = some g ∧
          Expr.leq x (getConstant x.type (min st.maxPacketLength_bits declared)) ∈
            g.conjuncts ∧
          Expr.equ (Expr.mod x (getConstant x.type 8)) (getConstant x.type 0) ∈ g.conjuncts ∧
          ∀ σ, g.evalBool σ = some true →
            ∃ v, x.evalInt σ = some v ∧ v % 8 = 0 ∧
              v ≤ min st.maxPacketLength_bits declared) := by
  have hcond := extractCondInfo_runtime st state declared
    (Ty.structLike isHeader fields).width_bits x hconst
  constructor
  · intro ht
    simp only [packet_in.extract_sizeInBits, hsym, hfind, hcond, ht, Bool.not_true,
      Bool.false_eq_true, if_false, if_true]
  · intro ht
    obtain ⟨hA, hF⟩ := calculateAdvanceExpression_guards st state
      (Expr.add x (getConstant x.type (Ty.structLike isHeader fields).width_bits))
      (packet_in.varbitRestrictions st declared x)
    simp only [packet_in.extract_sizeInBits, hsym, hfind, hcond, ht, Bool.not_true,
      Bool.false_eq_true, if_false]
    generalize st.calculateAdvanceExpression state
      (Expr.add x (getConstant x.type (Ty.structLike isHeader fields).width_bits))
      (packet_in.varbitRestrictions st declared x) = info at hA hF ⊢
    have hrej : ∀ b ∈ (match info.advanceFailCond with
        | some cond => [(⟨some cond, (state.add (.generic "Extract: Packet too short")).replaceTopBody
            (.exception .packetTooShort)⟩ : Branch)]
        | none => []), ∃ g, b.constraint = some g ∧
          Expr.leq x (getConstant x.type (min st.maxPacketLength_bits declared)) ∈
            g.conjuncts ∧
          Expr.equ (Expr.mod x (getConstant x.type 8)) (getConstant x.type 0) ∈ g.conjuncts ∧
          ∀ σ, g.evalBool σ = some true →
            ∃ v, x.evalInt σ = some v ∧ v % 8 = 0 ∧
              v ≤ min st.maxPacketLength_bits declared := by
      intro b hb
      cases hf : info.advanceFailCond with
      | none => rw [hf] at hb; cases hb
      | some g =>
        rw [hf] at hb
        obtain ⟨c, e, hg⟩ := hF g hf
        simp only [List.mem_singleton] at hb
        subst hb
        exact ⟨g, rfl, hg ▸ restricted_guard st declared x c e⟩
    cases ha : info.advanceCond with
    | none => exact ⟨_, rfl, hrej⟩
    | some g =>
      obtain ⟨c, e, hg⟩ := hA g ha
      simp only
      split
      · refine ⟨_, rfl, ?_⟩
        intro b hb
        simp only [List.mem_singleton] at hb
        subst hb
        exact ⟨g, rfl, hg ▸ restricted_guard st declared x c e⟩
      · have hok : ∀ r ∈ ExecutionState.getFlatFields (.structLike isHeader fields) hdr,
            ∃ v, (if isHeader then setHeaderValidity hdr true state else state).get r
              = .ok v := by
          intro r hr
          have h1 := (ExecutionState.readable_iff state r).mp (hread r hr)
          cases isHeader
          · exact h1
          · exact ExecutionState.get_ok_set state r _ _ h1
        obtain ⟨s2, hs2⟩ := setFields_ok
          (max 0 (info.advanceSize - (Ty.structLike isHeader fields).width_bits))
          (le_max_left _ _) _ _ hok
        rw [hs2]
        refine ⟨_, rfl, ?_⟩
        intro b hb
        rcases List.mem_cons.mp hb with hb | hb
        · subst hb
          exact ⟨g, rfl, hg ▸ restricted_guard st declared x c e⟩
        · exact hrej b hb

theorem extractVarbit_runtime_restricted_witness :
    isSymbolicValue Example.xVar = true ∧
    Example.optState.hasTaint Example.xVar = false ∧
    (packet_in.extract_sizeInBits Example.stepper Example.optLike Example.optHdr Example.xVar
        Example.optState).map (fun bs => bs.length) = .ok 2 ∧
    (∃ bs, packet_in.extract_sizeInBits Example.stepper Example.optLike Example.optHdr
        Example.xVar Example.optState = .ok bs ∧
      ∀ b ∈ bs, ∃ g, b.constraint = some g ∧
        Expr.leq Example.xVar (getConstant (.bits 8 false) 8) ∈ g.conjuncts ∧
        Expr.equ (Expr.mod Example.xVar (getConstant (.bits 8 false) 8))
          (getConstant (.bits 8 false) 0) ∈ g.conjuncts ∧
        ∀ σ, g.evalBool σ = some true →
          ∃ v, Example.xVar.evalInt σ = some v ∧ v % 8 = 0 ∧ v ≤ 8) ∧
    packet_in.extract_sizeInBits Example.stepper Example.optLike Example.optHdr
      (.taint (.bits 8 false)) Example.optState = .error .testgenUnimplemented :=
  ⟨rfl, rfl, rfl,
    (extractVarbit_runtime_restricted Example.stepper Example.optState true
      [("len", .bits 8 false), ("opt", .varbits 8 0)] Example.optHdr Example.xVar 8 rfl
      (fun _ _ h => by cases h) rfl (by decide)).2 rfl,
    (extractVarbit_runtime_restricted Example.stepper Example.optState true
      [("len", .bits 8 false), ("opt", .varbits 8 0)] Example.optHdr (.taint (.bits 8 false))
      8 rfl (fun _ _ h => by cases h) rfl (by decide)).1 rfl⟩

/-! ## C12: the bound on recirculation -/

/-- C12, failing input: from a state with no `recirculate_count`,
`resubmit_preserving_field_list(1)` takes the recirculation path (count 1, recirculation
active), and a later `recirculate_preserving_field_list(1)` on that path takes it again:
its successor has count 2 and recirculation active, and its call is popped, not replaced by
`drop_and_exit`. Only the third call is dropped. -/
theorem second_recirculation_not_dropped :
    Example.bmv2State.hasProperty "recirculate_count" = false ∧
    Example.bmv2.resubmit_preserving_field_list (.constant (.bits 8 false) 1)
        Example.bmv2State =
      .ok [⟨none, { Example.bmv2State with
        properties := [("recirculate_instance_type", .uint 6),
          ("recirculate_reset_pkt", .bool true), ("recirculate_index", .uint 1),
          ("recirculate_active", .bool true), ("recirculate_count", .uint 1)],
        body := [.node "next"] }⟩] ∧
    Example.bmv2.recirculate_preserving_field_list (.constant (.bits 8 false) 1)
        { Example.bmv2State with
          properties := [("recirculate_instance_type", .uint 6),
            ("recirculate_reset_pkt", .bool true), ("recirculate_index", .uint 1),
            ("recirculate_active", .bool true), ("recirculate_count", .uint 1)],
          body := [.node "next"] } =
      .ok [⟨none, { Example.bmv2State with
        properties := [("recirculate_instance_type", .uint 4), ("recirculate_index", .uint 1),
          ("recirculate_active", .bool true), ("recirculate_count", .uint 2),
          ("recirculate_instance_type", .uint 6),
          ("recirculate_reset_pkt", .bool true), ("recirculate_index", .uint 1),
          ("recirculate_active", .bool true), ("recirculate_count", .uint 1)],
        body := [] }⟩] ∧
    Example.bmv2.recirculate_preserving_field_list (.constant (.bits 8 false) 1)
        { Example.bmv2State with
          properties := [("recirculate_instance_type", .uint 4),
            ("recirculate_index", .uint 1),
            ("recirculate_active", .bool true), ("recirculate_count", .uint 2),
            ("recirculate_instance_type", .uint 6),
            ("recirculate_reset_pkt", .bool true), ("recirculate_index", .uint 1),
            ("recirculate_active", .bool true), ("recirculate_count", .uint 1)],
          body := [.node "third"] } =
      .ok [⟨none, { Example.bmv2State with
        properties := [("recirculate_instance_type", .uint 4), ("recirculate_index", .uint 1),
          ("recirculate_active", .bool true), ("recirculate_count", .uint 2),
          ("recirculate_instance_type", .uint 6),
          ("recirculate_reset_pkt", .bool true), ("recirculate_index", .uint 1),
          ("recirculate_active", .bool true), ("recirculate_count", .uint 1)],
        body := [.methodCallStatement "drop_and_exit"] }⟩] :=
  ⟨rfl, rfl, rfl, rfl⟩

/-! ## C13: `clone` against `clone_preserving_field_list` -/

/-- C13, failing input: `clone(E2E, s)` and `clone_preserving_field_list(E2E, s, 0)` on the
same state, with the session `s` the constant 7. The successors differ: `clone` records
the unsigned integer 0 under `clone_session_id` and no `recirculate_index`, while
`clone_preserving_field_list` records the expression `s` and the index. On the successor
of `clone`, `check_recirculate` fails reading `clone_session_id` as an expression; on the
successor of `clone_preserving_field_list` it yields the two clone-info objects of
session `s`. -/
theorem clone_e2e_diverges :
    (Example.bmv2.clone (.constant (.bits 32 false) 1) (.constant (.bits 32 false) 7)
        Example.bmv2State).map (fun (bs : List Branch) => bs.map fun (b : Branch) => b.nextState.properties) =
      .ok [[("recirculate_instance_type", .uint 2), ("clone_session_id", .uint 0),
        ("clone_active", .bool true), ("recirculate_active", .bool true),
        ("recirculate_count", .uint 1)]] ∧
    (Example.bmv2.clone_preserving_field_list (.constant (.bits 32 false) 1)
        (.constant (.bits 32 false) 7) (.constant (.bits 32 false) 0)
        Example.bmv2State).map (fun (bs : List Branch) => bs.map fun (b : Branch) => b.nextState.properties) =
      .ok [[("recirculate_instance_type", .uint 2),
        ("clone_session_id", .expr (.constant (.bits 32 false) 7)),
        ("recirculate_index", .uint 0),
        ("clone_active", .bool true), ("recirculate_active", .bool true),
        ("recirculate_count", .uint 1)]] ∧
    Example.bmv2.clone (.constant (.bits 32 false) 1) (.constant (.bits 32 false) 7)
        Example.bmv2State ≠
      Example.bmv2.clone_preserving_field_list (.constant (.bits 32 false) 1)
        (.constant (.bits 32 false) 7) (.constant (.bits 32 false) 0) Example.bmv2State ∧
    stepThen (Example.bmv2.clone (.constant (.bits 32 false) 1) (.constant (.bits 32 false) 7)
        Example.bmv2State) Example.bmv2.check_recirculate = .error .badGet ∧
    (stepThen (Example.bmv2.clone_preserving_field_list (.constant (.bits 32 false) 1)
        (.constant (.bits 32 false) 7) (.constant (.bits 32 false) 0) Example.bmv2State)
        Example.bmv2.check_recirculate).map
      (fun (bs : List Branch) =>
        bs.map fun (b : Branch) => b.nextState.getTestObject "clone_infos" "7") =
      .ok [some (.cloneInfo (.constant (.bits 32 false) 7) (.constant (.bits 9 false) 5) false),
           some (.cloneInfo (.constant (.bits 32 false) 7) (.constant (.bits 9 false) 5) true)] :=
  ⟨rfl, rfl,
    (fun h => by
      have h2 := congrArg (fun r => Except.map
        (fun (bs : List Branch) => bs.map fun (b : Branch) => b.nextState.properties) r) h
      cases h2),
    rfl, rfl⟩

/-! ## C14: `clone` from ingress to egress -/

/-- C15, failing input: the user metadata of the documented example (`x` with
`@field_list(1)`, `y` with `@field_list(1, 2)`, `z` without annotation). The annotation of
`y` has two members, so `isPartOfFieldList` fails its check on `y` for every index, and
`resetPreservingFieldList` aborts with a `BugCheck` for index 1 and for index 2 instead of
preserving `y`. With annotations of a single member the reset goes through: for index 1
the field `x` keeps its value and `z` is bound to the target-uninitialized value. -/
theorem documented_field_list_bugCheck :
    BMv2_V1ModelExprStepper.isPartOfFieldList
      ⟨"y", .bits 32 false, some [.constant (.bits 32 false) 1, .constant (.bits 32 false) 2]⟩ 1
      = .error .bugCheck ∧
    BMv2_V1ModelExprStepper.isPartOfFieldList
      ⟨"y", .bits 32 false, some [.constant (.bits 32 false) 1, .constant (.bits 32 false) 2]⟩ 2
      = .error .bugCheck ∧
    Example.bmv2.resetPreservingFieldList Example.bmv2State
      (Example.metaParam Example.documentedFields) 1 = .error .bugCheck ∧
    Example.bmv2.resetPreservingFieldList Example.bmv2State
      (Example.metaParam Example.documentedFields) 2 = .error .bugCheck ∧
    Example.bmv2.resetPreservingFieldList Example.bmv2State
      (Example.metaParam Example.metaFields) 1 =
        .ok { Example.bmv2State with
          env := (["meta", "z"], .constant (.bits 32 false) 0) :: Example.bmv2State.env } :=
  ⟨rfl, rfl, rfl, rfl, rfl⟩

/-! ## C16: the packet a recirculation starts from -/

/-- C16, failing input: a path on which `resubmit_preserving_field_list(1)` and its
`check_recirculate` run first, and `recirculate_preserving_field_list(1)` is called later,
in a state whose packet buffer holds the packet built by the deparser. The property
`recirculate_reset_pkt` set by the resubmit is still present, so the `check_recirculate`
of the recirculation replaces the packet buffer by the input packet. Without the earlier
resubmit the packet buffer is kept. -/
theorem recirculate_after_resubmit_resets_packet :
    (stepThen
      (stepThen
        (stepThen
          (Example.bmv2.resubmit_preserving_field_list (.constant (.bits 8 false) 1)
            Example.bmv2State)
          Example.bmv2.check_recirculate)
        (fun s => Example.bmv2.recirculate_preserving_field_list (.constant (.bits 8 false) 1)
          { s with packetBuffer := [.symbolicVar (.bits 16 false) "deparsed"],
                   body := [.node "recirculate", .node "check_recirculate"] }))
      Example.bmv2.check_recirculate).map
        (fun (bs : List Branch) => bs.map fun (b : Branch) => b.nextState.packetBuffer) =
      .ok [[.symbolicVar (.bits 32 false) "input"]] ∧
    (stepThen
      (Example.bmv2.recirculate_preserving_field_list (.constant (.bits 8 false) 1)
        Example.bmv2State)
      Example.bmv2.check_recirculate).map
        (fun (bs : List Branch) => bs.map fun (b : Branch) => b.nextState.packetBuffer) =
      .ok [[.symbolicVar (.bits 16 false) "deparsed"]] :=
  ⟨rfl, rfl⟩

/-! ## C17: taint through `hash` -/

/-- With a tainted input, `hash` binds its result to the value the target gives
uninitialized data, taint not forced. -/
theorem hash_tainted_eq (st : BMv2_V1ModelExprStepper) (state : ExecutionState)
    (externName : String) (callId : Nat) (result algo base data max : Expr)
    (fieldRef : StateVar)
    (hsym : [algo, base, data, max].find? (fun arg => !isSymbolicValue arg) = none)
    (htaint : [algo, base, data, max].any state.hasTaint = true)
    (hbits : result.type.isBits = true) (hf : st.outputRef result = some fieldRef) :
    st.hash externName callId result algo base data max state =
      .ok [⟨none, (state.set fieldRef (st.targetUninitialized fieldRef.type)).popBody⟩] := by
  simp only [BMv2_V1ModelExprStepper.hash, hsym, htaint, hbits, hf, if_true,
    BMv2_V1ModelExprStepper.createTargetUninitialized, Bool.false_eq_true, if_false]

/-- C17, failing input: `hash(meta.x, algo, base, data, max)` with `data` tainted, on a
target whose uninitialized data is 0. The successor binds `meta.x` to the constant 0,
which contains no taint, while `update_checksum` with the same tainted `data` binds its
checksum to `Taint`. -/
theorem hash_tainted_assigns_untainted :
    Example.bmv2State.hasTaint (.taint (.bits 32 false)) = true ∧
    Example.bmv2.hash "hash_0" 3
        (.ref (.member (.bits 32 false) (Example.metaParam Example.metaFields).ref "x"))
        (.constant (.bits 32 false) 0) (.constant (.bits 32 false) 0)
        (.taint (.bits 32 false)) (.constant (.bits 32 false) 16) Example.bmv2State =
      .ok [⟨none, { Example.bmv2State with
        env := (["meta", "x"], .constant (.bits 32 false) 0) :: Example.bmv2State.env,
        body := [.node "next"] }⟩] ∧
    Expr.containsTaint (.constant (.bits 32 false) 0) = false ∧
    Example.bmv2.update_checksum 3 (.boolLiteral true) (.taint (.bits 32 false))
        (.ref (.member (.bits 32 false) (Example.metaParam Example.metaFields).ref "x"))
        (.constant (.bits 32 false) 0) Example.bmv2State =
      .ok [⟨none, { Example.bmv2State with
        env := (["meta", "x"], .taint (.bits 32 false)) :: Example.bmv2State.env,
        body := [.node "next"] }⟩] :=
  ⟨rfl, rfl, rfl, rfl⟩

/-! ## C18: a register write followed by a read -/

/-- A condition appended last is the outermost `Mux` of the lookup. -/
theorem getCurrentValue_append (initialValue : Expr) (conds : List (Expr × Expr))
    (i v index : Expr) :
    TestObject.getCurrentValue initialValue (conds ++ [(i, v)]) index =
      .mux (TestObject.getCurrentValue initialValue conds index).type (Expr.equ i index) v
        (TestObject.getCurrentValue initialValue conds index) := by
  simp only [TestObject.getCurrentValue, List.foldl_append, List.foldl_cons, List.foldl_nil]

/-- A `Mux` whose condition compares two indices of equal value has the value of its first
branch. -/
theorem evalMux_hit (σ : String → Int) (t : Ty) (i index v base : Expr) (k : Int)
    (hi : i.evalInt σ = some k) (hindex : index.evalInt σ = some k) :
    (Expr.mux t (Expr.equ i index) v base).evalMux σ = v.evalMux σ := by
  simp only [Expr.evalMux, Expr.evalBool, hi, hindex, decide_True]

/-- A `Mux` whose condition compares two indices of different value has the value of its
second branch. -/
theorem evalMux_miss (σ : String → Int) (t : Ty) (i index v base : Expr) (k k2 : Int)
    (hi : i.evalInt σ = some k) (hindex : index.evalInt σ = some k2) (hne : k ≠ k2) :
    (Expr.mux t (Expr.equ i index) v base).evalMux σ = base.evalMux σ := by
  simp only [Expr.evalMux, Expr.evalBool, hi, hindex, hne, decide_False]

namespace ExecutionState

theorem getTestObject_add_same (s : ExecutionState) (category name : String)
    (object : TestObject) :
    (s.addTestObject category name object).getTestObject category name = some object := by
  simp only [getTestObject, addTestObject, List.lookup_cons, beq_self_eq_true]

theorem getTestObject_add_other (s : ExecutionState) (category name category2 name2 : String)
    (object : TestObject) (hne : (category2, name2) ≠ (category, name)) :
    (s.addTestObject category name object).getTestObject category2 name2 =
      s.getTestObject category2 name2 := by
  have h : ((category2, name2) == (category, name)) = false := by
    simp only [beq_eq_false_iff_ne, ne_eq]
    exact hne
  simp only [getTestObject, addTestObject, List.lookup_cons, h]

end ExecutionState

/-- C18: for a register instance named by a path, a bit-typed value `V` and symbolic-value
indices: `register.write(I, V)` yields one unguarded successor that differs from the input
state by a trace event, the popped call and the register object of the instance, which is
the previous object (a fresh one if there was none) with the condition `(I, V)` appended;
the object stored under any other category or name is unchanged. `register.read(r, J)` on
that successor yields one unguarded successor in which the call is replaced by the
assignment `r := Mux(I == J, V, older)`, where `older` is the lookup of `J` in the earlier
conditions and the initial value; under every valuation that gives `I` and `J` the same
value this expression has the value of `V`, and under one that gives them different
values it has the value of `older`. -/
theorem register_write_read (st : BMv2_V1ModelExprStepper) (state : ExecutionState)
    (t : Ty) (n : String) (I V r J : Expr)
    (hI : isSymbolicValue I = true) (hV : isSymbolicValue V = true)
    (hJ : isSymbolicValue J = true)
    (hVt : V.type.isBits = true) (hr : r.type.isBits = true)
    (hobj : ∀ sid port c,
      state.getTestObject "registervalues" (st.convertPathExpr (.path t n)).toString ≠
        some (.cloneInfo sid port c)) :
    ∃ s1 s2,
      st.register_write (.path t n) I V state = .ok [⟨none, s1⟩] ∧
      s1.env = state.env ∧ s1.body = state.body.drop 1 ∧
      s1.getTestObject "registervalues" (st.convertPathExpr (.path t n)).toString =
        some (.registerValue
          (st.registerContents state (st.convertPathExpr (.path t n)).toString V.type).1
          ((st.registerContents state (st.convertPathExpr (.path t n)).toString V.type).2
            ++ [(I, V)])) ∧
      (∀ category name,
        (category, name) ≠ ("registervalues", (st.convertPathExpr (.path t n)).toString) →
        s1.getTestObject category name = state.getTestObject category name) ∧
      st.register_read (.path t n) r J s1 = .ok [⟨none, s2⟩] ∧
      s2.env = state.env ∧ s2.testObjects = s1.testObjects ∧
      s2.body =
        .assignmentStatement r
          (.mux (TestObject.getCurrentValue
              (st.registerContents state (st.convertPathExpr (.path t n)).toString V.type).1
              (st.registerContents state (st.convertPathExpr (.path t n)).toString V.type).2
              J).type
            (Expr.equ I J) V
            (TestObject.getCurrentValue
              (st.registerContents state (st.convertPathExpr (.path t n)).toString V.type).1
              (st.registerContents state (st.convertPathExpr (.path t n)).toString V.type).2
              J)) :: s1.body.drop 1 ∧
      (∀ σ k, I.evalInt σ = some k → J.evalInt σ = some k →
        (Expr.mux (TestObject.getCurrentValue
              (st.registerContents state (st.convertPathExpr (.path t n)).toString V.type).1
              (st.registerContents state (st.convertPathExpr (.path t n)).toString V.type).2
              J).type
            (Expr.equ I J) V
            (TestObject.getCurrentValue
              (st.registerContents state (st.convertPathExpr (.path t n)).toString V.type).1
              (st.registerContents state (st.convertPathExpr (.path t n)).toString V.type).2
              J)).evalMux σ = V.evalMux σ) ∧
      ∀ σ k k2, I.evalInt σ = some k → J.evalInt σ = some k2 → k ≠ k2 →
        (Expr.mux (TestObject.getCurrentValue
              (st.registerContents state (st.convertPathExpr (.path t n)).toString V.type).1
              (st.registerContents state (st.convertPathExpr (.path t n)).toString V.type).2
              J).type
            (Expr.equ I J) V
            (TestObject.getCurrentValue
              (st.registerContents state (st.convertPathExpr (.path t n)).toString V.type).1
              (st.registerContents state (st.convertPathExpr (.path t n)).toString V.type).2
              J)).evalMux σ =
          (TestObject.getCurrentValue
              (st.registerContents state (st.convertPathExpr (.path t n)).toString V.type).1
              (st.registerContents state (st.convertPathExpr (.path t n)).toString V.type).2
              J).evalMux σ := by
  generalize hname : (st.convertPathExpr (.path t n)).toString = name at hobj ⊢
  have hinst : st.externInstance (.path t n) = .ok name := by
    simp only [BMv2_V1ModelExprStepper.externInstance, hname]
  have hfind : [I, V].find? (fun arg => !isSymbolicValue arg) = none := by
    simp [List.find?, hI, hV]
  generalize hreg : st.registerContents state name V.type = reg
  have hwrite : st.register_write (.path t n) I V state =
      .ok [⟨none, ((state.add (.generic ("RegisterWrite: Value " ++ st.dbprint V ++
        " into index " ++ st.dbprint I))).addTestObject "registervalues" name
          (.registerValue reg.1 (reg.2 ++ [(I, V)]))).popBody⟩] := by
    have hadd : ∀ ev, (state.add ev).getTestObject "registervalues" name =
        state.getTestObject "registervalues" name := fun _ => rfl
    simp only [BMv2_V1ModelExprStepper.register_write, hVt, Bool.not_true, Bool.false_eq_true,
      if_false, hfind, hinst, hadd]
    cases hget : state.getTestObject "registervalues" name with
    | none =>
      simp only [BMv2_V1ModelExprStepper.registerContents, hget] at hreg
      subst hreg
      rfl
    | some o =>
      cases o with
      | cloneInfo sid port c => exact absurd hget (hobj sid port c)
      | registerValue i c =>
        simp only [BMv2_V1ModelExprStepper.registerContents, hget] at hreg
        subst hreg
        rfl
  refine ⟨((state.add (.generic ("RegisterWrite: Value " ++ st.dbprint V ++
        " into index " ++ st.dbprint I))).addTestObject "registervalues" name
          (.registerValue reg.1 (reg.2 ++ [(I, V)]))).popBody,
    ((((state.add (.generic ("RegisterWrite: Value " ++ st.dbprint V ++
        " into index " ++ st.dbprint I))).addTestObject "registervalues" name
          (.registerValue reg.1 (reg.2 ++ [(I, V)]))).popBody).add (.generic
            ("RegisterRead: Index " ++ st.dbprint J ++ " into field " ++
              st.dbprint r))).replaceTopBodyCmds
      [.assignmentStatement r (.mux (TestObject.getCurrentValue reg.1 reg.2 J).type
        (Expr.equ I J) V (TestObject.getCurrentValue reg.1 reg.2 J))],
    hwrite, rfl, rfl, ?_, ?_, ?_, rfl, rfl, rfl, ?_, ?_⟩
  · exact ExecutionState.getTestObject_add_same _ _ _ _
  · intro category name2 hne
    exact ExecutionState.getTestObject_add_other _ _ _ _ _ _ hne
  · have hget : ∀ (s : ExecutionState) o,
        ((s.addTestObject "registervalues" name o).popBody).getTestObject "registervalues" name
          = some o := fun s o => ExecutionState.getTestObject_add_same s _ _ o
    simp only [BMv2_V1ModelExprStepper.register_read, hJ, Bool.not_true, Bool.false_eq_true,
      if_false, hinst, hget, hr, if_true, getCurrentValue_append]
  · intro σ k h1 h2
    exact evalMux_hit σ _ I J V _ k h1 h2
  · intro σ k k2 h1 h2 hne
    exact evalMux_miss σ _ I J V _ k k2 h1 h2 hne

theorem register_write_read_witness :
    ∃ s1 s2,
      Example.bmv2.register_write (.path (.bits 32 false) "reg")
        (.constant (.bits 32 false) 2) (.constant (.bits 32 false) 99) Example.bmv2State
          = .ok [⟨none, s1⟩] ∧
      s1.getTestObject "registervalues" "reg" =
        some (.registerValue (.constant (.bits 32 false) 0)
          [(.constant (.bits 32 false) 2, .constant (.bits 32 false) 99)]) ∧
      Example.bmv2.register_read (.path (.bits 32 false) "reg")
        (.ref (.member (.bits 32 false) (Example.metaParam Example.metaFields).ref "x"))
        (.constant (.bits 32 false) 2) s1 = .ok [⟨none, s2⟩] ∧
      s2.body =
        [.assignmentStatement
          (.ref (.member (.bits 32 false) (Example.metaParam Example.metaFields).ref "x"))
          (.mux (.bits 32 false)
            (Expr.equ (.constant (.bits 32 false) 2) (.constant (.bits 32 false) 2))
            (.constant (.bits 32 false) 99) (.constant (.bits 32 false) 0))] := by
  obtain ⟨s1, s2, h1, _, hb, ho, _, h2, _, _, h3, _, _⟩ :=
    register_write_read Example.bmv2 Example.bmv2State (.bits 32 false) "reg"
      (.constant (.bits 32 false) 2) (.constant (.bits 32 false) 99)
      (.ref (.member (.bits 32 false) (Example.metaParam Example.metaFields).ref "x"))
      (.constant (.bits 32 false) 2) rfl rfl rfl rfl rfl (fun _ _ _ h => by cases h)
  exact ⟨s1, s2, h1, ho, h2, by rw [h3, hb]; rfl⟩

/-! ## C19: `verify_checksum` -/

/-- C19: for `verify_checksum(condition, data, checksum, algo)` with symbolic-value,
untainted arguments the step yields three successors, guarded by
`computed == checksum && condition`, `condition && computed != checksum` and `!condition`,
where `computed` is the concolic variable of the checksum. Under every valuation that
gives `condition` a truth value and `checksum` a value, exactly one of the three guards
holds. The first and the third successor are the input state with the call popped; the
second is the input state with the call replaced by the assignment
`*standard_metadata.checksum_error := 1`; the environment is that of the input state in
all three. -/
theorem verify_checksum_branches (st : BMv2_V1ModelExprStepper) (state : ExecutionState)
    (callId : Nat) (condition data checksum algo : Expr)
    (hsym : [condition, data, checksum, algo].all isSymbolicValue = true)
    (htaint : [condition, data, checksum, algo].any state.hasTaint = false) :
    st.verify_checksum callId condition data checksum algo state =
      .ok [⟨some (Expr.land (Expr.equ (.concolicVariable checksum.type "*method_checksum"
              (Args.ofList [checksum, algo, data]) callId 0) checksum) condition),
            { state with body := state.body.drop 1 }⟩,
           ⟨some (Expr.land condition (Expr.neq (.concolicVariable checksum.type
              "*method_checksum" (Args.ofList [checksum, algo, data]) callId 0) checksum)),
            { state with body :=
                (Cmd.assignmentStatement
                  (.ref (BMv2_V1ModelExprStepper.standardMetadata (.bits 1 false)
                    "checksum_error"))
                  (.constant (.bits 1 false) 1)) :: state.body.drop 1 }⟩,
           ⟨some (.lnot condition), { state with body := state.body.drop 1 }⟩] ∧
    ∀ σ c v, condition.evalBool σ = some c → checksum.evalInt σ = some v →
      ∃ b1 b2 b3,
        (Expr.land (Expr.equ (.concolicVariable checksum.type "*method_checksum"
          (Args.ofList [checksum, algo, data]) callId 0) checksum) condition).evalBool σ
            = some b1 ∧
        (Expr.land condition (Expr.neq (.concolicVariable checksum.type "*method_checksum"
          (Args.ofList [checksum, algo, data]) callId 0) checksum)).evalBool σ = some b2 ∧
        (Expr.lnot condition).evalBool σ = some b3 ∧
        ((b1 = true ∧ b2 = false ∧ b3 = false) ∨ (b1 = false ∧ b2 = true ∧ b3 = false) ∨
          (b1 = false ∧ b2 = false ∧ b3 = true)) := by
  constructor
  · have hfind : [condition, data, checksum, algo].find? (fun arg => !isSymbolicValue arg)
        = none := by
      simp only [List.all_cons, List.all_nil, Bool.and_true, Bool.and_eq_true] at hsym
      simp [List.find?, hsym.1, hsym.2.1, hsym.2.2.1, hsym.2.2.2]
    simp only [BMv2_V1ModelExprStepper.verify_checksum, hfind, htaint, Bool.false_eq_true,
      if_false]
    rfl
  · intro σ c v hc hv
    refine ⟨decide (σ ("*method_checksum" ++ "_" ++ toString callId ++ "_" ++ toString 0) = v)
        && c,
      c && decide (σ ("*method_checksum" ++ "_" ++ toString callId ++ "_" ++ toString 0) ≠ v),
      !c, ?_, ?_, ?_, ?_⟩
    · simp only [Expr.evalBool, Expr.evalInt, hc, hv]
    · simp only [Expr.evalBool, Expr.evalInt, hc, hv]
    · simp only [Expr.evalBool, hc, Option.map_some']
    · generalize σ ("*method_checksum" ++ "_" ++ toString callId ++ "_" ++ toString 0) = a
      cases c <;> by_cases h : a = v <;> simp [h]

theorem verify_checksum_branches_witness :
    (Example.bmv2.verify_checksum 3 Example.bVar (.constant (.bits 32 false) 0)
        (.constant (.bits 16 false) 77) (.constant (.bits 32 false) 1)
        Example.bmv2State).map
      (fun (bs : List Branch) => bs.map fun (b : Branch) => (b.nextState.env, b.nextState.body))
      = .ok [(Example.bmv2State.env, [.node "next"]),
             (Example.bmv2State.env,
               [.assignmentStatement (.ref (.member (.bits 1 false)
                   (.path (.structLike false []) "*standard_metadata") "checksum_error"))
                 (.constant (.bits 1 false) 1), .node "next"]),
             (Example.bmv2State.env, [.node "next"])] :=
  congrArg (Except.map fun (bs : List Branch) =>
      bs.map fun (b : Branch) => (b.nextState.env, b.nextState.body))
    (verify_checksum_branches Example.bmv2 Example.bmv2State 3 Example.bVar
      (.constant (.bits 32 false) 0) (.constant (.bits 16 false) 77)
      (.constant (.bits 32 false) 1) rfl rfl).1

/-! ## C20: `random` -/

/-- C21 (amended): for `assert(cond)` and `assume(cond)` with `cond` an untainted symbolic
value the step yields two successors, the true branch first. The true branch is guarded by
`cond`; it pops the call, records two trace events and leaves the environment unchanged.
The false branch is guarded by `!cond`; it records two trace events, leaves the
environment unchanged and has the call replaced by `Exception(Abort)`. The step reads no
run mode: the false branch is produced in every run. -/
theorem assertAssume_branches (st : BMv2_V1ModelExprStepper) (methodName : String)
    (cond : Expr) (state : ExecutionState)
    (hsym : isSymbolicValue cond = true) (htaint : state.hasTaint cond = false) :
    st.AssertAssumeExecute methodName cond state =
      .ok [⟨some cond,
            { state with
              trace := state.trace ++ [.generic (methodName.toUpper ++ ": true condition "),
                .generic (methodName.toUpper ++ " Condition: " ++ st.dbprint cond)],
              body := state.body.drop 1 }⟩,
           ⟨some (.lnot cond),
            { state with
              trace := state.trace ++ [.generic (methodName.toUpper ++ ": false condition"),
                .generic (methodName.toUpper ++ " Condition: " ++ st.dbprint cond)],
              body := .exception .abort :: state.body.drop 1 }⟩] := by
  simp only [BMv2_V1ModelExprStepper.AssertAssumeExecute, hsym, htaint, Bool.not_true,
    Bool.false_eq_true, if_false, ExecutionState.add, ExecutionState.popBody,
    ExecutionState.replaceTopBody, List.append_assoc, List.singleton_append]

theorem assertAssume_branches_witness :
    Example.bmv2.AssertAssumeExecute "assume" Example.bVar Example.bmv2State =
      .ok [⟨some Example.bVar,
            { Example.bmv2State with
              trace := [.generic ("assume".toUpper ++ ": true condition "),
                .generic ("assume".toUpper ++ " Condition: " ++ "expr")],
              body := [.node "next"] }⟩,
           ⟨some (.lnot Example.bVar),
            { Example.bmv2State with
              trace := [.generic ("assume".toUpper ++ ": false condition"),
                .generic ("assume".toUpper ++ " Condition: " ++ "expr")],
              body := [.exception .abort, .node "next"] }⟩] :=
  assertAssume_branches Example.bmv2 "assume" Example.bVar Example.bmv2State rfl rfl

/-- C21, counterexample: `assume(b)` on a boolean symbolic variable `b`. The step takes no
run mode as input, so in a permissive run too it yields the false branch: a successor
guarded by `!b` whose continuation top is `Exception(Abort)`. -/
theorem assume_false_branch_not_pruned :
    (Example.bmv2.AssertAssumeExecute "assume" Example.bVar Example.bmv2State).map
      (fun (bs : List Branch) =>
        bs.map fun (b : Branch) => (b.constraint, b.nextState.body.head?)) =
      .ok [(some Example.bVar, some (.node "next")),
           (some (.lnot Example.bVar), some (.exception .abort))] :=
  rfl

/-! ## C22: externs without effect -/

/-- C22: for every state, each of `digest`, `counter.count`, `direct_counter.count`,
`meter.execute_meter` and `direct_meter.read` yields exactly one unguarded successor, and
that successor is the input state with the top command of the continuation removed: every
other component (environment, packet buffer, emit buffer, cursor, path constraints, trace,
properties, test objects) is that of the input state. -/
theorem effect_free_externs (state : ExecutionState) :
    BMv2_V1ModelExprStepper.digest state =
      .ok [⟨none, { state with body := state.body.drop 1 }⟩] ∧
    BMv2_V1ModelExprStepper.counter_count state =
      .ok [⟨none, { state with body := state.body.drop 1 }⟩] ∧
    BMv2_V1ModelExprStepper.direct_counter_count state =
      .ok [⟨none, { state with body := state.body.drop 1 }⟩] ∧
    BMv2_V1ModelExprStepper.meter_execute_meter state =
      .ok [⟨none, { state with body := state.body.drop 1 }⟩] ∧
    BMv2_V1ModelExprStepper.direct_meter_read state =
      .ok [⟨none, { state with body := state.body.drop 1 }⟩] :=
  ⟨rfl, rfl, rfl, rfl, rfl⟩

/-! ## C26: the guard of the default action -/

/-- C26 (amended): for a table that is not immutable and has the standard implementation
(its entries are synthesized by the control plane), `evalTargetTable` appends the branches
of `evalTableControlEntries` and then adds the default action with no miss condition: the
default action can always be executed, since the control plane may install no entry. For
an immutable table the implementation becomes `constant` and the default action is added
with the miss condition that `evalTableConstEntries` returns. -/
theorem evalTargetTable_default (core : TableStepper) (options : TestgenOptions)
    (self : BMv2_V1ModelTableStepper) (tableActionList : List Expr) :
    (self.properties.tableIsImmutable = false →
      self.bmv2_V1ModelProperties.implementaton = .standard →
      self.evalTargetTable core options tableActionList =
        .ok { self with
          result := self.result ++ core.evalTableControlEntries self tableActionList ++
            core.addDefaultAction self none }) ∧
    (self.properties.tableIsImmutable = true →
      self.evalTargetTable core options tableActionList =
        .ok { self with
          bmv2_V1ModelProperties :=
            { self.bmv2_V1ModelProperties with implementaton := .constant },
          result := self.result ++
            (core.evalTableConstEntries { self with bmv2_V1ModelProperties :=
              { self.bmv2_V1ModelProperties with implementaton := .constant } }).2 ++
            core.addDefaultAction { self with bmv2_V1ModelProperties :=
                { self.bmv2_V1ModelProperties with implementaton := .constant } }
              (some (core.evalTableConstEntries { self with bmv2_V1ModelProperties :=
                { self.bmv2_V1ModelProperties with implementaton := .constant } }).1) }) := by
  constructor
  · intro himm himpl
    simp only [BMv2_V1ModelTableStepper.evalTargetTable, himm, Bool.false_eq_true, if_false,
      himpl]
  · intro himm
    simp only [BMv2_V1ModelTableStepper.evalTargetTable, himm, if_true]

theorem evalTargetTable_default_witness :
    ((Example.tableOf false [Example.keyOf "exact" false]).evalTargetTable Example.tableCore
        Example.options []).map
      (fun self => self.result.map fun (b : Branch) => (b.constraint, b.nextState.body.head?)) =
      .ok [(some Example.hitCond, some (.node "action")),
           (none, some (.node "default_action"))] ∧
    ((Example.tableOf true [Example.keyOf "exact" false]).evalTargetTable Example.tableCore
        Example.options []).map
      (fun self => self.result.map fun (b : Branch) => (b.constraint, b.nextState.body.head?)) =
      .ok [(some Example.hitCond, some (.node "action")),
           (some (.lnot Example.hitCond), some (.node "default_action"))] :=
  ⟨congrArg (Except.map fun (self : BMv2_V1ModelTableStepper) =>
      self.result.map fun (b : Branch) => (b.constraint, b.nextState.body.head?))
      ((evalTargetTable_default Example.tableCore Example.options
        (Example.tableOf false [Example.keyOf "exact" false]) []).1 rfl rfl),
   congrArg (Except.map fun (self : BMv2_V1ModelTableStepper) =>
      self.result.map fun (b : Branch) => (b.constraint, b.nextState.body.head?))
      ((evalTargetTable_default Example.tableCore Example.options
        (Example.tableOf true [Example.keyOf "exact" false]) []).2 rfl)⟩

/-- C26, counterexample: a table `t` that is not immutable, with one exact key, for which
the control plane synthesizes one entry with hit condition `k == t_key_hdr.k`. The step
yields the hit branch and the default-action branch; the default-action branch has no
guard, it is not guarded by the negation of the hit condition. -/
theorem default_action_unguarded :
    ((Example.tableOf false [Example.keyOf "exact" false]).evalTargetTable Example.tableCore
        Example.options []).map
      (fun self => self.result.map fun (b : Branch) => (b.constraint, b.nextState.body.head?)) =
      .ok [(some Example.hitCond, some (.node "action")),
           (none, some (.node "default_action"))] ∧
    (none : Option Expr) ≠ some (.lnot Example.hitCond) :=
  ⟨rfl, fun h => by cases h⟩

/-! ## C27: tainted keys -/

namespace BMv2_V1ModelTableStepper

/-- What the loop over the keys computes: the table is tainted if it was before or if some
key is tainted and is either exact or a key of an immutable table; the function returns
from inside the loop iff the table is tainted and there is a key. -/
theorem checkKeys_eq (tableIsImmutable : Bool) :
    ∀ (keys : List KeyProperties) (tableIsTainted : Bool),
      checkKeys tableIsImmutable keys tableIsTainted =
        (tableIsTainted || keys.any (fun keyProperties =>
            keyProperties.isTainted &&
              (tableIsImmutable || keyProperties.key.matchType == "exact")),
          !keys.isEmpty && (tableIsTainted || keys.any (fun keyProperties =>
            keyProperties.isTainted &&
              (tableIsImmutable || keyProperties.key.matchType == "exact")))) := by
  intro keys
  induction keys with
  | nil => intro t; simp [checkKeys]
  | cons kp rest ih =>
    intro t
    simp only [checkKeys, List.any_cons, List.isEmpty_cons, Bool.not_false, Bool.true_and]
    cases h : (t || kp.isTainted && (tableIsImmutable || kp.key.matchType == "exact"))
    · simp only [Bool.false_eq_true, if_false, ih, Bool.false_or]
      rw [Bool.or_eq_false_iff] at h
      simp only [h.1, h.2, Bool.false_or, Prod.mk.injEq, true_and]
      cases hr : rest.isEmpty
      · simp
      · cases rest with
        | nil => simp
        | cons a b => simp at hr
    · simp only [if_true]
      rw [← Bool.or_assoc, h]
      simp

/-- The checks after the loop leave the properties of the table alone. -/
theorem checkImplementation_properties (core : TableStepper)
    (self r : BMv2_V1ModelTableStepper) (h : checkImplementation core self = .ok r) :
    r.properties = self.properties := by
  have htake : ∀ (s : BMv2_V1ModelTableStepper) (d : ExternDecl) b s2,
      takeActionProfile core s d = .ok (b, s2) → s2.properties = s.properties := by
    intro s d b s2 h2
    unfold takeActionProfile at h2
    split at h2
    · cases h2; rfl
    · cases h2
    · cases h2; rfl
  have hprof : ∀ (s : BMv2_V1ModelTableStepper) b s2,
      checkForActionProfile core s = .ok (b, s2) → s2.properties = s.properties := by
    intro s b s2 h2
    unfold checkForActionProfile at h2
    split at h2
    · cases h2
    · cases h2; rfl
    · split at h2
      · cases h2; rfl
      · exact htake _ _ _ _ h2
  have hsel : ∀ (s : BMv2_V1ModelTableStepper) b s2,
      checkForActionSelector core s = .ok (b, s2) → s2.properties = s.properties := by
    intro s b s2 h2
    unfold checkForActionSelector at h2
    split at h2
    · cases h2
    · cases h2; rfl
    · split at h2
      · cases h2; rfl
      · exact htake _ _ _ _ h2
  unfold checkImplementation at h
  split at h
  · cases h
  · rename_i s2 hp
    cases h
    exact hprof self true s2 hp
  · rename_i s2 hp
    split at h
    · cases h
    · rename_i s3 hs
      cases h
      exact (hsel s2 true s3 hs).trans (hprof self false s2 hp)
    · rename_i s3 hs
      have hr : s3 = r := by cases h; rfl
      subst hr
      exact (hsel s2 false s3 hs).trans (hprof self false s2 hp)

end BMv2_V1ModelTableStepper

/-- C27 (amended): for a table with at least one key all of whose key expressions are
tainted, `checkTargetProperties` marks the table as tainted, and returns at once, if the
table is immutable or some key has the match kind `exact`. If the table is not immutable
and no key is `exact`, the taint is mitigated: the function goes on to the checks for an
action profile and an action selector, and a table that was not tainted before is not
tainted afterwards. -/
theorem checkTargetProperties_all_tainted (core : TableStepper)
    (self : BMv2_V1ModelTableStepper)
    (hkeys : self.properties.resolvedKeys ≠ [])
    (hall : ∀ kp ∈ self.properties.resolvedKeys, kp.isTainted = true) :
    ((self.properties.tableIsImmutable = true ∨
        ∃ kp ∈ self.properties.resolvedKeys, kp.key.matchType = "exact") →
      self.checkTargetProperties core =
        .ok { self with properties := { self.properties with tableIsTainted := true } }) ∧
    (self.properties.tableIsImmutable = false →
      (∀ kp ∈ self.properties.resolvedKeys, kp.key.matchType ≠ "exact") →
      self.properties.tableIsTainted = false →
      self.checkTargetProperties core = BMv2_V1ModelTableStepper.checkImplementation core self ∧
      ∀ r, self.checkTargetProperties core = .ok r → r.properties.tableIsTainted = false) := by
  obtain ⟨⟨tableName, tainted, immutable, keys⟩, bmv2, impl, result⟩ := self
  simp only at hkeys hall ⊢
  constructor
  · intro h
    have hany : keys.any (fun keyProperties =>
        keyProperties.isTainted && (immutable || keyProperties.key.matchType == "exact"))
          = true := by
      rw [List.any_eq_true]
      rcases h with h | ⟨kp, hkp, hexact⟩
      · cases keys with
        | nil => exact absurd rfl hkeys
        | cons kp rest =>
          exact ⟨kp, List.mem_cons_self _ _, by
            simp [hall kp (List.mem_cons_self _ _), h]⟩
      · exact ⟨kp, hkp, by simp [hall kp hkp, hexact]⟩
    have hne : keys.isEmpty = false := by
      cases keys with
      | nil => exact absurd rfl hkeys
      | cons kp rest => rfl
    simp only [BMv2_V1ModelTableStepper.checkTargetProperties,
      BMv2_V1ModelTableStepper.checkKeys_eq, hany, hne, Bool.or_true, Bool.not_false,
      Bool.and_self, if_true]
  · intro himm hexact htainted
    subst himm htainted
    have hany : keys.any (fun keyProperties =>
        keyProperties.isTainted && (false || keyProperties.key.matchType == "exact"))
          = false := by
      rw [List.any_eq_false]
      intro kp hkp
      have h1 : (kp.key.matchType == "exact") = false := by
        simp only [beq_eq_false_iff_ne, ne_eq]
        exact hexact kp hkp
      simp [h1]
    have heq : BMv2_V1ModelTableStepper.checkTargetProperties core
        ⟨⟨tableName, false, false, keys⟩, bmv2, impl, result⟩ =
        BMv2_V1ModelTableStepper.checkImplementation core
          ⟨⟨tableName, false, false, keys⟩, bmv2, impl, result⟩ := by
      simp only [BMv2_V1ModelTableStepper.checkTargetProperties,
        BMv2_V1ModelTableStepper.checkKeys_eq, hany, Bool.or_false, Bool.and_false,
        Bool.false_eq_true, if_false]
    refine ⟨heq, ?_⟩
    intro r hr
    rw [heq] at hr
    rw [BMv2_V1ModelTableStepper.checkImplementation_properties core _ r hr]

theorem checkTargetProperties_all_tainted_witness :
    (Example.tableOf true [Example.keyOf "ternary" true]).checkTargetProperties
        Example.tableCore =
      .ok { Example.tableOf true [Example.keyOf "ternary" true] with
        properties :=
          { tableName := "t", tableIsTainted := true, tableIsImmutable := true,
            resolvedKeys := [Example.keyOf "ternary" true] } } ∧
    (Example.tableOf false
        [Example.keyOf "lpm" true, Example.keyOf "exact" true]).checkTargetProperties
        Example.tableCore =
      .ok { Example.tableOf false [Example.keyOf "lpm" true, Example.keyOf "exact" true] with
        properties :=
          { tableName := "t", tableIsTainted := true, tableIsImmutable := false,
            resolvedKeys := [Example.keyOf "lpm" true, Example.keyOf "exact" true] } } ∧
    ∀ r, (Example.tableOf false [Example.keyOf "ternary" true]).checkTargetProperties
        Example.tableCore = .ok r → r.properties.tableIsTainted = false :=
  ⟨(checkTargetProperties_all_tainted Example.tableCore
      (Example.tableOf true [Example.keyOf "ternary" true]) (by decide) (by decide)).1
      (Or.inl rfl),
   (checkTargetProperties_all_tainted Example.tableCore
      (Example.tableOf false [Example.keyOf "lpm" true, Example.keyOf "exact" true])
      (by decide) (by decide)).1
      (Or.inr ⟨Example.keyOf "exact" true, by decide, rfl⟩),
   ((checkTargetProperties_all_tainted Example.tableCore
      (Example.tableOf false [Example.keyOf "ternary" true]) (by decide) (by decide)).2
      rfl (by decide) rfl).2⟩

/-- C27, counterexample: a table that is not immutable, with a single key of match kind
`ternary` whose expression is tainted. Every key is tainted, and `checkTargetProperties`
returns with the table not marked as tainted. -/
theorem tainted_ternary_key_mitigated :
    (Example.tableOf false [Example.keyOf "ternary" true]).properties.resolvedKeys.all
      (fun kp => kp.isTainted) = true ∧
    (Example.tableOf false [Example.keyOf "ternary" true]).checkTargetProperties
        Example.tableCore =
      .ok (Example.tableOf false [Example.keyOf "ternary" true]) ∧
    (Example.tableOf false [Example.keyOf "ternary" true]).properties.tableIsTainted = false :=
  ⟨rfl, rfl, rfl⟩

/-! ## C28: the match kinds `range`, `optional` and `selector` -/

/-- C28: for a key of match kind `range` whose expression is not tainted, with a test
backend other than STF and no match recorded under the name of the key,
`computeTargetMatchType` returns the incoming hit condition conjoined with
`min < max && min <= key && key <= max`, where `min` and `max` are the zombie constants of
the type of the key named `<table>_range_min_<key>` and `<table>_range_max_<key>`, which
it allocates in the state, and it records the match `Range(key, min, max)` under the name
of the key; the conjunct holds exactly for the valuations with `min < max`,
`min <= key` and `key <= max`. For the match kinds `optional` and `selector` it returns
the incoming hit condition and leaves the matches and the state as they are (for
`selector` the key expression joins the action selector keys). -/
theorem computeTargetMatchType_range (core : TableStepper) (options : TestgenOptions)
    (self : BMv2_V1ModelTableStepper) (nextState : ExecutionState)
    (keyProperties : KeyProperties) (fieldMatches : List (String × FieldMatch))
    (hitCondition : Expr) :
    (keyProperties.matchType = "range" → keyProperties.isTainted = false →
      options.testBackend ≠ "STF" → fieldMatches.lookup keyProperties.name = none →
      self.computeTargetMatchType core options nextState keyProperties fieldMatches
          hitCondition =
        .ok ⟨self,
          ((nextState.createZombieConst keyProperties.key.expression.type
            (self.properties.tableName ++ "_range_min_" ++ keyProperties.name)).2
            ).createZombieConst keyProperties.key.expression.type
            (self.properties.tableName ++ "_range_max_" ++ keyProperties.name) |>.2,
          fieldMatches ++ [(keyProperties.name, .range keyProperties.key
            (.symbolicVar keyProperties.key.expression.type
              (self.properties.tableName ++ "_range_min_" ++ keyProperties.name))
            (.symbolicVar keyProperties.key.expression.type
              (self.properties.tableName ++ "_range_max_" ++ keyProperties.name)))],
          Expr.land hitCondition (Expr.land (Expr.land
            (Expr.lss
              (.symbolicVar keyProperties.key.expression.type
                (self.properties.tableName ++ "_range_min_" ++ keyProperties.name))
              (.symbolicVar keyProperties.key.expression.type
                (self.properties.tableName ++ "_range_max_" ++ keyProperties.name)))
            (Expr.leq
              (.symbolicVar keyProperties.key.expression.type
                (self.properties.tableName ++ "_range_min_" ++ keyProperties.name))
              keyProperties.key.expression))
            (Expr.leq keyProperties.key.expression
              (.symbolicVar keyProperties.key.expression.type
                (self.properties.tableName ++ "_range_max_" ++ keyProperties.name))))⟩ ∧
      ∀ σ k, keyProperties.key.expression.evalInt σ = some k →
        (Expr.land (Expr.land
            (Expr.lss
              (.symbolicVar keyProperties.key.expression.type
                (self.properties.tableName ++ "_range_min_" ++ keyProperties.name))
              (.symbolicVar keyProperties.key.expression.type
                (self.properties.tableName ++ "_range_max_" ++ keyProperties.name)))
            (Expr.leq
              (.symbolicVar keyProperties.key.expression.type
                (self.properties.tableName ++ "_range_min_" ++ keyProperties.name))
              keyProperties.key.expression))
            (Expr.leq keyProperties.key.expression
              (.symbolicVar keyProperties.key.expression.type
                (self.properties.tableName ++ "_range_max_" ++ keyProperties.name)))).evalBool σ
          = some (decide
              (σ (self.properties.tableName ++ "_range_min_" ++ keyProperties.name) <
                  σ (self.properties.tableName ++ "_range_max_" ++ keyProperties.name) ∧
                σ (self.properties.tableName ++ "_range_min_" ++ keyProperties.name) ≤ k ∧
                k ≤ σ (self.properties.tableName ++ "_range_max_" ++ keyProperties.name)))) ∧
    (keyProperties.matchType = "optional" →
      self.computeTargetMatchType core options nextState keyProperties fieldMatches
          hitCondition = .ok ⟨self, nextState, fieldMatches, hitCondition⟩) ∧
    (keyProperties.matchType = "selector" →
      self.computeTargetMatchType core options nextState keyProperties fieldMatches
          hitCondition =
        .ok ⟨{ self with bmv2_V1ModelProperties :=
              { self.bmv2_V1ModelProperties with
                actionSelectorKeys := self.bmv2_V1ModelProperties.actionSelectorKeys ++
                  [keyProperties.key.expression] } },
            nextState, fieldMatches, hitCondition⟩) := by
  refine ⟨?_, ?_, ?_⟩
  · intro hkind htaint hbackend hfresh
    constructor
    · have h1 : ("range" == BMv2Constants.MATCH_KIND_OPT) = false := by decide
      have h2 : ("range" == BMv2Constants.MATCH_KIND_SELECTOR) = false := by decide
      have h3 : ("range" == BMv2Constants.MATCH_KIND_RANGE) = true := by decide
      have h4 : (options.testBackend != "STF") = true := by
        simp only [bne_iff_ne, ne_eq]
        exact hbackend
      simp only [BMv2_V1ModelTableStepper.computeTargetMatchType, hkind, h1, h2, h3, h4,
        htaint, Bool.false_eq_true, if_false, Bool.and_self, if_true, emplace, hfresh,
        ExecutionState.createZombieConst]
    · intro σ k hk
      simp only [Expr.evalBool, Expr.evalInt, hk, Bool.decide_and, Bool.and_assoc]
  · intro hkind
    have h1 : ("optional" == BMv2Constants.MATCH_KIND_OPT) = true := by decide
    simp only [BMv2_V1ModelTableStepper.computeTargetMatchType, hkind, h1, if_true]
  · intro hkind
    have h1 : ("selector" == BMv2Constants.MATCH_KIND_OPT) = false := by decide
    have h2 : ("selector" == BMv2Constants.MATCH_KIND_SELECTOR) = true := by decide
    simp only [BMv2_V1ModelTableStepper.computeTargetMatchType, hkind, h1, h2,
      Bool.false_eq_true, if_false, if_true]

theorem computeTargetMatchType_range_witness :
    (Example.tableOf false []).computeTargetMatchType Example.tableCore Example.options
        Example.bmv2State (Example.keyOf "range" false) [] (.boolLiteral true) =
      .ok ⟨Example.tableOf false [],
        { Example.bmv2State with
          allocatedZombies := [.symbolicVar (.bits 8 false) "t_range_max_hdr.k",
            .symbolicVar (.bits 8 false) "t_range_min_hdr.k"] },
        [("hdr.k", .range ⟨Example.keyExpr, "range"⟩
          (.symbolicVar (.bits 8 false) "t_range_min_hdr.k")
          (.symbolicVar (.bits 8 false) "t_range_max_hdr.k"))],
        Expr.land (.boolLiteral true) (Expr.land (Expr.land
          (Expr.lss (.symbolicVar (.bits 8 false) "t_range_min_hdr.k")
            (.symbolicVar (.bits 8 false) "t_range_max_hdr.k"))
          (Expr.leq (.symbolicVar (.bits 8 false) "t_range_min_hdr.k") Example.keyExpr))
          (Expr.leq Example.keyExpr (.symbolicVar (.bits 8 false) "t_range_max_hdr.k")))⟩ ∧
    (Example.tableOf false []).computeTargetMatchType Example.tableCore Example.options
        Example.bmv2State (Example.keyOf "optional" false) [] (.boolLiteral true) =
      .ok ⟨Example.tableOf false [], Example.bmv2State, [], .boolLiteral true⟩ ∧
    ((Example.tableOf false []).computeTargetMatchType Example.tableCore Example.options
        Example.bmv2State (Example.keyOf "selector" false) [] (.boolLiteral true)).map
      (fun (r : MatchTypeResult) =>
        (r.self.bmv2_V1ModelProperties.actionSelectorKeys, r.nextState, r.fieldMatches,
          r.hitCondition)) =
      .ok ([Example.keyExpr], Example.bmv2State, [], .boolLiteral true) :=
  ⟨((computeTargetMatchType_range Example.tableCore Example.options (Example.tableOf false [])
      Example.bmv2State (Example.keyOf "range" false) [] (.boolLiteral true)).1
      rfl rfl (by decide) rfl).1,
   (computeTargetMatchType_range Example.tableCore Example.options (Example.tableOf false [])
      Example.bmv2State (Example.keyOf "optional" false) [] (.boolLiteral true)).2.1 rfl,
   congrArg (Except.map fun (r : MatchTypeResult) =>
        (r.self.bmv2_V1ModelProperties.actionSelectorKeys, r.nextState, r.fieldMatches,
          r.hitCondition))
    ((computeTargetMatchType_range Example.tableCore Example.options (Example.tableOf false [])
      Example.bmv2State (Example.keyOf "selector" false) [] (.boolLiteral true)).2.2 rfl)⟩

/-! ## C29: the bound on the pool -/

namespace LinearEnumeration

/-- A call of `mapBranch` leaves `maxBound` alone and adds at most one branch, and none
when the pool has reached `maxBound`. -/
theorem mapBranch_pool (base : ExplorationStrategy) (self r : LinearEnumeration)
    (branch : Branch) (successors : List Branch)
    (h : self.mapBranch base branch = .ok (r, successors)) :
    r.maxBound = self.maxBound ∧
      (r.exploredBranches = self.exploredBranches ∨
        (self.exploredBranches.length < self.maxBound ∧
          r.exploredBranches = self.exploredBranches ++ [branch] ∧
          branch.constraint ≠ some (.boolLiteral false) ∧
          base.checkSat branch.nextState.pathConstraint = some true ∧
          branch.nextState.isTerminal = true)) := by
  unfold mapBranch at h
  split at h
  · cases h; exact ⟨rfl, Or.inl rfl⟩
  · rename_i hlt
    split at h
    · cases h; exact ⟨rfl, Or.inl rfl⟩
    · rename_i hguard
      simp only at h
      split at h
      · cases h; exact ⟨rfl, Or.inl rfl⟩
      · rename_i hsat
        split at h
        · rename_i hterm
          cases h
          refine ⟨rfl, Or.inr ⟨not_le.mp hlt, rfl, hguard, ?_, hterm⟩⟩
          cases hs : base.checkSat branch.nextState.pathConstraint with
          | none => exact absurd (Or.inl hs) hsat
          | some b =>
            cases b
            · exact absurd (Or.inr hs) hsat
            · rfl
        · split at h
          · cases h
          · cases h; exact ⟨rfl, Or.inl rfl⟩

end LinearEnumeration

namespace Exploration

/-- A call of `mapBranch` keeps the pool within `maxBound`. -/
theorem next_bound (base : ExplorationStrategy) (e : Exploration)
    (h : e.strategy.exploredBranches.length ≤ e.strategy.maxBound) :
    (next base e).strategy.exploredBranches.length ≤ (next base e).strategy.maxBound ∧
      (next base e).strategy.maxBound = e.strategy.maxBound := by
  unfold next
  split
  · exact ⟨h, rfl⟩
  · exact ⟨h, rfl⟩
  · split
    · exact ⟨h, rfl⟩
    · rename_i strategy successors hm
      obtain ⟨hb, hp⟩ := LinearEnumeration.mapBranch_pool base _ _ _ _ hm
      refine ⟨?_, hb⟩
      simp only [hb]
      rcases hp with hp | ⟨hlt, hp, _⟩
      · rw [hp]; exact h
      · rw [hp, List.length_append, List.length_singleton]; exact hlt

theorem run_bound (base : ExplorationStrategy) :
    ∀ (n : Nat) (e : Exploration),
      e.strategy.exploredBranches.length ≤ e.strategy.maxBound →
      (run base n e).strategy.exploredBranches.length ≤ e.strategy.maxBound ∧
        (run base n e).strategy.maxBound = e.strategy.maxBound := by
  intro n
  induction n with
  | zero => intro e h; exact ⟨h, rfl⟩
  | succ n ih =>
    intro e h
    obtain ⟨h1, h2⟩ := next_bound base e h
    obtain ⟨h3, h4⟩ := ih (next base e) h1
    exact ⟨by rw [← h2]; exact h3, h4.trans h2⟩

end Exploration

theorem create_pool (base : ExplorationStrategy) (maxBound : Nat) (s0 : ExecutionState) :
    (LinearEnumeration.create base maxBound s0).strategy.exploredBranches = [] ∧
      (LinearEnumeration.create base maxBound s0).strategy.maxBound = maxBound := by
  unfold LinearEnumeration.create
  split <;> exact ⟨rfl, rfl⟩

/-- C29: in the exploration the constructor starts from an empty pool, after any number of
calls of `mapBranch` the pool holds at most `maxBound` branches. A call of `mapBranch`
made when the pool holds `maxBound` branches (or more) returns with the members as they
were, the logs of solver queries and of steps included, and asks for no recursive call.
With `maxBound = 0` the pool is empty after any number of calls. -/
theorem pool_bounded (base : ExplorationStrategy) (maxBound : Nat) (s0 : ExecutionState) :
    (∀ n, ((LinearEnumeration.create base maxBound s0).run base n
        ).strategy.exploredBranches.length ≤ maxBound) ∧
    (∀ (self : LinearEnumeration) (branch : Branch),
      self.maxBound ≤ self.exploredBranches.length →
      self.mapBranch base branch = .ok (self, [])) ∧
    (maxBound = 0 → ∀ n, ((LinearEnumeration.create base maxBound s0).run base n
        ).strategy.exploredBranches = []) := by
  obtain ⟨hpool, hbound⟩ := create_pool base maxBound s0
  have hall : ∀ n, ((LinearEnumeration.create base maxBound s0).run base n
      ).strategy.exploredBranches.length ≤ maxBound := by
    intro n
    have h := (Exploration.run_bound base n (LinearEnumeration.create base maxBound s0)
      (by rw [hpool]; exact Nat.zero_le _)).1
    rw [hbound] at h
    exact h
  refine ⟨hall, ?_, ?_⟩
  · intro self branch h
    simp only [LinearEnumeration.mapBranch, ge_iff_le, h, if_true]
  · intro h0 n
    subst h0
    exact List.length_eq_zero.mp (Nat.le_zero.mp (hall n))

theorem pool_bounded_witness :
    ((LinearEnumeration.create Example.program 1 (Example.pathState [.node "start"] [])).run
        Example.program 5).strategy.exploredBranches =
      [⟨some Example.bVar, Example.pathState [] [Example.bVar]⟩] ∧
    ((LinearEnumeration.create Example.program 1 (Example.pathState [.node "start"] [])).run
        Example.program 5).pending = [] ∧
    (∀ n, ((LinearEnumeration.create Example.program 1
        (Example.pathState [.node "start"] [])).run Example.program n
          ).strategy.exploredBranches.length ≤ 1) ∧
    LinearEnumeration.mapBranch Example.program
        ⟨1, [⟨some Example.bVar, Example.pathState [] [Example.bVar]⟩], [], []⟩
        ⟨none, Example.pathState [.node "middle"] []⟩ =
      .ok (⟨1, [⟨some Example.bVar, Example.pathState [] [Example.bVar]⟩], [], []⟩, []) ∧
    (∀ n, ((LinearEnumeration.create Example.program 0
        (Example.pathState [.node "start"] [])).run Example.program n
          ).strategy.exploredBranches = []) :=
  ⟨by decide, by decide,
   (pool_bounded Example.program 1 (Example.pathState [.node "start"] [])).1,
   (pool_bounded Example.program 1 (Example.pathState [.node "start"] [])).2.1 _ _
     (Nat.le_refl 1),
   (pool_bounded Example.program 0 (Example.pathState [.node "start"] [])).2.2 rfl⟩

/-! ## C30: what enters the pool -/

namespace Exploration

/-- A call of `mapBranch` adds only a branch that is feasible and terminal. -/
theorem next_feasible (base : ExplorationStrategy) (e : Exploration)
    (h : ∀ b ∈ e.strategy.exploredBranches,
      b.nextState.isTerminal = true ∧
        base.checkSat b.nextState.pathConstraint = some true ∧
        b.constraint ≠ some (.boolLiteral false)) :
    ∀ b ∈ (next base e).strategy.exploredBranches,
      b.nextState.isTerminal = true ∧
        base.checkSat b.nextState.pathConstraint = some true ∧
        b.constraint ≠ some (.boolLiteral false) := by
  unfold next
  split
  · exact h
  · exact h
  · split
    · exact h
    · rename_i branch rest strategy successors hm
      obtain ⟨_, hp⟩ := LinearEnumeration.mapBranch_pool base _ _ _ _ hm
      rcases hp with hp | ⟨_, hp, hguard, hsat, hterm⟩
      · simp only [hp]; exact h
      · simp only [hp]
        intro b hb
        rcases List.mem_append.mp hb with hb | hb
        · exact h b hb
        · rw [List.mem_singleton] at hb
          subst hb
          exact ⟨hterm, hsat, hguard⟩

theorem run_feasible (base : ExplorationStrategy) :
    ∀ (n : Nat) (e : Exploration),
      (∀ b ∈ e.strategy.exploredBranches,
        b.nextState.isTerminal = true ∧
          base.checkSat b.nextState.pathConstraint = some true ∧
          b.constraint ≠ some (.boolLiteral false)) →
      ∀ b ∈ (run base n e).strategy.exploredBranches,
        b.nextState.isTerminal = true ∧
          base.checkSat b.nextState.pathConstraint = some true ∧
          b.constraint ≠ some (.boolLiteral false) := by
  intro n
  induction n with
  | zero => intro e h; exact h
  | succ n ih => intro e h; exact ih (next base e) (next_feasible base e h)

end Exploration

/-- C30: in the exploration the constructor starts, after any number of calls of
`mapBranch` every branch in the pool has a terminal next state whose path constraint the
solver found satisfiable, and a guard other than the literal `false`. A call of
`mapBranch` on a branch whose guard is the literal `false` returns with the members as
they were (no solver query), and a call on a branch whose path constraint the solver finds
unsatisfiable, or times out on, returns with the pool as it was; in both cases the call
asks for no recursive call and the state is not stepped, so that after the call the
pending calls are those that were pending before, and no descendant of the branch is ever
mapped. -/
theorem pool_feasible (base : ExplorationStrategy) (maxBound : Nat) (s0 : ExecutionState) :
    (∀ n, ∀ b ∈ ((LinearEnumeration.create base maxBound s0).run base n
        ).strategy.exploredBranches,
      b.nextState.isTerminal = true ∧
        base.checkSat b.nextState.pathConstraint = some true ∧
        b.constraint ≠ some (.boolLiteral false)) ∧
    (∀ (self : LinearEnumeration) (branch : Branch),
      branch.constraint = some (.boolLiteral false) →
      self.mapBranch base branch = .ok (self, [])) ∧
    (∀ (self : LinearEnumeration) (branch : Branch),
      base.checkSat branch.nextState.pathConstraint ≠ some true →
      ∃ r, self.mapBranch base branch = .ok (r, []) ∧
        r.exploredBranches = self.exploredBranches ∧ r.stepped = self.stepped) ∧
    (∀ (e : Exploration) (branch : Branch) (rest : List Branch),
      e.thrown = none → e.pending = branch :: rest →
      (branch.constraint = some (.boolLiteral false) ∨
        base.checkSat branch.nextState.pathConstraint ≠ some true) →
      (e.next base).pending = rest ∧
        (e.next base).strategy.exploredBranches = e.strategy.exploredBranches ∧
        (e.next base).thrown = none) := by
  have hfalse : ∀ (self : LinearEnumeration) (branch : Branch),
      branch.constraint = some (.boolLiteral false) →
      self.mapBranch base branch = .ok (self, []) := by
    intro self branch h
    simp only [LinearEnumeration.mapBranch, h, if_true, ite_self]
  have hunsat : ∀ (self : LinearEnumeration) (branch : Branch),
      base.checkSat branch.nextState.pathConstraint ≠ some true →
      ∃ r, self.mapBranch base branch = .ok (r, []) ∧
        r.exploredBranches = self.exploredBranches ∧ r.stepped = self.stepped := by
    intro self branch h
    have hs : base.checkSat branch.nextState.pathConstraint = none ∨
        base.checkSat branch.nextState.pathConstraint = some false := by
      cases hc : base.checkSat branch.nextState.pathConstraint with
      | none => exact Or.inl rfl
      | some b =>
        cases b
        · exact Or.inr rfl
        · exact absurd hc h
    unfold LinearEnumeration.mapBranch
    split
    · exact ⟨self, rfl, rfl, rfl⟩
    · split
      · exact ⟨self, rfl, rfl, rfl⟩
      · simp only [hs, if_true]
        exact ⟨_, rfl, rfl, rfl⟩
  refine ⟨?_, hfalse, hunsat, ?_⟩
  · intro n
    apply Exploration.run_feasible base n
    intro b hb
    rw [(create_pool base maxBound s0).1] at hb
    cases hb
  · intro e branch rest hthrown hpending h
    obtain ⟨r, hr, hpool, _⟩ : ∃ r, e.strategy.mapBranch base branch = .ok (r, []) ∧
        r.exploredBranches = e.strategy.exploredBranches ∧ r.stepped = e.strategy.stepped := by
      rcases h with h | h
      · exact ⟨_, hfalse _ _ h, rfl, rfl⟩
      · exact hunsat _ _ h
    simp only [Exploration.next, hthrown, hpending, hr, List.nil_append, true_and, and_true]
    exact hpool

theorem pool_feasible_witness :
    ((LinearEnumeration.create Example.program 8 (Example.pathState [.node "start"] [])).run
        Example.program 6).strategy.exploredBranches =
      [⟨some Example.bVar, Example.pathState [] [Example.bVar]⟩,
       ⟨some (.lnot Example.bVar), Example.pathState [] [.lnot Example.bVar]⟩] ∧
    ((LinearEnumeration.create Example.program 8 (Example.pathState [.node "start"] [])).run
        Example.program 6).pending = [] ∧
    ((LinearEnumeration.create Example.program 8 (Example.pathState [.node "start"] [])).run
        Example.program 6).strategy.stepped =
      [Example.pathState [.node "start"] [], Example.pathState [.node "middle"] []] ∧
    (∀ n, ∀ b ∈ ((LinearEnumeration.create Example.program 8
        (Example.pathState [.node "start"] [])).run Example.program n
          ).strategy.exploredBranches,
      b.nextState.isTerminal = true ∧
        Example.program.checkSat b.nextState.pathConstraint = some true ∧
        b.constraint ≠ some (.boolLiteral false)) ∧
    LinearEnumeration.mapBranch Example.program ⟨8, [], [], []⟩
        ⟨some (.boolLiteral false), Example.pathState [] [.boolLiteral false]⟩ =
      .ok (⟨8, [], [], []⟩, []) :=
  ⟨by decide, by decide, by decide,
   (pool_feasible Example.program 8 (Example.pathState [.node "start"] [])).1,
   (pool_feasible Example.program 8 (Example.pathState [.node "start"] [])).2.1 _ _ rfl⟩

/-! ## Copy-in and copy-out -/

namespace ExecutionState

/-- Outside a region marked by `inUndefinedState` an assigned reference reads as the value
assigned. -/
theorem lookup_set_same (s : ExecutionState) (ref : StateVar) (v : Expr)
    (hoff : s.inUndefinedState = false) :
    (s.set ref v).env.lookup ref.key = some v := by
  simp [set, List.lookup_cons, storedValue_off s v hoff]

theorem lookup_set_other (s : ExecutionState) (ref : StateVar) (v : Expr) (k : List String)
    (h : k ≠ ref.key) : (s.set ref v).env.lookup k = s.env.lookup k :=
  lookup_cons_ne k ref.key (s.storedValue v) s.env h

/-- A read depends on the bindings of its read keys only. -/
theorem get_congr (s s1 : ExecutionState) (g : StateVar)
    (h : ∀ k ∈ readKeys g, s1.env.lookup k = s.env.lookup k) : s1.get g = s.get g := by
  have h1 := h g.key (by simp [readKeys])
  unfold get
  rw [h1]
  cases hh : headerOf g with
  | none => rfl
  | some hdr =>
    have h2 := h (getHeaderValidity hdr).key (by simp [readKeys, hh])
    simp only [h2]

/-- A read that succeeds finds all its read keys bound. -/
theorem get_ok_bound (s : ExecutionState) (g : StateVar) (v : Expr) (h : s.get g = .ok v) :
    ∀ k ∈ readKeys g, s.env.lookup k ≠ none := by
  intro k hk
  unfold get at h
  cases h1 : s.env.lookup g.key with
  | none => rw [h1] at h; cases h
  | some x =>
    rw [h1] at h
    cases hh : headerOf g with
    | none =>
      simp only [readKeys, hh, List.mem_singleton] at hk
      subst hk; rw [h1]; simp
    | some hdr =>
      simp only [hh] at h
      cases h2 : s.env.lookup (getHeaderValidity hdr).key with
      | none => rw [h2] at h; cases h
      | some y =>
        simp only [readKeys, hh, List.mem_cons, List.mem_singleton, List.not_mem_nil,
          or_false] at hk
        rcases hk with hk | hk
        · subst hk; rw [h1]; simp
        · subst hk; rw [h2]; simp

theorem frameExcept_refl (K : List (List String)) (s : ExecutionState) : FrameExcept K s s :=
  ⟨rfl, fun _ _ => Or.inl rfl⟩

theorem frameExcept_set (s : ExecutionState) (ref : StateVar) (v : Expr) :
    FrameExcept [ref.key] s (s.set ref v) :=
  ⟨rfl, fun k hk => Or.inl (lookup_set_other s ref v k (by simpa using hk))⟩

/-- A frame keeps the property map, and with it the mark `inUndefinedState`. -/
theorem frameExcept_inUndefinedState (K : List (List String)) (s s1 : ExecutionState)
    (h : FrameExcept K s s1) : s1.inUndefinedState = s.inUndefinedState := by
  have h1 := h.1
  rw [h1]
  rfl

theorem frameExcept_trans (K1 K2 : List (List String)) (s s1 s2 : ExecutionState)
    (h1 : FrameExcept K1 s s1) (h2 : FrameExcept K2 s1 s2) : FrameExcept (K1 ++ K2) s s2 := by
  refine ⟨?_, fun k hk => ?_⟩
  · have e1 := h1.1
    have e2 := h2.1
    rw [e2]
    rw [e1]
  · simp only [List.mem_append, not_or] at hk
    rcases h1.2 k hk.1 with a | ⟨a, b⟩
    · rcases h2.2 k hk.2 with c | ⟨c, d⟩
      · exact Or.inl (c.trans a)
      · exact Or.inr ⟨a ▸ c, d⟩
    · rcases h2.2 k hk.2 with c | ⟨c, _⟩
      · exact Or.inr ⟨a, c.trans b⟩
      · rw [b] at c; cases c

/-- A binding that exists is kept by a frame. -/
theorem frameExcept_bound (K : List (List String)) (s s1 : ExecutionState)
    (h : FrameExcept K s s1) (k : List String) (hk : k ∉ K) (v : Expr)
    (hv : s.env.lookup k = some v) : s1.env.lookup k = some v := by
  rcases h.2 k hk with a | ⟨a, _⟩
  · rw [a, hv]
  · rw [hv] at a; cases a

/-- A read that succeeds is kept by a frame that does not touch its read keys. -/
theorem frameExcept_get (K : List (List String)) (s s1 : ExecutionState)
    (h : FrameExcept K s s1) (g : StateVar) (hk : ∀ k ∈ readKeys g, k ∉ K) (v : Expr)
    (hv : s.get g = .ok v) : s1.get g = .ok v := by
  rw [← hv]
  apply get_congr
  intro k hkr
  have hb := get_ok_bound s g v hv k hkr
  rcases h.2 k (hk k hkr) with a | ⟨a, _⟩
  · exact a
  · exact absurd a hb

/-- The value of a validity bit, read as `false` when it is not bound, is kept by a
frame. -/
theorem frameExcept_getD (K : List (List String)) (s s1 : ExecutionState)
    (h : FrameExcept K s s1) (k : List String) (hk : k ∉ K) :
    (s1.env.lookup k).getD (.boolLiteral false) = (s.env.lookup k).getD (.boolLiteral false) := by
  rcases h.2 k hk with a | ⟨a, b⟩
  · rw [a]
  · rw [a, b]; rfl

end ExecutionState
namespace ExprStepper

open ExecutionState in
/-- A loop of assignments: if the body of a pair, run where the condition `C` of the pair
holds, binds the target of the pair to its expected value and touches nothing else, and
the assignment of one pair keeps the condition of the others, then the loop binds every
target to its expected value. -/
theorem forEachPair_assigns
    (f : StateVar → StateVar → ExecutionState → Except StepError ExecutionState)
    (tgt : StateVar × StateVar → StateVar)
    (C : ExecutionState → StateVar × StateVar → Prop)
    (expected : StateVar × StateVar → Expr)
    (hstep : ∀ s pr, C s pr → ∃ s1, f pr.1 pr.2 s = .ok s1 ∧
      s1.env.lookup (tgt pr).key = some (expected pr) ∧ FrameExcept [(tgt pr).key] s s1) :
    ∀ (l : List (StateVar × StateVar)) (s : ExecutionState),
      (∀ pr ∈ l, C s pr) →
      (l.map fun pr => (tgt pr).key).Nodup →
      (∀ pr ∈ l, ∀ pr2 ∈ l, ∀ s s1, FrameExcept [(tgt pr).key] s s1 → C s pr2 → C s1 pr2) →
      ∃ s2, forEachPair f l s = .ok s2 ∧
        (∀ pr ∈ l, s2.env.lookup (tgt pr).key = some (expected pr)) ∧
        FrameExcept (l.map fun pr => (tgt pr).key) s s2 := by
  intro l
  induction l with
  | nil =>
    intro s _ _ _
    exact ⟨s, rfl, (fun _ h => by cases h), frameExcept_refl _ s⟩
  | cons pr rest ih =>
    intro s hC hnd hkeep
    obtain ⟨s1, hf, hl, hfr⟩ := hstep s pr (hC pr (List.mem_cons_self _ _))
    have hnd2 := List.nodup_cons.mp hnd
    have hC1 : ∀ pr2 ∈ rest, C s1 pr2 := fun pr2 h2 =>
      hkeep pr (List.mem_cons_self _ _) pr2 (List.mem_cons_of_mem _ h2) s s1 hfr
        (hC pr2 (List.mem_cons_of_mem _ h2))
    obtain ⟨s2, hrest, hl2, hfr2⟩ := ih s1 hC1 hnd2.2
      (fun a ha b hb => hkeep a (List.mem_cons_of_mem _ ha) b (List.mem_cons_of_mem _ hb))
    refine ⟨s2, ?_, ?_, ?_⟩
    · obtain ⟨g, p⟩ := pr
      simp only [forEachPair]
      simp only at hf
      rw [hf]
      exact hrest
    · intro a ha
      rcases List.mem_cons.mp ha with h | h
      · subst h
        exact frameExcept_bound _ s1 s2 hfr2 _ hnd2.1 _ hl
      · exact hl2 a h
    · exact frameExcept_trans [(tgt pr).key] _ s s1 s2 hfr hfr2

theorem forEachPair_single
    (f : StateVar → StateVar → ExecutionState → Except StepError ExecutionState)
    (g p : StateVar) (s : ExecutionState) : forEachPair f [(g, p)] s = f g p s := by
  simp only [forEachPair]
  cases f g p s <;> rfl

/-- A loop whose body does nothing returns the state it got. -/
theorem forEachPair_skip
    (f : StateVar → StateVar → ExecutionState → Except StepError ExecutionState)
    (hf : ∀ g p s, f g p s = .ok s) (l : List (StateVar × StateVar)) (s : ExecutionState) :
    forEachPair f l s = .ok s := by
  induction l with
  | nil => rfl
  | cons pr rest ih =>
    obtain ⟨g, p⟩ := pr
    simp only [forEachPair, hf]
    exact ih

end ExprStepper
namespace ExecutionState

mutual
/-- Every reference in the validity vector of a flattening is a validity bit, which is
read without looking at another validity bit. -/
theorem getFlatValids_headerOf : (t : Ty) → (parent : StateVar) →
    ∀ v ∈ getFlatValids t parent, headerOf v = none
  | .structLike h fs, parent => by
    intro v hv
    simp only [getFlatValids, List.mem_append] at hv
    rcases hv with hv | hv
    · exact getFlatValidsOf_headerOf fs parent v hv
    · cases h
      · simp at hv
      · simp only [if_true, List.mem_singleton] at hv
        subst hv
        simp [headerOf, getHeaderValidity]
  | .bits _ _, _ => by simp [getFlatValids]
  | .boolean, _ => by simp [getFlatValids]
  | .varbits _ _, _ => by simp [getFlatValids]
/-- The same for a field list. -/
theorem getFlatValidsOf_headerOf : (fs : List (String × Ty)) → (parent : StateVar) →
    ∀ v ∈ getFlatValidsOf fs parent, headerOf v = none
  | [], _ => by simp [getFlatValidsOf]
  | (n, t) :: rest, parent => by
    intro v hv
    simp only [getFlatValidsOf, List.mem_append] at hv
    rcases hv with hv | hv
    · cases hs : t.isStructLike
      · rw [hs] at hv; simp at hv
      · rw [hs] at hv
        exact getFlatValids_headerOf t _ v hv
    · exact getFlatValidsOf_headerOf rest parent v hv
end

theorem exists_false (s : ExecutionState) (g : StateVar) (he : s.exists g = false) :
    s.env.lookup g.key = none := by
  unfold «exists» at he
  cases hl : s.env.lookup g.key with
  | none => rfl
  | some a => rw [hl] at he; cases he

theorem exists_true (s : ExecutionState) (g : StateVar) (he : s.exists g = true) :
    ∃ a, s.env.lookup g.key = some a := by
  unfold «exists» at he
  cases hl : s.env.lookup g.key with
  | none => rw [hl] at he; cases he
  | some a => exact ⟨a, rfl⟩

/-- Initialising a validity bit that is not bound touches no bound key. -/
theorem frameExcept_init (s : ExecutionState) (g : StateVar)
    (hoff : s.inUndefinedState = false) :
    FrameExcept [] s (if !s.exists g then s.set g (.boolLiteral false) else s) := by
  cases he : s.exists g
  · simp only [Bool.not_false, if_true]
    refine ⟨rfl, fun k _ => ?_⟩
    by_cases hk : k = g.key
    · subst hk
      right
      exact ⟨exists_false s g he, lookup_set_same s g _ hoff⟩
    · left
      exact lookup_set_other s g _ k hk
  · simp only [Bool.not_true, Bool.false_eq_true, if_false]
    exact frameExcept_refl [] s

theorem getD_init (s : ExecutionState) (g : StateVar) (hoff : s.inUndefinedState = false) :
    (if !s.exists g then s.set g (.boolLiteral false) else s).env.lookup g.key =
      some ((s.env.lookup g.key).getD (.boolLiteral false)) := by
  cases he : s.exists g
  · simp only [Bool.not_false, if_true, lookup_set_same s g _ hoff]
    rw [exists_false s g he]; rfl
  · simp only [Bool.not_true, Bool.false_eq_true, if_false]
    obtain ⟨a, ha⟩ := exists_true s g he
    rw [ha]; rfl

end ExecutionState

namespace ExprStepper

open ExecutionState in
/-- One pass of the validity loop of `copy_in`. -/
theorem copyInValid_step (dir : String) (s : ExecutionState) (g p : StateVar)
    (hoff : s.inUndefinedState = false) (h : dir = "out" ∨ headerOf g = none) :
    ∃ s1, copyInValid dir g p s = .ok s1 ∧
      s1.env.lookup p.key =
        some (if dir = "out" then .boolLiteral false
              else (s.env.lookup g.key).getD (.boolLiteral false)) ∧
      FrameExcept [p.key] s s1 := by
  have hinit := frameExcept_init s g hoff
  have hval := getD_init s g hoff
  simp only [copyInValid]
  generalize (if (!s.exists g) = true then s.set g (.boolLiteral false) else s) = s0
    at hinit hval ⊢
  have hoff0 : s0.inUndefinedState = false :=
    (frameExcept_inUndefinedState [] s s0 hinit).trans hoff
  by_cases hd : dir = "out"
  · refine ⟨s0.set p (.boolLiteral false), ?_, ?_, ?_⟩
    · simp only [hd, beq_self_eq_true, if_true]
    · rw [lookup_set_same _ _ _ hoff0]; simp only [hd, if_true]
    · exact frameExcept_trans [] [p.key] s s0 _ hinit (frameExcept_set s0 p _)
  · have hg : headerOf g = none := h.resolve_left hd
    have hb : (dir == "out") = false := by simpa using hd
    have hget : s0.get g = .ok ((s.env.lookup g.key).getD (.boolLiteral false)) := by
      simp only [ExecutionState.get, hval, hg]
    refine ⟨s0.set p ((s.env.lookup g.key).getD (.boolLiteral false)), ?_, ?_, ?_⟩
    · simp only [hb, Bool.false_eq_true, if_false, hget]
    · rw [lookup_set_same _ _ _ hoff0]; simp only [hd, if_false]
    · exact frameExcept_trans [] [p.key] s s0 _ hinit (frameExcept_set s0 p _)

open ExecutionState in
/-- One pass of the field loop of `copy_in`. -/
theorem generateCopyIn_step (createTargetUninitialized : Ty → Bool → Expr)
    (s : ExecutionState) (p g : StateVar) (dir : String) (forceTaint : Bool) (v : Expr)
    (hoff : s.inUndefinedState = false) (h : dir = "out" ∨ s.get g = .ok v) :
    ∃ s1, generateCopyIn createTargetUninitialized s p g dir forceTaint = .ok s1 ∧
      s1.env.lookup p.key =
        some (if dir = "out" then createTargetUninitialized p.type forceTaint else v) ∧
      FrameExcept [p.key] s s1 := by
  by_cases hd : dir = "out"
  · refine ⟨s.set p (createTargetUninitialized p.type forceTaint), ?_, ?_, ?_⟩
    · simp only [generateCopyIn, hd, beq_self_eq_true, if_true]
    · rw [lookup_set_same _ _ _ hoff]; simp only [hd, if_true]
    · exact frameExcept_set s p _
  · have hget := h.resolve_left hd
    have hb : (dir == "out") = false := by simpa using hd
    refine ⟨s.set p v, ?_, ?_, ?_⟩
    · simp only [generateCopyIn, hb, Bool.false_eq_true, if_false, hget]
    · rw [lookup_set_same _ _ _ hoff]; simp only [hd, if_false]
    · exact frameExcept_set s p _

open ExecutionState in
/-- One pass of a loop of `copy_out` for the directions `inout` and `out`. -/
theorem copyOutAssign_step (dir : String) (s : ExecutionState) (g p : StateVar) (v : Expr)
    (hd : dir = "inout" ∨ dir = "out") (hoff : s.inUndefinedState = false)
    (h : s.get p = .ok v) :
    ∃ s1, copyOutAssign dir g p s = .ok s1 ∧ s1.env.lookup g.key = some v ∧
      FrameExcept [g.key] s s1 := by
  have hb : (dir == "inout" || dir == "out") = true := by
    rcases hd with hd | hd <;> simp [hd]
  refine ⟨s.set g v, ?_, lookup_set_same s g v hoff, frameExcept_set s g v⟩
  simp only [copyOutAssign, hb, if_true, h]

/-- A loop of `copy_out` for the other directions does nothing. -/
theorem copyOutAssign_skip (dir : String) (s : ExecutionState) (g p : StateVar)
    (h1 : dir ≠ "inout") (h2 : dir ≠ "out") : copyOutAssign dir g p s = .ok s := by
  have hb : (dir == "inout" || dir == "out") = false := by simp [h1, h2]
  simp only [copyOutAssign, hb, Bool.false_eq_true, if_false]

end ExprStepper
namespace ExprStepper

theorem isBase_of_not_structLike (t : Ty) (h : t.isStructLike = false) : t.isBase = true := by
  cases t <;> first | rfl | cases h

/-- The assignments of `copy_in` are the validity loop followed by the field loop, each
over its list of pairs. -/
theorem copyInAssignments_eq (createTargetUninitialized : Ty → Bool → Expr)
    (globalRef argRef : StateVar) (dir : String) (forceTaint : Bool) (s : ExecutionState) :
    copyInAssignments createTargetUninitialized globalRef argRef dir forceTaint s =
      match forEachPair (copyInValid dir) (copyValidPairs globalRef argRef) s with
      | .error e => .error e
      | .ok s1 =>
        forEachPair
          (fun g p s2 => generateCopyIn createTargetUninitialized s2 p g dir forceTaint)
          (copyFieldPairs globalRef argRef) s1 := by
  cases hs : globalRef.type.isStructLike
  · simp only [copyInAssignments, copyValidPairs, copyFieldPairs, hs, Bool.false_eq_true,
      if_false, isBase_of_not_structLike _ hs, if_true, forEachPair, forEachPair_single]
  · simp only [copyInAssignments, copyValidPairs, copyFieldPairs, hs, if_true]

/-- The assignments of `copy_out` are one loop over the validity pairs followed by the
field pairs. -/
theorem copyOutAssignments_eq (globalRef argRef : StateVar) (dir : String)
    (s : ExecutionState) :
    copyOutAssignments globalRef argRef dir s =
      match forEachPair (copyOutAssign dir) (copyValidPairs globalRef argRef) s with
      | .error e => .error e
      | .ok s1 => forEachPair (copyOutAssign dir) (copyFieldPairs globalRef argRef) s1 := by
  cases hs : globalRef.type.isStructLike
  · simp only [copyOutAssignments, copyValidPairs, copyFieldPairs, hs, Bool.false_eq_true,
      if_false, isBase_of_not_structLike _ hs, if_true, forEachPair, forEachPair_single]
  · simp only [copyOutAssignments, copyValidPairs, copyFieldPairs, hs, if_true]

theorem copyValidPairs_headerOf (globalRef argRef : StateVar) :
    ∀ pr ∈ copyValidPairs globalRef argRef, ExecutionState.headerOf pr.1 = none := by
  intro pr hpr
  unfold copyValidPairs at hpr
  cases hs : globalRef.type.isStructLike
  · rw [hs] at hpr; simp at hpr
  · rw [hs] at hpr
    obtain ⟨g, p⟩ := pr
    exact ExecutionState.getFlatValids_headerOf _ _ g (List.of_mem_zip hpr).1

open ExecutionState in
/-- The two loops of `copy_in`, over validity pairs read without another validity bit. -/
theorem copyIn_loops (createTargetUninitialized : Ty → Bool → Expr) (dir : String)
    (forceTaint : Bool) (VP FP : List (StateVar × StateVar)) (s0 : ExecutionState)
    (hoff : s0.inUndefinedState = false)
    (hvalid : ∀ pr ∈ VP, headerOf pr.1 = none)
    (hnodup : ((VP ++ FP).map fun pr => pr.2.key).Nodup)
    (hdisj : dir ≠ "out" → ∀ pr ∈ VP ++ FP, ∀ pr2 ∈ VP ++ FP, pr.2.key ∉ readKeys pr2.1)
    (hread : dir ≠ "out" → ∀ pr ∈ FP, ∃ v, s0.get pr.1 = .ok v) :
    ∃ sV sF, forEachPair (copyInValid dir) VP s0 = .ok sV ∧
      forEachPair (fun g p s2 => generateCopyIn createTargetUninitialized s2 p g dir forceTaint)
        FP sV = .ok sF ∧
      FrameExcept ((VP ++ FP).map fun pr => pr.2.key) s0 sF ∧
      (∀ pr ∈ FP, sF.env.lookup pr.2.key =
        some (if dir = "out" then createTargetUninitialized pr.2.type forceTaint
              else (s0.get pr.1).toOption.getD (.boolLiteral false))) ∧
      (∀ pr ∈ VP, sF.env.lookup pr.2.key =
        some (if dir = "out" then .boolLiteral false
              else (s0.env.lookup pr.1.key).getD (.boolLiteral false))) := by
  rw [List.map_append, List.nodup_append] at hnodup
  obtain ⟨hndV, hndF, hVF⟩ := hnodup
  -- the validity loop
  obtain ⟨sV, hV, hlV, hfV⟩ := forEachPair_assigns (copyInValid dir) Prod.snd
    (fun s pr => s.inUndefinedState = false ∧ (dir = "out" ∨ (headerOf pr.1 = none ∧
      (s.env.lookup pr.1.key).getD (.boolLiteral false) =
        (s0.env.lookup pr.1.key).getD (.boolLiteral false))))
    (fun pr => if dir = "out" then .boolLiteral false
      else (s0.env.lookup pr.1.key).getD (.boolLiteral false))
    (by
      intro s pr hC
      obtain ⟨s1, h1, h2, h3⟩ := copyInValid_step dir s pr.1 pr.2 hC.1 (hC.2.imp id And.left)
      refine ⟨s1, h1, ?_, h3⟩
      rw [h2]
      by_cases hd : dir = "out"
      · simp only [hd, if_true]
      · simp only [hd, if_false, (hC.2.resolve_left hd).2])
    VP s0
    (by
      intro pr hpr
      exact ⟨hoff, Or.inr ⟨hvalid pr hpr, rfl⟩⟩)
    hndV
    (by
      intro pr hpr pr2 hpr2 s s1 hfr hC
      refine ⟨(frameExcept_inUndefinedState _ s s1 hfr).trans hC.1, ?_⟩
      by_cases hd : dir = "out"
      · exact Or.inl hd
      · have hC2 := hC.2.resolve_left hd
        refine Or.inr ⟨hC2.1, ?_⟩
        rw [← hC2.2]
        apply frameExcept_getD [pr.2.key] s s1 hfr
        intro hin
        rw [List.mem_singleton] at hin
        apply hdisj hd pr (List.mem_append_left _ hpr) pr2 (List.mem_append_left _ hpr2)
        rw [← hin]
        simp [readKeys])
  -- the field loop
  obtain ⟨sF, hF, hlF, hfF⟩ := forEachPair_assigns
    (fun g p s2 => generateCopyIn createTargetUninitialized s2 p g dir forceTaint) Prod.snd
    (fun s pr => s.inUndefinedState = false ∧
      (dir = "out" ∨ s.get pr.1 = .ok ((s0.get pr.1).toOption.getD (.boolLiteral false))))
    (fun pr => if dir = "out" then createTargetUninitialized pr.2.type forceTaint
      else (s0.get pr.1).toOption.getD (.boolLiteral false))
    (by
      intro s pr hC
      exact generateCopyIn_step createTargetUninitialized s pr.2 pr.1 dir forceTaint _
        hC.1 hC.2)
    FP sV
    (by
      intro pr hpr
      refine ⟨(frameExcept_inUndefinedState _ s0 sV hfV).trans hoff, ?_⟩
      by_cases hd : dir = "out"
      · exact Or.inl hd
      · right
        obtain ⟨v, hv⟩ := hread hd pr hpr
        rw [hv]
        refine frameExcept_get _ s0 sV hfV pr.1 ?_ v hv
        intro k hk hin
        obtain ⟨pr1, hpr1, rfl⟩ := List.mem_map.mp hin
        exact hdisj hd pr1 (List.mem_append_left _ hpr1) pr (List.mem_append_right _ hpr) hk)
    hndF
    (by
      intro pr hpr pr2 hpr2 s s1 hfr hC
      refine ⟨(frameExcept_inUndefinedState _ s s1 hfr).trans hC.1, ?_⟩
      by_cases hd : dir = "out"
      · exact Or.inl hd
      · right
        refine frameExcept_get _ s s1 hfr pr2.1 ?_ _ (hC.2.resolve_left hd)
        intro k hk hin
        rw [List.mem_singleton] at hin
        subst hin
        exact hdisj hd pr (List.mem_append_right _ hpr) pr2 (List.mem_append_right _ hpr2) hk)
  refine ⟨sV, sF, hV, hF, ?_, hlF, ?_⟩
  · rw [List.map_append]
    exact frameExcept_trans _ _ s0 sV sF hfV hfF
  · intro pr hpr
    refine frameExcept_bound _ sV sF hfF _ ?_ _ (hlV pr hpr)
    intro hin
    exact hVF (List.mem_map.mpr ⟨pr, hpr, rfl⟩) hin

end ExprStepper

namespace ExprStepper

/-- A loop over an appended list is the loop over the first part followed by the loop
over the second. -/
theorem forEachPair_append_eq
    (f : StateVar → StateVar → ExecutionState → Except StepError ExecutionState)
    (l1 l2 : List (StateVar × StateVar)) (s : ExecutionState) :
    forEachPair f (l1 ++ l2) s =
      match forEachPair f l1 s with
      | .error e => .error e
      | .ok s1 => forEachPair f l2 s1 := by
  induction l1 generalizing s with
  | nil => rfl
  | cons pr rest ih =>
    obtain ⟨g, p⟩ := pr
    simp only [forEachPair, List.cons_append]
    cases hb : f g p s with
    | error e => rfl
    | ok s2 => exact ih s2

/-- A loop whose body keeps the property map keeps it. -/
theorem forEachPair_properties
    (f : StateVar → StateVar → ExecutionState → Except StepError ExecutionState)
    (hf : ∀ g p s s1, f g p s = .ok s1 → s1.properties = s.properties)
    (l : List (StateVar × StateVar)) (s s2 : ExecutionState)
    (h : forEachPair f l s = .ok s2) : s2.properties = s.properties := by
  induction l generalizing s with
  | nil => simp only [forEachPair] at h; cases h; rfl
  | cons pr rest ih =>
    obtain ⟨g, p⟩ := pr
    simp only [forEachPair] at h
    cases hb : f g p s with
    | error e => rw [hb] at h; cases h
    | ok s1 =>
      rw [hb] at h
      rw [ih s1 h, hf g p s s1 hb]

theorem copyInValid_properties (dir : String) (g p : StateVar) (s s1 : ExecutionState)
    (h : copyInValid dir g p s = .ok s1) : s1.properties = s.properties := by
  simp only [copyInValid] at h
  have h0 : (if (!s.exists g) = true then s.set g (.boolLiteral false) else s).properties =
      s.properties := by
    cases (!s.exists g) <;> rfl
  generalize (if (!s.exists g) = true then s.set g (.boolLiteral false) else s) = s0 at h h0
  cases hd : (dir == "out")
  · rw [hd] at h
    simp only [Bool.false_eq_true, if_false] at h
    cases hg : s0.get g with
    | error e => rw [hg] at h; cases h
    | ok v => rw [hg] at h; cases h; exact h0
  · rw [hd] at h
    simp only [if_true] at h
    cases h; exact h0

theorem generateCopyIn_properties (createTargetUninitialized : Ty → Bool → Expr)
    (dir : String) (forceTaint : Bool) (g p : StateVar) (s s1 : ExecutionState)
    (h : generateCopyIn createTargetUninitialized s p g dir forceTaint = .ok s1) :
    s1.properties = s.properties := by
  simp only [generateCopyIn] at h
  cases hd : (dir == "out")
  · rw [hd] at h
    simp only [Bool.false_eq_true, if_false] at h
    cases hg : s.get g with
    | error e => rw [hg] at h; cases h
    | ok v => rw [hg] at h; cases h; rfl
  · rw [hd] at h
    simp only [if_true] at h
    cases h; rfl

theorem copyOutAssign_properties (dir : String) (g p : StateVar) (s s1 : ExecutionState)
    (h : copyOutAssign dir g p s = .ok s1) : s1.properties = s.properties := by
  simp only [copyOutAssign] at h
  cases hd : (dir == "inout" || dir == "out")
  · rw [hd] at h
    simp only [Bool.false_eq_true, if_false] at h
    cases h; rfl
  · rw [hd] at h
    simp only [if_true] at h
    cases hg : s.get p with
    | error e => rw [hg] at h; cases h
    | ok v => rw [hg] at h; cases h; rfl

/-- The assignments of `copy_in` leave the property map as it is. -/
theorem copyInAssignments_properties (createTargetUninitialized : Ty → Bool → Expr)
    (globalRef argRef : StateVar) (dir : String) (forceTaint : Bool) (s n : ExecutionState)
    (h : copyInAssignments createTargetUninitialized globalRef argRef dir forceTaint s = .ok n) :
    n.properties = s.properties := by
  rw [copyInAssignments_eq] at h
  cases hv : forEachPair (copyInValid dir) (copyValidPairs globalRef argRef) s with
  | error e => rw [hv] at h; cases h
  | ok s1 =>
    rw [hv] at h
    simp only at h
    rw [forEachPair_properties _
        (fun g p a b hab =>
          generateCopyIn_properties createTargetUninitialized dir forceTaint g p a b hab)
        _ s1 n h,
      forEachPair_properties _ (copyInValid_properties dir) _ s s1 hv]

/-- The assignments of `copy_out` leave the property map as it is. -/
theorem copyOutAssignments_properties (globalRef argRef : StateVar) (dir : String)
    (s n : ExecutionState) (h : copyOutAssignments globalRef argRef dir s = .ok n) :
    n.properties = s.properties := by
  rw [copyOutAssignments_eq, ← forEachPair_append_eq] at h
  exact forEachPair_properties _ (copyOutAssign_properties dir) _ s n h

end ExprStepper

/-! ## C23: copy-in -/

open ExecutionState in
/-- C23: `copy_in(srcRef, targetParam, direction, forceUninitialized)` on a state that
holds the property `inUndefinedState`, for a global reference and a parameter whose
(flattened) parameter fields and validity bits are pairwise distinct state variables and,
for a direction other than `out`, none of them is read by the copy and every field of
the global reference can be read. The step yields one unguarded successor. With
direction `out` it binds every parameter field to the target-uninitialized value of its
type and every validity bit of the parameter to `false`. With any other direction it
binds every parameter field to the value of the field of the global reference paired
with it (flattened fields are paired by index, in declaration order) and every validity
bit of the parameter to that of the global reference, `false` when that one had no
value. -/
theorem copy_in_assigns (createTargetUninitialized : Ty → Bool → Expr)
    (state : ExecutionState) (globalRef argRef : StateVar) (direction : String)
    (forceUninitialized : Bool)
    (hflag : (state.getProperty_bool "inUndefinedState").isOk = true)
    (hnodup : ((ExprStepper.copyValidPairs globalRef argRef ++
      ExprStepper.copyFieldPairs globalRef argRef).map fun pr => pr.2.key).Nodup)
    (hdisj : direction ≠ "out" →
      ∀ pr ∈ ExprStepper.copyValidPairs globalRef argRef ++
          ExprStepper.copyFieldPairs globalRef argRef,
        ∀ pr2 ∈ ExprStepper.copyValidPairs globalRef argRef ++
            ExprStepper.copyFieldPairs globalRef argRef,
          pr.2.key ∉ readKeys pr2.1)
    (hread : direction ≠ "out" →
      ∀ pr ∈ ExprStepper.copyFieldPairs globalRef argRef, (state.get pr.1).isOk = true) :
    ∃ s2, ExprStepper.copy_in createTargetUninitialized (.ref globalRef) (.ref argRef)
        direction forceUninitialized state = .ok [⟨none, s2⟩] ∧
      (direction = "out" →
        (∀ pr ∈ ExprStepper.copyFieldPairs globalRef argRef,
          s2.env.lookup pr.2.key =
            some (createTargetUninitialized pr.2.type forceUninitialized)) ∧
        (∀ pr ∈ ExprStepper.copyValidPairs globalRef argRef,
          s2.env.lookup pr.2.key = some (.boolLiteral false))) ∧
      (direction ≠ "out" →
        (∀ pr ∈ ExprStepper.copyFieldPairs globalRef argRef,
          ∃ v, state.get pr.1 = .ok v ∧ s2.env.lookup pr.2.key = some v) ∧
        (∀ pr ∈ ExprStepper.copyValidPairs globalRef argRef,
          s2.env.lookup pr.2.key =
            some ((state.env.lookup pr.1.key).getD (.boolLiteral false)))) := by
  cases hp : state.getProperty_bool "inUndefinedState" with
  | error e => rw [hp] at hflag; cases hflag
  | ok currentTaint =>
    have hget : ∀ g, (state.setProperty "inUndefinedState" (.bool false)).get g = state.get g :=
      fun g => get_congr _ _ g (fun _ _ => rfl)
    obtain ⟨sV, sF, hV, hF, _, hlF, hlV⟩ := ExprStepper.copyIn_loops createTargetUninitialized
      direction forceUninitialized (ExprStepper.copyValidPairs globalRef argRef)
      (ExprStepper.copyFieldPairs globalRef argRef)
      (state.setProperty "inUndefinedState" (.bool false)) rfl
      (ExprStepper.copyValidPairs_headerOf globalRef argRef) hnodup hdisj
      (by
        intro hd pr hpr
        have h := hread hd pr hpr
        rw [hget]
        cases hg : state.get pr.1 with
        | error e => rw [hg] at h; cases h
        | ok v => exact ⟨v, rfl⟩)
    refine ⟨(sF.setProperty "inUndefinedState" (.bool currentTaint)).popBody, ?_, ?_, ?_⟩
    · simp only [ExprStepper.copy_in, hp, ExprStepper.copyInAssignments_eq, hV, hF]
    · intro hd
      refine ⟨fun pr hpr => ?_, fun pr hpr => ?_⟩
      · have h := hlF pr hpr
        simp only [hd, if_true] at h
        exact h
      · have h := hlV pr hpr
        simp only [hd, if_true] at h
        exact h
    · intro hd
      refine ⟨fun pr hpr => ?_, fun pr hpr => ?_⟩
      · have h := hlF pr hpr
        simp only [hd, if_false, hget] at h
        have h2 := hread hd pr hpr
        cases hg : state.get pr.1 with
        | error e => rw [hg] at h2; cases h2
        | ok v =>
          rw [hg] at h
          exact ⟨v, rfl, h⟩
      · have h := hlV pr hpr
        simp only [hd, if_false] at h
        exact h

/-- C23, witness: the example struct, a header of two fields and a field of base type,
copied in with direction `in`; the successor it yields is the evaluated one. -/
theorem copy_in_assigns_witness :
    (∃ s2, ExprStepper.copy_in Example.copyUninitialized (.ref Example.copyGlobal)
        (.ref Example.copyParam) "in" false Example.copyState = .ok [⟨none, s2⟩] ∧
      ("in" = "out" →
        (∀ pr ∈ ExprStepper.copyFieldPairs Example.copyGlobal Example.copyParam,
          s2.env.lookup pr.2.key = some (Example.copyUninitialized pr.2.type false)) ∧
        (∀ pr ∈ ExprStepper.copyValidPairs Example.copyGlobal Example.copyParam,
          s2.env.lookup pr.2.key = some (.boolLiteral false))) ∧
      ("in" ≠ "out" →
        (∀ pr ∈ ExprStepper.copyFieldPairs Example.copyGlobal Example.copyParam,
          ∃ v, Example.copyState.get pr.1 = .ok v ∧ s2.env.lookup pr.2.key = some v) ∧
        (∀ pr ∈ ExprStepper.copyValidPairs Example.copyGlobal Example.copyParam,
          s2.env.lookup pr.2.key =
            some ((Example.copyState.env.lookup pr.1.key).getD (.boolLiteral false))))) ∧
    ExprStepper.copy_in Example.copyUninitialized (.ref Example.copyGlobal)
        (.ref Example.copyParam) "in" false Example.copyState =
      .ok [⟨none, { Example.copyState with
        env := (["hdr", "m"], .constant (.bits 8 false) 3) ::
          (["hdr", "h", "b"], .constant (.bits 16 false) 2) ::
          (["hdr", "h", "a"], .constant (.bits 8 false) 1) ::
          (["hdr", "h", "*valid"], .boolLiteral true) :: Example.copyState.env,
        properties := [("inUndefinedState", .bool true), ("inUndefinedState", .bool false),
          ("inUndefinedState", .bool true)],
        body := [.node "next"] }⟩] :=
  ⟨copy_in_assigns Example.copyUninitialized Example.copyState Example.copyGlobal
    Example.copyParam "in" false rfl (by decide) (by decide) (by decide), rfl⟩

/-! ## C24: copy-out -/

open ExecutionState in
/-- C24: `copy_out(targetParam, srcRef, direction)` on a state that holds the property
`inUndefinedState` yields one unguarded successor. With direction `inout` or `out`, for a
global reference whose (flattened) fields and validity bits are pairwise distinct state
variables none of which is read by the copy, and a parameter whose fields and validity
bits can all be read, every field and every validity bit of the global reference is bound
to the value of the parameter field paired with it. With any other direction the
environment of the successor is that of the input state. -/
theorem copy_out_assigns (state : ExecutionState) (globalRef argRef : StateVar)
    (direction : String)
    (hflag : (state.getProperty_bool "inUndefinedState").isOk = true)
    (hnodup : direction = "inout" ∨ direction = "out" →
      ((ExprStepper.copyValidPairs globalRef argRef ++
        ExprStepper.copyFieldPairs globalRef argRef).map fun pr => pr.1.key).Nodup)
    (hdisj : direction = "inout" ∨ direction = "out" →
      ∀ pr ∈ ExprStepper.copyValidPairs globalRef argRef ++
          ExprStepper.copyFieldPairs globalRef argRef,
        ∀ pr2 ∈ ExprStepper.copyValidPairs globalRef argRef ++
            ExprStepper.copyFieldPairs globalRef argRef,
          pr.1.key ∉ readKeys pr2.2)
    (hread : direction = "inout" ∨ direction = "out" →
      ∀ pr ∈ ExprStepper.copyValidPairs globalRef argRef ++
          ExprStepper.copyFieldPairs globalRef argRef, (state.get pr.2).isOk = true) :
    ∃ s2, ExprStepper.copy_out (.ref globalRef) (.ref argRef) direction state =
        .ok [⟨none, s2⟩] ∧
      (direction = "inout" ∨ direction = "out" →
        ∀ pr ∈ ExprStepper.copyValidPairs globalRef argRef ++
            ExprStepper.copyFieldPairs globalRef argRef,
          ∃ v, state.get pr.2 = .ok v ∧ s2.env.lookup pr.1.key = some v) ∧
      (¬ (direction = "inout" ∨ direction = "out") → s2.env = state.env) := by
  cases hp : state.getProperty_bool "inUndefinedState" with
  | error e => rw [hp] at hflag; cases hflag
  | ok currentTaint =>
    have hget : ∀ g, (state.setProperty "inUndefinedState" (.bool false)).get g = state.get g :=
      fun g => get_congr _ _ g (fun _ _ => rfl)
    by_cases hd : direction = "inout" ∨ direction = "out"
    · obtain ⟨n, hn, hl, _⟩ := ExprStepper.forEachPair_assigns
        (ExprStepper.copyOutAssign direction) Prod.fst
        (fun s pr => s.inUndefinedState = false ∧
          s.get pr.2 = .ok ((state.get pr.2).toOption.getD (.boolLiteral false)))
        (fun pr => (state.get pr.2).toOption.getD (.boolLiteral false))
        (fun s pr hC => ExprStepper.copyOutAssign_step direction s pr.1 pr.2 _ hd hC.1 hC.2)
        (ExprStepper.copyValidPairs globalRef argRef ++
          ExprStepper.copyFieldPairs globalRef argRef)
        (state.setProperty "inUndefinedState" (.bool false))
        (by
          intro pr hpr
          refine ⟨rfl, ?_⟩
          have h := hread hd pr hpr
          rw [hget]
          cases hg : state.get pr.2 with
          | error e => rw [hg] at h; cases h
          | ok v => rfl)
        (hnodup hd)
        (by
          intro pr hpr pr2 hpr2 s s1 hfr hC
          refine ⟨(frameExcept_inUndefinedState _ s s1 hfr).trans hC.1, ?_⟩
          refine frameExcept_get _ s s1 hfr pr2.2 ?_ _ hC.2
          intro k hk hin
          rw [List.mem_singleton] at hin
          subst hin
          exact hdisj hd pr hpr pr2 hpr2 hk)
      refine ⟨(n.setProperty "inUndefinedState" (.bool currentTaint)).popBody, ?_, ?_, ?_⟩
      · rw [ExprStepper.forEachPair_append_eq] at hn
        simp only [ExprStepper.copy_out, hp, ExprStepper.copyOutAssignments_eq, hn]
      · intro _ pr hpr
        have h := hl pr hpr
        have h2 := hread hd pr hpr
        cases hg : state.get pr.2 with
        | error e => rw [hg] at h2; cases h2
        | ok v =>
          rw [hg] at h
          exact ⟨v, rfl, h⟩
      · intro hnot
        exact absurd hd hnot
    · have h1 : direction ≠ "inout" := fun h => hd (Or.inl h)
      have h2 : direction ≠ "out" := fun h => hd (Or.inr h)
      have hskip := fun l s => ExprStepper.forEachPair_skip (ExprStepper.copyOutAssign direction)
        (fun g p s => ExprStepper.copyOutAssign_skip direction s g p h1 h2) l s
      refine ⟨((state.setProperty "inUndefinedState" (.bool false)).setProperty
        "inUndefinedState" (.bool currentTaint)).popBody, ?_, ?_, ?_⟩
      · simp only [ExprStepper.copy_out, hp, ExprStepper.copyOutAssignments_eq, hskip]
      · intro h
        exact absurd h hd
      · intro _
        rfl

/-- C24, witness: the example struct copied out with direction `inout`; the successor it
yields is the evaluated one. -/
theorem copy_out_assigns_witness :
    (∃ s2, ExprStepper.copy_out (.ref Example.copyGlobal) (.ref Example.copyParam) "inout"
        Example.copyState = .ok [⟨none, s2⟩] ∧
      ("inout" = "inout" ∨ "inout" = "out" →
        ∀ pr ∈ ExprStepper.copyValidPairs Example.copyGlobal Example.copyParam ++
            ExprStepper.copyFieldPairs Example.copyGlobal Example.copyParam,
          ∃ v, Example.copyState.get pr.2 = .ok v ∧ s2.env.lookup pr.1.key = some v) ∧
      (¬ ("inout" = "inout" ∨ "inout" = "out") → s2.env = Example.copyState.env)) ∧
    ExprStepper.copy_out (.ref Example.copyGlobal) (.ref Example.copyParam) "inout"
        Example.copyState =
      .ok [⟨none, { Example.copyState with
        env := (["*hdr", "m"], .constant (.bits 8 false) 6) ::
          (["*hdr", "h", "b"], .constant (.bits 16 false) 5) ::
          (["*hdr", "h", "a"], .constant (.bits 8 false) 4) ::
          (["*hdr", "h", "*valid"], .boolLiteral true) :: Example.copyState.env,
        properties := [("inUndefinedState", .bool true), ("inUndefinedState", .bool false),
          ("inUndefinedState", .bool true)],
        body := [.node "next"] }⟩] :=
  ⟨copy_out_assigns Example.copyState Example.copyGlobal Example.copyParam "inout" rfl
    (by decide) (by decide) (by decide), rfl⟩

/-! ## C25: the property `inUndefinedState` around a copy -/

namespace ExecutionState

theorem getProperty_bool_setProperty (s : ExecutionState) (name : String) (b : Bool) :
    (s.setProperty name (.bool b)).getProperty_bool name = .ok b := by
  simp [setProperty, getProperty_bool, List.lookup_cons]

theorem getProperty_bool_congr (s s1 : ExecutionState) (name : String)
    (h : s1.properties = s.properties) : s1.getProperty_bool name = s.getProperty_bool name := by
  simp only [getProperty_bool, h]

end ExecutionState

/-- C25: whenever a `copy_in` or `copy_out` step yields successors, both arguments are
references, the input state holds the property `inUndefinedState`, the assignments of the
copy run on the copy of the input state in which the property is `false` and leave it
`false` (an assignment `set` never changes a property), and the one successor is the
result of the assignments with the property put back to the value of the input state and
the call popped. When an argument is not a reference, the step raises
`TestgenUnimplemented` and yields no successor. -/
theorem copy_keeps_inUndefinedState (createTargetUninitialized : Ty → Bool → Expr)
    (state : ExecutionState) (a b : Expr) (direction : String) (forceUninitialized : Bool) :
    (∀ bs, ExprStepper.copy_in createTargetUninitialized a b direction forceUninitialized
        state = .ok bs →
      ∃ globalRef argRef currentTaint n, a = .ref globalRef ∧ b = .ref argRef ∧
        state.getProperty_bool "inUndefinedState" = .ok currentTaint ∧
        (state.setProperty "inUndefinedState" (.bool false)).getProperty_bool
          "inUndefinedState" = .ok false ∧
        ExprStepper.copyInAssignments createTargetUninitialized globalRef argRef direction
          forceUninitialized (state.setProperty "inUndefinedState" (.bool false)) = .ok n ∧
        n.getProperty_bool "inUndefinedState" = .ok false ∧
        bs = [⟨none, (n.setProperty "inUndefinedState" (.bool currentTaint)).popBody⟩] ∧
        ((n.setProperty "inUndefinedState" (.bool currentTaint)).popBody).getProperty_bool
          "inUndefinedState" = state.getProperty_bool "inUndefinedState") ∧
    (∀ bs, ExprStepper.copy_out a b direction state = .ok bs →
      ∃ globalRef argRef currentTaint n, a = .ref globalRef ∧ b = .ref argRef ∧
        state.getProperty_bool "inUndefinedState" = .ok currentTaint ∧
        (state.setProperty "inUndefinedState" (.bool false)).getProperty_bool
          "inUndefinedState" = .ok false ∧
        ExprStepper.copyOutAssignments globalRef argRef direction
          (state.setProperty "inUndefinedState" (.bool false)) = .ok n ∧
        n.getProperty_bool "inUndefinedState" = .ok false ∧
        bs = [⟨none, (n.setProperty "inUndefinedState" (.bool currentTaint)).popBody⟩] ∧
        ((n.setProperty "inUndefinedState" (.bool currentTaint)).popBody).getProperty_bool
          "inUndefinedState" = state.getProperty_bool "inUndefinedState") ∧
    ((∀ globalRef, a ≠ .ref globalRef) ∨ (∀ argRef, b ≠ .ref argRef) →
      ExprStepper.copy_in createTargetUninitialized a b direction forceUninitialized state =
        .error .testgenUnimplemented ∧
      ExprStepper.copy_out a b direction state = .error .testgenUnimplemented) ∧
    (∀ (s : ExecutionState) (ref : StateVar) (value : Expr),
      (s.set ref value).getProperty_bool "inUndefinedState" =
        s.getProperty_bool "inUndefinedState") := by
  refine ⟨?_, ?_, ?_, fun _ _ _ => rfl⟩
  · intro bs h
    cases a <;> try (simp only [ExprStepper.copy_in] at h; cases h)
    rename_i globalRef
    cases b <;> try (simp only [ExprStepper.copy_in] at h; cases h)
    rename_i argRef
    simp only [ExprStepper.copy_in] at h
    cases hp : state.getProperty_bool "inUndefinedState" with
    | error e => rw [hp] at h; cases h
    | ok currentTaint =>
      rw [hp] at h
      simp only at h
      cases hn : ExprStepper.copyInAssignments createTargetUninitialized globalRef argRef
          direction forceUninitialized (state.setProperty "inUndefinedState" (.bool false)) with
      | error e => rw [hn] at h; cases h
      | ok n =>
        rw [hn] at h
        cases h
        refine ⟨globalRef, argRef, currentTaint, n, rfl, rfl, rfl,
          ExecutionState.getProperty_bool_setProperty state _ false, hn, ?_, rfl,
          ExecutionState.getProperty_bool_congr _ _ _ rfl ▸
            ExecutionState.getProperty_bool_setProperty n "inUndefinedState" currentTaint⟩
        rw [ExecutionState.getProperty_bool_congr _ _ _
          (ExprStepper.copyInAssignments_properties _ _ _ _ _ _ n hn)]
        exact ExecutionState.getProperty_bool_setProperty state _ false
  · intro bs h
    cases a <;> try (simp only [ExprStepper.copy_out] at h; cases h)
    rename_i globalRef
    cases b <;> try (simp only [ExprStepper.copy_out] at h; cases h)
    rename_i argRef
    simp only [ExprStepper.copy_out] at h
    cases hp : state.getProperty_bool "inUndefinedState" with
    | error e => rw [hp] at h; cases h
    | ok currentTaint =>
      rw [hp] at h
      simp only at h
      cases hn : ExprStepper.copyOutAssignments globalRef argRef direction
          (state.setProperty "inUndefinedState" (.bool false)) with
      | error e => rw [hn] at h; cases h
      | ok n =>
        rw [hn] at h
        cases h
        refine ⟨globalRef, argRef, currentTaint, n, rfl, rfl, rfl,
          ExecutionState.getProperty_bool_setProperty state _ false, hn, ?_, rfl,
          ExecutionState.getProperty_bool_congr _ _ _ rfl ▸
            ExecutionState.getProperty_bool_setProperty n "inUndefinedState" currentTaint⟩
        rw [ExecutionState.getProperty_bool_congr _ _ _
          (ExprStepper.copyOutAssignments_properties _ _ _ _ n hn)]
        exact ExecutionState.getProperty_bool_setProperty state _ false
  · intro h
    rcases h with h | h
    · cases a <;> first | exact ⟨rfl, rfl⟩ | exact absurd rfl (h _)
    · cases a <;> cases b <;> first | exact ⟨rfl, rfl⟩ | exact absurd rfl (h _)

/-- C25, witness: in the example state the property is `true`; a `copy_in` with direction
`out` and a `copy_out` with direction `in` yield a successor, and a `copy_in` whose first
argument is a literal raises. -/
theorem copy_keeps_inUndefinedState_witness :
    (∃ bs, ExprStepper.copy_in Example.copyUninitialized (.ref Example.copyGlobal)
        (.ref Example.copyParam) "out" true Example.copyState = .ok bs ∧
      ∃ globalRef argRef currentTaint n, Expr.ref Example.copyGlobal = .ref globalRef ∧
        Expr.ref Example.copyParam = .ref argRef ∧
        Example.copyState.getProperty_bool "inUndefinedState" = .ok currentTaint ∧
        (Example.copyState.setProperty "inUndefinedState" (.bool false)).getProperty_bool
          "inUndefinedState" = .ok false ∧
        ExprStepper.copyInAssignments Example.copyUninitialized globalRef argRef "out" true
          (Example.copyState.setProperty "inUndefinedState" (.bool false)) = .ok n ∧
        n.getProperty_bool "inUndefinedState" = .ok false ∧
        bs = [⟨none, (n.setProperty "inUndefinedState" (.bool currentTaint)).popBody⟩] ∧
        ((n.setProperty "inUndefinedState" (.bool currentTaint)).popBody).getProperty_bool
          "inUndefinedState" = Example.copyState.getProperty_bool "inUndefinedState") ∧
    (∃ bs, ExprStepper.copy_out (.ref Example.copyGlobal) (.ref Example.copyParam) "in"
        Example.copyState = .ok bs ∧
      ∃ globalRef argRef currentTaint n, Expr.ref Example.copyGlobal = .ref globalRef ∧
        Expr.ref Example.copyParam = .ref argRef ∧
        Example.copyState.getProperty_bool "inUndefinedState" = .ok currentTaint ∧
        (Example.copyState.setProperty "inUndefinedState" (.bool false)).getProperty_bool
          "inUndefinedState" = .ok false ∧
        ExprStepper.copyOutAssignments globalRef argRef "in"
          (Example.copyState.setProperty "inUndefinedState" (.bool false)) = .ok n ∧
        n.getProperty_bool "inUndefinedState" = .ok false ∧
        bs = [⟨none, (n.setProperty "inUndefinedState" (.bool currentTaint)).popBody⟩] ∧
        ((n.setProperty "inUndefinedState" (.bool currentTaint)).popBody).getProperty_bool
          "inUndefinedState" = Example.copyState.getProperty_bool "inUndefinedState") ∧
    (ExprStepper.copy_in Example.copyUninitialized (.boolLiteral true)
        (.ref Example.copyParam) "in" false Example.copyState = .error .testgenUnimplemented ∧
      ExprStepper.copy_out (.boolLiteral true) (.ref Example.copyParam) "in"
        Example.copyState = .error .testgenUnimplemented) ∧
    (ExprStepper.copy_in Example.copyUninitialized (.ref Example.copyGlobal)
        (.ref Example.copyParam) "out" true Example.copyState).map
      (fun bs => bs.map fun br =>
        (br.nextState.getProperty_bool "inUndefinedState",
          br.nextState.env.lookup ["hdr", "m"])) =
      .ok [(.ok true, some (.taint (.bits 8 false)))] :=
  ⟨⟨_, rfl, (copy_keeps_inUndefinedState Example.copyUninitialized Example.copyState
      (.ref Example.copyGlobal) (.ref Example.copyParam) "out" true).1 _ rfl⟩,
   ⟨_, rfl, (copy_keeps_inUndefinedState Example.copyUninitialized Example.copyState
      (.ref Example.copyGlobal) (.ref Example.copyParam) "in" true).2.1 _ rfl⟩,
   (copy_keeps_inUndefinedState Example.copyUninitialized Example.copyState
      (.boolLiteral true) (.ref Example.copyParam) "in" false).2.2.1
      (Or.inl (fun _ h => by cases h)),
   rfl⟩

/-! ## C39: a tainted key of match kind `range` -/

namespace ExprStepper

theorem prependFields_append (l1 l2 : List StateVar) (s s1 : ExecutionState)
    (h : prependFields l1 s = .ok s1) : prependFields (l1 ++ l2) s = prependFields l2 s1 := by
  induction l1 generalizing s with
  | nil => simp only [prependFields] at h; cases h; rfl
  | cons f rest ih =>
    simp only [prependFields, List.cons_append] at h ⊢
    cases hg : s.get f with
    | error e => rw [hg] at h; cases h
    | ok v =>
      rw [hg] at h
      exact ih _ h

/-- Prepending the fields in reverse puts their values in front of the buffer in the order
of the fields. -/
theorem prependFields_reverse (s0 : ExecutionState) :
    ∀ (fields : List StateVar) (values : List Expr) (s : ExecutionState),
      readFields s0 fields = .ok values → s.env = s0.env →
      prependFields fields.reverse s = .ok { s with packetBuffer := values ++ s.packetBuffer } := by
  intro fields
  induction fields with
  | nil =>
    intro values s h _
    simp only [readFields] at h
    cases h
    rfl
  | cons f rest ih =>
    intro values s h henv
    simp only [readFields] at h
    cases hg : s0.get f with
    | error e => rw [hg] at h; cases h
    | ok v =>
      rw [hg] at h
      cases hr : readFields s0 rest with
      | error e => rw [hr] at h; cases h
      | ok vs =>
        rw [hr] at h
        cases h
        rw [List.reverse_cons, prependFields_append _ _ _ _ (ih vs s hr henv)]
        have hget : ExecutionState.get { s with packetBuffer := vs ++ s.packetBuffer } f =
            .ok v := by
          rw [← hg]
          exact ExecutionState.get_congr _ _ f (fun k _ => by rw [← henv])
        simp only [prependFields, hget, ExecutionState.prependToPacketBuffer,
          List.cons_append]

/-- Appending the fields puts their values behind the buffer in the order of the
fields. -/
theorem appendFields_values (s0 : ExecutionState) :
    ∀ (fields : List StateVar) (values : List Expr) (s : ExecutionState),
      readFields s0 fields = .ok values → s.env = s0.env →
      appendFields fields s = .ok { s with packetBuffer := s.packetBuffer ++ values } := by
  intro fields
  induction fields with
  | nil =>
    intro values s h _
    simp only [readFields] at h
    cases h
    simp only [appendFields, List.append_nil]
  | cons f rest ih =>
    intro values s h henv
    simp only [readFields] at h
    cases hg : s0.get f with
    | error e => rw [hg] at h; cases h
    | ok v =>
      rw [hg] at h
      cases hr : readFields s0 rest with
      | error e => rw [hr] at h; cases h
      | ok vs =>
        rw [hr] at h
        cases h
        have hget : s.get f = .ok v := by
          rw [← hg]
          exact ExecutionState.get_congr _ _ f (fun k _ => by rw [henv])
        simp only [appendFields, hget]
        rw [ih vs (s.appendToPacketBuffer [v]) hr henv]
        simp only [ExecutionState.appendToPacketBuffer, List.append_assoc, List.singleton_append]

end ExprStepper

/-- C37: for a reference `hdr` of struct-like type whose flattened fields `f1, ..., fn` can
all be read in the state, with values `v1, ..., vn`, the step of
`prepend_to_prog_header(hdr)` yields one unguarded successor, which is the input state
with the packet buffer `v1 ++ ... ++ vn ++ old buffer` and the call popped, and the step
of `append_to_prog_header(hdr)` yields one unguarded successor, which is the input state
with the packet buffer `old buffer ++ v1 ++ ... ++ vn` and the call popped. All other
components (cursor, emit buffer, environment, trace, path constraints) are those of the
input state. -/
theorem prog_header_buffer (state : ExecutionState) (hdr : StateVar) (values : List Expr)
    (hs : hdr.type.isStructLike = true)
    (hvalues : ExprStepper.readFields state (ExecutionState.getFlatFields hdr.type hdr) =
      .ok values) :
    ExprStepper.prepend_to_prog_header (.ref hdr) state =
      .ok [⟨none, { state with packetBuffer := values ++ state.packetBuffer,
                               body := state.body.drop 1 }⟩] ∧
    ExprStepper.append_to_prog_header (.ref hdr) state =
      .ok [⟨none, { state with packetBuffer := state.packetBuffer ++ values,
                               body := state.body.drop 1 }⟩] := by
  constructor
  · simp only [ExprStepper.prepend_to_prog_header, Bool.not_true, Bool.false_eq_true, if_false,
      Expr.type, hs, if_true, ExprStepper.progHeaderFields,
      ExprStepper.prependFields_reverse state _ values state hvalues rfl,
      ExecutionState.popBody]
  · simp only [ExprStepper.append_to_prog_header, Bool.not_true, Bool.false_eq_true, if_false,
      Expr.type, hs, if_true, ExprStepper.progHeaderFields,
      ExprStepper.appendFields_values state _ values state hvalues rfl,
      ExecutionState.popBody]

/-- C37, witness: the example struct, whose flattened fields are `h.a`, `h.b` and `m`, in
the example state, whose packet buffer holds the expression `deparsed`. -/
theorem prog_header_buffer_witness :
    ExprStepper.prepend_to_prog_header (.ref Example.copyGlobal) Example.copyState =
      .ok [⟨none, { Example.copyState with
        packetBuffer := [.constant (.bits 8 false) 1, .constant (.bits 16 false) 2,
          .constant (.bits 8 false) 3, .symbolicVar (.bits 16 false) "deparsed"],
        body := [.node "next"] }⟩] ∧
    ExprStepper.append_to_prog_header (.ref Example.copyGlobal) Example.copyState =
      .ok [⟨none, { Example.copyState with
        packetBuffer := [.symbolicVar (.bits 16 false) "deparsed",
          .constant (.bits 8 false) 1, .constant (.bits 16 false) 2,
          .constant (.bits 8 false) 3],
        body := [.node "next"] }⟩] :=
  prog_header_buffer Example.copyState Example.copyGlobal
    [.constant (.bits 8 false) 1, .constant (.bits 16 false) 2, .constant (.bits 8 false) 3]
    rfl rfl

/-! ## C36: the two guards of `packet_out.emit` -/

/-- A symbolic value holds no state reference, so the substitution leaves it as it is. -/
theorem SymbolicEnv.subst_symbolicValue (env : List (List String × Expr)) :
    (e : Expr) → isSymbolicValue e = true → SymbolicEnv.subst env e = e
  | .ref _, h => by simp [isSymbolicValue] at h
  | .cast t e, h => by
    simp only [isSymbolicValue] at h
    simp only [SymbolicEnv.subst, SymbolicEnv.subst_symbolicValue env e h]
  | .lnot e, h => by
    simp only [isSymbolicValue] at h
    simp only [SymbolicEnv.subst, SymbolicEnv.subst_symbolicValue env e h]
  | .unary op t e, h => by
    simp only [isSymbolicValue] at h
    simp only [SymbolicEnv.subst, SymbolicEnv.subst_symbolicValue env e h]
  | .binary op t l r, h => by
    simp only [isSymbolicValue, Bool.and_eq_true] at h
    simp only [SymbolicEnv.subst, SymbolicEnv.subst_symbolicValue env l h.1,
      SymbolicEnv.subst_symbolicValue env r h.2]
  | .constant _ _, _ => rfl
  | .boolLiteral _, _ => rfl
  | .symbolicVar _ _, _ => rfl
  | .packetSlice _ _, _ => rfl
  | .taint _, _ => rfl
  | .mux _ _ _ _, _ => rfl
  | .concolicVariable _ _ _ _ _, _ => rfl

/-- C36: whenever `packet_out.emit(hdr)` yields successors, the argument is a reference to
a member `hdr`, there are two successors, the guard of the first is the value `v` the
input state holds for the validity bit of `hdr`, and the guard of the second is the
negation of the reference to that validity bit. Evaluated in the environment of the input
state, the second guard is `!v`; when `v` is a symbolic value the first guard evaluates to
`v` itself, so that under every valuation the truth value of the second guard is the
negation of that of the first, and exactly one of the two holds whenever `v` has a truth
value. -/
theorem emit_guards_complementary (emitOutput : Expr) (state : ExecutionState)
    (bs : List Branch) (h : packet_out.emit emitOutput state = .ok bs) :
    ∃ hdr validValue validState invalidState,
      emitOutput = .ref hdr ∧
      state.hasTaint (.ref (getHeaderValidity hdr)) = false ∧
      state.env.lookup (getHeaderValidity hdr).key = some validValue ∧
      bs = [⟨some validValue, validState⟩,
            ⟨some (.lnot (.ref (getHeaderValidity hdr))), invalidState⟩] ∧
      (⟨some (.lnot (.ref (getHeaderValidity hdr))), invalidState⟩ :
          Branch).evaluatedConstraint state = some (.lnot validValue) ∧
      (isSymbolicValue validValue = true →
        (⟨some validValue, validState⟩ : Branch).evaluatedConstraint state =
          some validValue ∧
        (∀ σ, (Expr.lnot validValue).evalBool σ = (validValue.evalBool σ).map not) ∧
        (∀ σ b, validValue.evalBool σ = some b →
          (validValue.evalBool σ = some true ∧ (Expr.lnot validValue).evalBool σ = some false) ∨
          (validValue.evalBool σ = some false ∧
            (Expr.lnot validValue).evalBool σ = some true))) := by
  unfold packet_out.emit at h
  cases ht : emitOutput.type with
  | bits _ _ => rw [ht] at h; cases h
  | boolean => rw [ht] at h; cases h
  | varbits _ _ => rw [ht] at h; cases h
  | structLike isHeader fields =>
    rw [ht] at h
    simp only at h
    cases emitOutput with
    | ref v =>
      cases v with
      | path t n => cases h
      | member t parent name =>
        simp only at h
        cases htaint : state.hasTaint (.ref (getHeaderValidity (.member t parent name))) with
        | true => rw [htaint] at h; cases h
        | false =>
          rw [htaint] at h
          simp only [Bool.false_eq_true, if_false] at h
          cases hf : packet_out.emitFields (.member t parent name) fields state with
          | error e => rw [hf] at h; cases h
          | ok s3 =>
            rw [hf] at h
            simp only at h
            cases hv : state.get (getHeaderValidity (.member t parent name)) with
            | error e => rw [hv] at h; cases h
            | ok validValue =>
              rw [hv] at h
              simp only [Except.ok.injEq] at h
              have hlook : state.env.lookup (getHeaderValidity (.member t parent name)).key =
                  some validValue := by
                unfold ExecutionState.get at hv
                cases hl : state.env.lookup (getHeaderValidity (.member t parent name)).key with
                | none => rw [hl] at hv; cases hv
                | some x =>
                  rw [hl] at hv
                  simp [ExecutionState.headerOf, getHeaderValidity] at hv
                  rw [hv]
              refine ⟨.member t parent name, validValue, _, _, rfl, htaint, hlook, h.symm,
                ?_, ?_⟩
              · simp only [Branch.evaluatedConstraint, Option.map_some', SymbolicEnv.subst,
                  hlook]
              · intro hsym
                refine ⟨?_, fun σ => ?_, fun σ b hb => ?_⟩
                · simp only [Branch.evaluatedConstraint, Option.map_some',
                    SymbolicEnv.subst_symbolicValue _ _ hsym]
                · simp only [Expr.evalBool]
                · cases b with
                  | true => left; simp only [Expr.evalBool, hb, Option.map_some', Bool.not_true,
                      and_self]
                  | false => right; simp only [Expr.evalBool, hb, Option.map_some',
                      Bool.not_false, and_self]
    | constant _ _ => cases h
    | boolLiteral _ => cases h
    | symbolicVar _ _ => cases h
    | packetSlice _ _ => cases h
    | taint _ => cases h
    | cast _ _ => cases h
    | lnot _ => cases h
    | unary _ _ _ => cases h
    | binary _ _ _ _ => cases h
    | mux _ _ _ _ => cases h
    | concolicVariable _ _ _ _ _ => cases h

/-- C36, witness: `emit(hdrs.h)` in a state in which the validity of the header is the
symbolic boolean `b`: the guards evaluate to `b` and `!b`. -/
theorem emit_guards_complementary_witness :
    (∃ bs, packet_out.emit (.ref Example.hdr) Example.symbolicValidState = .ok bs ∧
      ∃ hdr validValue validState invalidState,
        Expr.ref Example.hdr = .ref hdr ∧
        Example.symbolicValidState.hasTaint (.ref (getHeaderValidity hdr)) = false ∧
        Example.symbolicValidState.env.lookup (getHeaderValidity hdr).key = some validValue ∧
        bs = [⟨some validValue, validState⟩,
              ⟨some (.lnot (.ref (getHeaderValidity hdr))), invalidState⟩] ∧
        (⟨some (.lnot (.ref (getHeaderValidity hdr))), invalidState⟩ :
            Branch).evaluatedConstraint Example.symbolicValidState =
          some (.lnot validValue) ∧
        (isSymbolicValue validValue = true →
          (⟨some validValue, validState⟩ : Branch).evaluatedConstraint
              Example.symbolicValidState = some validValue ∧
          (∀ σ, (Expr.lnot validValue).evalBool σ = (validValue.evalBool σ).map not) ∧
          (∀ σ b, validValue.evalBool σ = some b →
            (validValue.evalBool σ = some true ∧
              (Expr.lnot validValue).evalBool σ = some false) ∨
            (validValue.evalBool σ = some false ∧
              (Expr.lnot validValue).evalBool σ = some true)))) ∧
    (packet_out.emit (.ref Example.hdr) Example.symbolicValidState).map
      (fun bs => bs.map fun (b : Branch) =>
        (b.constraint, b.evaluatedConstraint Example.symbolicValidState)) =
      .ok [(some Example.bVar, some Example.bVar),
           (some (.lnot (.ref (getHeaderValidity Example.hdr))), some (.lnot Example.bVar))] :=
  ⟨⟨_, rfl, emit_guards_complementary (.ref Example.hdr) Example.symbolicValidState _ rfl⟩,
   rfl⟩

/-! ## C35: the flags after `check_recirculate` -/

namespace BMv2_V1ModelExprStepper

theorem setTargetUninitialized_properties (st : BMv2_V1ModelExprStepper) (s : ExecutionState)
    (ref : StateVar) (forceTaint : Bool) :
    (st.setTargetUninitialized s ref forceTaint).properties = s.properties := by
  unfold setTargetUninitialized
  cases ref.type.isStructLike
  · rfl
  · simp only [if_true]
    generalize ExecutionState.getFlatFields ref.type ref = fields
    induction fields generalizing s with
    | nil => rfl
    | cons f rest ih =>
      simp only [List.foldl_cons]
      rw [ih]
      rfl

theorem resetFields_properties (st : BMv2_V1ModelExprStepper) (ref : StateVar)
    (recirculateIndex : Nat) :
    ∀ (fields : List StructField) (s s2 : ExecutionState),
      st.resetFields ref recirculateIndex fields s = .ok s2 → s2.properties = s.properties := by
  intro fields
  induction fields with
  | nil =>
    intro s s2 h
    simp only [resetFields] at h
    cases h
    rfl
  | cons field rest ih =>
    intro s s2 h
    simp only [resetFields] at h
    cases hp : isPartOfFieldList field recirculateIndex with
    | error e => rw [hp] at h; cases h
    | ok b =>
      rw [hp] at h
      cases b with
      | true => exact ih s s2 h
      | false =>
        simp only at h
        rw [ih _ s2 h, setTargetUninitialized_properties]

theorem resetPreservingFieldList_properties (st : BMv2_V1ModelExprStepper)
    (s s2 : ExecutionState) (ref : ParamRef) (recirculateIndex : Nat)
    (h : st.resetPreservingFieldList s ref recirculateIndex = .ok s2) :
    s2.properties = s.properties := by
  unfold resetPreservingFieldList at h
  cases hf : ref.fields with
  | none => rw [hf] at h; cases h
  | some fields =>
    rw [hf] at h
    exact resetFields_properties st ref.ref recirculateIndex fields s s2 h

/-- On a state in which `recirculate_active` is `false`, `check_recirculate` only pops the
call. -/
theorem check_recirculate_inactive (st : BMv2_V1ModelExprStepper) (s : ExecutionState)
    (h : s.properties.lookup "recirculate_active" = some (.bool false)) :
    st.check_recirculate s = .ok [⟨none, s.popBody⟩] := by
  simp only [check_recirculate, ExecutionState.hasProperty, ExecutionState.getProperty_bool, h,
    Option.isSome_some, if_true]

/-- What `check_recirculate` does on a state in which `recirculate_active` is `true`, up
to the test of `clone_active`: the state `recState` with the packet size, the metadata and
the instance type updated has the properties of the input state with `recirculate_active`
set to `false` on top. -/
theorem check_recirculate_active (st : BMv2_V1ModelExprStepper) (state : ExecutionState)
    (bs : List Branch)
    (hactive : state.properties.lookup "recirculate_active" = some (.bool true))
    (h : st.check_recirculate state = .ok bs) :
    ∃ recState : ExecutionState,
      recState.properties = ("recirculate_active", .bool false) :: state.properties ∧
      ((state.properties.lookup "clone_active" = none ∨
          state.properties.lookup "clone_active" = some (.bool false)) ∧
        bs = [⟨none, recState.replaceTopBodyCmds st.pipelineSequence⟩] ∨
       state.properties.lookup "clone_active" = some (.bool true) ∧
        ∃ sessionIdExpr, state.getProperty_expr "clone_session_id" = .ok sessionIdExpr ∧
          bs = [⟨none, ((state.setProperty "clone_active" (.bool false)).addTestObject
                  "clone_infos" (toString (st.clone_id sessionIdExpr))
                  (.cloneInfo sessionIdExpr (st.getRandConstantForWidth st.portNumWidth_bits)
                    false)).popBody⟩,
                ⟨none, ((((recState.replaceTopBodyCmds
                    (st.pipelineSequence.drop (st.egressDelim - 2))).addTestObject
                  "clone_infos" (toString (st.clone_id sessionIdExpr))
                  (.cloneInfo sessionIdExpr (st.getRandConstantForWidth st.portNumWidth_bits)
                    true)).setProperty "clone_active" (.bool false)).resetPacketBuffer)⟩]) := by
  simp only [check_recirculate, ExecutionState.hasProperty, ExecutionState.getProperty_bool,
    hactive, Option.isSome_some, if_true] at h
  generalize hrec0 : (if (state.properties.lookup "recirculate_reset_pkt").isSome = true then
      state.resetPacketBuffer.appendToPacketBuffer state.resetPacketBuffer.getInputPacket
    else state) = rec0 at h
  have hp0 : rec0.properties = state.properties := by
    rw [← hrec0]
    cases (state.properties.lookup "recirculate_reset_pkt").isSome <;> rfl
  generalize hrec1 : rec0.set (standardMetadata st.core.packetSizeVarType "packet_length")
    (getConstant st.core.packetSizeVarType (rec0.getPacketBufferSize / 8)) = rec1 at h
  have hp1 : rec1.properties = state.properties := by
    rw [← hrec1]; exact hp0
  generalize hreset : (if (rec1.properties.lookup "recirculate_index").isSome = true then
      match rec1.getProperty_uint64 "recirculate_index" with
      | .error e => Except.error e
      | .ok recirculateIndex =>
        st.resetPreservingFieldList rec1 st.parserUserMetadata recirculateIndex
    else .ok rec1) = reset at h
  cases reset with
  | error e => cases h
  | ok rec2 =>
    have hp2 : rec2.properties = state.properties := by
      cases hidx : (rec1.properties.lookup "recirculate_index").isSome
      · rw [hidx] at hreset
        simp only [Bool.false_eq_true, if_false, Except.ok.injEq] at hreset
        rw [← hreset]; exact hp1
      · rw [hidx] at hreset
        simp only [if_true] at hreset
        cases hu : rec1.getProperty_uint64 "recirculate_index" with
        | error e => rw [hu] at hreset; cases hreset
        | ok idx =>
          rw [hu] at hreset
          rw [resetPreservingFieldList_properties st rec1 rec2 _ idx hreset]
          exact hp1
    simp only at h
    cases hinst : state.getProperty_uint64 "recirculate_instance_type" with
    | error e => rw [hinst] at h; cases h
    | ok instanceType =>
      rw [hinst] at h
      simp only at h
      refine ⟨(rec2.set (standardMetadata (getBitType 32) "instance_type")
        (getConstant (getBitType 32) instanceType)).setProperty "recirculate_active"
          (.bool false), ?_, ?_⟩
      · simp only [ExecutionState.setProperty, ExecutionState.set, hp2]
      · cases hclone : state.properties.lookup "clone_active" with
        | none =>
          rw [hclone] at h
          simp only [Option.isSome_none, Bool.false_eq_true, if_false, Except.ok.injEq] at h
          exact Or.inl ⟨Or.inl rfl, h.symm⟩
        | some v =>
          rw [hclone] at h
          simp only [Option.isSome_some, if_true] at h
          cases v with
          | bool b =>
            cases b with
            | false =>
              simp only [Except.ok.injEq] at h
              exact Or.inl ⟨Or.inr rfl, h.symm⟩
            | true =>
              simp only at h
              cases hs : state.getProperty_expr "clone_session_id" with
              | error e => rw [hs] at h; cases h
              | ok sessionIdExpr =>
                rw [hs] at h
                simp only [Except.ok.injEq] at h
                exact Or.inr ⟨rfl, sessionIdExpr, rfl, h.symm⟩
          | uint n => cases h
          | expr e => cases h
          | str s => cases h

end BMv2_V1ModelExprStepper

/-- C35 (amended): `check_recirculate` on a state in which `recirculate_active` is `true`.
If `clone_active` is not `true`, the one successor has `recirculate_active = false` and
`clone_active` `false` or not set, and `check_recirculate` on it only pops the call. If
`clone_active` is `true`, there are two successors. The second, in which the clone
re-enters at the egress, has `recirculate_active = false` and `clone_active = false`, and
`check_recirculate` on it only pops the call. The first, in which the original packet
continues, is a copy of the input state with `clone_active` set to `false`, the clone
info added and the call popped: its `recirculate_active` is still `true`, and
`check_recirculate` on it does not just pop the call. -/
theorem check_recirculate_flags (st : BMv2_V1ModelExprStepper) (state : ExecutionState)
    (bs : List Branch)
    (hactive : state.properties.lookup "recirculate_active" = some (.bool true))
    (h : st.check_recirculate state = .ok bs) :
    (state.properties.lookup "clone_active" ≠ some (.bool true) →
      ∃ r, bs = [⟨none, r⟩] ∧
        r.properties.lookup "recirculate_active" = some (.bool false) ∧
        (r.properties.lookup "clone_active" = none ∨
          r.properties.lookup "clone_active" = some (.bool false)) ∧
        st.check_recirculate r = .ok [⟨none, r.popBody⟩]) ∧
    (state.properties.lookup "clone_active" = some (.bool true) →
      ∃ d r, bs = [⟨none, d⟩, ⟨none, r⟩] ∧
        r.properties.lookup "recirculate_active" = some (.bool false) ∧
        r.properties.lookup "clone_active" = some (.bool false) ∧
        st.check_recirculate r = .ok [⟨none, r.popBody⟩] ∧
        d.properties = ("clone_active", .bool false) :: state.properties ∧
        d.properties.lookup "recirculate_active" = some (.bool true) ∧
        d.properties.lookup "clone_active" = some (.bool false) ∧
        st.check_recirculate d ≠ .ok [⟨none, d.popBody⟩]) := by
  have hne : ("recirculate_active" == "clone_active") = false := by decide
  obtain ⟨recState, hprops, hcases⟩ :=
    BMv2_V1ModelExprStepper.check_recirculate_active st state bs hactive h
  constructor
  · intro hclone
    rcases hcases with ⟨hc, hbs⟩ | ⟨hc, _⟩
    · have hra : (recState.replaceTopBodyCmds st.pipelineSequence).properties.lookup
          "recirculate_active" = some (.bool false) := by
        simp only [ExecutionState.replaceTopBodyCmds, hprops, List.lookup_cons, beq_self_eq_true]
      have hca : (recState.replaceTopBodyCmds st.pipelineSequence).properties.lookup
          "clone_active" = state.properties.lookup "clone_active" := by
        have hne2 : ("clone_active" == "recirculate_active") = false := by decide
        simp only [ExecutionState.replaceTopBodyCmds, hprops, List.lookup_cons, hne2]
      refine ⟨_, hbs, hra, ?_,
        BMv2_V1ModelExprStepper.check_recirculate_inactive st _ hra⟩
      rw [hca]
      exact hc
    · exact absurd hc hclone
  · intro hclone
    rcases hcases with ⟨hc, _⟩ | ⟨_, sessionIdExpr, _, hbs⟩
    · rcases hc with hc | hc <;> rw [hclone] at hc <;> cases hc
    · have hra : ∀ (a : ExecutionState), a.properties =
          ("clone_active", .bool false) :: ("recirculate_active", .bool false) ::
            state.properties →
          a.properties.lookup "recirculate_active" = some (.bool false) := by
        intro a ha
        simp only [ha, List.lookup_cons, hne, beq_self_eq_true]
      have hd : ((state.setProperty "clone_active" (.bool false)).addTestObject
            "clone_infos" (toString (st.clone_id sessionIdExpr))
            (.cloneInfo sessionIdExpr (st.getRandConstantForWidth st.portNumWidth_bits)
              false)).popBody.properties =
          ("clone_active", .bool false) :: state.properties := rfl
      have hdra : ((state.setProperty "clone_active" (.bool false)).addTestObject
            "clone_infos" (toString (st.clone_id sessionIdExpr))
            (.cloneInfo sessionIdExpr (st.getRandConstantForWidth st.portNumWidth_bits)
              false)).popBody.properties.lookup "recirculate_active" = some (.bool true) := by
        rw [hd]
        simp only [List.lookup_cons, hne, hactive]
      refine ⟨_, _, hbs, ?_, ?_, ?_, hd, hdra, ?_, ?_⟩
      · apply hra
        simp only [ExecutionState.resetPacketBuffer, ExecutionState.setProperty,
          ExecutionState.addTestObject, ExecutionState.replaceTopBodyCmds, hprops]
      · simp only [ExecutionState.resetPacketBuffer, ExecutionState.setProperty,
          ExecutionState.addTestObject, ExecutionState.replaceTopBodyCmds, hprops,
          List.lookup_cons, beq_self_eq_true]
      · apply BMv2_V1ModelExprStepper.check_recirculate_inactive
        apply hra
        simp only [ExecutionState.resetPacketBuffer, ExecutionState.setProperty,
          ExecutionState.addTestObject, ExecutionState.replaceTopBodyCmds, hprops]
      · rw [hd]
        simp only [List.lookup_cons, beq_self_eq_true]
      · intro hagain
        obtain ⟨rec2, hprops2, hcases2⟩ :=
          BMv2_V1ModelExprStepper.check_recirculate_active st _ _ hdra hagain
        rcases hcases2 with ⟨_, hbs2⟩ | ⟨hc2, _⟩
        · simp only [List.cons.injEq, Branch.mk.injEq, true_and, and_true] at hbs2
          have hlen := congrArg (fun (s : ExecutionState) => s.properties.length) hbs2
          simp only [ExecutionState.popBody, ExecutionState.replaceTopBodyCmds, hprops2,
            List.length_cons] at hlen
          omega
        · rw [hd] at hc2
          simp only [List.lookup_cons, beq_self_eq_true] at hc2
          cases hc2

/-- C35, witness: the example states after a recirculation and after a clone. -/
theorem check_recirculate_flags_witness :
    (∃ bs, Example.bmv2.check_recirculate Example.recirculateActiveState = .ok bs ∧
      ∃ r, bs = [⟨none, r⟩] ∧
        r.properties.lookup "recirculate_active" = some (.bool false) ∧
        (r.properties.lookup "clone_active" = none ∨
          r.properties.lookup "clone_active" = some (.bool false)) ∧
        Example.bmv2.check_recirculate r = .ok [⟨none, r.popBody⟩]) ∧
    (∃ bs, Example.bmv2.check_recirculate Example.cloneActiveState = .ok bs ∧
      ∃ d r, bs = [⟨none, d⟩, ⟨none, r⟩] ∧
        r.properties.lookup "recirculate_active" = some (.bool false) ∧
        r.properties.lookup "clone_active" = some (.bool false) ∧
        Example.bmv2.check_recirculate r = .ok [⟨none, r.popBody⟩] ∧
        d.properties = ("clone_active", .bool false) :: Example.cloneActiveState.properties ∧
        d.properties.lookup "recirculate_active" = some (.bool true) ∧
        d.properties.lookup "clone_active" = some (.bool false) ∧
        Example.bmv2.check_recirculate d ≠ .ok [⟨none, d.popBody⟩]) :=
  ⟨⟨_, rfl, (check_recirculate_flags Example.bmv2 Example.recirculateActiveState _ rfl rfl).1
      (by decide)⟩,
   ⟨_, rfl, (check_recirculate_flags Example.bmv2 Example.cloneActiveState _ rfl rfl).2 rfl⟩⟩

/-- C35, counterexample: `check_recirculate` on the example state after a clone. The
first successor, in which the original packet continues, still has
`recirculate_active = true`; running `check_recirculate` on it again does not pop the
call but puts the whole pipeline on the continuation. -/
theorem clone_default_state_stays_active :
    (Example.bmv2.check_recirculate Example.cloneActiveState).map
      (fun bs => bs.map fun (b : Branch) =>
        (b.nextState.properties.lookup "recirculate_active",
          b.nextState.properties.lookup "clone_active", b.nextState.body)) =
      .ok [(some (.bool true), some (.bool false), [.node "next"]),
           (some (.bool false), some (.bool false),
             [.node "parser", .node "ingress", .node "egress", .node "deparser",
               .node "next"])] ∧
    ((Example.bmv2.check_recirculate Example.cloneActiveState).bind
      (fun bs =>
        match bs with
        | b :: _ => Example.bmv2.check_recirculate b.nextState
        | [] => .ok [])).map
      (fun bs => bs.map fun (b : Branch) =>
        (b.nextState.properties.lookup "recirculate_active", b.nextState.body)) =
      .ok [(some (.bool false),
        [.node "parser", .node "ingress", .node "egress", .node "deparser"])] :=
  ⟨rfl, rfl⟩

/-! ## C38: the run phase terminates -/

namespace LinearEnumeration

theorem perm_cons_eraseIdx {α : Type} :
    ∀ (l : List α) (idx : Nat) (a : α), l.get? idx = some a →
      List.Perm l (a :: l.eraseIdx idx)
  | [], _, _, h => by simp at h
  | x :: rest, 0, a, h => by
    simp only [List.get?_cons_zero, Option.some.injEq] at h
    subst h
    simp only [List.eraseIdx_cons_zero]
    exact List.Perm.refl _
  | x :: rest, idx + 1, a, h => by
    simp only [List.get?_cons_succ] at h
    simp only [List.eraseIdx_cons_succ]
    exact ((perm_cons_eraseIdx rest idx a h).cons x).trans (List.Perm.swap a x _)

/-- What one iteration does to the pool and to the log of handled states: nothing, in
which case the loop ends, or it takes one branch out of the pool and hands its state to
the handler. -/
theorem runIteration_consumes (base : TerminalStateHandling) (permissive : Bool)
    (r : RunProgress) :
    ((runIteration base permissive r).2 = false ∧
      (runIteration base permissive r).1.exploredBranches = r.exploredBranches ∧
      (runIteration base permissive r).1.handled = r.handled ∧
      ((runIteration base permissive r).1.returned = true ∨
        (runIteration base permissive r).1.raised ≠ none)) ∨
    (∃ branch, List.Perm r.exploredBranches
        (branch :: (runIteration base permissive r).1.exploredBranches) ∧
      (runIteration base permissive r).1.handled = r.handled ++ [branch.nextState] ∧
      ((runIteration base permissive r).2 = false →
        (runIteration base permissive r).1.returned = true ∨
          (runIteration base permissive r).1.raised ≠ none)) := by
  unfold runIteration
  cases hempty : r.exploredBranches.isEmpty
  · simp only [Bool.false_eq_true, if_false]
    cases hget : r.exploredBranches.get? (base.selectBranch r.exploredBranches) with
    | none =>
      left
      simp
    | some branch =>
      right
      refine ⟨branch, ?_⟩
      have hperm := perm_cons_eraseIdx _ _ _ hget
      simp only
      cases hh : base.handleTerminalState r.handled branch.nextState with
      | ok terminate =>
        cases terminate
        · simp [hperm]
        · simp [hperm]
      | error e =>
        cases e <;> cases permissive <;> simp [hperm]
  · left
    simp

/-- With more fuel than there are branches in the pool the loop ends, and what it handled
together with what it left in the pool is the pool it started from. -/
theorem runLoop_ends (base : TerminalStateHandling) (permissive : Bool) :
    ∀ (n : Nat) (r : RunProgress), r.exploredBranches.length ≤ n →
      ∃ res new,
        (∀ fuel, n + 1 ≤ fuel → runLoop base permissive fuel r = some res) ∧
        res.handled = r.handled ++ new ∧
        List.Perm (r.exploredBranches.map fun b => b.nextState)
          (new ++ res.exploredBranches.map fun b => b.nextState) ∧
        (res.returned = true ∨ res.raised ≠ none) := by
  intro n
  induction n with
  | zero =>
    intro r hlen
    have hnil : r.exploredBranches = [] := List.length_eq_zero.mp (Nat.le_zero.mp hlen)
    refine ⟨{ r with returned := true }, [], ?_, by simp, by simp [hnil], Or.inl rfl⟩
    intro fuel hfuel
    obtain ⟨k, rfl⟩ : ∃ k, fuel = k + 1 := ⟨fuel - 1, by omega⟩
    simp [runLoop, runIteration, hnil]
  | succ n ih =>
    intro r hlen
    rcases runIteration_consumes base permissive r with ⟨hstop, hpool, hhandled, hend⟩ |
      ⟨branch, hperm, hhandled, hend⟩
    · refine ⟨(runIteration base permissive r).1, [], ?_, by simp [hhandled],
        by simp [hpool], hend⟩
      intro fuel hfuel
      obtain ⟨k, rfl⟩ : ∃ k, fuel = k + 1 := ⟨fuel - 1, by omega⟩
      simp only [runLoop]
      generalize runIteration base permissive r = it at hstop
      obtain ⟨r1, cont⟩ := it
      simp only at hstop
      subst hstop
      rfl
    · cases hcont : (runIteration base permissive r).2
      · refine ⟨(runIteration base permissive r).1, [branch.nextState], ?_, hhandled, ?_,
          hend hcont⟩
        · intro fuel hfuel
          obtain ⟨k, rfl⟩ : ∃ k, fuel = k + 1 := ⟨fuel - 1, by omega⟩
          simp only [runLoop]
          generalize runIteration base permissive r = it at hcont
          obtain ⟨r1, cont⟩ := it
          simp only at hcont
          subst hcont
          rfl
        · have h := hperm.map (fun b => b.nextState)
          simpa using h
      · have hlen1 : (runIteration base permissive r).1.exploredBranches.length ≤ n := by
          have h := hperm.length_eq
          simp only [List.length_cons] at h
          omega
        obtain ⟨res, new, hrun, hh, hp, hend2⟩ := ih (runIteration base permissive r).1 hlen1
        refine ⟨res, branch.nextState :: new, ?_, ?_, ?_, hend2⟩
        · intro fuel hfuel
          obtain ⟨k, rfl⟩ : ∃ k, fuel = k + 1 := ⟨fuel - 1, by omega⟩
          have hk := hrun k (by omega)
          simp only [runLoop]
          generalize runIteration base permissive r = it at hcont hk
          obtain ⟨r1, cont⟩ := it
          simp only at hcont hk
          subst hcont
          exact hk
        · rw [hh, hhandled]
          simp
        · have h := hperm.map (fun b => b.nextState)
          simp only [List.map_cons] at h
          refine h.trans ?_
          simp only [List.cons_append]
          exact hp.cons _

end LinearEnumeration

/-- C38: `LinearEnumeration::run` on a pool of `n` branches ends within `n + 1` iterations
of its loop, by a return or by an exception. The states the handler was invoked on,
together with the states of the branches left in the pool, are the states of the pool
`run` started from, each as often as it occurs there, so the handler is invoked at most
`n` times. An iteration on an empty pool returns without invoking the handler. An
iteration on a pool from which `selectBranch` picks a branch takes exactly this branch out
of the pool and invokes the handler on its state once; it returns when the handler reports
that enough tests were produced, and in a permissive run it goes on, the branch consumed
and a warning printed, when the handler raises `TestgenUnimplemented`. -/
theorem run_terminates (base : TerminalStateHandling) (permissive : Bool)
    (exploredBranches : List Branch) :
    (∃ res,
      (∀ fuel, exploredBranches.length + 1 ≤ fuel →
        LinearEnumeration.runLoop base permissive fuel
          (LinearEnumeration.runStart exploredBranches) = some res) ∧
      List.Perm (exploredBranches.map fun b => b.nextState)
        (res.handled ++ res.exploredBranches.map fun b => b.nextState) ∧
      res.handled.length ≤ exploredBranches.length ∧
      (res.returned = true ∨ res.raised ≠ none)) ∧
    (∀ r : RunProgress, r.exploredBranches = [] →
      LinearEnumeration.runIteration base permissive r = ({ r with returned := true }, false)) ∧
    (∀ (r : RunProgress) (branch : Branch),
      r.exploredBranches.get? (base.selectBranch r.exploredBranches) = some branch →
      (LinearEnumeration.runIteration base permissive r).1.exploredBranches =
        r.exploredBranches.eraseIdx (base.selectBranch r.exploredBranches) ∧
      (LinearEnumeration.runIteration base permissive r).1.exploredBranches.length + 1 =
        r.exploredBranches.length ∧
      (LinearEnumeration.runIteration base permissive r).1.handled =
        r.handled ++ [branch.nextState] ∧
      (base.handleTerminalState r.handled branch.nextState = .ok true →
        LinearEnumeration.runIteration base permissive r =
          ({ r with
             exploredBranches :=
               r.exploredBranches.eraseIdx (base.selectBranch r.exploredBranches),
             handled := r.handled ++ [branch.nextState], returned := true }, false)) ∧
      (base.handleTerminalState r.handled branch.nextState = .error .testgenUnimplemented →
        permissive = true →
        LinearEnumeration.runIteration base permissive r =
          ({ r with
             exploredBranches :=
               r.exploredBranches.eraseIdx (base.selectBranch r.exploredBranches),
             handled := r.handled ++ [branch.nextState],
             warnings := r.warnings + 1 }, true))) := by
  refine ⟨?_, ?_, ?_⟩
  · obtain ⟨res, new, hrun, hh, hp, hend⟩ := LinearEnumeration.runLoop_ends base permissive
      exploredBranches.length (LinearEnumeration.runStart exploredBranches) (le_refl _)
    simp only [LinearEnumeration.runStart, List.nil_append] at hh hp
    subst hh
    refine ⟨res, hrun, hp, ?_, hend⟩
    have hl := hp.length_eq
    simp only [List.length_map, List.length_append] at hl
    omega
  · intro r hnil
    simp only [LinearEnumeration.runIteration, hnil, List.isEmpty_nil, if_true]
  · intro r branch hget
    have hne : r.exploredBranches.isEmpty = false := by
      cases hl : r.exploredBranches with
      | nil => rw [hl] at hget; simp at hget
      | cons _ _ => rfl
    have hlen := (LinearEnumeration.perm_cons_eraseIdx _ _ _ hget).length_eq
    simp only [List.length_cons] at hlen
    refine ⟨?_, ?_, ?_, ?_, ?_⟩
    · simp only [LinearEnumeration.runIteration, hne, Bool.false_eq_true, if_false, hget]
      cases hh : base.handleTerminalState r.handled branch.nextState with
      | ok terminate => cases terminate <;> rfl
      | error e => cases e <;> cases permissive <;> rfl
    · simp only [LinearEnumeration.runIteration, hne, Bool.false_eq_true, if_false, hget]
      cases hh : base.handleTerminalState r.handled branch.nextState with
      | ok terminate => cases terminate <;> exact hlen.symm
      | error e => cases e <;> cases permissive <;> exact hlen.symm
    · simp only [LinearEnumeration.runIteration, hne, Bool.false_eq_true, if_false, hget]
      cases hh : base.handleTerminalState r.handled branch.nextState with
      | ok terminate => cases terminate <;> rfl
      | error e => cases e <;> cases permissive <;> rfl
    · intro hh
      simp only [LinearEnumeration.runIteration, hne, Bool.false_eq_true, if_false, hget, hh,
        if_true]
    · intro hh hperm
      subst hperm
      simp only [LinearEnumeration.runIteration, hne, Bool.false_eq_true, if_false, hget, hh,
        Bool.not_true]

/-- C38, witness: the example pool of three branches in a permissive run. The handler is
invoked on the three states, last branch first; it raises on the third, which is consumed
with a warning, and `run` returns on the empty pool. -/
theorem run_terminates_witness :
    (∃ res,
      (∀ fuel, Example.pool.length + 1 ≤ fuel →
        LinearEnumeration.runLoop Example.handling true fuel
          (LinearEnumeration.runStart Example.pool) = some res) ∧
      List.Perm (Example.pool.map fun b => b.nextState)
        (res.handled ++ res.exploredBranches.map fun b => b.nextState) ∧
      res.handled.length ≤ Example.pool.length ∧
      (res.returned = true ∨ res.raised ≠ none)) ∧
    LinearEnumeration.runLoop Example.handling true 4
        (LinearEnumeration.runStart Example.pool) =
      some { exploredBranches := [],
             handled := [Example.pathState [] [], Example.pathState [] [.lnot Example.bVar],
               Example.pathState [] [Example.bVar]],
             warnings := 1, returned := true, raised := none } ∧
    LinearEnumeration.runIteration Example.handling true
        { LinearEnumeration.runStart [⟨some Example.bVar,
            Example.pathState [] [Example.bVar]⟩] with
          handled := [Example.pathState [] []] } =
      ({ exploredBranches := [],
         handled := [Example.pathState [] [], Example.pathState [] [Example.bVar]],
         warnings := 1, returned := false, raised := none }, true) :=
  ⟨(run_terminates Example.handling true Example.pool).1, by decide,
   ((run_terminates Example.handling true Example.pool).2.2
      { LinearEnumeration.runStart [⟨some Example.bVar,
          Example.pathState [] [Example.bVar]⟩] with
        handled := [Example.pathState [] []] }
      ⟨some Example.bVar, Example.pathState [] [Example.bVar]⟩ rfl).2.2.2.2 rfl rfl⟩

/-! ## C31: an unsupported feature met while the pool is filled -/

/-- Once an exception has left `mapBranch`, no further call is made. -/
theorem Exploration.run_thrown (base : ExplorationStrategy) (err : StepError) :
    ∀ (n : Nat) (e : Exploration), e.thrown = some err → e.run base n = e := by
  intro n
  induction n with
  | zero => intro e _; rfl
  | succ n ih =>
    intro e h
    have hnext : e.next base = e := by
      simp only [Exploration.next, h]
    simp only [Exploration.run, hnext]
    exact ih e h

/-- C31, failing input: the constructor of `LinearEnumeration` on the example program with
an unsupported feature on its first path. The constructor and `mapBranch` take no option
and have no handler: the `TestgenUnimplemented` raised by the step of the first branch
leaves the first call of `mapBranch` and, with it, the constructor. However many calls
are allowed, the pool stays empty and the second branch, which is terminal and
satisfiable, is still pending: it is never mapped. In `run`, by contrast, the same
exception raised by the handler in a permissive run costs only the branch at hand. -/
theorem constructor_raises_unimplemented :
    (LinearEnumeration.create Example.unimplementedProgram 8
        (Example.pathState [.node "start"] [])).run Example.unimplementedProgram 1 =
      { strategy := ⟨8, [], [], [Example.pathState [.node "start"] []]⟩,
        pending := [⟨some Example.bVar,
            Example.pathState [.node "unsupported"] [Example.bVar]⟩,
          ⟨some (.lnot Example.bVar), Example.pathState [] [.lnot Example.bVar]⟩],
        thrown := some .testgenUnimplemented } ∧
    (∀ n, ((LinearEnumeration.create Example.unimplementedProgram 8
        (Example.pathState [.node "start"] [])).run Example.unimplementedProgram
          (n + 1)).thrown = some .testgenUnimplemented ∧
      ((LinearEnumeration.create Example.unimplementedProgram 8
        (Example.pathState [.node "start"] [])).run Example.unimplementedProgram
          (n + 1)).strategy.exploredBranches = []) ∧
    LinearEnumeration.runLoop Example.handling true 4
        (LinearEnumeration.runStart Example.pool) =
      some { exploredBranches := [],
             handled := [Example.pathState [] [], Example.pathState [] [.lnot Example.bVar],
               Example.pathState [] [Example.bVar]],
             warnings := 1, returned := true, raised := none } ∧
    LinearEnumeration.runLoop Example.handling false 4
        (LinearEnumeration.runStart Example.pool) =
      some { exploredBranches := [],
             handled := [Example.pathState [] [], Example.pathState [] [.lnot Example.bVar],
               Example.pathState [] [Example.bVar]],
             warnings := 0, returned := false, raised := some .testgenUnimplemented } := by
  have h1 : (LinearEnumeration.create Example.unimplementedProgram 8
        (Example.pathState [.node "start"] [])).run Example.unimplementedProgram 1 =
      { strategy := ⟨8, [], [], [Example.pathState [.node "start"] []]⟩,
        pending := [⟨some Example.bVar,
            Example.pathState [.node "unsupported"] [Example.bVar]⟩,
          ⟨some (.lnot Example.bVar), Example.pathState [] [.lnot Example.bVar]⟩],
        thrown := some .testgenUnimplemented } := by decide
  refine ⟨h1, fun n => ?_, by decide, by decide⟩
  have hrun : ∀ (m : Nat) (e : Exploration),
      e.run Example.unimplementedProgram (m + 1) =
        (e.run Example.unimplementedProgram 1).run Example.unimplementedProgram m :=
    fun m e => rfl
  rw [hrun n, h1, Exploration.run_thrown _ .testgenUnimplemented n _ rfl]
  exact ⟨rfl, rfl⟩

/-! ## C32: the pass `CastBooleanTableKeys` -/

namespace CastBooleanTableKeys

theorem castComponent_getElem? (keyExprs : List IRExpr) (idx i : Nat) :
    (castComponent keyExprs idx)[i]? =
      if i = idx then (keyExprs[idx]?).map castLiteral else keyExprs[i]? := by
  unfold castComponent
  cases h : keyExprs[idx]? with
  | none =>
    by_cases hi : i = idx
    · subst hi; simp [h]
    · simp [hi]
  | some e =>
    have hlt : idx < keyExprs.length := by
      by_contra hge
      rw [List.getElem?_eq_none (by omega)] at h
      cases h
    cases e with
    | boolLiteral s value =>
      simp only [List.getElem?_set, hlt, if_true, Option.map_some']
      by_cases hi : i = idx
      · subst hi
        cases value <;> simp [castLiteral, IRUtils.getConstant, IRUtils.getBitType]
      · have hi2 : ¬ idx = i := fun e => hi e.symm
        simp [hi, hi2]
    | constant _ _ _ =>
      by_cases hi : i = idx
      · subst hi; simp [h, castLiteral]
      · simp [hi]
    | pathExpression _ _ _ =>
      by_cases hi : i = idx
      · subst hi; simp [h, castLiteral]
      · simp [hi]
    | typeNameExpression _ _ =>
      by_cases hi : i = idx
      · subst hi; simp [h, castLiteral]
      · simp [hi]
    | member _ _ _ _ =>
      by_cases hi : i = idx
      · subst hi; simp [h, castLiteral]
      · simp [hi]
    | cast _ _ _ =>
      by_cases hi : i = idx
      · subst hi; simp [h, castLiteral]
      · simp [hi]

theorem foldl_castComponent_getElem? (keyExprs : List IRExpr) :
    ∀ (n i : Nat), ((List.range n).foldl castComponent keyExprs)[i]? =
      if i < n then (keyExprs[i]?).map castLiteral else keyExprs[i]? := by
  intro n
  induction n with
  | zero => intro i; simp
  | succ n ih =>
    intro i
    rw [List.range_succ, List.foldl_append]
    simp only [List.foldl_cons, List.foldl_nil]
    rw [castComponent_getElem?]
    by_cases hi : i = n
    · subst hi
      simp [ih]
    · rw [ih i]
      by_cases hlt : i < n
      · have : i < n + 1 := by omega
        simp [hi, hlt, this]
      · have : ¬ i < n + 1 := by omega
        simp [hi, hlt, this]

/-- The loop of `postorder(IR::Entry*)` maps every component of the key tuple. -/
theorem postorder_Entry_eq (entry : IREntry) :
    postorder_Entry entry = { entry with keys := entry.keys.map castLiteral } := by
  unfold postorder_Entry
  have : (List.range entry.keys.length).foldl castComponent entry.keys =
      entry.keys.map castLiteral := by
    apply List.ext_getElem?
    intro i
    rw [foldl_castComponent_getElem?, List.getElem?_map]
    by_cases hlt : i < entry.keys.length
    · simp [hlt]
    · simp only [hlt, if_false]
      rw [List.getElem?_eq_none (by omega)]
      rfl
  simp only [this]

theorem castLiteral_idem (e : IRExpr) : castLiteral (castLiteral e) = castLiteral e := by
  cases e with
  | boolLiteral s v => cases v <;> rfl
  | constant _ _ _ => rfl
  | pathExpression _ _ _ => rfl
  | typeNameExpression _ _ => rfl
  | member _ _ _ _ => rfl
  | cast _ _ _ => rfl

theorem postorder_KeyElement_idem (key : IRKeyElement) :
    postorder_KeyElement (postorder_KeyElement key) = postorder_KeyElement key := by
  unfold postorder_KeyElement
  cases h : key.expression.type.isBoolean
  · simp [h]
  · simp [h, IRExpr.type, IRUtils.getBitType, IRType.isBoolean]

end CastBooleanTableKeys

/-- C32: after `CastBooleanTableKeys` every key of a table whose expression has the type
`bool` holds `Cast(bit<1>, e)` of its former expression `e`, with the source position of
`e`, and every other key is as it was; every entry has the components of its key tuple
mapped one by one, in their order, a component that is a `BoolLiteral` to the `bit<1>`
constant 1 for `true` and 0 for `false` and any other component to itself; and the pass
applied to its own result changes nothing. -/
theorem castBooleanTableKeys_spec (table : IRTable) :
    (CastBooleanTableKeys.apply table).keys =
      table.keys.map (fun key =>
        if key.expression.type = .boolean then
          { key with
            expression := .cast key.expression.srcInfo (.bits none 1 false) key.expression }
        else key) ∧
    (CastBooleanTableKeys.apply table).entries =
      table.entries.map (fun entry =>
        { entry with keys := entry.keys.map CastBooleanTableKeys.castLiteral }) ∧
    CastBooleanTableKeys.apply (CastBooleanTableKeys.apply table) =
      CastBooleanTableKeys.apply table := by
  have hentries : (CastBooleanTableKeys.apply table).entries =
      table.entries.map (fun entry =>
        { entry with keys := entry.keys.map CastBooleanTableKeys.castLiteral }) := by
    simp only [CastBooleanTableKeys.apply]
    apply List.map_congr_left
    intro entry _
    exact CastBooleanTableKeys.postorder_Entry_eq entry
  refine ⟨?_, hentries, ?_⟩
  · simp only [CastBooleanTableKeys.apply]
    apply List.map_congr_left
    intro key _
    unfold CastBooleanTableKeys.postorder_KeyElement
    cases ht : key.expression.type <;> simp [IRType.isBoolean, IRUtils.getBitType]
  · simp only [CastBooleanTableKeys.apply, List.map_map]
    congr 1
    · apply List.map_congr_left
      intro key _
      exact CastBooleanTableKeys.postorder_KeyElement_idem key
    · apply List.map_congr_left
      intro entry _
      simp only [Function.comp, CastBooleanTableKeys.postorder_Entry_eq, List.map_map]
      congr 1
      apply List.map_congr_left
      intro e _
      exact CastBooleanTableKeys.castLiteral_idem e

/-- The pass on the example table: the boolean key is cast, the literal `true` of the entry
becomes the constant 1. -/
theorem castBooleanTableKeys_example :
    CastBooleanTableKeys.apply Example.boolTable =
      { keys := [{ srcInfo := some ("t.p4", 10),
                   expression := .cast (some ("t.p4", 10)) (.bits none 1 false)
                     (.member (some ("t.p4", 10)) .boolean
                       (.pathExpression (some ("t.p4", 10)) (.other "headers") "hdr") "flag"),
                   matchType := "exact" },
                 { srcInfo := some ("t.p4", 11),
                   expression := .pathExpression (some ("t.p4", 11)) (.bits none 8 false) "x",
                   matchType := "exact" }],
        entries := [{ srcInfo := some ("t.p4", 14),
                      keys := [.constant none (.bits none 1 false) 1,
                               .constant (some ("t.p4", 14)) (.bits none 8 false) 5],
                      action := .pathExpression (some ("t.p4", 14)) (.other "action") "a" }] } :=
  by decide

/-! ## C33: the constants of `DoConvertErrors` -/

theorem lookup_append_none {β : Type} (k : String) :
    ∀ (l l2 : List (String × β)), l.lookup k = none → (l ++ l2).lookup k = l2.lookup k
  | [], _, _ => rfl
  | (k2, v) :: rest, l2, h => by
    simp only [List.lookup_cons, List.cons_append] at h ⊢
    cases hk : (k == k2) with
    | true => rw [hk] at h; cases h
    | false =>
      rw [hk] at h
      simp only at h ⊢
      exact lookup_append_none k rest l2 h

theorem lookup_append_some {β : Type} (k : String) (v : β) :
    ∀ (l l2 : List (String × β)), l.lookup k = some v → (l ++ l2).lookup k = some v
  | [], _, h => by cases h
  | (k2, v2) :: rest, l2, h => by
    simp only [List.lookup_cons, List.cons_append] at h ⊢
    cases hk : (k == k2) with
    | true => rw [hk] at h; exact h
    | false =>
      rw [hk] at h
      simp only at h ⊢
      exact lookup_append_some k v rest l2 h

namespace EnumRepresentation

theorem add_type (r : EnumRepresentation) (decl : String) : (r.add decl).type = r.type := by
  unfold add
  cases r.repr.lookup decl <;> rfl

theorem add_lookup_some (r : EnumRepresentation) (decl k : String) (v : Nat)
    (h : r.repr.lookup k = some v) : (r.add decl).repr.lookup k = some v := by
  unfold add
  cases r.repr.lookup decl with
  | some _ => exact h
  | none => exact lookup_append_some k v _ _ h

theorem foldl_add_type : ∀ (members : List String) (r : EnumRepresentation),
    (members.foldl add r).type = r.type
  | [], _ => rfl
  | m :: rest, r => by
    simp only [List.foldl_cons]
    rw [foldl_add_type rest, add_type]

theorem foldl_add_lookup_some (k : String) (v : Nat) :
    ∀ (members : List String) (r : EnumRepresentation), r.repr.lookup k = some v →
      (members.foldl add r).repr.lookup k = some v
  | [], _, h => h
  | m :: rest, r, h => by
    simp only [List.foldl_cons]
    exact foldl_add_lookup_some k v rest _ (add_lookup_some r m k v h)

/-- Adding the members of a declaration list without repetition, none of which is in the
map yet, gives the member at position `i` the number of names in the map before, plus
`i`, as an `unsigned`. -/
theorem foldl_add_get :
    ∀ (members : List String) (r : EnumRepresentation), members.Nodup →
      (∀ m ∈ members, r.repr.lookup m = none) →
      ∀ (i : Nat) (m : String), members[i]? = some m →
        (members.foldl add r).get m = (r.repr.length + i) % 2 ^ 32
  | [], _, _, _, i, m, h => by simp at h
  | m0 :: rest, r, hnodup, hfresh, i, m, h => by
    have hn := List.nodup_cons.mp hnodup
    have hadd : r.add m0 = { r with repr := r.repr ++ [(m0, r.repr.length % 2 ^ 32)] } := by
      unfold add
      rw [hfresh m0 (List.mem_cons_self _ _)]
    simp only [List.foldl_cons]
    cases i with
    | zero =>
      simp only [List.getElem?_cons_zero, Option.some.injEq] at h
      subst h
      have hl : (r.add m0).repr.lookup m0 = some (r.repr.length % 2 ^ 32) := by
        rw [hadd]
        simp only
        rw [lookup_append_none m0 _ _ (hfresh m0 (List.mem_cons_self _ _))]
        simp [List.lookup_cons]
      simp only [get, foldl_add_lookup_some m0 _ rest _ hl, Option.getD_some, Nat.add_zero]
    | succ j =>
      simp only [List.getElem?_cons_succ] at h
      have hfresh2 : ∀ x ∈ rest, (r.add m0).repr.lookup x = none := by
        intro x hx
        rw [hadd]
        simp only
        rw [lookup_append_none x _ _ (hfresh x (List.mem_cons_of_mem _ hx))]
        have hne : (x == m0) = false := by
          simp only [beq_eq_false_iff_ne, ne_eq]
          intro e
          subst e
          exact hn.1 hx
        simp [List.lookup_cons, hne]
      rw [foldl_add_get rest (r.add m0) hn.2 hfresh2 j m h, hadd]
      simp only [List.length_append, List.length_singleton]
      congr 1
      omega

end EnumRepresentation

/-- C33: for an error type with `count` members, declared without repetition, that the
policy converts, with the width `w = errorSize(count)` below 64 (so that the shift
`1ULL << w` is defined), `count` at most `2^32` (so that a position fits an `unsigned`),
a canonical type of the same name and no representation recorded under that name yet:
`preorder` fails its check when `count > 2^w`; otherwise it returns the node and records
a representation with which `postorder` replaces the member expression `error.X`, for the
member `X` at position `i` of the declaration list, by the constant `i` of the type
`bit<w>`, at the source position of the member expression, where `i < 2^w`, so that
members at different positions get different constants; and it returns a member
expression on a variable with its expression and name as they were and the type
`bit<w>`. -/
theorem convertErrors_constants (self : DoConvertErrors) (srcInfo : SourceInfo)
    (name : String) (members : List String)
    (hconvert : self.policy.convert (.error srcInfo name members) = true)
    (hwidth : self.policy.errorSize members.length < 64)
    (hcanon : ∃ s ms, self.getTypeType (.error srcInfo name members) = .error s name ms)
    (hfresh : self.repr.lookup name = none)
    (hnodup : members.Nodup)
    (hunsigned : members.length ≤ 2 ^ 32) :
    (2 ^ self.policy.errorSize members.length < members.length →
      self.preorder_Type_Error (.error srcInfo name members) = .error .bugCheck) ∧
    (members.length ≤ 2 ^ self.policy.errorSize members.length →
      ∃ self2, self.preorder_Type_Error (.error srcInfo name members) =
          .ok (.error srcInfo name members, self2) ∧
        (∀ (i : Nat) (m : String) (memberSrcInfo typeSrcInfo : SourceInfo)
            (typeName : IRType),
          members[i]? = some m →
          self2.postorder_Member (.member memberSrcInfo (.error srcInfo name members)
              (.typeNameExpression typeSrcInfo typeName) m) =
            .ok (.constant memberSrcInfo
              (.bits srcInfo (self.policy.errorSize members.length) false) (i : Int)) ∧
          i < 2 ^ self.policy.errorSize members.length) ∧
        (∀ (i j : Nat) (m m2 : String), members[i]? = some m → members[j]? = some m2 →
          i ≠ j → m ≠ m2 ∧ (i : Int) ≠ (j : Int)) ∧
        (∀ (memberSrcInfo exprSrcInfo : SourceInfo) (exprType : IRType) (path field : String),
          self2.postorder_Member (.member memberSrcInfo (.error srcInfo name members)
              (.pathExpression exprSrcInfo exprType path) field) =
            .ok (.member memberSrcInfo
              (.bits srcInfo (self.policy.errorSize members.length) false)
              (.pathExpression exprSrcInfo exprType path) field))) := by
  obtain ⟨s, ms, hcanon⟩ := hcanon
  have h64 : ¬ 64 ≤ self.policy.errorSize members.length := by omega
  constructor
  · intro hbig
    have hnot : ¬ members.length ≤ 2 ^ self.policy.errorSize members.length := by omega
    simp only [DoConvertErrors.preorder_Type_Error, hconvert, Bool.not_true,
      Bool.false_eq_true, if_false, h64, hnot, decide_False, Bool.not_false, if_true]
  · intro hfit
    refine ⟨{ self with repr := self.repr ++ [(name, members.foldl EnumRepresentation.add
      (EnumRepresentation.create srcInfo (self.policy.errorSize members.length)))] }, ?_, ?_,
      ?_, ?_⟩
    · simp only [DoConvertErrors.preorder_Type_Error, hconvert, Bool.not_true,
        Bool.false_eq_true, if_false, h64, hfit, decide_True, hcanon, hfresh]
    · intro i m memberSrcInfo typeSrcInfo typeName hm
      have hlt : i < members.length := by
        by_contra hge
        rw [List.getElem?_eq_none (by omega)] at hm
        cases hm
      have hlook : (self.repr ++ [(name, members.foldl EnumRepresentation.add
          (EnumRepresentation.create srcInfo (self.policy.errorSize members.length)))]).lookup
            name = some (members.foldl EnumRepresentation.add
          (EnumRepresentation.create srcInfo (self.policy.errorSize members.length))) := by
        rw [lookup_append_none name _ _ hfresh]
        simp [List.lookup_cons]
      have hmod : i % 2 ^ 32 = i := Nat.mod_eq_of_lt (by omega)
      refine ⟨?_, by omega⟩
      have hget2 : (members.foldl EnumRepresentation.add
          (EnumRepresentation.create srcInfo (self.policy.errorSize members.length))).get m =
          i := by
        rw [EnumRepresentation.foldl_add_get members
          (EnumRepresentation.create srcInfo (self.policy.errorSize members.length)) hnodup
          (fun _ _ => rfl) i m hm]
        simp only [EnumRepresentation.create, List.length_nil, Nat.zero_add, hmod]
      simp only [DoConvertErrors.postorder_Member, hlook,
        EnumRepresentation.foldl_add_type, hget2]
      rfl
    · intro i j m m2 hm hm2 hij
      refine ⟨?_, by omega⟩
      intro e
      subst e
      have hi : i < members.length := by
        by_contra hge
        rw [List.getElem?_eq_none (by omega)] at hm
        cases hm
      have hj : j < members.length := by
        by_contra hge
        rw [List.getElem?_eq_none (by omega)] at hm2
        cases hm2
      rw [List.getElem?_eq_getElem hi] at hm
      rw [List.getElem?_eq_getElem hj] at hm2
      simp only [Option.some.injEq] at hm hm2
      exact hij ((List.Nodup.getElem_inj_iff hnodup).mp (hm.trans hm2.symm))
    · intro memberSrcInfo exprSrcInfo exprType path field
      have hlook : (self.repr ++ [(name, members.foldl EnumRepresentation.add
          (EnumRepresentation.create srcInfo (self.policy.errorSize members.length)))]).lookup
            name = some (members.foldl EnumRepresentation.add
          (EnumRepresentation.create srcInfo (self.policy.errorSize members.length))) := by
        rw [lookup_append_none name _ _ hfresh]
        simp [List.lookup_cons]
      simp only [DoConvertErrors.postorder_Member, hlook,
        EnumRepresentation.foldl_add_type]
      rfl

/-- C33, witness: the example error type with three members, converted to 32 bits;
`error.PacketTooShort` becomes the constant 1 of the type `bit<32>`. -/
theorem convertErrors_constants_witness :
    (∃ self2, Example.convertErrors.preorder_Type_Error Example.errorType =
          .ok (Example.errorType, self2) ∧
        (∀ (i : Nat) (m : String) (memberSrcInfo typeSrcInfo : SourceInfo)
            (typeName : IRType),
          ["NoError", "PacketTooShort", "NoMatch"][i]? = some m →
          self2.postorder_Member (.member memberSrcInfo Example.errorType
              (.typeNameExpression typeSrcInfo typeName) m) =
            .ok (.constant memberSrcInfo (.bits (some ("core.p4", 5)) 32 false) (i : Int)) ∧
          i < 2 ^ 32) ∧
        (∀ (i j : Nat) (m m2 : String),
          ["NoError", "PacketTooShort", "NoMatch"][i]? = some m →
          ["NoError", "PacketTooShort", "NoMatch"][j]? = some m2 →
          i ≠ j → m ≠ m2 ∧ (i : Int) ≠ (j : Int)) ∧
        (∀ (memberSrcInfo exprSrcInfo : SourceInfo) (exprType : IRType) (path field : String),
          self2.postorder_Member (.member memberSrcInfo Example.errorType
              (.pathExpression exprSrcInfo exprType path) field) =
            .ok (.member memberSrcInfo (.bits (some ("core.p4", 5)) 32 false)
              (.pathExpression exprSrcInfo exprType path) field))) ∧
    (Example.convertErrors.preorder_Type_Error Example.errorType).bind
        (fun p => p.2.postorder_Member Example.errorConstant) =
      .ok (.constant (some ("p.p4", 20)) (.bits (some ("core.p4", 5)) 32 false) 1) ∧
    (Example.convertErrors.preorder_Type_Error Example.errorType).bind
        (fun p => p.2.postorder_Member Example.errorVariable) =
      .ok (.member (some ("p.p4", 21)) (.bits (some ("core.p4", 5)) 32 false)
        (.pathExpression (some ("p.p4", 21)) (.other "metadata") "meta") "err") :=
  ⟨(convertErrors_constants Example.convertErrors (some ("core.p4", 5)) "error"
      ["NoError", "PacketTooShort", "NoMatch"] rfl (by decide) ⟨_, _, rfl⟩ rfl (by decide)
      (by decide)).2 (by decide),
   rfl, rfl⟩
/-! ## C40: a policy that declines to convert -/

/-- C40, failing input: the pass with a policy that declines to convert, on the example
error type. `preorder` returns the type and records no representation, and `postorder`
returns the type name as it is, after testing the representation for null. `postorder` on
the member expression `error.PacketTooShort` and on the error-typed variable `meta.err`
looks up the representation, gets the null pointer, and dereferences it. -/
theorem declined_member_dereferences_null :
    (Example.keepErrors.preorder_Type_Error Example.errorType).map
        (fun p => (p.1, p.2.repr)) = .ok (Example.errorType, []) ∧
    Example.keepErrors.postorder_Type_Name false Example.errorType = Example.errorType ∧
    Example.keepErrors.repr.lookup "error" = none ∧
    Example.keepErrors.postorder_Member Example.errorConstant = .error .nullDereference ∧
    Example.keepErrors.postorder_Member Example.errorVariable = .error .nullDereference :=
  ⟨rfl, rfl, rfl, rfl, rfl⟩

/-! ## C34: the step of a unary operation -/

/-- C34: for each of the operations `-e`, `~e` (of a type `t`) and `!e` whose operand `e`
is not yet a symbolic value, the step yields one unguarded successor. Its body is
`Return(e)`, and the frame pushed on its stack takes the parameter `v` made for the type
of `e` and has the body of the input state with the top command replaced by the return of
the same operation on the hole `v`, of the same type (`bool` for `!`); every other
component is that of the input state. -/
theorem unary_steps_to_operand (genParameter : Ty → String → ExecutionState → StateVar)
    (stepSymbolicValue : Expr → ExecutionState → List Branch) (state : ExecutionState)
    (e : Expr) (he : isSymbolicValue e = false) :
    (∀ (op : UnOp) (t : Ty),
      ExprStepper.preorder_Operation_Unary genParameter stepSymbolicValue (.unary op t e)
          state =
        .ok [⟨none, { state with
          body := [.ret (some e)],
          stack := { parameterOpt := some (genParameter e.type "v" state),
                     body := .ret (some (.unary op t (.ref (genParameter e.type "v" state)))) ::
                       state.body.drop 1 } :: state.stack }⟩] ∧
      (Expr.unary op t (.ref (genParameter e.type "v" state))).type =
        (Expr.unary op t e).type) ∧
    ExprStepper.preorder_Operation_Unary genParameter stepSymbolicValue (.lnot e) state =
      .ok [⟨none, { state with
        body := [.ret (some e)],
        stack := { parameterOpt := some (genParameter e.type "v" state),
                   body := .ret (some (.lnot (.ref (genParameter e.type "v" state)))) ::
                     state.body.drop 1 } :: state.stack }⟩] ∧
    (Expr.lnot (.ref (genParameter e.type "v" state))).type = .boolean := by
  refine ⟨fun op t => ⟨?_, rfl⟩, ?_, rfl⟩
  · simp only [ExprStepper.preorder_Operation_Unary, he, Bool.not_false, if_true,
      AbstractStepper.stepToSubexpr, ExecutionState.replaceBody,
      ExecutionState.pushContinuation]
  · simp only [ExprStepper.preorder_Operation_Unary, he, Bool.not_false, if_true,
      AbstractStepper.stepToSubexpr, ExecutionState.replaceBody,
      ExecutionState.pushContinuation]

/-- C34, witness: the three tests. The operations `-(hdr.h.f)` and `~(hdr.h.f)` on a field
of type `bit<8>` and `!(hdr.h.f)` on a field of type `bool` step to a state that returns
`hdr.h.f`, above a frame that returns the operation on the hole `v1`, above the frame of
the input state. -/
theorem unary_steps_to_operand_witness :
    ExprStepper.preorder_Operation_Unary Example.genParameter (fun _ _ => [])
        (.unary .neg (.bits 8 false) (.ref (Example.testField (.bits 8 false))))
        (Example.testState
          (.unary .neg (.bits 8 false) (.ref (Example.testField (.bits 8 false))))) =
      .ok [⟨none, { Example.bmv2State with
        body := [.ret (some (.ref (Example.testField (.bits 8 false))))],
        stack := [{ parameterOpt := some (.path (.bits 8 false) "v1"),
                    body := [.ret (some (.unary .neg (.bits 8 false)
                      (.ref (.path (.bits 8 false) "v1"))))] },
                  { parameterOpt := some (.path (.bits 8 false) "v"),
                    body := [.ret (some (.ref (.path (.bits 8 false) "v")))] }] }⟩] ∧
    ExprStepper.preorder_Operation_Unary Example.genParameter (fun _ _ => [])
        (.unary .cmpl (.bits 8 false) (.ref (Example.testField (.bits 8 false))))
        (Example.testState
          (.unary .cmpl (.bits 8 false) (.ref (Example.testField (.bits 8 false))))) =
      .ok [⟨none, { Example.bmv2State with
        body := [.ret (some (.ref (Example.testField (.bits 8 false))))],
        stack := [{ parameterOpt := some (.path (.bits 8 false) "v1"),
                    body := [.ret (some (.unary .cmpl (.bits 8 false)
                      (.ref (.path (.bits 8 false) "v1"))))] },
                  { parameterOpt := some (.path (.bits 8 false) "v"),
                    body := [.ret (some (.ref (.path (.bits 8 false) "v")))] }] }⟩] ∧
    ExprStepper.preorder_Operation_Unary Example.genParameter (fun _ _ => [])
        (.lnot (.ref (Example.testField .boolean)))
        (Example.testState (.lnot (.ref (Example.testField .boolean)))) =
      .ok [⟨none, { Example.bmv2State with
        body := [.ret (some (.ref (Example.testField .boolean)))],
        stack := [{ parameterOpt := some (.path .boolean "v1"),
                    body := [.ret (some (.lnot (.ref (.path .boolean "v1"))))] },
                  { parameterOpt := some (.path .boolean "v"),
                    body := [.ret (some (.ref (.path .boolean "v")))] }] }⟩] :=
  ⟨((unary_steps_to_operand Example.genParameter (fun _ _ => [])
      (Example.testState
        (.unary .neg (.bits 8 false) (.ref (Example.testField (.bits 8 false)))))
      (.ref (Example.testField (.bits 8 false))) rfl).1 .neg (.bits 8 false)).1,
   ((unary_steps_to_operand Example.genParameter (fun _ _ => [])
      (Example.testState
        (.unary .cmpl (.bits 8 false) (.ref (Example.testField (.bits 8 false)))))
      (.ref (Example.testField (.bits 8 false))) rfl).1 .cmpl (.bits 8 false)).1,
   (unary_steps_to_operand Example.genParameter (fun _ _ => [])
      (Example.testState (.lnot (.ref (Example.testField .boolean))))
      (.ref (Example.testField .boolean)) rfl).2.1⟩

end P4Testgen
